import Mathlib

/-!
# Verification development for the SQL builder

A shallow embedding of the column mapper (`internal/util/column_map.go`), the
expressions of the package `exp` (`ident.go`, `literal.go`, `bitwise.go`,
`func.go`, `case.go`, `cast.go`, `window_func.go`), the errors of
`internal/errors`, the INSERT / TRUNCATE datasets (`insert_dataset.go`,
`truncate_dataset.go`) with the methods that run them on an executor, and the
options of the dialect postgres, followed by theorems about them.

Conventions of the embedding:

* Go strings are Lean strings.  Go orders strings bytewise; on well-formed
  UTF-8 this is the code-point order that Lean's `<` on `String` implements.
* A Go `map[string]V` is a list of key/value entries without repeated keys.
  The order of the list stands for one iteration order of the map; statements
  that must not depend on the iteration order quantify over permutations.
* A Go pointer is an address into an explicit heap; a method with a pointer
  receiver takes the heap and the address and returns the new heap.
* A Go slice is the list of its elements `s[0:len(s)]` wherever the code only
  reads it or appends to a slice that nothing else holds.  Where the result of
  `append` is kept next to its argument, slices are triples of a backing
  array, a length and a capacity in an explicit memory: `util.slices` for
  `concatFieldIndexes`, and `exp.slices` for the builder methods `Value`,
  `When` and `Else` of case expressions.
* An `sb.SQLBuilder` is a value where only the result of a rendering counts;
  `builder.writers` embeds the rendering methods a second time with the
  writers at addresses of a store, to state what a call leaves behind.
* A value of an interface type is a value of the type `Val`; a method call on
  it runs the method of the struct that the value holds.
* A panic is the `error` branch of `Except`.
-/

set_option autoImplicit false

/-! ## Package `internal/util`: the column map -/

namespace util

/-- The record `ColumnData` of `column_map.go`.  `GoType` is the handle of a
`reflect.Type` (see `RType` below). -/
structure ColumnData where
  ColumnName : String
  FieldIndex : List Int
  ShouldInsert : Bool
  ShouldUpdate : Bool
  DefaultIfEmpty : Bool
  GoType : Nat
  deriving DecidableEq, Repr

/-- The Go type `ColumnMap = map[string]ColumnData`, as its list of entries. -/
abbrev ColumnMap := List (String × ColumnData)

/-- The keys of the map, in iteration order (`for key := range cm`). -/
def ColumnMap.keys (cm : ColumnMap) : List String := cm.map Prod.fst

/-- The invariant of a Go map: no key occurs twice. -/
def ColumnMap.NodupKeys (cm : ColumnMap) : Prop := cm.keys.Nodup

instance (cm : ColumnMap) : Decidable cm.NodupKeys := by
  unfold ColumnMap.NodupKeys; infer_instance

/-- The map read `val, ok := cm[key]`. -/
def ColumnMap.get? (cm : ColumnMap) (key : String) : Option ColumnData :=
  match cm with
  | [] => none
  | (k, v) :: rest => if k = key then some v else ColumnMap.get? rest key

/-- The map write `cm[key] = val`: the entry of `key` is replaced when there is
one, and a new entry is added otherwise. -/
def ColumnMap.set (cm : ColumnMap) (key : String) (val : ColumnData) : ColumnMap :=
  match cm with
  | [] => [(key, val)]
  | (k, v) :: rest => if k = key then (k, val) :: rest else (k, v) :: ColumnMap.set rest key val

/-- The library call `sort.Strings`: sorts ascending by the order of strings. -/
def sortStrings (xs : List String) : List String := xs.insertionSort (fun a b => a.toList ≤ b.toList)

/-- `func (cm ColumnMap) Cols() []string`: collect the keys by ranging over the
map, then sort them. -/
def ColumnMap.Cols (cm : ColumnMap) : List String :=
  let structCols := cm.foldl (fun structCols kv => structCols ++ [kv.1]) []
  sortStrings structCols

/-- The inner loop of `Merge`: `for key, val := range subCm` with the body
`if _, ok := cm[key]; !ok { cm[key] = val }`. -/
def ColumnMap.mergeOne (cm subCm : ColumnMap) : ColumnMap :=
  subCm.foldl (fun cm kv => if (cm.get? kv.1).isNone then cm.set kv.1 kv.2 else cm) cm

/-- `func (cm ColumnMap) Merge(colMaps []ColumnMap) ColumnMap`. -/
def ColumnMap.Merge (cm : ColumnMap) (colMaps : List ColumnMap) : ColumnMap :=
  colMaps.foldl ColumnMap.mergeOne cm

/-- `concatFieldIndexes`: a fresh slice holding `fieldIndexPath` followed by
`fieldIndex`. -/
def concatFieldIndexes (fieldIndexPath fieldIndex : List Int) : List Int :=
  let fieldIndexes : List Int := []
  let fieldIndexes := fieldIndexes ++ fieldIndexPath
  fieldIndexes ++ fieldIndex

/-! ### The reflection model

`newColumnMap` walks a `reflect.Type`.  A type is a handle (a number) into a
table of type descriptors, so that a type may mention itself, as Go types can
through a pointer. -/

/-- The kinds of `reflect.Kind` that `column_map.go` tells apart. -/
inductive Kind where
  | Struct
  | Ptr
  | Other
  deriving DecidableEq, Repr

/-- The record `reflect.StructField`, with the fields the column mapper reads.
`Typ` (the Go field `Type`) is the handle of the field's type and `Tag` the raw struct tag. -/
structure StructField where
  Name : String
  PkgPath : String
  Typ : Nat
  Tag : String
  Index : List Int
  Anonymous : Bool
  deriving DecidableEq, Repr

/-- What `reflect` knows about one type: its kind, the element type of a
pointer (`Elem()`), and the fields of a struct in declaration order. -/
structure RType where
  kind : Kind
  elem : Nat
  fields : List StructField
  deriving DecidableEq, Repr

/-- What went wrong when a call did not return: a panic, or the evaluation
budget of the model ran out. -/
inductive Fail where
  | panic (msg : String)
  | outOfFuel
  deriving DecidableEq, Repr

/-- The operations of the package `internal/tag`, which `column_map.go` imports.
They are parameters of the model: `New` builds the options of one tag key from
a raw struct tag, the others are the methods of `tag.Options`. -/
structure TagOps where
  New : String → String → String
  Contains : String → String → Bool
  Values : String → List String
  IsEmpty : String → Bool
  Equals : String → String → Bool

/-- Everything `column_map.go` reads from outside the file: the type table of
`reflect`, whether the pointer to a type implements the scanner interface
(`reflect.PtrTo(t).Implements(scannerType)`), the `tag` package, and the
package-level settings and constants of `util`. -/
structure Env where
  types : Nat → RType
  ptrImplementsScanner : Nat → Bool
  tag : TagOps
  columnRenameFunction : String → String
  ignoreUntaggedFields : Bool
  skipInsertTagName : String
  skipUpdateTagName : String
  defaultIfEmptyTagName : String

/-- The helper `IsPointer` of `util`. -/
def IsPointer (k : Kind) : Bool := k == Kind.Ptr

/-- The helper `IsStruct` of `util`. -/
def IsStruct (k : Kind) : Bool := k == Kind.Struct

/-- `func implementsScanner(t reflect.Type) bool`. -/
def implementsScanner (E : Env) (t : Nat) : Bool :=
  let t := if IsPointer (E.types t).kind then (E.types t).elem else t
  if E.ptrImplementsScanner t then true
  else if !IsStruct (E.types t).kind then true
  else false

/-- `func newColumnData(f, columnName, fieldIndex, builderTag) ColumnData`. -/
def newColumnData (E : Env) (f : StructField) (columnName : String) (fieldIndex : List Int)
    (builderTag : String) : ColumnData :=
  { ColumnName := columnName
    ShouldInsert := !E.tag.Contains builderTag E.skipInsertTagName
    ShouldUpdate := !E.tag.Contains builderTag E.skipUpdateTagName
    DefaultIfEmpty := E.tag.Contains builderTag E.defaultIfEmptyTagName
    FieldIndex := concatFieldIndexes fieldIndex f.Index
    GoType := f.Typ }

/-- `func getStructColumnMap(f, fieldIndex, fieldNames, prefixes) ColumnMap`.
The recursive call of `newColumnMap` is the argument `recur`. -/
def getStructColumnMap (E : Env)
    (recur : Nat → List Int → List String → Except Fail ColumnMap)
    (f : StructField) (fieldIndex : List Int) (fieldNames prefixes : List String) :
    Except Fail ColumnMap :=
  let subFieldIndexes := concatFieldIndexes fieldIndex f.Index
  let subPrefixes := prefixes ++ fieldNames
  if (E.types f.Typ).kind = Kind.Ptr then
    recur (E.types f.Typ).elem subFieldIndexes subPrefixes
  else
    recur f.Typ subFieldIndexes subPrefixes

/-- `func getColumnName(f, dbTag) string`; `dbTag.Values()[0]` panics on an
empty slice. -/
def getColumnName (E : Env) (f : StructField) (dbTag : String) : Except Fail String :=
  if E.tag.IsEmpty dbTag then
    .ok (E.columnRenameFunction f.Name)
  else
    match E.tag.Values dbTag with
    | [] => .error (Fail.panic "index out of range [0] with length 0")
    | v :: _ => .ok v

/-- `func shouldIgnoreField(dbTag tag.Options) bool`. -/
def shouldIgnoreField (E : Env) (dbTag : String) : Bool :=
  if E.tag.Equals dbTag "-" then true
  else if E.tag.IsEmpty dbTag && E.ignoreUntaggedFields then true
  else false

/-- The state of the loop of `newColumnMap`: the map `cm` and `subColMaps`. -/
abbrev LoopState := ColumnMap × List ColumnMap

/-- The last two statements of the loop body of `newColumnMap`: the field is
stored in `cm` as a leaf column. -/
def storeLeaf (E : Env) (f : StructField) (fieldIndex : List Int) (prefixes : List String)
    (columnName : String) (st : LoopState) : LoopState :=
  let builderTag := E.tag.New "builder" f.Tag
  let columnName := String.intercalate "." (prefixes ++ [columnName])
  (st.1.set columnName (newColumnData E f columnName fieldIndex builderTag), st.2)

/-- One pass through the body of the loop `for i := 0; i < n; i++` of
`newColumnMap`, for the field `f := t.Field(i)`. -/
def fieldStep (E : Env) (recur : Nat → List Int → List String → Except Fail ColumnMap)
    (fieldIndex : List Int) (prefixes : List String) (f : StructField) (st : LoopState) :
    Except Fail LoopState :=
  if f.Anonymous && ((E.types f.Typ).kind == Kind.Struct || (E.types f.Typ).kind == Kind.Ptr) then
    let builderTag := E.tag.New "db" f.Tag
    if !E.tag.Contains builderTag "-" then
      match getStructColumnMap E recur f fieldIndex (E.tag.Values builderTag) prefixes with
      | .error e => .error e
      | .ok sub => .ok (st.1, st.2 ++ [sub])
    else .ok st
  else if f.PkgPath == "" then
    let dbTag := E.tag.New "db" f.Tag
    match getColumnName E f dbTag with
    | .error e => .error e
    | .ok columnName =>
      if !shouldIgnoreField E dbTag then
        if !implementsScanner E f.Typ then
          match getStructColumnMap E recur f fieldIndex [columnName] prefixes with
          | .error e => .error e
          | .ok subCm =>
            if subCm.length != 0 then .ok (st.1, st.2 ++ [subCm])
            else .ok (storeLeaf E f fieldIndex prefixes columnName st)
        else .ok (storeLeaf E f fieldIndex prefixes columnName st)
      else .ok st
  else .ok st

/-- The loop of `newColumnMap` over the fields from index `i` on; `t.Field(i)`
has the index path `[i]`. -/
def fieldsLoop (E : Env) (recur : Nat → List Int → List String → Except Fail ColumnMap)
    (fieldIndex : List Int) (prefixes : List String) :
    List StructField → Nat → LoopState → Except Fail LoopState
  | [], _, st => .ok st
  | f :: rest, i, st =>
    match fieldStep E recur fieldIndex prefixes { f with Index := [(i : Int)] } st with
    | .error e => .error e
    | .ok st' => fieldsLoop E recur fieldIndex prefixes rest (i + 1) st'

/-- `func newColumnMap(t reflect.Type, fieldIndex []int, prefixes []string) ColumnMap`.
The first argument bounds the depth of the recursion through
`getStructColumnMap`; `t.NumField()` panics when `t` is not a struct. -/
def newColumnMap (E : Env) : Nat → Nat → List Int → List String → Except Fail ColumnMap
  | 0, _, _, _ => .error Fail.outOfFuel
  | fuel + 1, t, fieldIndex, prefixes =>
    if (E.types t).kind = Kind.Struct then
      match fieldsLoop E (newColumnMap E fuel) fieldIndex prefixes (E.types t).fields 0 ([], []) with
      | .error e => .error e
      | .ok st => .ok (st.1.Merge st.2)
    else .error (Fail.panic "reflect: NumField of non-struct type")

/-- The field goes through the branch of `newColumnMap` for exported fields
that are not embedded structs or pointers, and is not ignored. -/
def isDirectField (E : Env) (f : StructField) : Bool :=
  !(f.Anonymous && ((E.types f.Typ).kind == Kind.Struct || (E.types f.Typ).kind == Kind.Ptr))
    && f.PkgPath == "" && !shouldIgnoreField E (E.tag.New "db" f.Tag)

/-- The entry `key ↦ val` is the one the loop of `newColumnMap` stores for the
direct field `g` found at position `j` of the struct. -/
def IsDirectEntry (E : Env) (fieldIndex : List Int) (prefixes : List String)
    (j : Nat) (g : StructField) (key : String) (val : ColumnData) : Prop :=
  isDirectField E g = true ∧
  ∃ name, getColumnName E g (E.tag.New "db" g.Tag) = .ok name ∧
    key = String.intercalate "." (prefixes ++ [name]) ∧
    val = newColumnData E { g with Index := [(j : Int)] } key fieldIndex (E.tag.New "builder" g.Tag)

/-- A column entry for examples. -/
def demoColumn : ColumnData := ⟨"x", [0], true, true, false, 0⟩

/-- A small instance of the `tag` operations for evaluating the model on
examples: the raw struct tag is the value of its `db` key, every other key is
empty, and the options are the comma-free single value. -/
def demoTag : TagOps where
  New := fun key raw => if key = "db" then raw else ""
  Contains := fun o v => o = v
  Values := fun o => if o = "" then [] else [o]
  IsEmpty := fun o => o = ""
  Equals := fun o v => o = v

/-- A type table for examples.  Type 0 is
`struct { Inner; Id int `db:"id"`; Name string `db:"name"` }`, type 1 is
`Inner = struct { Id int `db:"id"`; X int `db:"x"` }`, type 2 is
`struct { Id int `db:"id"`; Inner }` and every other handle is `int`. -/
def demoTypes : Nat → RType
  | 0 => ⟨Kind.Struct, 0, [⟨"Inner", "", 1, "", [], true⟩, ⟨"Id", "", 9, "id", [], false⟩,
      ⟨"Name", "", 9, "name", [], false⟩]⟩
  | 1 => ⟨Kind.Struct, 0, [⟨"Id", "", 9, "id", [], false⟩, ⟨"X", "", 9, "x", [], false⟩]⟩
  | 2 => ⟨Kind.Struct, 0, [⟨"Id", "", 9, "id", [], false⟩, ⟨"Inner", "", 1, "", [], true⟩]⟩
  | _ => ⟨Kind.Other, 0, []⟩

/-- The example environment: the example types, no scanner types, lower-casing
as the column rename function and the tag names of the package. -/
def demoEnv : Env where
  types := demoTypes
  ptrImplementsScanner := fun _ => false
  tag := demoTag
  columnRenameFunction := String.toLower
  ignoreUntaggedFields := false
  skipInsertTagName := "skipinsert"
  skipUpdateTagName := "skipupdate"
  defaultIfEmptyTagName := "defaultifempty"

end util

/-! ## Package `internal/errors` and the values of type `error` -/

namespace builder

/-- A value of the Go type `error`, also the value carried by a panic: the
struct `Error` of `internal/errors` with its text, an error made by
`fmt.Errorf` with its format and arguments, a run-time panic or a panic with
a plain text, or any other error, told apart by a number. -/
inductive GoError where
  | builderError (err : String)
  | fmtError (format : String) (args : List String)
  | text (msg : String)
  | other (id : Nat)
  deriving DecidableEq, Repr

/-- `func New(message string, args ...any) error` of `internal/errors`, called
without arguments on a message without format verbs, where `fmt.Sprintf`
returns the message itself. -/
def errors.New (message : String) : GoError := GoError.builderError ("builder: " ++ message)

/-- `func (e Error) Error() string` of `internal/errors`, on the struct `Error`. -/
def errors.Error (err : String) : String := err

/-- The variable `ErrUnsupportedIntoType` of `insert_dataset.go`. -/
def ErrUnsupportedIntoType : GoError :=
  errors.New "unsupported table type, a string or identifier expression is required"

/-- The variable `ErrExecutorNotFoundError` of `database.go`. -/
def ErrExecutorNotFoundError : GoError :=
  errors.New "unable to execute query did you use builder.Database#From to create the dataset"

/-- The panic of the run time when a nil or dangling pointer is read. -/
def nilDereference : GoError :=
  GoError.text "runtime error: invalid memory address or nil pointer dereference"

end builder

/-! ## Package `exp`: values, literals and identifiers -/

namespace exp

/-- The type `BitwiseOperation`, with the operations that `bitwise.go` names. -/
inductive BitwiseOperation where
  | BitwiseInversionOp
  | BitwiseOrOp
  | BitwiseAndOp
  | BitwiseXorOp
  | BitwiseLeftShiftOp
  | BitwiseRightShiftOp
  deriving DecidableEq, Repr

mutual
/-- A Go value of type `any` as the expression package meets it: `nil`, a
plain value, or an expression.  A literal is the struct `literal` of
`literal.go`, an identifier the struct `identifier` of `ident.go`, `aliased`
the aliased expression of the data model, `dataset` a pointer to a dataset
(every dataset is an expression), and `other` any further value, with the flag
telling whether it implements the interface `Expression`.  The remaining
constructors are the structs `bitwise` of `bitwise.go`,
`sqlFunctionExpression` of `func.go`, `caseWhen`, `caseElse` and
`caseExpression` of `case.go`, `cast` of `cast.go` and
`sqlWindowFunctionExpression` of `window_func.go`, each with its fields; a
field of an interface type holds a value, `nil` included. -/
inductive Val where
  | nil
  | bool (b : Bool)
  | int (i : Int)
  | str (s : String)
  | literal (literal : String) (args : Vals)
  | identifier (schema : String) (table : String) (col : Val)
  | aliased (aliased : Val) (als : Val)
  | dataset (addr : Nat)
  | other (isExpression : Bool) (tag : Nat)
  | bitwise (lhs : Val) (rhs : Val) (op : BitwiseOperation)
  | sqlFunction (name : String) (args : Vals)
  | caseWhen (result : Val) (condition : Val)
  | caseElse (result : Val)
  | caseExpression (value : Val) (whens : Vals) (elseCondition : Val)
  | cast (casted : Val) (t : Val)
  | sqlWindowFunction (fn : Val) (windowName : Val) (window : Val)
  deriving DecidableEq, Repr
/-- A slice `[]any`. -/
inductive Vals where
  | nil
  | cons (head : Val) (tail : Vals)
  deriving DecidableEq, Repr
end

/-- The slice holding the values of a list. -/
def Vals.ofList : List Val → Vals
  | [] => Vals.nil
  | v :: vs => Vals.cons v (Vals.ofList vs)

/-- The values of a slice, in order. -/
def Vals.toList : Vals → List Val
  | Vals.nil => []
  | Vals.cons v vs => v :: Vals.toList vs

/-- The type test `v.(Expression)`: whether the dynamic type of the value
implements the interface `Expression`. -/
def Val.isExpression : Val → Bool
  | Val.literal _ _ => true
  | Val.identifier _ _ _ => true
  | Val.aliased _ _ => true
  | Val.dataset _ => true
  | Val.other e _ => e
  | Val.bitwise _ _ _ => true
  | Val.sqlFunction _ _ => true
  | Val.caseExpression _ _ _ => true
  | Val.cast _ _ => true
  | Val.sqlWindowFunction _ _ _ => true
  | _ => false

/-- `func NewLiteralExpression(sql string, args ...any) LiteralExpression`. -/
def NewLiteralExpression (sql : String) (args : List Val) : Val :=
  Val.literal sql (Vals.ofList args)

/-- `func Star() LiteralExpression`. -/
def Star : Val := NewLiteralExpression "*" []

/-- `func Default() LiteralExpression`. -/
def Default : Val := NewLiteralExpression "DEFAULT" []

/-- The struct `identifier` of `ident.go`. -/
structure identifier where
  schema : String
  table : String
  col : Val
  deriving DecidableEq, Repr

/-- The identifier as a value of an interface type (`Expression`, `any`). -/
def identifier.Expression (i : identifier) : Val := Val.identifier i.schema i.table i.col

/-- `func (i identifier) clone() identifier`. -/
def identifier.clone (i : identifier) : identifier :=
  { schema := i.schema, table := i.table, col := i.col }

/-- `func (i identifier) Table(table string) IdentifierExpression`. -/
def identifier.Table (i : identifier) (table : String) : identifier :=
  { i with table := table }

/-- `func (i identifier) GetTable() string`. -/
def identifier.GetTable (i : identifier) : String := i.table

/-- `func (i identifier) Schema(schema string) IdentifierExpression`. -/
def identifier.Schema (i : identifier) (schema : String) : identifier :=
  { i with schema := schema }

/-- `func (i identifier) GetSchema() string`. -/
def identifier.GetSchema (i : identifier) : String := i.schema

/-- `func (i identifier) Col(col any) IdentifierExpression`; the test
`col == "*"` holds exactly for the string `"*"`. -/
def identifier.Col (i : identifier) (col : Val) : identifier :=
  if col = Val.str "*" then
    { i with col := Star }
  else
    { i with col := col }

/-- `func (i identifier) All() IdentifierExpression`. -/
def identifier.All (i : identifier) : identifier := i.Col (Val.str "*")

/-- `func (i identifier) GetCol() any`. -/
def identifier.GetCol (i : identifier) : Val := i.col

/-- `func (i identifier) IsEmpty() bool`. -/
def identifier.IsEmpty (i : identifier) : Bool :=
  let isEmpty := i.schema == "" && i.table == ""
  if isEmpty then
    match i.col with
    | Val.nil => true
    | Val.str t => t == ""
    | _ => false
  else isEmpty

/-- `func (i identifier) IsQualified() bool`. -/
def identifier.IsQualified (i : identifier) : Bool :=
  let schema := i.schema
  let table := i.table
  let col := i.col
  let fallThrough := if table.length > 0 then decide (schema.length > 0) else false
  match col with
  | Val.str c => if c != "" then table.length > 0 || schema.length > 0 else fallThrough
  | Val.nil => fallThrough
  | _ => table.length > 0 || schema.length > 0

/-- `func NewIdentifierExpression(schema, table string, col any) IdentifierExpression`,
starting from the zero value `identifier{}`. -/
def NewIdentifierExpression (schema table : String) (col : Val) : identifier :=
  ((({ schema := "", table := "", col := Val.nil } : identifier).Schema schema).Table table).Col col

/-- The pieces of a list of characters between the occurrences of `sep`; there
is one piece more than there are separators. -/
def splitChars (sep : Char) : List Char → List (List Char)
  | [] => [[]]
  | c :: cs =>
    if c = sep then [] :: splitChars sep cs
    else
      match splitChars sep cs with
      | [] => [[c]]
      | p :: ps => (c :: p) :: ps

/-- The library call `strings.Split(s, sep)` for a separator of one character. -/
def stringsSplit (s : String) (sep : Char) : List String :=
  (splitChars sep s.toList).map String.mk

/-- The constant `tableAndColumnParts`. -/
def tableAndColumnParts : Nat := 2

/-- The constant `schemaTableAndColumnIdentifierParts`. -/
def schemaTableAndColumnIdentifierParts : Nat := 3

/-- `func ParseIdentifier(ident string) IdentifierExpression`. -/
def ParseIdentifier (ident : String) : identifier :=
  let parts := stringsSplit ident '.'
  if parts.length = tableAndColumnParts then
    NewIdentifierExpression "" (parts.getD 0 "") (Val.str (parts.getD 1 ""))
  else if parts.length = schemaTableAndColumnIdentifierParts then
    NewIdentifierExpression (parts.getD 0 "") (parts.getD 1 "") (Val.str (parts.getD 2 ""))
  else
    NewIdentifierExpression "" "" (Val.str ident)

/-- Modelled from the spec: the constructor `T` of the package `builder`
(`expressions.go`, not among the sources); by the test `TestT` the table
identifier `T(t)` is `NewIdentifierExpression("", t, "")`. -/
def T (table : String) : identifier := NewIdentifierExpression "" table (Val.str "")

end exp

/-! ## Package `exp`: aliases and bitwise expressions -/

namespace exp

open builder

/-- The panic of the type assertion `aliasCol.(string)` on a value that is not
a string. -/
def notAString : GoError :=
  GoError.text "interface conversion: interface {} is not string"

/-- `func (i identifier) As(val any) AliasedExpression`.  The constructor
`NewAliasExpression` of `exp/alias.go`, which is not among the sources, is
the first argument; it gets the aliased expression and the alias. -/
def identifier.As (NewAliasExpression : Val → Val → Except GoError Val) (i : identifier)
    (val : Val) : Except GoError Val :=
  match val with
  | Val.str v =>
    let ident := ParseIdentifier v
    if i.col ≠ Val.nil ∧ i.col ≠ Val.str "" then
      NewAliasExpression i.Expression ident.Expression
    else
      let aliasCol := ident.GetCol
      if i.table ≠ "" then
        match aliasCol with
        | Val.str c =>
          NewAliasExpression i.Expression (NewIdentifierExpression "" c Val.nil).Expression
        | _ => .error notAString
      else if i.schema ≠ "" then
        match aliasCol with
        | Val.str c =>
          NewAliasExpression i.Expression (NewIdentifierExpression c "" Val.nil).Expression
        | _ => .error notAString
      else NewAliasExpression i.Expression val
  | _ => NewAliasExpression i.Expression val

/-- An instance of the constructor `NewAliasExpression` for examples: the node
`Aliased(expr, alias)` of the data model, holding the two values as given. -/
def demoNewAliasExpression (e : Val) (als : Val) : Except GoError Val :=
  .ok (Val.aliased e als)

/-- The struct `bitwise` of `bitwise.go`; `lhs` is an interface value of type
`Expression` and may be nil. -/
structure bitwise where
  lhs : Val
  rhs : Val
  op : BitwiseOperation
  deriving DecidableEq, Repr

/-- `func NewBitwiseExpression(op BitwiseOperation, lhs Expression, rhs any) BitwiseExpression`. -/
def NewBitwiseExpression (op : BitwiseOperation) (lhs : Val) (rhs : Val) : bitwise :=
  { op := op, lhs := lhs, rhs := rhs }

/-- `func (b bitwise) Clone() Expression`.  The call `b.lhs.Clone()` goes to the
method of the expression that `lhs` holds, the argument `cloneOf`; on a nil
interface value the call panics. -/
def bitwise.Clone (cloneOf : Val → Except GoError Val) (b : bitwise) : Except GoError bitwise :=
  match b.lhs with
  | Val.nil => .error nilDereference
  | lhs =>
    match cloneOf lhs with
    | .error e => .error e
    | .ok l => .ok (NewBitwiseExpression b.op l b.rhs)

/-- `func (b bitwise) RHS() any`. -/
def bitwise.RHS (b : bitwise) : Val := b.rhs

/-- `func (b bitwise) LHS() Expression`. -/
def bitwise.LHS (b : bitwise) : Val := b.lhs

/-- `func (b bitwise) Op() BitwiseOperation`. -/
def bitwise.Op (b : bitwise) : BitwiseOperation := b.op

/-- `func bitwiseInversion(rhs Expression) BitwiseExpression`. -/
def bitwiseInversion (rhs : Val) : bitwise :=
  NewBitwiseExpression BitwiseOperation.BitwiseInversionOp Val.nil rhs

/-- `func bitwiseOr(lhs Expression, rhs any) BitwiseExpression`. -/
def bitwiseOr (lhs : Val) (rhs : Val) : bitwise :=
  NewBitwiseExpression BitwiseOperation.BitwiseOrOp lhs rhs

/-- `func bitwiseAnd(lhs Expression, rhs any) BitwiseExpression`. -/
def bitwiseAnd (lhs : Val) (rhs : Val) : bitwise :=
  NewBitwiseExpression BitwiseOperation.BitwiseAndOp lhs rhs

/-- `func bitwiseXor(lhs Expression, rhs any) BitwiseExpression`. -/
def bitwiseXor (lhs : Val) (rhs : Val) : bitwise :=
  NewBitwiseExpression BitwiseOperation.BitwiseXorOp lhs rhs

/-- `func bitwiseLeftShift(lhs Expression, rhs any) BitwiseExpression`. -/
def bitwiseLeftShift (lhs : Val) (rhs : Val) : bitwise :=
  NewBitwiseExpression BitwiseOperation.BitwiseLeftShiftOp lhs rhs

/-- `func bitwiseRightShift(lhs Expression, rhs any) BitwiseExpression`. -/
def bitwiseRightShift (lhs : Val) (rhs : Val) : bitwise :=
  NewBitwiseExpression BitwiseOperation.BitwiseRightShiftOp lhs rhs

/-- `func (i identifier) BitwiseInversion() BitwiseExpression`. -/
def identifier.BitwiseInversion (i : identifier) : bitwise := bitwiseInversion i.Expression

/-- `func (i identifier) BitwiseOr(val any) BitwiseExpression`. -/
def identifier.BitwiseOr (i : identifier) (val : Val) : bitwise := bitwiseOr i.Expression val

/-- `func (i identifier) Clone() Expression`. -/
def identifier.Clone (i : identifier) : Val := i.clone.Expression

/-- An instance of the method `Clone` behind an interface value, for examples:
an identifier and a literal are cloned as `ident.go` and `literal.go` do it, a
literal built again from its text and arguments and an identifier from its
three parts; every other value is returned as it is. -/
def demoCloneOf : Val → Except GoError Val
  | Val.identifier s t c => .ok (identifier.Clone { schema := s, table := t, col := c })
  | Val.literal l a => .ok (NewLiteralExpression l a.toList)
  | Val.nil => .error nilDereference
  | v => .ok v

end exp

namespace builder

open exp

/-! ## The clause containers and the SQL writer

These types and functions belong to packages that are not among the sources
(`exp/insert_clauses.go`, `exp/truncate_clauses.go`, `internal/sb`,
`prepared.go`, `sql_dialect.go`); the datasets below use them. -/

/-- A value of the interface type `SQLDialect`.  The dialects in use are
pointers, and two interface values are equal when they hold the same pointer,
so a dialect is its address. -/
abbrev SQLDialect := Nat

/-- Modelled from the spec: the type `prepared` (`prepared.go` is not among the
sources).  By the test `TestPrepared` a dataset either follows the package
default or carries its own choice made by `Prepared(bool)`. -/
inductive prepared where
  | preparedNoPreference
  | preparedEnabled
  | preparedDisabled
  deriving DecidableEq, Repr

/-- Modelled from the spec: `preparedFromBool`, the choice made by `Prepared(b)`. -/
def preparedFromBool (b : Bool) : prepared :=
  if b then prepared.preparedEnabled else prepared.preparedDisabled

/-- Modelled from the spec: `func (p prepared) Bool() bool`, with the package
default set by `SetDefaultPrepared` as an argument. -/
def prepared.Bool (defaultPrepared : Bool) : prepared → Bool
  | prepared.preparedNoPreference => defaultPrepared
  | prepared.preparedEnabled => true
  | prepared.preparedDisabled => false

/-- Modelled from the spec: a column list, `ColumnList(items[], order-preserving)`. -/
structure ColumnListExpression where
  columns : List Val
  deriving DecidableEq, Repr

/-- Modelled from the spec: a common table expression,
`CommonTableExpr(recursive, name, subquery)`. -/
structure CommonTableExpression where
  recursive : Bool
  name : String
  subQuery : Val
  deriving DecidableEq, Repr

/-- Modelled from the spec: `exp.NewCommonTableExpression`. -/
def NewCommonTableExpression (recursive : Bool) (name : String) (subQuery : Val) :
    CommonTableExpression :=
  { recursive := recursive, name := name, subQuery := subQuery }

/-- Modelled from the spec: the clause container of INSERT
(`exp/insert_clauses.go` is not among the sources), a value holding the
contents of every clause; each setter returns a new container with one field
replaced.  `none` and `Val.nil` stand for a nil interface value. -/
structure InsertClauses where
  commonTables : List CommonTableExpression
  cols : Option ColumnListExpression
  into : Val
  returning : Option ColumnListExpression
  als : Option identifier
  rows : List Val
  values : List (List Val)
  frm : Val
  conflict : Val
  deriving DecidableEq, Repr

/-- Modelled from the spec: `exp.NewInsertClauses()`, the empty container. -/
def NewInsertClauses : InsertClauses :=
  { commonTables := [], cols := none, into := Val.nil, returning := none, als := none,
    rows := [], values := [], frm := Val.nil, conflict := Val.nil }

/-- Modelled from the spec: `CommonTablesAppend`. -/
def InsertClauses.CommonTablesAppend (ic : InsertClauses) (cte : CommonTableExpression) :
    InsertClauses := { ic with commonTables := ic.commonTables ++ [cte] }

/-- Modelled from the spec: `SetInto`. -/
def InsertClauses.SetInto (ic : InsertClauses) (into : Val) : InsertClauses :=
  { ic with into := into }

/-- Modelled from the spec: `SetCols`. -/
def InsertClauses.SetCols (ic : InsertClauses) (cl : Option ColumnListExpression) :
    InsertClauses := { ic with cols := cl }

/-- Modelled from the spec: `ColsAppend`, the columns of `cl` after the present ones. -/
def InsertClauses.ColsAppend (ic : InsertClauses) (cl : ColumnListExpression) : InsertClauses :=
  { ic with cols := some { columns := (match ic.cols with
                                       | none => []
                                       | some c => c.columns) ++ cl.columns } }

/-- Modelled from the spec: `SetFrom`. -/
def InsertClauses.SetFrom (ic : InsertClauses) (frm : Val) : InsertClauses :=
  { ic with frm := frm }

/-- Modelled from the spec: `From`. -/
def InsertClauses.From (ic : InsertClauses) : Val := ic.frm

/-- Modelled from the spec: `ValsAppend`, the rows of `vals` after the present ones. -/
def InsertClauses.ValsAppend (ic : InsertClauses) (vals : List (List Val)) : InsertClauses :=
  { ic with values := ic.values ++ vals }

/-- Modelled from the spec: `SetVals`. -/
def InsertClauses.SetVals (ic : InsertClauses) (vals : List (List Val)) : InsertClauses :=
  { ic with values := vals }

/-- Modelled from the spec: `SetRows`. -/
def InsertClauses.SetRows (ic : InsertClauses) (rows : List Val) : InsertClauses :=
  { ic with rows := rows }

/-- Modelled from the spec: `SetReturning`. -/
def InsertClauses.SetReturning (ic : InsertClauses) (cl : ColumnListExpression) : InsertClauses :=
  { ic with returning := some cl }

/-- Modelled from the spec: `HasReturning`. -/
def InsertClauses.HasReturning (ic : InsertClauses) : Bool :=
  match ic.returning with
  | none => false
  | some cl => !cl.columns.isEmpty

/-- Modelled from the spec: `SetOnConflict`. -/
def InsertClauses.SetOnConflict (ic : InsertClauses) (conflict : Val) : InsertClauses :=
  { ic with conflict := conflict }

/-- Modelled from the spec: `SetAlias`. -/
def InsertClauses.SetAlias (ic : InsertClauses) (als : identifier) : InsertClauses :=
  { ic with als := some als }

/-- Modelled from the spec: `Alias`. -/
def InsertClauses.Alias (ic : InsertClauses) : Option identifier := ic.als

/-- The struct `exp.TruncateOptions`, with the fields `truncate_dataset.go` sets. -/
structure TruncateOptions where
  Cascade : Bool
  Restrict : Bool
  Identity : String
  deriving DecidableEq, Repr

/-- Modelled from the spec: the clause container of TRUNCATE
(`exp/truncate_clauses.go` is not among the sources). -/
structure TruncateClauses where
  tables : Option ColumnListExpression
  options : TruncateOptions
  deriving DecidableEq, Repr

/-- Modelled from the spec: `exp.NewTruncateClauses()`. -/
def NewTruncateClauses : TruncateClauses :=
  { tables := none, options := { Cascade := false, Restrict := false, Identity := "" } }

/-- Modelled from the spec: `SetTable`. -/
def TruncateClauses.SetTable (tc : TruncateClauses) (tables : ColumnListExpression) :
    TruncateClauses := { tc with tables := some tables }

/-- Modelled from the spec: `Options`. -/
def TruncateClauses.Options (tc : TruncateClauses) : TruncateOptions := tc.options

/-- Modelled from the spec: `SetOptions`. -/
def TruncateClauses.SetOptions (tc : TruncateClauses) (opts : TruncateOptions) :
    TruncateClauses := { tc with options := opts }

/-- Modelled from the spec: the SQL writer of `internal/sb` (not among the
sources): the accumulated text, the parallel argument list, the prepared flag,
the error slot and the number of the next placeholder. -/
structure SQLBuilder where
  buf : String
  args : List Val
  isPrepared : Bool
  err : Option GoError
  currentArgPosition : Nat
  deriving DecidableEq, Repr

/-- Modelled from the spec: `sb.NewSQLBuilder(isPrepared)`, an empty writer. -/
def NewSQLBuilder (isPrepared : Bool) : SQLBuilder :=
  { buf := "", args := [], isPrepared := isPrepared, err := none, currentArgPosition := 1 }

/-- Modelled from the spec: `SetError` of the writer, "a no-op if an error is
already set". -/
def SQLBuilder.SetError (b : SQLBuilder) (err : Option GoError) : SQLBuilder :=
  if b.err = none then { b with err := err } else b

/-- Modelled from the spec: `ToSQL` of the writer; with an error recorded it
"returns `("", nil, err)`", otherwise the text and the arguments. -/
def SQLBuilder.ToSQL (b : SQLBuilder) : String × List Val × Option GoError :=
  match b.err with
  | some e => ("", [], some e)
  | none => (b.buf, b.args, none)

end builder

/-! ## The datasets (`insert_dataset.go`, `truncate_dataset.go`) -/

namespace builder

open exp

/-- The struct `InsertDataset`.  The executor is a session or nil. -/
structure InsertDataset where
  dialect : SQLDialect
  clauses : InsertClauses
  isPrepared : prepared
  executor : Option Nat
  err : Option GoError
  deriving DecidableEq, Repr

/-- The struct `TruncateDataset`. -/
structure TruncateDataset where
  dialect : SQLDialect
  clauses : TruncateClauses
  isPrepared : prepared
  executor : Option Nat
  err : Option GoError
  deriving DecidableEq, Repr

/-- Modelled from the spec: the struct `SelectDataset` (`select_dataset.go` is
not among the sources).  `insert_dataset.go` reads and writes its field
`dialect`; `rest` stands for everything else the struct holds. -/
structure SelectDataset where
  dialect : SQLDialect
  rest : Nat
  deriving DecidableEq, Repr

/-- An object that a pointer can point to. -/
inductive Obj where
  | insert (d : InsertDataset)
  | truncate (d : TruncateDataset)
  | select (d : SelectDataset)
  deriving DecidableEq, Repr

/-- The heap: the object at each address.  A pointer is an address, and the
expression `&T{...}` puts a new object at the first free address. -/
abbrev Heap := List Obj

/-- Allocation `&T{...}`: the address of the new object and the new heap. -/
def Heap.new (h : Heap) (o : Obj) : Nat × Heap := (h.length, h ++ [o])

/-- Reading through a `*InsertDataset`; a pointer to nothing panics. -/
def Heap.insertAt (h : Heap) (p : Nat) : Except GoError InsertDataset :=
  match h[p]? with
  | some (Obj.insert d) => .ok d
  | _ => .error nilDereference

/-- Reading through a `*TruncateDataset`. -/
def Heap.truncateAt (h : Heap) (p : Nat) : Except GoError TruncateDataset :=
  match h[p]? with
  | some (Obj.truncate d) => .ok d
  | _ => .error nilDereference

/-- What the dataset files call outside themselves.  `GetDialect` is the
lookup in the dialect registry, `dialectName` the method `Dialect()` of a
dialect, `defaultPrepared` the package default of the prepared mode,
`NewColumnListExpression` the constructor of column lists (it may panic), and
`ToInsertSQL`, `ToTruncateSQL` the renderer methods of a dialect, which get
the writer and the clauses, may read the heap, and either return the writer
as they leave it or panic. -/
structure Deps where
  GetDialect : String → SQLDialect
  dialectName : SQLDialect → String
  defaultPrepared : Bool
  NewColumnListExpression : List Val → Except GoError ColumnListExpression
  ToInsertSQL : SQLDialect → Heap → SQLBuilder → InsertClauses → Except GoError SQLBuilder
  ToTruncateSQL : SQLDialect → Heap → SQLBuilder → TruncateClauses → Except GoError SQLBuilder

/-- `func (id *InsertDataset) copy(clauses exp.InsertClauses) *InsertDataset`. -/
def InsertDataset.copy (h : Heap) (id : Nat) (clauses : InsertClauses) :
    Except GoError (Nat × Heap) := do
  let d ← h.insertAt id
  pure (h.new (Obj.insert
    { dialect := d.dialect
      clauses := clauses
      isPrepared := d.isPrepared
      executor := d.executor
      err := d.err }))

/-- `func newInsertDataset(d string, executor sqlx.Session) *InsertDataset`. -/
def newInsertDataset (W : Deps) (h : Heap) (d : String) (executor : Option Nat) : Nat × Heap :=
  h.new (Obj.insert
    { clauses := NewInsertClauses
      dialect := W.GetDialect d
      executor := executor
      isPrepared := prepared.preparedNoPreference
      err := none })

/-- `func (id *InsertDataset) GetClauses() exp.InsertClauses`. -/
def InsertDataset.GetClauses (h : Heap) (id : Nat) : Except GoError InsertClauses := do
  let d ← h.insertAt id
  pure d.clauses

/-- `func (id *InsertDataset) Dialect() SQLDialect`. -/
def InsertDataset.Dialect (h : Heap) (id : Nat) : Except GoError SQLDialect := do
  let d ← h.insertAt id
  pure d.dialect

/-- `func (id *InsertDataset) IsPrepared() bool`. -/
def InsertDataset.IsPrepared (W : Deps) (h : Heap) (id : Nat) : Except GoError Bool := do
  let d ← h.insertAt id
  pure (d.isPrepared.Bool W.defaultPrepared)

/-- `func (id *InsertDataset) Error() error`. -/
def InsertDataset.Error (h : Heap) (id : Nat) : Except GoError (Option GoError) := do
  let d ← h.insertAt id
  pure d.err

/-- `func (id *InsertDataset) Prepared(prepared bool) *InsertDataset`. -/
def InsertDataset.Prepared (h : Heap) (id : Nat) (prepared : Bool) :
    Except GoError (Nat × Heap) := do
  let d ← h.insertAt id
  let (ret, h) ← InsertDataset.copy h id d.clauses
  let r ← h.insertAt ret
  pure (ret, h.set ret (Obj.insert { r with isPrepared := preparedFromBool prepared }))

/-- `func (id *InsertDataset) WithDialect(dl string) *InsertDataset`. -/
def InsertDataset.WithDialect (W : Deps) (h : Heap) (id : Nat) (dl : String) :
    Except GoError (Nat × Heap) := do
  let clauses ← InsertDataset.GetClauses h id
  let (ds, h) ← InsertDataset.copy h id clauses
  let r ← h.insertAt ds
  pure (ds, h.set ds (Obj.insert { r with dialect := W.GetDialect dl }))

/-- `func (id *InsertDataset) SetDialect(dialect SQLDialect) *InsertDataset`. -/
def InsertDataset.SetDialect (h : Heap) (id : Nat) (dialect : SQLDialect) :
    Except GoError (Nat × Heap) := do
  let clauses ← InsertDataset.GetClauses h id
  let (cd, h) ← InsertDataset.copy h id clauses
  let r ← h.insertAt cd
  pure (cd, h.set cd (Obj.insert { r with dialect := dialect }))

/-- `func (id *InsertDataset) Clone() exp.Expression`. -/
def InsertDataset.Clone (h : Heap) (id : Nat) : Except GoError (Nat × Heap) := do
  let d ← h.insertAt id
  InsertDataset.copy h id d.clauses

/-- `func (id *InsertDataset) With(name string, subquery exp.Expression) *InsertDataset`. -/
def InsertDataset.With (h : Heap) (id : Nat) (name : String) (subquery : Val) :
    Except GoError (Nat × Heap) := do
  let d ← h.insertAt id
  InsertDataset.copy h id (d.clauses.CommonTablesAppend (NewCommonTableExpression false name subquery))

/-- `func (id *InsertDataset) WithRecursive(name string, subquery exp.Expression) *InsertDataset`. -/
def InsertDataset.WithRecursive (h : Heap) (id : Nat) (name : String) (subquery : Val) :
    Except GoError (Nat × Heap) := do
  let d ← h.insertAt id
  InsertDataset.copy h id (d.clauses.CommonTablesAppend (NewCommonTableExpression true name subquery))

/-- `func (id *InsertDataset) Into(into any) *InsertDataset`: the type switch
tries `exp.Expression`, then `string`, and panics otherwise. -/
def InsertDataset.Into (h : Heap) (id : Nat) (into : Val) : Except GoError (Nat × Heap) :=
  if into.isExpression then do
    let d ← h.insertAt id
    InsertDataset.copy h id (d.clauses.SetInto into)
  else
    match into with
    | Val.str t => do
      let d ← h.insertAt id
      InsertDataset.copy h id (d.clauses.SetInto (ParseIdentifier t).Expression)
    | _ => .error ErrUnsupportedIntoType

/-- `func Insert(table any) *InsertDataset`. -/
def Insert (W : Deps) (h : Heap) (table : Val) : Except GoError (Nat × Heap) :=
  let (ds, h) := newInsertDataset W h "default" none
  InsertDataset.Into h ds table

/-- `func (id *InsertDataset) Cols(cols ...any) *InsertDataset`. -/
def InsertDataset.Cols (W : Deps) (h : Heap) (id : Nat) (cols : List Val) :
    Except GoError (Nat × Heap) := do
  let d ← h.insertAt id
  let cl ← W.NewColumnListExpression cols
  InsertDataset.copy h id (d.clauses.SetCols (some cl))

/-- `func (id *InsertDataset) ClearCols() *InsertDataset`. -/
def InsertDataset.ClearCols (h : Heap) (id : Nat) : Except GoError (Nat × Heap) := do
  let d ← h.insertAt id
  InsertDataset.copy h id (d.clauses.SetCols none)

/-- `func (id *InsertDataset) ColsAppend(cols ...any) *InsertDataset`. -/
def InsertDataset.ColsAppend (W : Deps) (h : Heap) (id : Nat) (cols : List Val) :
    Except GoError (Nat × Heap) := do
  let d ← h.insertAt id
  let cl ← W.NewColumnListExpression cols
  InsertDataset.copy h id (d.clauses.ColsAppend cl)

/-- The text of the panic of `FromQuery`, before `fmt.Errorf` fills it in. -/
def incompatibleDialectsFormat : String :=
  "incompatible dialects for INSERT (%q) and SELECT (%q)"

/-- `func (id *InsertDataset) FromQuery(from exp.AppendableExpression) *InsertDataset`.
The type assertion `from.(*SelectDataset)` holds for a pointer to a select
dataset; the assignment `sds.dialect = id.dialect` writes through it. -/
def InsertDataset.FromQuery (W : Deps) (h : Heap) (id : Nat) (frm : Val) :
    Except GoError (Nat × Heap) :=
  match frm with
  | Val.dataset q =>
    match h[q]? with
    | some (Obj.select sds) => do
      let d ← h.insertAt id
      if sds.dialect ≠ W.GetDialect "default" ∧ d.dialect ≠ sds.dialect then
        .error (GoError.fmtError incompatibleDialectsFormat
          [W.dialectName d.dialect, W.dialectName sds.dialect])
      else
        let h := h.set q (Obj.select { sds with dialect := d.dialect })
        InsertDataset.copy h id (d.clauses.SetFrom frm)
    | _ => do
      let d ← h.insertAt id
      InsertDataset.copy h id (d.clauses.SetFrom frm)
  | _ => do
    let d ← h.insertAt id
    InsertDataset.copy h id (d.clauses.SetFrom frm)

/-- `func (id *InsertDataset) Vals(vals ...[]any) *InsertDataset`. -/
def InsertDataset.Vals (h : Heap) (id : Nat) (vals : List (List Val)) :
    Except GoError (Nat × Heap) := do
  let d ← h.insertAt id
  InsertDataset.copy h id (d.clauses.ValsAppend vals)

/-- `func (id *InsertDataset) ClearVals() *InsertDataset`. -/
def InsertDataset.ClearVals (h : Heap) (id : Nat) : Except GoError (Nat × Heap) := do
  let d ← h.insertAt id
  InsertDataset.copy h id (d.clauses.SetVals [])

/-- `func (id *InsertDataset) Rows(rows ...any) *InsertDataset`. -/
def InsertDataset.Rows (h : Heap) (id : Nat) (rows : List Val) : Except GoError (Nat × Heap) := do
  let d ← h.insertAt id
  InsertDataset.copy h id (d.clauses.SetRows rows)

/-- `func (id *InsertDataset) ClearRows() *InsertDataset`. -/
def InsertDataset.ClearRows (h : Heap) (id : Nat) : Except GoError (Nat × Heap) := do
  let d ← h.insertAt id
  InsertDataset.copy h id (d.clauses.SetRows [])

/-- `func (id *InsertDataset) Returning(returning ...any) *InsertDataset`. -/
def InsertDataset.Returning (W : Deps) (h : Heap) (id : Nat) (returning : List Val) :
    Except GoError (Nat × Heap) := do
  let d ← h.insertAt id
  let cl ← W.NewColumnListExpression returning
  InsertDataset.copy h id (d.clauses.SetReturning cl)

/-- `func (id *InsertDataset) OnConflict(conflict exp.ConflictExpression) *InsertDataset`. -/
def InsertDataset.OnConflict (h : Heap) (id : Nat) (conflict : Val) :
    Except GoError (Nat × Heap) := do
  let d ← h.insertAt id
  InsertDataset.copy h id (d.clauses.SetOnConflict conflict)

/-- `func (id *InsertDataset) ClearOnConflict() *InsertDataset`. -/
def InsertDataset.ClearOnConflict (h : Heap) (id : Nat) : Except GoError (Nat × Heap) :=
  InsertDataset.OnConflict h id Val.nil

/-- `func (id *InsertDataset) SetError(err error) *InsertDataset`: the error is
written into the receiver and the receiver is returned. -/
def InsertDataset.SetError (h : Heap) (id : Nat) (err : Option GoError) :
    Except GoError (Nat × Heap) := do
  let d ← h.insertAt id
  if d.err = none then
    pure (id, h.set id (Obj.insert { d with err := err }))
  else
    pure (id, h)

/-- `func (id *InsertDataset) As(alias string) *InsertDataset`. -/
def InsertDataset.As (h : Heap) (id : Nat) (als : String) : Except GoError (Nat × Heap) := do
  let d ← h.insertAt id
  InsertDataset.copy h id (d.clauses.SetAlias (T als))

/-- `func (id *InsertDataset) GetAs() exp.IdentifierExpression`. -/
def InsertDataset.GetAs (h : Heap) (id : Nat) : Except GoError (Option identifier) := do
  let d ← h.insertAt id
  pure d.clauses.Alias

/-- `func (id *InsertDataset) ReturnsColumns() bool`. -/
def InsertDataset.ReturnsColumns (h : Heap) (id : Nat) : Except GoError Bool := do
  let d ← h.insertAt id
  pure d.clauses.HasReturning

/-- `func (id *InsertDataset) insertSQLBuilder() sb.SQLBuilder`. -/
def InsertDataset.insertSQLBuilder (W : Deps) (h : Heap) (id : Nat) :
    Except GoError SQLBuilder := do
  let d ← h.insertAt id
  let buf := NewSQLBuilder (d.isPrepared.Bool W.defaultPrepared)
  if d.err ≠ none then
    pure (buf.SetError d.err)
  else
    W.ToInsertSQL d.dialect h buf d.clauses

/-- `func (id *InsertDataset) ToSQL() (sql string, params []any, err error)`. -/
def InsertDataset.ToSQL (W : Deps) (h : Heap) (id : Nat) :
    Except GoError (String × List Val × Option GoError) := do
  let b ← InsertDataset.insertSQLBuilder W h id
  pure b.ToSQL

/-- `func (id *InsertDataset) buildSQL() (string, []any, error)`. -/
def InsertDataset.buildSQL (W : Deps) (h : Heap) (id : Nat) :
    Except GoError (String × List Val × Option GoError) := do
  let d ← h.insertAt id
  if d.executor = none then
    pure ("", [], some ErrExecutorNotFoundError)
  else do
    let b ← InsertDataset.insertSQLBuilder W h id
    pure b.ToSQL

/-- A call of one of the methods of `*InsertDataset` that derive a dataset,
with its arguments. -/
inductive Call where
  | Prepared (prepared : Bool)
  | WithDialect (dl : String)
  | SetDialect (dialect : SQLDialect)
  | With (name : String) (subquery : Val)
  | WithRecursive (name : String) (subquery : Val)
  | Into (into : Val)
  | Cols (cols : List Val)
  | ColsAppend (cols : List Val)
  | ClearCols
  | FromQuery (frm : Val)
  | Vals (vals : List (List Val))
  | ClearVals
  | Rows (rows : List Val)
  | ClearRows
  | Returning (returning : List Val)
  | OnConflict (conflict : Val)
  | ClearOnConflict
  | As (als : String)
  deriving DecidableEq, Repr

/-- Making the call on the receiver `id`. -/
def Call.run (W : Deps) (h : Heap) (id : Nat) : Call → Except GoError (Nat × Heap)
  | Call.Prepared prepared => InsertDataset.Prepared h id prepared
  | Call.WithDialect dl => InsertDataset.WithDialect W h id dl
  | Call.SetDialect dialect => InsertDataset.SetDialect h id dialect
  | Call.With name subquery => InsertDataset.With h id name subquery
  | Call.WithRecursive name subquery => InsertDataset.WithRecursive h id name subquery
  | Call.Into into => InsertDataset.Into h id into
  | Call.Cols cols => InsertDataset.Cols W h id cols
  | Call.ColsAppend cols => InsertDataset.ColsAppend W h id cols
  | Call.ClearCols => InsertDataset.ClearCols h id
  | Call.FromQuery frm => InsertDataset.FromQuery W h id frm
  | Call.Vals vals => InsertDataset.Vals h id vals
  | Call.ClearVals => InsertDataset.ClearVals h id
  | Call.Rows rows => InsertDataset.Rows h id rows
  | Call.ClearRows => InsertDataset.ClearRows h id
  | Call.Returning returning => InsertDataset.Returning W h id returning
  | Call.OnConflict conflict => InsertDataset.OnConflict h id conflict
  | Call.ClearOnConflict => InsertDataset.ClearOnConflict h id
  | Call.As als => InsertDataset.As h id als

/-- `func (td *TruncateDataset) copy(clauses exp.TruncateClauses) *TruncateDataset`. -/
def TruncateDataset.copy (h : Heap) (td : Nat) (clauses : TruncateClauses) :
    Except GoError (Nat × Heap) := do
  let d ← h.truncateAt td
  pure (h.new (Obj.truncate
    { dialect := d.dialect
      clauses := clauses
      isPrepared := d.isPrepared
      executor := d.executor
      err := d.err }))

/-- `func newTruncateDataset(d string, executor sqlx.Session) *TruncateDataset`. -/
def newTruncateDataset (W : Deps) (h : Heap) (d : String) (executor : Option Nat) : Nat × Heap :=
  h.new (Obj.truncate
    { clauses := NewTruncateClauses
      dialect := W.GetDialect d
      executor := executor
      isPrepared := prepared.preparedNoPreference
      err := none })

/-- `func (td *TruncateDataset) Error() error`. -/
def TruncateDataset.Error (h : Heap) (td : Nat) : Except GoError (Option GoError) := do
  let d ← h.truncateAt td
  pure d.err

/-- `func (td *TruncateDataset) SetError(err error) *TruncateDataset`. -/
def TruncateDataset.SetError (h : Heap) (td : Nat) (err : Option GoError) :
    Except GoError (Nat × Heap) := do
  let d ← h.truncateAt td
  if d.err = none then
    pure (td, h.set td (Obj.truncate { d with err := err }))
  else
    pure (td, h)

/-- `func (td *TruncateDataset) truncateSQLBuilder() sb.SQLBuilder`. -/
def TruncateDataset.truncateSQLBuilder (W : Deps) (h : Heap) (td : Nat) :
    Except GoError SQLBuilder := do
  let d ← h.truncateAt td
  let buf := NewSQLBuilder (d.isPrepared.Bool W.defaultPrepared)
  if d.err ≠ none then
    pure (buf.SetError d.err)
  else
    W.ToTruncateSQL d.dialect h buf d.clauses

/-- `func (td *TruncateDataset) ToSQL() (sql string, params []any, err error)`. -/
def TruncateDataset.ToSQL (W : Deps) (h : Heap) (td : Nat) :
    Except GoError (String × List Val × Option GoError) := do
  let b ← TruncateDataset.truncateSQLBuilder W h td
  pure b.ToSQL

end builder

/-! ## Example objects

Concrete datasets, a heap and an environment on which the model is evaluated. -/

namespace builder

open exp

/-- An example environment.  The registry maps every name to the dialect 0,
the constructor of column lists turns strings into identifiers and keeps
every other value, and the renderers panic when they are called, like a mock
dialect on which no call is expected. -/
def demoDeps : Deps where
  GetDialect := fun _ => 0
  dialectName := fun n => if n = 0 then "default" else if n = 1 then "dialect" else "other_dialect"
  defaultPrepared := false
  NewColumnListExpression := fun cols =>
    .ok { columns := cols.map (fun v =>
      match v with
      | Val.str s => (ParseIdentifier s).Expression
      | v => v) }
  ToInsertSQL := fun _ _ _ _ => .error (GoError.text "unexpected call of ToInsertSQL")
  ToTruncateSQL := fun _ _ _ _ => .error (GoError.text "unexpected call of ToTruncateSQL")

/-- The dataset `Insert("items").SetDialect(md)` for a dialect `md` at address 1. -/
def demoInsert : InsertDataset where
  dialect := 1
  clauses := NewInsertClauses.SetInto (ParseIdentifier "items").Expression
  isPrepared := prepared.preparedNoPreference
  executor := none
  err := none

/-- The same dataset after `SetError(err1)`. -/
def demoInsertFailed : InsertDataset := { demoInsert with err := some (GoError.other 1) }

/-- A truncate dataset with a recorded error. -/
def demoTruncate : TruncateDataset where
  dialect := 1
  clauses := NewTruncateClauses
  isPrepared := prepared.preparedEnabled
  executor := none
  err := some (GoError.other 1)

/-- A truncate dataset without error. -/
def demoTruncateClean : TruncateDataset := { demoTruncate with err := none }

/-- An example heap: the insert datasets at 0 and 1, a select dataset of the
default dialect at 2, one of the dialect 1 at 3, one of the dialect 2 at 4,
and the truncate datasets at 5 and 6. -/
def demoHeap : Heap :=
  [Obj.insert demoInsert, Obj.insert demoInsertFailed, Obj.select ⟨0, 0⟩, Obj.select ⟨1, 0⟩,
    Obj.select ⟨2, 0⟩, Obj.truncate demoTruncate, Obj.truncate demoTruncateClean]

end builder

/-! ## Chains of builder calls -/

namespace builder

open exp

/-- A second method call on the dataset that a first call returned, as in
`ds.Cols(a).Cols(b)`; a panic of the first call ends the chain. -/
def thenCall (r : Except GoError (Nat × Heap))
    (m : Heap → Nat → Except GoError (Nat × Heap)) : Except GoError (Nat × Heap) :=
  match r with
  | .error e => .error e
  | .ok (q, h) => m h q

/-- `GetClauses()` of the dataset that a call returned. -/
def clausesOf (r : Except GoError (Nat × Heap)) : Except GoError InsertClauses :=
  match r with
  | .error e => .error e
  | .ok (q, h) => InsertDataset.GetClauses h q

end builder

/-! ## The column map: what a field contributes -/

namespace util

/-- The test of the first branch of the loop of `newColumnMap`: the field is
embedded and its type is a struct or a pointer. -/
def isEmbeddedStruct (E : Env) (f : StructField) : Bool :=
  f.Anonymous && ((E.types f.Typ).kind == Kind.Struct || (E.types f.Typ).kind == Kind.Ptr)

/-- Whether the loop of `newColumnMap` takes anything from the field: an
embedded struct or pointer must not have `-` among its `db` options, any other
field must be exported and not ignored. -/
def contributes (E : Env) (f : StructField) : Bool :=
  if isEmbeddedStruct E f then !E.tag.Contains (E.tag.New "db" f.Tag) "-"
  else f.PkgPath == "" && !shouldIgnoreField E (E.tag.New "db" f.Tag)

/-- The column name with the prefixes in front, joined by dots, as
`strings.Join(append(prefixes, columnName), ".")` builds it. -/
def prefixed (prefixes : List String) (columnName : String) : String :=
  String.intercalate "." (prefixes ++ [columnName])

/-- The data of a column with the prefixes put in front of its column name. -/
def prefixData (prefixes : List String) (v : ColumnData) : ColumnData :=
  { v with ColumnName := prefixed prefixes v.ColumnName }

/-- An entry with the prefixes put in front of its column name, in the key
and in the data. -/
def prefixEntry (prefixes : List String) (kv : String × ColumnData) : String × ColumnData :=
  (prefixed prefixes kv.1, prefixData prefixes kv.2)

/-- A column map with the prefixes put in front of every column name. -/
def prefixMap (prefixes : List String) (cm : ColumnMap) : ColumnMap :=
  cm.map (prefixEntry prefixes)

/-- The state of the loop with the prefixes put in front of every column name. -/
def prefixState (prefixes : List String) (st : LoopState) : LoopState :=
  (prefixMap prefixes st.1, st.2.map (prefixMap prefixes))

/-- The type that `implementsScanner` and `getStructColumnMap` look at: the
element type of a pointer, the type itself otherwise. -/
def derefType (E : Env) (t : Nat) : Nat :=
  if (E.types t).kind = Kind.Ptr then (E.types t).elem else t

/-- A type table for examples with a scanner type.  Type 0 is
`struct { NullString }`, type 1 is
`NullString = struct { String string `db:"string"`; Valid bool `db:"valid"` }`,
type 2 is `struct { Name NullString `db:"name"` }`, type 3 is
`struct { Id int `db:"id"`; secret int; Skip int `db:"-"` }` with the
unexported field `secret`, and every other handle is `int`. -/
def scanTypes : Nat → RType
  | 0 => ⟨Kind.Struct, 0, [⟨"NullString", "", 1, "", [], true⟩]⟩
  | 1 => ⟨Kind.Struct, 0, [⟨"String", "", 9, "string", [], false⟩,
      ⟨"Valid", "", 9, "valid", [], false⟩]⟩
  | 2 => ⟨Kind.Struct, 0, [⟨"Name", "", 1, "name", [], false⟩]⟩
  | 3 => ⟨Kind.Struct, 0, [⟨"Id", "", 9, "id", [], false⟩, ⟨"secret", "pkg", 9, "secret", [], false⟩,
      ⟨"Skip", "", 9, "-", [], false⟩]⟩
  | _ => ⟨Kind.Other, 0, []⟩

/-- The example environment with the scanner type: the pointer to type 1
implements the scanner interface. -/
def scanEnv : Env :=
  { demoEnv with types := scanTypes, ptrImplementsScanner := fun t => t == 1 }

end util

/-! ## The option setters of `truncate_dataset.go` -/

namespace builder

open exp

/-- `func (td *TruncateDataset) GetClauses() exp.TruncateClauses`. -/
def TruncateDataset.GetClauses (h : Heap) (td : Nat) : Except GoError TruncateClauses := do
  let d ← h.truncateAt td
  pure d.clauses

/-- `func (td *TruncateDataset) IsPrepared() bool`. -/
def TruncateDataset.IsPrepared (W : Deps) (h : Heap) (td : Nat) : Except GoError Bool := do
  let d ← h.truncateAt td
  pure (d.isPrepared.Bool W.defaultPrepared)

/-- `func (td *TruncateDataset) Dialect() SQLDialect`. -/
def TruncateDataset.Dialect (h : Heap) (td : Nat) : Except GoError SQLDialect := do
  let d ← h.truncateAt td
  pure d.dialect

/-- `func (td *TruncateDataset) Table(table ...any) *TruncateDataset`. -/
def TruncateDataset.Table (W : Deps) (h : Heap) (td : Nat) (table : List Val) :
    Except GoError (Nat × Heap) := do
  let d ← h.truncateAt td
  let cl ← W.NewColumnListExpression table
  TruncateDataset.copy h td (d.clauses.SetTable cl)

/-- `func (td *TruncateDataset) Cascade() *TruncateDataset`. -/
def TruncateDataset.Cascade (h : Heap) (td : Nat) : Except GoError (Nat × Heap) := do
  let d ← h.truncateAt td
  let opts := d.clauses.Options
  let opts := { opts with Cascade := true }
  TruncateDataset.copy h td (d.clauses.SetOptions opts)

/-- `func (td *TruncateDataset) NoCascade() *TruncateDataset`. -/
def TruncateDataset.NoCascade (h : Heap) (td : Nat) : Except GoError (Nat × Heap) := do
  let d ← h.truncateAt td
  let opts := d.clauses.Options
  let opts := { opts with Cascade := false }
  TruncateDataset.copy h td (d.clauses.SetOptions opts)

/-- `func (td *TruncateDataset) Restrict() *TruncateDataset`. -/
def TruncateDataset.Restrict (h : Heap) (td : Nat) : Except GoError (Nat × Heap) := do
  let d ← h.truncateAt td
  let opts := d.clauses.Options
  let opts := { opts with Restrict := true }
  TruncateDataset.copy h td (d.clauses.SetOptions opts)

/-- `func (td *TruncateDataset) NoRestrict() *TruncateDataset`. -/
def TruncateDataset.NoRestrict (h : Heap) (td : Nat) : Except GoError (Nat × Heap) := do
  let d ← h.truncateAt td
  let opts := d.clauses.Options
  let opts := { opts with Restrict := false }
  TruncateDataset.copy h td (d.clauses.SetOptions opts)

/-- `func (td *TruncateDataset) Identity(identity string) *TruncateDataset`. -/
def TruncateDataset.Identity (h : Heap) (td : Nat) (identity : String) :
    Except GoError (Nat × Heap) := do
  let d ← h.truncateAt td
  let opts := d.clauses.Options
  let opts := { opts with Identity := identity }
  TruncateDataset.copy h td (d.clauses.SetOptions opts)

/-- A call of one of the option setters of `*TruncateDataset`. -/
inductive OptionCall where
  | Cascade
  | NoCascade
  | Restrict
  | NoRestrict
  | Identity (identity : String)
  deriving DecidableEq, Repr

/-- Making the call on the receiver `td`. -/
def OptionCall.run (h : Heap) (td : Nat) : OptionCall → Except GoError (Nat × Heap)
  | OptionCall.Cascade => TruncateDataset.Cascade h td
  | OptionCall.NoCascade => TruncateDataset.NoCascade h td
  | OptionCall.Restrict => TruncateDataset.Restrict h td
  | OptionCall.NoRestrict => TruncateDataset.NoRestrict h td
  | OptionCall.Identity identity => TruncateDataset.Identity h td identity

end builder

/-! ## Package `internal/errors` with its formatted messages -/

namespace internal

open builder exp

/-- What `fmt.Sprintf` leaves to the verbs of the package `fmt`: `verb` gives
the output from a `%` on, from the characters that follow the `%` and the
arguments (the verbs, the text after them and the note on arguments left
over), and `extra` gives the note `%!(EXTRA ...)` that ends the output when
the format has no verb and arguments are left over. -/
structure Fmt where
  verb : List Char → List Val → List Char
  extra : List Val → List Char

/-- The characters that `fmt.Sprintf(format, args...)` writes: the text before
the first `%` is copied as it is. -/
def sprintfChars (F : Fmt) : List Char → List Val → List Char
  | [], [] => []
  | [], a :: as => F.extra (a :: as)
  | c :: rest, args => if c = '%' then F.verb rest args else c :: sprintfChars F rest args

/-- The library call `fmt.Sprintf(format, args...)`. -/
def Sprintf (F : Fmt) (format : String) (args : List Val) : String :=
  String.mk (sprintfChars F format.toList args)

/-- `func New(message string, args ...any) error` of `internal/errors`. -/
def errors.New (F : Fmt) (message : String) (args : List Val) : GoError :=
  GoError.builderError ("builder: " ++ Sprintf F message args)

/-- `func NewEncodeError(t any) error` of `internal/errors`. -/
def errors.NewEncodeError (F : Fmt) (t : Val) : GoError :=
  GoError.builderError ("builder_encode_error: " ++ Sprintf F "Unable to encode value %+v" [t])

/-- The method `Error()` called on a value of type `error`: for the struct
`Error` of `internal/errors` it is `func (e Error) Error() string`; the text
of the other errors is `other`. -/
def errorText (other : GoError → String) : GoError → String
  | GoError.builderError err => builder.errors.Error err
  | e => other e

/-- An instance of the verbs for examples: a verb writes `<` and `>` around
the characters of the verb, and arguments left over are not noted. -/
def demoFmt : Fmt where
  verb := fun rest _ => '<' :: rest ++ ['>']
  extra := fun _ => []

end internal

/-! ## Package `exp`: literals, functions, case expressions, casts and window functions -/

namespace exp

open builder

/-- The struct `literal` of `literal.go`; its field `literal` is `sql` here,
the name that `NewLiteralExpression` gives to the text. -/
structure literal where
  sql : String
  args : List Val
  deriving DecidableEq, Repr

/-- `func (l literal) Expression() Expression`, the literal as a value of an
interface type. -/
def literal.Expression (l : literal) : Val := Val.literal l.sql (Vals.ofList l.args)

/-- `func (l literal) Clone() Expression`. -/
def literal.Clone (l : literal) : Val := NewLiteralExpression l.sql l.args

/-- `func (l literal) Literal() string`. -/
def literal.Literal (l : literal) : String := l.sql

/-- `func (l literal) Args() []any`. -/
def literal.Args (l : literal) : List Val := l.args

/-- The struct `sqlFunctionExpression` of `func.go`. -/
structure sqlFunctionExpression where
  name : String
  args : List Val
  deriving DecidableEq, Repr

/-- `func NewSQLFunctionExpression(name string, args ...any) SQLFunctionExpression`. -/
def NewSQLFunctionExpression (name : String) (args : List Val) : sqlFunctionExpression :=
  { name := name, args := args }

/-- `func (sfe sqlFunctionExpression) Expression() Expression`, the function
expression as a value of an interface type. -/
def sqlFunctionExpression.Expression (sfe : sqlFunctionExpression) : Val :=
  Val.sqlFunction sfe.name (Vals.ofList sfe.args)

/-- `func (sfe sqlFunctionExpression) Clone() Expression`. -/
def sqlFunctionExpression.Clone (sfe : sqlFunctionExpression) : Val :=
  sqlFunctionExpression.Expression { name := sfe.name, args := sfe.args }

/-- `func (sfe sqlFunctionExpression) Args() []any`. -/
def sqlFunctionExpression.Args (sfe : sqlFunctionExpression) : List Val := sfe.args

/-- `func (sfe sqlFunctionExpression) Name() string`. -/
def sqlFunctionExpression.Name (sfe : sqlFunctionExpression) : String := sfe.name

/-- `func NewCaseElse(result any) CaseElse`: the struct `caseElse` as a value of
the interface type. -/
def NewCaseElse (result : Val) : Val := Val.caseElse result

/-- `func NewCaseWhen(condition, result any) CaseWhen`: the struct `caseWhen`,
which embeds a `caseElse` holding the result. -/
def NewCaseWhen (condition result : Val) : Val := Val.caseWhen result condition

/-- The struct `caseExpression` of `case.go`, with the slice `whens` as the list
of its elements; `elseCondition` is a value of the interface type `CaseElse`
and may be nil.  The methods `Value`, `When` and `Else`, which build a case
expression step by step, are embedded on the struct with its slice in memory
(`exp.slices`). -/
structure caseExpression where
  value : Val
  whens : List Val
  elseCondition : Val
  deriving DecidableEq, Repr

/-- `func NewCaseExpression() CaseExpression`. -/
def NewCaseExpression : caseExpression :=
  { value := Val.nil, whens := [], elseCondition := Val.nil }

/-- `func (c caseExpression) Expression() Expression`, the case expression as a
value of an interface type. -/
def caseExpression.Expression (c : caseExpression) : Val :=
  Val.caseExpression c.value (Vals.ofList c.whens) c.elseCondition

/-- `func (c caseExpression) Clone() Expression`. -/
def caseExpression.Clone (c : caseExpression) : Val :=
  caseExpression.Expression { value := c.value, whens := c.whens, elseCondition := c.elseCondition }

/-- `func (c caseExpression) GetValue() any`. -/
def caseExpression.GetValue (c : caseExpression) : Val := c.value

/-- `func (c caseExpression) GetWhens() []CaseWhen`. -/
def caseExpression.GetWhens (c : caseExpression) : List Val := c.whens

/-- `func (c caseExpression) GetElse() CaseElse`. -/
def caseExpression.GetElse (c : caseExpression) : Val := c.elseCondition

/-- The struct `cast` of `cast.go`; `casted` is a value of the interface type
`Expression` and `t` one of the interface type `LiteralExpression`. -/
structure cast where
  casted : Val
  t : Val
  deriving DecidableEq, Repr

/-- `func NewCastExpression(e Expression, t string) CastExpression`. -/
def NewCastExpression (e : Val) (t : String) : cast :=
  { casted := e, t := NewLiteralExpression t [] }

/-- `func (c cast) Casted() Expression`. -/
def cast.Casted (c : cast) : Val := c.casted

/-- `func (c cast) Type() LiteralExpression`. -/
def cast.Typ (c : cast) : Val := c.t

/-- `func (c cast) Expression() Expression`, the cast as a value of an
interface type. -/
def cast.Expression (c : cast) : Val := Val.cast c.casted c.t

/-- `func (c cast) Clone() Expression`.  The argument `castedClone` is what the
call `c.casted.Clone()` gives: a panic or the clone. -/
def cast.Clone (castedClone : Except GoError Val) (c : cast) : Except GoError Val :=
  match castedClone with
  | .error e => .error e
  | .ok casted => .ok (cast.Expression { casted := casted, t := c.t })

/-- The struct `sqlWindowFunctionExpression` of `window_func.go`; the three
fields are values of interface types and may be nil. -/
structure sqlWindowFunctionExpression where
  fn : Val
  windowName : Val
  window : Val
  deriving DecidableEq, Repr

/-- `func NewSQLWindowFunctionExpression(fn, windowName, window) SQLWindowFunctionExpression`. -/
def NewSQLWindowFunctionExpression (fn windowName window : Val) : sqlWindowFunctionExpression :=
  { fn := fn, windowName := windowName, window := window }

/-- The panic of the type assertion `.(SQLFunctionExpression)` on a value of
another type. -/
def notASQLFunction : GoError :=
  GoError.text "interface conversion: exp.Expression is not exp.SQLFunctionExpression"

/-- `func (swfe sqlWindowFunctionExpression) clone() sqlWindowFunctionExpression`.
The argument `fnClone` is what the call `swfe.fn.Clone()` gives; the type
assertion `.(SQLFunctionExpression)` holds for a `sqlFunctionExpression`. -/
def sqlWindowFunctionExpression.clone (fnClone : Except GoError Val)
    (swfe : sqlWindowFunctionExpression) : Except GoError sqlWindowFunctionExpression :=
  match fnClone with
  | .error e => .error e
  | .ok (Val.sqlFunction name args) =>
    .ok { fn := Val.sqlFunction name args, windowName := swfe.windowName, window := swfe.window }
  | .ok _ => .error notASQLFunction

/-- `func (swfe sqlWindowFunctionExpression) Expression() Expression`, the
window function expression as a value of an interface type. -/
def sqlWindowFunctionExpression.Expression (swfe : sqlWindowFunctionExpression) : Val :=
  Val.sqlWindowFunction swfe.fn swfe.windowName swfe.window

/-- `func (swfe sqlWindowFunctionExpression) Clone() Expression`. -/
def sqlWindowFunctionExpression.Clone (fnClone : Except GoError Val)
    (swfe : sqlWindowFunctionExpression) : Except GoError Val :=
  match swfe.clone fnClone with
  | .error e => .error e
  | .ok c => .ok c.Expression

/-- `func (swfe sqlWindowFunctionExpression) Func() SQLFunctionExpression`. -/
def sqlWindowFunctionExpression.Func (swfe : sqlWindowFunctionExpression) : Val := swfe.fn

/-- `func (swfe sqlWindowFunctionExpression) Window() WindowExpression`. -/
def sqlWindowFunctionExpression.Window (swfe : sqlWindowFunctionExpression) : Val := swfe.window

/-- `func (swfe sqlWindowFunctionExpression) WindowName() IdentifierExpression`. -/
def sqlWindowFunctionExpression.WindowName (swfe : sqlWindowFunctionExpression) : Val :=
  swfe.windowName

/-- `func (sfe sqlFunctionExpression) Over(we WindowExpression) SQLWindowFunctionExpression`. -/
def sqlFunctionExpression.Over (sfe : sqlFunctionExpression) (we : Val) :
    sqlWindowFunctionExpression :=
  NewSQLWindowFunctionExpression sfe.Expression Val.nil we

/-- `func (sfe sqlFunctionExpression) OverName(windowName IdentifierExpression) SQLWindowFunctionExpression`. -/
def sqlFunctionExpression.OverName (sfe : sqlFunctionExpression) (windowName : Val) :
    sqlWindowFunctionExpression :=
  NewSQLWindowFunctionExpression sfe.Expression windowName Val.nil

/-- `func (i identifier) Cast(t string) CastExpression`. -/
def identifier.Cast (i : identifier) (t : String) : cast := NewCastExpression i.Expression t

/-- `func (b bitwise) Expression() Expression`, the bitwise expression as a
value of an interface type. -/
def bitwise.Expression (b : bitwise) : Val := Val.bitwise b.lhs b.rhs b.op

/-- The method call `e.Clone()` on a value `e` of the interface type
`Expression`: the method `Clone` of the dynamic type of `e` runs, and a call on
the nil interface value panics.  `cloneOther` stands for the methods of the
expressions whose files are not among the sources. -/
def Clone (cloneOther : Val → Except GoError Val) : Val → Except GoError Val
  | Val.nil => .error nilDereference
  | Val.identifier schema table col =>
    .ok (identifier.Clone { schema := schema, table := table, col := col })
  | Val.literal lit args => .ok (literal.Clone { sql := lit, args := args.toList })
  | Val.sqlFunction name args =>
    .ok (sqlFunctionExpression.Clone { name := name, args := args.toList })
  | Val.caseExpression value whens elseCondition =>
    .ok (caseExpression.Clone
      { value := value, whens := whens.toList, elseCondition := elseCondition })
  | Val.cast casted t => cast.Clone (Clone cloneOther casted) { casted := casted, t := t }
  | Val.bitwise lhs rhs op =>
    match bitwise.Clone (fun _ => Clone cloneOther lhs) { lhs := lhs, rhs := rhs, op := op } with
    | .error e => .error e
    | .ok b => .ok b.Expression
  | Val.sqlWindowFunction fn windowName window =>
    sqlWindowFunctionExpression.Clone (Clone cloneOther fn)
      { fn := fn, windowName := windowName, window := window }
  | v => cloneOther v

/-- The method call `e.Expression()` on a value `e` of the interface type
`Expression`; `expressionOther` stands for the methods of the expressions whose
files are not among the sources. -/
def Expression (expressionOther : Val → Except GoError Val) : Val → Except GoError Val
  | Val.nil => .error nilDereference
  | Val.identifier schema table col =>
    .ok (identifier.Expression { schema := schema, table := table, col := col })
  | Val.literal lit args => .ok (literal.Expression { sql := lit, args := args.toList })
  | Val.sqlFunction name args =>
    .ok (sqlFunctionExpression.Expression { name := name, args := args.toList })
  | Val.caseExpression value whens elseCondition =>
    .ok (caseExpression.Expression
      { value := value, whens := whens.toList, elseCondition := elseCondition })
  | Val.cast casted t => .ok (cast.Expression { casted := casted, t := t })
  | Val.bitwise lhs rhs op => .ok (bitwise.Expression { lhs := lhs, rhs := rhs, op := op })
  | Val.sqlWindowFunction fn windowName window =>
    .ok (sqlWindowFunctionExpression.Expression
      { fn := fn, windowName := windowName, window := window })
  | v => expressionOther v

/-- The expressions on which `Clone` is followed below: identifiers, literals,
function expressions and case expressions, casts of such expressions, and
window function expressions over a function expression. -/
def plainExpression : Val → Bool
  | Val.identifier _ _ _ => true
  | Val.literal _ _ => true
  | Val.sqlFunction _ _ => true
  | Val.caseExpression _ _ _ => true
  | Val.cast casted _ => plainExpression casted
  | Val.sqlWindowFunction (Val.sqlFunction _ _) _ _ => true
  | _ => false

/-- An instance of `cloneOther` for examples: every other expression is
returned as it is. -/
def demoCloneOther (v : Val) : Except GoError Val := .ok v

end exp

/-! ## Package `exp`: the comparison methods -/

namespace exp

open builder

/-- The comparison producers of `exp/bool.go` and `exp/range.go`, files that
are not among the sources: each builds a node from a left-hand side and a
value.  `B` and `R` are the types `BooleanExpression` and `RangeExpression`;
`in_` is the Go function `in`. -/
structure Producers (B R : Type) where
  eq : Val → Val → B
  neq : Val → Val → B
  gt : Val → Val → B
  gte : Val → Val → B
  lt : Val → Val → B
  lte : Val → Val → B
  like : Val → Val → B
  notLike : Val → Val → B
  iLike : Val → Val → B
  notILike : Val → Val → B
  regexpLike : Val → Val → B
  regexpNotLike : Val → Val → B
  regexpILike : Val → Val → B
  regexpNotILike : Val → Val → B
  is : Val → Val → B
  isNot : Val → Val → B
  in_ : Val → List Val → B
  notIn : Val → List Val → B
  between : Val → Val → R
  notBetween : Val → Val → R

/-! ### The comparison methods of `identifier` (`ident.go`) -/

/-- `func (i identifier) Eq(val any) BooleanExpression`. -/
def identifier.Eq {B R : Type} (P : Producers B R) (i : identifier) (val : Val) : B :=
  P.eq i.Expression val

/-- `func (i identifier) Neq(val any) BooleanExpression`. -/
def identifier.Neq {B R : Type} (P : Producers B R) (i : identifier) (val : Val) : B :=
  P.neq i.Expression val

/-- `func (i identifier) Gt(val any) BooleanExpression`. -/
def identifier.Gt {B R : Type} (P : Producers B R) (i : identifier) (val : Val) : B :=
  P.gt i.Expression val

/-- `func (i identifier) Gte(val any) BooleanExpression`. -/
def identifier.Gte {B R : Type} (P : Producers B R) (i : identifier) (val : Val) : B :=
  P.gte i.Expression val

/-- `func (i identifier) Lt(val any) BooleanExpression`. -/
def identifier.Lt {B R : Type} (P : Producers B R) (i : identifier) (val : Val) : B :=
  P.lt i.Expression val

/-- `func (i identifier) Lte(val any) BooleanExpression`. -/
def identifier.Lte {B R : Type} (P : Producers B R) (i : identifier) (val : Val) : B :=
  P.lte i.Expression val

/-- `func (i identifier) Like(val any) BooleanExpression`. -/
def identifier.Like {B R : Type} (P : Producers B R) (i : identifier) (val : Val) : B :=
  P.like i.Expression val

/-- `func (i identifier) NotLike(val any) BooleanExpression`. -/
def identifier.NotLike {B R : Type} (P : Producers B R) (i : identifier) (val : Val) : B :=
  P.notLike i.Expression val

/-- `func (i identifier) ILike(val any) BooleanExpression`. -/
def identifier.ILike {B R : Type} (P : Producers B R) (i : identifier) (val : Val) : B :=
  P.iLike i.Expression val

/-- `func (i identifier) NotILike(val any) BooleanExpression`. -/
def identifier.NotILike {B R : Type} (P : Producers B R) (i : identifier) (val : Val) : B :=
  P.notILike i.Expression val

/-- `func (i identifier) RegexpLike(val any) BooleanExpression`. -/
def identifier.RegexpLike {B R : Type} (P : Producers B R) (i : identifier) (val : Val) : B :=
  P.regexpLike i.Expression val

/-- `func (i identifier) RegexpNotLike(val any) BooleanExpression`. -/
def identifier.RegexpNotLike {B R : Type} (P : Producers B R) (i : identifier) (val : Val) : B :=
  P.regexpNotLike i.Expression val

/-- `func (i identifier) RegexpILike(val any) BooleanExpression`. -/
def identifier.RegexpILike {B R : Type} (P : Producers B R) (i : identifier) (val : Val) : B :=
  P.regexpILike i.Expression val

/-- `func (i identifier) RegexpNotILike(val any) BooleanExpression`. -/
def identifier.RegexpNotILike {B R : Type} (P : Producers B R) (i : identifier) (val : Val) : B :=
  P.regexpNotILike i.Expression val

/-- `func (i identifier) Is(val any) BooleanExpression`. -/
def identifier.Is {B R : Type} (P : Producers B R) (i : identifier) (val : Val) : B :=
  P.is i.Expression val

/-- `func (i identifier) IsNot(val any) BooleanExpression`. -/
def identifier.IsNot {B R : Type} (P : Producers B R) (i : identifier) (val : Val) : B :=
  P.isNot i.Expression val

/-- `func (i identifier) In(vals ...any) BooleanExpression`. -/
def identifier.In {B R : Type} (P : Producers B R) (i : identifier) (vals : List Val) : B :=
  P.in_ i.Expression vals

/-- `func (i identifier) NotIn(vals ...any) BooleanExpression`. -/
def identifier.NotIn {B R : Type} (P : Producers B R) (i : identifier) (vals : List Val) : B :=
  P.notIn i.Expression vals

/-- `func (i identifier) Between(val RangeVal) RangeExpression`. -/
def identifier.Between {B R : Type} (P : Producers B R) (i : identifier) (val : Val) : R :=
  P.between i.Expression val

/-- `func (i identifier) NotBetween(val RangeVal) RangeExpression`. -/
def identifier.NotBetween {B R : Type} (P : Producers B R) (i : identifier) (val : Val) : R :=
  P.notBetween i.Expression val

/-- `func (i identifier) IsNull() BooleanExpression`. -/
def identifier.IsNull {B R : Type} (P : Producers B R) (i : identifier) : B :=
  P.is i.Expression (Val.nil)

/-- `func (i identifier) IsNotNull() BooleanExpression`. -/
def identifier.IsNotNull {B R : Type} (P : Producers B R) (i : identifier) : B :=
  P.isNot i.Expression (Val.nil)

/-- `func (i identifier) IsTrue() BooleanExpression`. -/
def identifier.IsTrue {B R : Type} (P : Producers B R) (i : identifier) : B :=
  P.is i.Expression (Val.bool true)

/-- `func (i identifier) IsNotTrue() BooleanExpression`. -/
def identifier.IsNotTrue {B R : Type} (P : Producers B R) (i : identifier) : B :=
  P.isNot i.Expression (Val.bool true)

/-- `func (i identifier) IsFalse() BooleanExpression`. -/
def identifier.IsFalse {B R : Type} (P : Producers B R) (i : identifier) : B :=
  P.is i.Expression (Val.bool false)

/-- `func (i identifier) IsNotFalse() BooleanExpression`. -/
def identifier.IsNotFalse {B R : Type} (P : Producers B R) (i : identifier) : B :=
  P.isNot i.Expression (Val.bool false)

/-! ### The comparison methods of `literal` (`literal.go`) -/

/-- `func (l literal) Eq(val any) BooleanExpression`. -/
def literal.Eq {B R : Type} (P : Producers B R) (l : literal) (val : Val) : B :=
  P.eq l.Expression val

/-- `func (l literal) Neq(val any) BooleanExpression`. -/
def literal.Neq {B R : Type} (P : Producers B R) (l : literal) (val : Val) : B :=
  P.neq l.Expression val

/-- `func (l literal) Gt(val any) BooleanExpression`. -/
def literal.Gt {B R : Type} (P : Producers B R) (l : literal) (val : Val) : B :=
  P.gt l.Expression val

/-- `func (l literal) Gte(val any) BooleanExpression`. -/
def literal.Gte {B R : Type} (P : Producers B R) (l : literal) (val : Val) : B :=
  P.gte l.Expression val

/-- `func (l literal) Lt(val any) BooleanExpression`. -/
def literal.Lt {B R : Type} (P : Producers B R) (l : literal) (val : Val) : B :=
  P.lt l.Expression val

/-- `func (l literal) Lte(val any) BooleanExpression`. -/
def literal.Lte {B R : Type} (P : Producers B R) (l : literal) (val : Val) : B :=
  P.lte l.Expression val

/-- `func (l literal) Like(val any) BooleanExpression`. -/
def literal.Like {B R : Type} (P : Producers B R) (l : literal) (val : Val) : B :=
  P.like l.Expression val

/-- `func (l literal) NotLike(val any) BooleanExpression`. -/
def literal.NotLike {B R : Type} (P : Producers B R) (l : literal) (val : Val) : B :=
  P.notLike l.Expression val

/-- `func (l literal) ILike(val any) BooleanExpression`. -/
def literal.ILike {B R : Type} (P : Producers B R) (l : literal) (val : Val) : B :=
  P.iLike l.Expression val

/-- `func (l literal) NotILike(val any) BooleanExpression`. -/
def literal.NotILike {B R : Type} (P : Producers B R) (l : literal) (val : Val) : B :=
  P.notILike l.Expression val

/-- `func (l literal) RegexpLike(val any) BooleanExpression`. -/
def literal.RegexpLike {B R : Type} (P : Producers B R) (l : literal) (val : Val) : B :=
  P.regexpLike l.Expression val

/-- `func (l literal) RegexpNotLike(val any) BooleanExpression`. -/
def literal.RegexpNotLike {B R : Type} (P : Producers B R) (l : literal) (val : Val) : B :=
  P.regexpNotLike l.Expression val

/-- `func (l literal) RegexpILike(val any) BooleanExpression`. -/
def literal.RegexpILike {B R : Type} (P : Producers B R) (l : literal) (val : Val) : B :=
  P.regexpILike l.Expression val

/-- `func (l literal) RegexpNotILike(val any) BooleanExpression`. -/
def literal.RegexpNotILike {B R : Type} (P : Producers B R) (l : literal) (val : Val) : B :=
  P.regexpNotILike l.Expression val

/-- `func (l literal) Is(val any) BooleanExpression`. -/
def literal.Is {B R : Type} (P : Producers B R) (l : literal) (val : Val) : B :=
  P.is l.Expression val

/-- `func (l literal) IsNot(val any) BooleanExpression`. -/
def literal.IsNot {B R : Type} (P : Producers B R) (l : literal) (val : Val) : B :=
  P.isNot l.Expression val

/-- `func (l literal) In(vals ...any) BooleanExpression`. -/
def literal.In {B R : Type} (P : Producers B R) (l : literal) (vals : List Val) : B :=
  P.in_ l.Expression vals

/-- `func (l literal) NotIn(vals ...any) BooleanExpression`. -/
def literal.NotIn {B R : Type} (P : Producers B R) (l : literal) (vals : List Val) : B :=
  P.notIn l.Expression vals

/-- `func (l literal) Between(val RangeVal) RangeExpression`. -/
def literal.Between {B R : Type} (P : Producers B R) (l : literal) (val : Val) : R :=
  P.between l.Expression val

/-- `func (l literal) NotBetween(val RangeVal) RangeExpression`. -/
def literal.NotBetween {B R : Type} (P : Producers B R) (l : literal) (val : Val) : R :=
  P.notBetween l.Expression val

/-- `func (l literal) IsNull() BooleanExpression`. -/
def literal.IsNull {B R : Type} (P : Producers B R) (l : literal) : B :=
  P.is l.Expression (Val.nil)

/-- `func (l literal) IsNotNull() BooleanExpression`. -/
def literal.IsNotNull {B R : Type} (P : Producers B R) (l : literal) : B :=
  P.isNot l.Expression (Val.nil)

/-- `func (l literal) IsTrue() BooleanExpression`. -/
def literal.IsTrue {B R : Type} (P : Producers B R) (l : literal) : B :=
  P.is l.Expression (Val.bool true)

/-- `func (l literal) IsNotTrue() BooleanExpression`. -/
def literal.IsNotTrue {B R : Type} (P : Producers B R) (l : literal) : B :=
  P.isNot l.Expression (Val.bool true)

/-- `func (l literal) IsFalse() BooleanExpression`. -/
def literal.IsFalse {B R : Type} (P : Producers B R) (l : literal) : B :=
  P.is l.Expression (Val.bool false)

/-- `func (l literal) IsNotFalse() BooleanExpression`. -/
def literal.IsNotFalse {B R : Type} (P : Producers B R) (l : literal) : B :=
  P.isNot l.Expression (Val.bool false)

/-! ### The comparison methods of `cast` (`cast.go`) -/

/-- `func (c cast) Eq(val any) BooleanExpression`. -/
def cast.Eq {B R : Type} (P : Producers B R) (c : cast) (val : Val) : B :=
  P.eq c.Expression val

/-- `func (c cast) Neq(val any) BooleanExpression`. -/
def cast.Neq {B R : Type} (P : Producers B R) (c : cast) (val : Val) : B :=
  P.neq c.Expression val

/-- `func (c cast) Gt(val any) BooleanExpression`. -/
def cast.Gt {B R : Type} (P : Producers B R) (c : cast) (val : Val) : B :=
  P.gt c.Expression val

/-- `func (c cast) Gte(val any) BooleanExpression`. -/
def cast.Gte {B R : Type} (P : Producers B R) (c : cast) (val : Val) : B :=
  P.gte c.Expression val

/-- `func (c cast) Lt(val any) BooleanExpression`. -/
def cast.Lt {B R : Type} (P : Producers B R) (c : cast) (val : Val) : B :=
  P.lt c.Expression val

/-- `func (c cast) Lte(val any) BooleanExpression`. -/
def cast.Lte {B R : Type} (P : Producers B R) (c : cast) (val : Val) : B :=
  P.lte c.Expression val

/-- `func (c cast) Like(val any) BooleanExpression`. -/
def cast.Like {B R : Type} (P : Producers B R) (c : cast) (val : Val) : B :=
  P.like c.Expression val

/-- `func (c cast) NotLike(val any) BooleanExpression`. -/
def cast.NotLike {B R : Type} (P : Producers B R) (c : cast) (val : Val) : B :=
  P.notLike c.Expression val

/-- `func (c cast) ILike(val any) BooleanExpression`. -/
def cast.ILike {B R : Type} (P : Producers B R) (c : cast) (val : Val) : B :=
  P.iLike c.Expression val

/-- `func (c cast) NotILike(val any) BooleanExpression`. -/
def cast.NotILike {B R : Type} (P : Producers B R) (c : cast) (val : Val) : B :=
  P.notILike c.Expression val

/-- `func (c cast) RegexpLike(val any) BooleanExpression`. -/
def cast.RegexpLike {B R : Type} (P : Producers B R) (c : cast) (val : Val) : B :=
  P.regexpLike c.Expression val

/-- `func (c cast) RegexpNotLike(val any) BooleanExpression`. -/
def cast.RegexpNotLike {B R : Type} (P : Producers B R) (c : cast) (val : Val) : B :=
  P.regexpNotLike c.Expression val

/-- `func (c cast) RegexpILike(val any) BooleanExpression`. -/
def cast.RegexpILike {B R : Type} (P : Producers B R) (c : cast) (val : Val) : B :=
  P.regexpILike c.Expression val

/-- `func (c cast) RegexpNotILike(val any) BooleanExpression`. -/
def cast.RegexpNotILike {B R : Type} (P : Producers B R) (c : cast) (val : Val) : B :=
  P.regexpNotILike c.Expression val

/-- `func (c cast) Is(val any) BooleanExpression`. -/
def cast.Is {B R : Type} (P : Producers B R) (c : cast) (val : Val) : B :=
  P.is c.Expression val

/-- `func (c cast) IsNot(val any) BooleanExpression`. -/
def cast.IsNot {B R : Type} (P : Producers B R) (c : cast) (val : Val) : B :=
  P.isNot c.Expression val

/-- `func (c cast) In(vals ...any) BooleanExpression`. -/
def cast.In {B R : Type} (P : Producers B R) (c : cast) (vals : List Val) : B :=
  P.in_ c.Expression vals

/-- `func (c cast) NotIn(vals ...any) BooleanExpression`. -/
def cast.NotIn {B R : Type} (P : Producers B R) (c : cast) (vals : List Val) : B :=
  P.notIn c.Expression vals

/-- `func (c cast) Between(val RangeVal) RangeExpression`. -/
def cast.Between {B R : Type} (P : Producers B R) (c : cast) (val : Val) : R :=
  P.between c.Expression val

/-- `func (c cast) NotBetween(val RangeVal) RangeExpression`. -/
def cast.NotBetween {B R : Type} (P : Producers B R) (c : cast) (val : Val) : R :=
  P.notBetween c.Expression val

/-- `func (c cast) IsNull() BooleanExpression`. -/
def cast.IsNull {B R : Type} (P : Producers B R) (c : cast) : B :=
  P.is c.Expression (Val.nil)

/-- `func (c cast) IsNotNull() BooleanExpression`. -/
def cast.IsNotNull {B R : Type} (P : Producers B R) (c : cast) : B :=
  P.isNot c.Expression (Val.nil)

/-- `func (c cast) IsTrue() BooleanExpression`. -/
def cast.IsTrue {B R : Type} (P : Producers B R) (c : cast) : B :=
  P.is c.Expression (Val.bool true)

/-- `func (c cast) IsNotTrue() BooleanExpression`. -/
def cast.IsNotTrue {B R : Type} (P : Producers B R) (c : cast) : B :=
  P.isNot c.Expression (Val.bool true)

/-- `func (c cast) IsFalse() BooleanExpression`. -/
def cast.IsFalse {B R : Type} (P : Producers B R) (c : cast) : B :=
  P.is c.Expression (Val.bool false)

/-- `func (c cast) IsNotFalse() BooleanExpression`. -/
def cast.IsNotFalse {B R : Type} (P : Producers B R) (c : cast) : B :=
  P.isNot c.Expression (Val.bool false)

/-! ### The comparison methods of `sqlFunctionExpression` (`func.go`) -/

/-- `func (sfe sqlFunctionExpression) Eq(val any) BooleanExpression`. -/
def sqlFunctionExpression.Eq {B R : Type} (P : Producers B R) (sfe : sqlFunctionExpression) (val : Val) : B :=
  P.eq sfe.Expression val

/-- `func (sfe sqlFunctionExpression) Neq(val any) BooleanExpression`. -/
def sqlFunctionExpression.Neq {B R : Type} (P : Producers B R) (sfe : sqlFunctionExpression) (val : Val) : B :=
  P.neq sfe.Expression val

/-- `func (sfe sqlFunctionExpression) Gt(val any) BooleanExpression`. -/
def sqlFunctionExpression.Gt {B R : Type} (P : Producers B R) (sfe : sqlFunctionExpression) (val : Val) : B :=
  P.gt sfe.Expression val

/-- `func (sfe sqlFunctionExpression) Gte(val any) BooleanExpression`. -/
def sqlFunctionExpression.Gte {B R : Type} (P : Producers B R) (sfe : sqlFunctionExpression) (val : Val) : B :=
  P.gte sfe.Expression val

/-- `func (sfe sqlFunctionExpression) Lt(val any) BooleanExpression`. -/
def sqlFunctionExpression.Lt {B R : Type} (P : Producers B R) (sfe : sqlFunctionExpression) (val : Val) : B :=
  P.lt sfe.Expression val

/-- `func (sfe sqlFunctionExpression) Lte(val any) BooleanExpression`. -/
def sqlFunctionExpression.Lte {B R : Type} (P : Producers B R) (sfe : sqlFunctionExpression) (val : Val) : B :=
  P.lte sfe.Expression val

/-- `func (sfe sqlFunctionExpression) Like(val any) BooleanExpression`. -/
def sqlFunctionExpression.Like {B R : Type} (P : Producers B R) (sfe : sqlFunctionExpression) (val : Val) : B :=
  P.like sfe.Expression val

/-- `func (sfe sqlFunctionExpression) NotLike(val any) BooleanExpression`. -/
def sqlFunctionExpression.NotLike {B R : Type} (P : Producers B R) (sfe : sqlFunctionExpression) (val : Val) : B :=
  P.notLike sfe.Expression val

/-- `func (sfe sqlFunctionExpression) ILike(val any) BooleanExpression`. -/
def sqlFunctionExpression.ILike {B R : Type} (P : Producers B R) (sfe : sqlFunctionExpression) (val : Val) : B :=
  P.iLike sfe.Expression val

/-- `func (sfe sqlFunctionExpression) NotILike(val any) BooleanExpression`. -/
def sqlFunctionExpression.NotILike {B R : Type} (P : Producers B R) (sfe : sqlFunctionExpression) (val : Val) : B :=
  P.notILike sfe.Expression val

/-- `func (sfe sqlFunctionExpression) RegexpLike(val any) BooleanExpression`. -/
def sqlFunctionExpression.RegexpLike {B R : Type} (P : Producers B R) (sfe : sqlFunctionExpression) (val : Val) : B :=
  P.regexpLike sfe.Expression val

/-- `func (sfe sqlFunctionExpression) RegexpNotLike(val any) BooleanExpression`. -/
def sqlFunctionExpression.RegexpNotLike {B R : Type} (P : Producers B R) (sfe : sqlFunctionExpression) (val : Val) : B :=
  P.regexpNotLike sfe.Expression val

/-- `func (sfe sqlFunctionExpression) RegexpILike(val any) BooleanExpression`. -/
def sqlFunctionExpression.RegexpILike {B R : Type} (P : Producers B R) (sfe : sqlFunctionExpression) (val : Val) : B :=
  P.regexpILike sfe.Expression val

/-- `func (sfe sqlFunctionExpression) RegexpNotILike(val any) BooleanExpression`. -/
def sqlFunctionExpression.RegexpNotILike {B R : Type} (P : Producers B R) (sfe : sqlFunctionExpression) (val : Val) : B :=
  P.regexpNotILike sfe.Expression val

/-- `func (sfe sqlFunctionExpression) Is(val any) BooleanExpression`. -/
def sqlFunctionExpression.Is {B R : Type} (P : Producers B R) (sfe : sqlFunctionExpression) (val : Val) : B :=
  P.is sfe.Expression val

/-- `func (sfe sqlFunctionExpression) IsNot(val any) BooleanExpression`. -/
def sqlFunctionExpression.IsNot {B R : Type} (P : Producers B R) (sfe : sqlFunctionExpression) (val : Val) : B :=
  P.isNot sfe.Expression val

/-- `func (sfe sqlFunctionExpression) In(vals ...any) BooleanExpression`. -/
def sqlFunctionExpression.In {B R : Type} (P : Producers B R) (sfe : sqlFunctionExpression) (vals : List Val) : B :=
  P.in_ sfe.Expression vals

/-- `func (sfe sqlFunctionExpression) NotIn(vals ...any) BooleanExpression`. -/
def sqlFunctionExpression.NotIn {B R : Type} (P : Producers B R) (sfe : sqlFunctionExpression) (vals : List Val) : B :=
  P.notIn sfe.Expression vals

/-- `func (sfe sqlFunctionExpression) Between(val RangeVal) RangeExpression`. -/
def sqlFunctionExpression.Between {B R : Type} (P : Producers B R) (sfe : sqlFunctionExpression) (val : Val) : R :=
  P.between sfe.Expression val

/-- `func (sfe sqlFunctionExpression) NotBetween(val RangeVal) RangeExpression`. -/
def sqlFunctionExpression.NotBetween {B R : Type} (P : Producers B R) (sfe : sqlFunctionExpression) (val : Val) : R :=
  P.notBetween sfe.Expression val

/-- `func (sfe sqlFunctionExpression) IsNull() BooleanExpression`. -/
def sqlFunctionExpression.IsNull {B R : Type} (P : Producers B R) (sfe : sqlFunctionExpression) : B :=
  P.is sfe.Expression (Val.nil)

/-- `func (sfe sqlFunctionExpression) IsNotNull() BooleanExpression`. -/
def sqlFunctionExpression.IsNotNull {B R : Type} (P : Producers B R) (sfe : sqlFunctionExpression) : B :=
  P.isNot sfe.Expression (Val.nil)

/-- `func (sfe sqlFunctionExpression) IsTrue() BooleanExpression`. -/
def sqlFunctionExpression.IsTrue {B R : Type} (P : Producers B R) (sfe : sqlFunctionExpression) : B :=
  P.is sfe.Expression (Val.bool true)

/-- `func (sfe sqlFunctionExpression) IsNotTrue() BooleanExpression`. -/
def sqlFunctionExpression.IsNotTrue {B R : Type} (P : Producers B R) (sfe : sqlFunctionExpression) : B :=
  P.isNot sfe.Expression (Val.bool true)

/-- `func (sfe sqlFunctionExpression) IsFalse() BooleanExpression`. -/
def sqlFunctionExpression.IsFalse {B R : Type} (P : Producers B R) (sfe : sqlFunctionExpression) : B :=
  P.is sfe.Expression (Val.bool false)

/-- `func (sfe sqlFunctionExpression) IsNotFalse() BooleanExpression`. -/
def sqlFunctionExpression.IsNotFalse {B R : Type} (P : Producers B R) (sfe : sqlFunctionExpression) : B :=
  P.isNot sfe.Expression (Val.bool false)

/-! ### The comparison methods of `bitwise` (`bitwise.go`) -/

/-- `func (b bitwise) Eq(val any) BooleanExpression`. -/
def bitwise.Eq {B R : Type} (P : Producers B R) (b : bitwise) (val : Val) : B :=
  P.eq b.Expression val

/-- `func (b bitwise) Neq(val any) BooleanExpression`. -/
def bitwise.Neq {B R : Type} (P : Producers B R) (b : bitwise) (val : Val) : B :=
  P.neq b.Expression val

/-- `func (b bitwise) Gt(val any) BooleanExpression`. -/
def bitwise.Gt {B R : Type} (P : Producers B R) (b : bitwise) (val : Val) : B :=
  P.gt b.Expression val

/-- `func (b bitwise) Gte(val any) BooleanExpression`. -/
def bitwise.Gte {B R : Type} (P : Producers B R) (b : bitwise) (val : Val) : B :=
  P.gte b.Expression val

/-- `func (b bitwise) Lt(val any) BooleanExpression`. -/
def bitwise.Lt {B R : Type} (P : Producers B R) (b : bitwise) (val : Val) : B :=
  P.lt b.Expression val

/-- `func (b bitwise) Lte(val any) BooleanExpression`. -/
def bitwise.Lte {B R : Type} (P : Producers B R) (b : bitwise) (val : Val) : B :=
  P.lte b.Expression val

/-- `func (b bitwise) Like(val any) BooleanExpression`. -/
def bitwise.Like {B R : Type} (P : Producers B R) (b : bitwise) (val : Val) : B :=
  P.like b.Expression val

/-- `func (b bitwise) NotLike(val any) BooleanExpression`. -/
def bitwise.NotLike {B R : Type} (P : Producers B R) (b : bitwise) (val : Val) : B :=
  P.notLike b.Expression val

/-- `func (b bitwise) ILike(val any) BooleanExpression`. -/
def bitwise.ILike {B R : Type} (P : Producers B R) (b : bitwise) (val : Val) : B :=
  P.iLike b.Expression val

/-- `func (b bitwise) NotILike(val any) BooleanExpression`. -/
def bitwise.NotILike {B R : Type} (P : Producers B R) (b : bitwise) (val : Val) : B :=
  P.notILike b.Expression val

/-- `func (b bitwise) RegexpLike(val any) BooleanExpression`. -/
def bitwise.RegexpLike {B R : Type} (P : Producers B R) (b : bitwise) (val : Val) : B :=
  P.regexpLike b.Expression val

/-- `func (b bitwise) RegexpNotLike(val any) BooleanExpression`. -/
def bitwise.RegexpNotLike {B R : Type} (P : Producers B R) (b : bitwise) (val : Val) : B :=
  P.regexpNotLike b.Expression val

/-- `func (b bitwise) RegexpILike(val any) BooleanExpression`. -/
def bitwise.RegexpILike {B R : Type} (P : Producers B R) (b : bitwise) (val : Val) : B :=
  P.regexpILike b.Expression val

/-- `func (b bitwise) RegexpNotILike(val any) BooleanExpression`. -/
def bitwise.RegexpNotILike {B R : Type} (P : Producers B R) (b : bitwise) (val : Val) : B :=
  P.regexpNotILike b.Expression val

/-- `func (b bitwise) Is(val any) BooleanExpression`. -/
def bitwise.Is {B R : Type} (P : Producers B R) (b : bitwise) (val : Val) : B :=
  P.is b.Expression val

/-- `func (b bitwise) IsNot(val any) BooleanExpression`. -/
def bitwise.IsNot {B R : Type} (P : Producers B R) (b : bitwise) (val : Val) : B :=
  P.isNot b.Expression val

/-- `func (b bitwise) In(vals ...any) BooleanExpression`. -/
def bitwise.In {B R : Type} (P : Producers B R) (b : bitwise) (vals : List Val) : B :=
  P.in_ b.Expression vals

/-- `func (b bitwise) NotIn(vals ...any) BooleanExpression`. -/
def bitwise.NotIn {B R : Type} (P : Producers B R) (b : bitwise) (vals : List Val) : B :=
  P.notIn b.Expression vals

/-- `func (b bitwise) Between(val RangeVal) RangeExpression`. -/
def bitwise.Between {B R : Type} (P : Producers B R) (b : bitwise) (val : Val) : R :=
  P.between b.Expression val

/-- `func (b bitwise) NotBetween(val RangeVal) RangeExpression`. -/
def bitwise.NotBetween {B R : Type} (P : Producers B R) (b : bitwise) (val : Val) : R :=
  P.notBetween b.Expression val

/-- `func (b bitwise) IsNull() BooleanExpression`. -/
def bitwise.IsNull {B R : Type} (P : Producers B R) (b : bitwise) : B :=
  P.is b.Expression (Val.nil)

/-- `func (b bitwise) IsNotNull() BooleanExpression`. -/
def bitwise.IsNotNull {B R : Type} (P : Producers B R) (b : bitwise) : B :=
  P.isNot b.Expression (Val.nil)

/-- `func (b bitwise) IsTrue() BooleanExpression`. -/
def bitwise.IsTrue {B R : Type} (P : Producers B R) (b : bitwise) : B :=
  P.is b.Expression (Val.bool true)

/-- `func (b bitwise) IsNotTrue() BooleanExpression`. -/
def bitwise.IsNotTrue {B R : Type} (P : Producers B R) (b : bitwise) : B :=
  P.isNot b.Expression (Val.bool true)

/-- `func (b bitwise) IsFalse() BooleanExpression`. -/
def bitwise.IsFalse {B R : Type} (P : Producers B R) (b : bitwise) : B :=
  P.is b.Expression (Val.bool false)

/-- `func (b bitwise) IsNotFalse() BooleanExpression`. -/
def bitwise.IsNotFalse {B R : Type} (P : Producers B R) (b : bitwise) : B :=
  P.isNot b.Expression (Val.bool false)

/-! ### The comparison methods of `sqlWindowFunctionExpression` (`window_func.go`) -/

/-- `func (swfe sqlWindowFunctionExpression) Eq(val any) BooleanExpression`. -/
def sqlWindowFunctionExpression.Eq {B R : Type} (P : Producers B R) (swfe : sqlWindowFunctionExpression) (val : Val) : B :=
  P.eq swfe.Expression val

/-- `func (swfe sqlWindowFunctionExpression) Neq(val any) BooleanExpression`. -/
def sqlWindowFunctionExpression.Neq {B R : Type} (P : Producers B R) (swfe : sqlWindowFunctionExpression) (val : Val) : B :=
  P.neq swfe.Expression val

/-- `func (swfe sqlWindowFunctionExpression) Gt(val any) BooleanExpression`. -/
def sqlWindowFunctionExpression.Gt {B R : Type} (P : Producers B R) (swfe : sqlWindowFunctionExpression) (val : Val) : B :=
  P.gt swfe.Expression val

/-- `func (swfe sqlWindowFunctionExpression) Gte(val any) BooleanExpression`. -/
def sqlWindowFunctionExpression.Gte {B R : Type} (P : Producers B R) (swfe : sqlWindowFunctionExpression) (val : Val) : B :=
  P.gte swfe.Expression val

/-- `func (swfe sqlWindowFunctionExpression) Lt(val any) BooleanExpression`. -/
def sqlWindowFunctionExpression.Lt {B R : Type} (P : Producers B R) (swfe : sqlWindowFunctionExpression) (val : Val) : B :=
  P.lt swfe.Expression val

/-- `func (swfe sqlWindowFunctionExpression) Lte(val any) BooleanExpression`. -/
def sqlWindowFunctionExpression.Lte {B R : Type} (P : Producers B R) (swfe : sqlWindowFunctionExpression) (val : Val) : B :=
  P.lte swfe.Expression val

/-- `func (swfe sqlWindowFunctionExpression) Like(val any) BooleanExpression`. -/
def sqlWindowFunctionExpression.Like {B R : Type} (P : Producers B R) (swfe : sqlWindowFunctionExpression) (val : Val) : B :=
  P.like swfe.Expression val

/-- `func (swfe sqlWindowFunctionExpression) NotLike(val any) BooleanExpression`. -/
def sqlWindowFunctionExpression.NotLike {B R : Type} (P : Producers B R) (swfe : sqlWindowFunctionExpression) (val : Val) : B :=
  P.notLike swfe.Expression val

/-- `func (swfe sqlWindowFunctionExpression) ILike(val any) BooleanExpression`. -/
def sqlWindowFunctionExpression.ILike {B R : Type} (P : Producers B R) (swfe : sqlWindowFunctionExpression) (val : Val) : B :=
  P.iLike swfe.Expression val

/-- `func (swfe sqlWindowFunctionExpression) NotILike(val any) BooleanExpression`. -/
def sqlWindowFunctionExpression.NotILike {B R : Type} (P : Producers B R) (swfe : sqlWindowFunctionExpression) (val : Val) : B :=
  P.notILike swfe.Expression val

/-- `func (swfe sqlWindowFunctionExpression) RegexpLike(val any) BooleanExpression`. -/
def sqlWindowFunctionExpression.RegexpLike {B R : Type} (P : Producers B R) (swfe : sqlWindowFunctionExpression) (val : Val) : B :=
  P.regexpLike swfe.Expression val

/-- `func (swfe sqlWindowFunctionExpression) RegexpNotLike(val any) BooleanExpression`. -/
def sqlWindowFunctionExpression.RegexpNotLike {B R : Type} (P : Producers B R) (swfe : sqlWindowFunctionExpression) (val : Val) : B :=
  P.regexpNotLike swfe.Expression val

/-- `func (swfe sqlWindowFunctionExpression) RegexpILike(val any) BooleanExpression`. -/
def sqlWindowFunctionExpression.RegexpILike {B R : Type} (P : Producers B R) (swfe : sqlWindowFunctionExpression) (val : Val) : B :=
  P.regexpILike swfe.Expression val

/-- `func (swfe sqlWindowFunctionExpression) RegexpNotILike(val any) BooleanExpression`. -/
def sqlWindowFunctionExpression.RegexpNotILike {B R : Type} (P : Producers B R) (swfe : sqlWindowFunctionExpression) (val : Val) : B :=
  P.regexpNotILike swfe.Expression val

/-- `func (swfe sqlWindowFunctionExpression) Is(val any) BooleanExpression`. -/
def sqlWindowFunctionExpression.Is {B R : Type} (P : Producers B R) (swfe : sqlWindowFunctionExpression) (val : Val) : B :=
  P.is swfe.Expression val

/-- `func (swfe sqlWindowFunctionExpression) IsNot(val any) BooleanExpression`. -/
def sqlWindowFunctionExpression.IsNot {B R : Type} (P : Producers B R) (swfe : sqlWindowFunctionExpression) (val : Val) : B :=
  P.isNot swfe.Expression val

/-- `func (swfe sqlWindowFunctionExpression) In(vals ...any) BooleanExpression`. -/
def sqlWindowFunctionExpression.In {B R : Type} (P : Producers B R) (swfe : sqlWindowFunctionExpression) (vals : List Val) : B :=
  P.in_ swfe.Expression vals

/-- `func (swfe sqlWindowFunctionExpression) NotIn(vals ...any) BooleanExpression`. -/
def sqlWindowFunctionExpression.NotIn {B R : Type} (P : Producers B R) (swfe : sqlWindowFunctionExpression) (vals : List Val) : B :=
  P.notIn swfe.Expression vals

/-- `func (swfe sqlWindowFunctionExpression) Between(val RangeVal) RangeExpression`. -/
def sqlWindowFunctionExpression.Between {B R : Type} (P : Producers B R) (swfe : sqlWindowFunctionExpression) (val : Val) : R :=
  P.between swfe.Expression val

/-- `func (swfe sqlWindowFunctionExpression) NotBetween(val RangeVal) RangeExpression`. -/
def sqlWindowFunctionExpression.NotBetween {B R : Type} (P : Producers B R) (swfe : sqlWindowFunctionExpression) (val : Val) : R :=
  P.notBetween swfe.Expression val

/-- `func (swfe sqlWindowFunctionExpression) IsNull() BooleanExpression`. -/
def sqlWindowFunctionExpression.IsNull {B R : Type} (P : Producers B R) (swfe : sqlWindowFunctionExpression) : B :=
  P.is swfe.Expression (Val.nil)

/-- `func (swfe sqlWindowFunctionExpression) IsNotNull() BooleanExpression`. -/
def sqlWindowFunctionExpression.IsNotNull {B R : Type} (P : Producers B R) (swfe : sqlWindowFunctionExpression) : B :=
  P.isNot swfe.Expression (Val.nil)

/-- `func (swfe sqlWindowFunctionExpression) IsTrue() BooleanExpression`. -/
def sqlWindowFunctionExpression.IsTrue {B R : Type} (P : Producers B R) (swfe : sqlWindowFunctionExpression) : B :=
  P.is swfe.Expression (Val.bool true)

/-- `func (swfe sqlWindowFunctionExpression) IsNotTrue() BooleanExpression`. -/
def sqlWindowFunctionExpression.IsNotTrue {B R : Type} (P : Producers B R) (swfe : sqlWindowFunctionExpression) : B :=
  P.isNot swfe.Expression (Val.bool true)

/-- `func (swfe sqlWindowFunctionExpression) IsFalse() BooleanExpression`. -/
def sqlWindowFunctionExpression.IsFalse {B R : Type} (P : Producers B R) (swfe : sqlWindowFunctionExpression) : B :=
  P.is swfe.Expression (Val.bool false)

/-- `func (swfe sqlWindowFunctionExpression) IsNotFalse() BooleanExpression`. -/
def sqlWindowFunctionExpression.IsNotFalse {B R : Type} (P : Producers B R) (swfe : sqlWindowFunctionExpression) : B :=
  P.isNot swfe.Expression (Val.bool false)

/-- An instance of the producers for examples: a node is the name of the
operator with the left-hand side and the values. -/
def demoProducers : Producers (String × Val × List Val) (String × Val × List Val) where
  eq := fun l v => ("eq", l, [v])
  neq := fun l v => ("neq", l, [v])
  gt := fun l v => ("gt", l, [v])
  gte := fun l v => ("gte", l, [v])
  lt := fun l v => ("lt", l, [v])
  lte := fun l v => ("lte", l, [v])
  like := fun l v => ("like", l, [v])
  notLike := fun l v => ("notLike", l, [v])
  iLike := fun l v => ("iLike", l, [v])
  notILike := fun l v => ("notILike", l, [v])
  regexpLike := fun l v => ("regexpLike", l, [v])
  regexpNotLike := fun l v => ("regexpNotLike", l, [v])
  regexpILike := fun l v => ("regexpILike", l, [v])
  regexpNotILike := fun l v => ("regexpNotILike", l, [v])
  is := fun l v => ("is", l, [v])
  isNot := fun l v => ("isNot", l, [v])
  in_ := fun l vs => ("in", l, vs)
  notIn := fun l vs => ("notIn", l, vs)
  between := fun l v => ("between", l, [v])
  notBetween := fun l v => ("notBetween", l, [v])

end exp

/-! ## The column map: the depth of the recursion -/

namespace util

end util

/-! ## The SQL writer and the rendering of a statement

The writer (`internal/sb`) and the renderer of the dialects (`sqlgen`,
`sql_dialect.go`) are not among the sources. -/

namespace builder

open exp

/-- Modelled from the spec: the options of a dialect that the placeholders
depend on (`SQLDialectOptions`): the text of "a dialect placeholder token
(fixed `?` or incrementing `$N`)" and whether the number follows it; `rest`
stands for every other option. -/
structure SQLDialectOptions where
  PlaceHolderFragment : String
  IncludePlaceholderNum : Bool
  rest : Nat
  deriving DecidableEq, Repr

/-- Modelled from the spec: `DefaultDialectOptions()`; the default dialect has
"`?` placeholders". -/
def DefaultDialectOptions : SQLDialectOptions :=
  { PlaceHolderFragment := "?", IncludePlaceholderNum := false, rest := 0 }

/-- `func DialectOptions() *builder.SQLDialectOptions` of
`dialect/postgres/postgres.go`; the variable `do` of the source is `opts`. -/
def postgres.DialectOptions : SQLDialectOptions :=
  let opts := DefaultDialectOptions
  let opts := { opts with PlaceHolderFragment := "$" }
  let opts := { opts with IncludePlaceholderNum := true }
  opts

/-- Modelled from the spec: the placeholder token of a dialect for the
argument at the position `n`: "fixed `?` or incrementing `$N`". -/
def placeHolder (opts : SQLDialectOptions) (n : Nat) : String :=
  if opts.IncludePlaceholderNum then opts.PlaceHolderFragment ++ toString n
  else opts.PlaceHolderFragment

/-- Modelled from the spec: writing text to the writer; an error recorded
before "short-circuits further meaningful writes". -/
def SQLBuilder.WriteStrings (b : SQLBuilder) (s : String) : SQLBuilder :=
  if b.err = none then { b with buf := b.buf ++ s } else b

/-- Modelled from the spec: `WriteArg(value)`, which "in interpolated mode,
encodes `value` inline using dialect literal rules; in prepared mode, emits a
dialect placeholder token (fixed `?` or incrementing `$N`) and appends `value`
to the argument list.  A per-writer counter tracks the next placeholder
number".  `encode` is the literal rule of the dialect; a value it cannot
encode is a render-time error. -/
def SQLBuilder.WriteArg (opts : SQLDialectOptions) (encode : Val → Except GoError String)
    (b : SQLBuilder) (value : Val) : SQLBuilder :=
  if b.err = none then
    if b.isPrepared then
      { b with
        buf := b.buf ++ placeHolder opts b.currentArgPosition
        args := b.args ++ [value]
        currentArgPosition := b.currentArgPosition + 1 }
    else
      match encode value with
      | .ok s => { b with buf := b.buf ++ s }
      | .error e => b.SetError (some e)
  else b

/-- Modelled from the spec: what the renderer of a dialect sends to the writer
for a statement or a part of one: nothing, text of the skeleton (keywords,
quoted identifiers, punctuation), a literal value, written with `WriteArg`, a
render-time error, recorded with `SetError`, or a first part followed by a
second.  A common table expression or a sub-query is a part like every other:
it goes to the same writer. -/
inductive Emit where
  | empty
  | text (s : String)
  | arg (value : Val)
  | error (err : GoError)
  | seq (first : Emit) (second : Emit)
  deriving DecidableEq, Repr

/-- Modelled from the spec: the walk of the renderer, sending the parts to the
writer from left to right. -/
def Emit.render (opts : SQLDialectOptions) (encode : Val → Except GoError String) :
    Emit → SQLBuilder → SQLBuilder
  | Emit.empty, b => b
  | Emit.text s, b => b.WriteStrings s
  | Emit.arg value, b => b.WriteArg opts encode value
  | Emit.error err, b => b.SetError (some err)
  | Emit.seq first second, b => second.render opts encode (first.render opts encode b)

/-- The literal values of a statement, from left to right. -/
def Emit.values : Emit → List Val
  | Emit.arg value => [value]
  | Emit.seq first second => first.values ++ second.values
  | _ => []

/-- Whether the renderer records no error of its own for the statement. -/
def Emit.noError : Emit → Bool
  | Emit.error _ => false
  | Emit.seq first second => first.noError && second.noError
  | _ => true

/-- A piece of the text of a statement: text of the skeleton, or the token
that stands at the place of a literal value, with the value. -/
inductive Piece where
  | skeleton (s : String)
  | token (s : String) (value : Val)
  deriving DecidableEq, Repr

/-- The text of a piece. -/
def Piece.str : Piece → String
  | Piece.skeleton s => s
  | Piece.token s _ => s

/-- The tokens among the pieces, each with its value, from left to right. -/
def tokensOf : List Piece → List (String × Val)
  | [] => []
  | Piece.skeleton _ :: rest => tokensOf rest
  | Piece.token s value :: rest => (s, value) :: tokensOf rest

/-- The pieces with every token taken out: the skeleton, with a mark at the
place of each literal value. -/
def skeletonOf : List Piece → List (Option String)
  | [] => []
  | Piece.skeleton s :: rest => some s :: skeletonOf rest
  | Piece.token _ _ :: rest => none :: skeletonOf rest

/-- The pieces of a statement when the value with the number `n`, counted
from `k` on, is written as `token n value`. -/
def Emit.pieces (token : Nat → Val → String) : Emit → Nat → List Piece
  | Emit.text s, _ => [Piece.skeleton s]
  | Emit.arg value, k => [Piece.token (token k value) value]
  | Emit.seq first second, k =>
    first.pieces token k ++ second.pieces token (k + first.values.length)
  | _, _ => []

/-- The text that the literal rule gives for a value; nothing for a value
that it cannot encode. -/
def encoded (encode : Val → Except GoError String) (v : Val) : String :=
  match encode v with
  | .ok s => s
  | .error _ => ""

/-- The text that the pieces make. -/
def joinPieces (ps : List Piece) : String := String.join (ps.map Piece.str)

/-- Modelled from the spec: the renderer of the dialects.  `options` gives the
options of a dialect and `encode` its literal rules; `insert` and `truncate`
are the statement-shaped walks, which give what is sent to the writer for the
clauses of a statement, reading the datasets that the clauses point to from
the heap.  The walk is the same in both modes of the writer. -/
structure Renderer where
  options : SQLDialect → SQLDialectOptions
  encode : SQLDialectOptions → Val → Except GoError String
  insert : SQLDialectOptions → Heap → InsertClauses → Emit
  truncate : SQLDialectOptions → Heap → TruncateClauses → Emit

/-- Modelled from the spec: the method `ToInsertSQL` of a dialect. -/
def Renderer.ToInsertSQL (R : Renderer) (dl : SQLDialect) (h : Heap) (b : SQLBuilder)
    (clauses : InsertClauses) : Except GoError SQLBuilder :=
  .ok ((R.insert (R.options dl) h clauses).render (R.options dl) (R.encode (R.options dl)) b)

/-- Modelled from the spec: the method `ToTruncateSQL` of a dialect. -/
def Renderer.ToTruncateSQL (R : Renderer) (dl : SQLDialect) (h : Heap) (b : SQLBuilder)
    (clauses : TruncateClauses) : Except GoError SQLBuilder :=
  .ok ((R.truncate (R.options dl) h clauses).render (R.options dl) (R.encode (R.options dl)) b)

/-- The environment of the datasets with the renderer `R`. -/
def Renderer.deps (R : Renderer) (W : Deps) : Deps :=
  { W with ToInsertSQL := R.ToInsertSQL, ToTruncateSQL := R.ToTruncateSQL }

/-- A literal rule for examples: strings in single quotes, integers in
decimal, and no rule for any other value. -/
def demoEncode (v : Val) : Except GoError String :=
  match v with
  | Val.str s => .ok ("'" ++ s ++ "'")
  | Val.int i => .ok (toString i)
  | _ => .error (GoError.builderError "builder_encode_error: Unable to encode value")

/-- What is sent to the writer for
`Insert("items").Rows(Record{"address": "111 Test Addr", "name": "Test1"})`. -/
def demoEmit : Emit :=
  Emit.seq (Emit.text "INSERT INTO \"items\" (\"address\", \"name\") VALUES (")
    (Emit.seq (Emit.arg (Val.str "111 Test Addr"))
      (Emit.seq (Emit.text ", ") (Emit.seq (Emit.arg (Val.str "Test1")) (Emit.text ")"))))

/-- A renderer for examples: the dialect 1 is postgres and every other
dialect the default one, and every INSERT is the example statement. -/
def demoRenderer : Renderer where
  options := fun dl => if dl = 1 then postgres.DialectOptions else DefaultDialectOptions
  encode := fun _ => demoEncode
  insert := fun _ _ _ => demoEmit
  truncate := fun _ _ _ => Emit.text "TRUNCATE"

end builder

/-! ## The rows of struct values

The functions that read the fields of a struct value through a column map
(`internal/util/reflect.go`, `exp/record.go`) are not among the sources. -/

namespace util

/-- A Go value as `reflect` shows it to the column mapper: a value that is
neither a struct nor a pointer, a nil pointer, a pointer to a value, or a
struct with the values of its fields in declaration order. -/
inductive RValue where
  | scalar (v : exp.Val)
  | nilPtr
  | ptr (target : RValue)
  | struct (fields : List RValue)

mutual
/-- The value is of the type with the handle `t`. -/
def RValue.hasType (E : Env) : RValue → Nat → Bool
  | RValue.scalar _, t => (E.types t).kind == Kind.Other
  | RValue.nilPtr, t => (E.types t).kind == Kind.Ptr
  | RValue.ptr target, t => (E.types t).kind == Kind.Ptr && target.hasType E (E.types t).elem
  | RValue.struct fields, t =>
    (E.types t).kind == Kind.Struct && haveTypes E fields (E.types t).fields
/-- The values are of the types of the fields, one for one. -/
def haveTypes (E : Env) : List RValue → List StructField → Bool
  | [], [] => true
  | v :: vs, f :: fs => v.hasType E f.Typ && haveTypes E vs fs
  | _, _ => false
end

/-- The library call `v.Field(i)` of `reflect`; it panics on a value that is
not a struct and on an index out of range. -/
def RValue.Field : RValue → Int → Except Fail RValue
  | RValue.struct fields, i =>
    if 0 ≤ i then
      match fields[i.toNat]? with
      | some f => .ok f
      | none => .error (Fail.panic "reflect: Field index out of range")
    else .error (Fail.panic "reflect: Field index out of range")
  | _, _ => .error (Fail.panic "reflect: call of reflect.Value.Field on a value that is no struct")

/-- Modelled from the spec: `SafeGetFieldByIndex`, reading the field at the
end of an index path; the pointers on the way are followed, and behind a nil
pointer the field is not available, so that "a struct with a nil embedded
pointer field must contribute zero columns from that embedded type to an
INSERT/UPDATE, with no panic". -/
def SafeGetFieldByIndex : RValue → List Int → Except Fail (Option RValue)
  | v, [] => .ok (some v)
  | v, i :: rest =>
    match v.Field i with
    | .error e => .error e
    | .ok f =>
      if rest = [] then .ok (some f)
      else
        match f with
        | RValue.nilPtr => .ok none
        | RValue.ptr target => SafeGetFieldByIndex target rest
        | f => SafeGetFieldByIndex f rest

/-- Modelled from the spec: whether a column is left out of an INSERT row or
of an UPDATE assignment list, by the directive tags "skip-on-insert,
skip-on-update". -/
def shouldSkipField (f : ColumnData) (forInsert forUpdate : Bool) : Bool :=
  (forInsert && !f.ShouldInsert) || (forUpdate && !f.ShouldUpdate)

/-- Modelled from the spec: the loop of `recordFromStruct` over the columns,
which leaves out the columns that are skipped and those whose field is not
available. -/
def recordCols (cm : ColumnMap) (value : RValue) (forInsert forUpdate : Bool) :
    List String → Except Fail (List (String × RValue))
  | [] => .ok []
  | col :: cols =>
    match cm.get? col with
    | none => recordCols cm value forInsert forUpdate cols
    | some f =>
      if shouldSkipField f forInsert forUpdate then
        recordCols cm value forInsert forUpdate cols
      else
        match SafeGetFieldByIndex value f.FieldIndex with
        | .error e => .error e
        | .ok none => recordCols cm value forInsert forUpdate cols
        | .ok (some fieldValue) =>
          match recordCols cm value forInsert forUpdate cols with
          | .error e => .error e
          | .ok r => .ok ((col, fieldValue) :: r)

/-- Modelled from the spec: the row that a struct value gives to an INSERT or
the assignments that it gives to an UPDATE: for every column of the column
map of its type, in the order of `Cols()`, that is not left out, the value of
the field at the field index of the column, when the field is available.  The
values are the field values as they are. -/
def recordFromStruct (cm : ColumnMap) (value : RValue) (forInsert forUpdate : Bool) :
    Except Fail (List (String × RValue)) :=
  recordCols cm value forInsert forUpdate cm.Cols

/-- An index path leads from the struct type `t` through fields that exist,
pointers followed, to a field. -/
def validPath (E : Env) : Nat → List Int → Bool
  | _, [] => false
  | t, i :: rest =>
    (E.types t).kind == Kind.Struct && decide (0 ≤ i) &&
      match (E.types t).fields[i.toNat]? with
      | none => false
      | some f => if rest = [] then true else validPath E (derefType E f.Typ) rest

/-- A type table for examples with an embedded pointer.  Type 0 is
`User = struct { *Address; FirstName string `db:"firstname"`; LastName string `db:"lastname"` }`,
type 1 is `*Address`, type 2 is
`Address = struct { Street string `db:"street"`; State string `db:"state"` }`
and every other handle is `string`. -/
def userTypes : Nat → RType
  | 0 => ⟨Kind.Struct, 0, [⟨"Address", "", 1, "", [], true⟩,
      ⟨"FirstName", "", 9, "firstname", [], false⟩, ⟨"LastName", "", 9, "lastname", [], false⟩]⟩
  | 1 => ⟨Kind.Ptr, 2, []⟩
  | 2 => ⟨Kind.Struct, 0, [⟨"Street", "", 9, "street", [], false⟩,
      ⟨"State", "", 9, "state", [], false⟩]⟩
  | _ => ⟨Kind.Other, 0, []⟩

/-- The example environment with the embedded pointer. -/
def userEnv : Env := { demoEnv with types := userTypes }

/-- The value `User{FirstName: "Greg", LastName: "Farley"}`, with a nil
embedded pointer. -/
def userNil : RValue :=
  RValue.struct [RValue.nilPtr, RValue.scalar (exp.Val.str "Greg"),
    RValue.scalar (exp.Val.str "Farley")]

/-- The value
`User{Address: &Address{Street: "111 Test Addr", State: "NY"}, FirstName: "Greg", LastName: "Farley"}`. -/
def userFull : RValue :=
  RValue.struct [RValue.ptr (RValue.struct [RValue.scalar (exp.Val.str "111 Test Addr"),
      RValue.scalar (exp.Val.str "NY")]),
    RValue.scalar (exp.Val.str "Greg"), RValue.scalar (exp.Val.str "Farley")]

/-- The column map of the example type `User`. -/
def userColumnMap : ColumnMap :=
  [("firstname", ⟨"firstname", [1], true, true, false, 9⟩),
   ("lastname", ⟨"lastname", [2], true, true, false, 9⟩),
   ("street", ⟨"street", [0, 0], true, true, false, 9⟩),
   ("state", ⟨"state", [0, 1], true, true, false, 9⟩)]

end util

/-! ## Package `exp`: the components of an identifier -/

namespace exp

open builder

/-- The column of an identifier is set: it is neither nil nor the empty
string. -/
def identifier.colSet (i : identifier) : Bool :=
  decide (i.col ≠ Val.nil ∧ i.col ≠ Val.str "")

/-- The number of the components of an identifier that are set: the schema
and the table when they are not empty, and the column when it is set. -/
def identifier.setCount (i : identifier) : Nat :=
  (if i.schema ≠ "" then 1 else 0) + (if i.table ≠ "" then 1 else 0) +
    (if i.colSet then 1 else 0)

end exp

/-! ## Running a dataset on its executor

The executor of a dataset is a session of the package `sqlx`, which is not
among the sources.  A session is an address of the model, and what its methods
do is the parameter `Session`; a context is a number, `contextBackground` the
one of `context.Background()`.  A method of a session may write the
destination `v` that it is given; the model keeps only the error it returns. -/

namespace builder

open exp

/-- The context that `context.Background()` returns. -/
def contextBackground : Nat := 0

/-- What the methods of `sqlx.Session` do that the datasets call: the session,
the context, for the queries the destination, the statement and its
arguments.  `ExecCtx` returns a result (nil or a handle) and an error; each of
the methods may panic. -/
structure Session where
  ExecCtx : Nat → Nat → String → List Val → Except GoError (Option Nat × Option GoError)
  QueryRowCtx : Nat → Nat → Val → String → List Val → Except GoError (Option GoError)
  QueryRowPartialCtx : Nat → Nat → Val → String → List Val → Except GoError (Option GoError)
  QueryRowsCtx : Nat → Nat → Val → String → List Val → Except GoError (Option GoError)
  QueryRowsPartialCtx : Nat → Nat → Val → String → List Val → Except GoError (Option GoError)

/-- The call of a method of `id.executor`: on the nil interface value it
panics. -/
def onExecutor {α : Type} (executor : Option Nat) (call : Nat → Except GoError α) :
    Except GoError α :=
  match executor with
  | none => .error nilDereference
  | some s => call s

/-- `func (id *InsertDataset) ExecCtx(ctx context.Context) (sql.Result, error)`. -/
def InsertDataset.ExecCtx (W : Deps) (S : Session) (h : Heap) (id : Nat) (ctx : Nat) :
    Except GoError (Option Nat × Option GoError) := do
  let (query, args, err) ← InsertDataset.buildSQL W h id
  if err ≠ none then
    pure (none, err)
  else do
    let d ← h.insertAt id
    onExecutor d.executor (fun s => S.ExecCtx s ctx query args)

/-- `func (id *InsertDataset) Exec() (sql.Result, error)`. -/
def InsertDataset.Exec (W : Deps) (S : Session) (h : Heap) (id : Nat) :
    Except GoError (Option Nat × Option GoError) :=
  InsertDataset.ExecCtx W S h id contextBackground

/-- `func (id *InsertDataset) QueryRowCtx(ctx context.Context, v any) error`. -/
def InsertDataset.QueryRowCtx (W : Deps) (S : Session) (h : Heap) (id : Nat) (ctx : Nat)
    (v : Val) : Except GoError (Option GoError) := do
  let (query, args, err) ← InsertDataset.buildSQL W h id
  if err ≠ none then
    pure err
  else do
    let d ← h.insertAt id
    onExecutor d.executor (fun s => S.QueryRowCtx s ctx v query args)

/-- `func (id *InsertDataset) QueryRow(v any) error`. -/
def InsertDataset.QueryRow (W : Deps) (S : Session) (h : Heap) (id : Nat) (v : Val) :
    Except GoError (Option GoError) :=
  InsertDataset.QueryRowCtx W S h id contextBackground v

/-- `func (id *InsertDataset) QueryRowPartialCtx(ctx context.Context, v any) error`. -/
def InsertDataset.QueryRowPartialCtx (W : Deps) (S : Session) (h : Heap) (id : Nat) (ctx : Nat)
    (v : Val) : Except GoError (Option GoError) := do
  let (query, args, err) ← InsertDataset.buildSQL W h id
  if err ≠ none then
    pure err
  else do
    let d ← h.insertAt id
    onExecutor d.executor (fun s => S.QueryRowPartialCtx s ctx v query args)

/-- `func (id *InsertDataset) QueryRowPartial(v any) error`. -/
def InsertDataset.QueryRowPartial (W : Deps) (S : Session) (h : Heap) (id : Nat) (v : Val) :
    Except GoError (Option GoError) :=
  InsertDataset.QueryRowPartialCtx W S h id contextBackground v

/-- `func (id *InsertDataset) QueryRowsCtx(ctx context.Context, v any) error`. -/
def InsertDataset.QueryRowsCtx (W : Deps) (S : Session) (h : Heap) (id : Nat) (ctx : Nat)
    (v : Val) : Except GoError (Option GoError) := do
  let (query, args, err) ← InsertDataset.buildSQL W h id
  if err ≠ none then
    pure err
  else do
    let d ← h.insertAt id
    onExecutor d.executor (fun s => S.QueryRowsCtx s ctx v query args)

/-- `func (id *InsertDataset) QueryRows(v any) error`. -/
def InsertDataset.QueryRows (W : Deps) (S : Session) (h : Heap) (id : Nat) (v : Val) :
    Except GoError (Option GoError) :=
  InsertDataset.QueryRowsCtx W S h id contextBackground v

/-- `func (id *InsertDataset) QueryRowsPartialCtx(ctx context.Context, v any) error`. -/
def InsertDataset.QueryRowsPartialCtx (W : Deps) (S : Session) (h : Heap) (id : Nat) (ctx : Nat)
    (v : Val) : Except GoError (Option GoError) := do
  let (query, args, err) ← InsertDataset.buildSQL W h id
  if err ≠ none then
    pure err
  else do
    let d ← h.insertAt id
    onExecutor d.executor (fun s => S.QueryRowsPartialCtx s ctx v query args)

/-- `func (id *InsertDataset) QueryRowsPartial(v any) error`. -/
def InsertDataset.QueryRowsPartial (W : Deps) (S : Session) (h : Heap) (id : Nat) (v : Val) :
    Except GoError (Option GoError) :=
  InsertDataset.QueryRowsPartialCtx W S h id contextBackground v

/-- `func Truncate(table ...any) *TruncateDataset`. -/
def Truncate (W : Deps) (h : Heap) (table : List Val) : Except GoError (Nat × Heap) :=
  let (td, h) := newTruncateDataset W h "default" none
  TruncateDataset.Table W h td table

/-- `func (td *TruncateDataset) TruncateCtx(ctx context.Context) (sql.Result, error)`. -/
def TruncateDataset.TruncateCtx (W : Deps) (S : Session) (h : Heap) (td : Nat) (ctx : Nat) :
    Except GoError (Option Nat × Option GoError) := do
  let d ← h.truncateAt td
  if d.executor = none then
    pure (none, some ErrExecutorNotFoundError)
  else do
    let b ← TruncateDataset.truncateSQLBuilder W h td
    let (query, args, err) := b.ToSQL
    if err ≠ none then
      pure (none, err)
    else
      onExecutor d.executor (fun s => S.ExecCtx s ctx query args)

/-- `func (td *TruncateDataset) Truncate() (sql.Result, error)`. -/
def TruncateDataset.Truncate (W : Deps) (S : Session) (h : Heap) (td : Nat) :
    Except GoError (Option Nat × Option GoError) :=
  TruncateDataset.TruncateCtx W S h td contextBackground

/-- A session for examples: every method panics when it is called, like a mock
on which no call is expected. -/
def demoSession : Session where
  ExecCtx := fun _ _ _ _ => .error (GoError.text "unexpected call of ExecCtx")
  QueryRowCtx := fun _ _ _ _ _ => .error (GoError.text "unexpected call of QueryRowCtx")
  QueryRowPartialCtx := fun _ _ _ _ _ =>
    .error (GoError.text "unexpected call of QueryRowPartialCtx")
  QueryRowsCtx := fun _ _ _ _ _ => .error (GoError.text "unexpected call of QueryRowsCtx")
  QueryRowsPartialCtx := fun _ _ _ _ _ =>
    .error (GoError.text "unexpected call of QueryRowsPartialCtx")

end builder

/-! ## Example types with struct-typed fields and with two embedded structs -/

namespace util

/-- A type table for examples with struct-typed fields.  Type 0 is
`Order = struct { Id int `db:"id"`; Address Address `db:"address"`; Created time.Time `db:"created"`; Billing *Address `db:"billing"` }`,
type 1 is `Address = struct { Street string `db:"street"`; State string `db:"state"` }`,
type 2 is `time.Time`, a struct whose three fields `wall`, `ext` and `loc` are
not exported, type 3 is `*Address`, and every other handle is `int`. -/
def orderTypes : Nat → RType
  | 0 => ⟨Kind.Struct, 0, [⟨"Id", "", 9, "id", [], false⟩, ⟨"Address", "", 1, "address", [], false⟩,
      ⟨"Created", "", 2, "created", [], false⟩, ⟨"Billing", "", 3, "billing", [], false⟩]⟩
  | 1 => ⟨Kind.Struct, 0, [⟨"Street", "", 9, "street", [], false⟩,
      ⟨"State", "", 9, "state", [], false⟩]⟩
  | 2 => ⟨Kind.Struct, 0, [⟨"wall", "time", 9, "", [], false⟩, ⟨"ext", "time", 9, "", [], false⟩,
      ⟨"loc", "time", 9, "", [], false⟩]⟩
  | 3 => ⟨Kind.Ptr, 1, []⟩
  | _ => ⟨Kind.Other, 0, []⟩

/-- The example environment with the struct-typed fields. -/
def orderEnv : Env := { demoEnv with types := orderTypes }

end util

namespace util

/-- The column map of the example type `Address` under the field `Address` of
`Order`. -/
def addressColumnMap : ColumnMap :=
  [("street", ⟨"street", [1, 0], true, true, false, 9⟩),
   ("state", ⟨"state", [1, 1], true, true, false, 9⟩)]

/-- The column map of the example type `Order`. -/
def orderColumnMap : ColumnMap :=
  [("id", ⟨"id", [0], true, true, false, 9⟩),
   ("created", ⟨"created", [2], true, true, false, 2⟩),
   ("address.street", ⟨"address.street", [1, 0], true, true, false, 9⟩),
   ("address.state", ⟨"address.state", [1, 1], true, true, false, 9⟩),
   ("billing.street", ⟨"billing.street", [3, 0], true, true, false, 9⟩),
   ("billing.state", ⟨"billing.state", [3, 1], true, true, false, 9⟩)]

end util

namespace util

/-- A type table for examples with two embedded structs that promote the same
column.  Type 0 is `struct { First; Second }`, type 1 is
`First = struct { Id int `db:"id"`; A int `db:"a"` }`, type 2 is
`Second = struct { Id int `db:"id"`; B int `db:"b"` }`, and every other handle
is `int`. -/
def twinTypes : Nat → RType
  | 0 => ⟨Kind.Struct, 0, [⟨"First", "", 1, "", [], true⟩, ⟨"Second", "", 2, "", [], true⟩]⟩
  | 1 => ⟨Kind.Struct, 0, [⟨"Id", "", 9, "id", [], false⟩, ⟨"A", "", 9, "a", [], false⟩]⟩
  | 2 => ⟨Kind.Struct, 0, [⟨"Id", "", 9, "id", [], false⟩, ⟨"B", "", 9, "b", [], false⟩]⟩
  | _ => ⟨Kind.Other, 0, []⟩

/-- The example environment with the two embedded structs. -/
def twinEnv : Env := { demoEnv with types := twinTypes }

end util

namespace util

/-- A type table for examples with a struct-typed field next to a direct field
whose column name has a dot.  Type 0 is
`struct { Address Address `db:"address"`; Street string `db:"address.street"` }`,
type 1 is `Address = struct { Street string `db:"street"`; State string `db:"state"` }`,
and every other handle is `string`. -/
def shadowTypes : Nat → RType
  | 0 => ⟨Kind.Struct, 0, [⟨"Address", "", 1, "address", [], false⟩,
      ⟨"Street", "", 9, "address.street", [], false⟩]⟩
  | 1 => ⟨Kind.Struct, 0, [⟨"Street", "", 9, "street", [], false⟩,
      ⟨"State", "", 9, "state", [], false⟩]⟩
  | _ => ⟨Kind.Other, 0, []⟩

/-- The example environment with the dotted column name. -/
def shadowEnv : Env := { demoEnv with types := shadowTypes }

end util

namespace util

/-- The column map of the example type with the dotted column name. -/
def shadowColumnMap : ColumnMap :=
  [("address.street", ⟨"address.street", [1], true, true, false, 9⟩),
   ("address.state", ⟨"address.state", [0, 1], true, true, false, 9⟩)]

end util

/-! ## Slices in memory, and the fields along an index path

`concatFieldIndexes` is the one place of `column_map.go` that builds a slice
with `make` and fills it with `append`.  To state that its result shares no
memory with its arguments, slices are modelled here with their backing arrays:
a slice is a window into an array of the memory.  Everywhere else the model
works with the list of the elements of a slice. -/

namespace util

namespace slices

/-- A slice of ints: the backing array it points into, the position of its
first element there, its length and its capacity. -/
structure Slice where
  array : Nat
  offset : Nat
  len : Nat
  cap : Nat
  deriving DecidableEq, Repr

/-- The memory: the backing arrays, by address. -/
abbrev Memory := List (List Int)

/-- The elements of a slice. -/
def Slice.elems (m : Memory) (s : Slice) : List Int :=
  ((m.getD s.array []).drop s.offset).take s.len

/-- The slice is empty (as the nil slice is) or points into an array of the
memory. -/
def Slice.inMemory (m : Memory) (s : Slice) : Prop := s.len = 0 ∨ s.array < m.length

instance (m : Memory) (s : Slice) : Decidable (s.inMemory m) := by
  unfold Slice.inMemory; infer_instance

/-- The built-in `make([]int, length, capacity)`: a new zeroed array. -/
def make (m : Memory) (length capacity : Nat) : Slice × Memory :=
  ({ array := m.length, offset := 0, len := length, cap := capacity },
    m ++ [List.replicate capacity 0])

/-- The array `a` with the values `xs` written from position `pos` on. -/
def writeAt (a : List Int) (pos : Nat) (xs : List Int) : List Int :=
  a.take pos ++ xs ++ a.drop (pos + xs.length)

/-- The built-in `append(s, xs...)`: when the capacity suffices the values are
written into the backing array behind the elements of `s`, otherwise the
elements and the values go to a new array (whose capacity is here just the
length needed). -/
def append (m : Memory) (s : Slice) (xs : List Int) : Slice × Memory :=
  if s.len + xs.length ≤ s.cap then
    ({ s with len := s.len + xs.length },
      m.set s.array (writeAt (m.getD s.array []) (s.offset + s.len) xs))
  else
    ({ array := m.length, offset := 0, len := s.len + xs.length, cap := s.len + xs.length },
      m ++ [s.elems m ++ xs])

/-- `func concatFieldIndexes(fieldIndexPath, fieldIndex []int) []int` on slices
in memory. -/
def concatFieldIndexes (m : Memory) (fieldIndexPath fieldIndex : Slice) : Slice × Memory :=
  let (fieldIndexes, m) := make m 0 (fieldIndexPath.len + fieldIndex.len)
  let (fieldIndexes, m) := append m fieldIndexes (fieldIndexPath.elems m)
  append m fieldIndexes (fieldIndex.elems m)

/-- A memory for examples: the array `[7, 1, 2, 9]` at address 0 and the array
`[3, 0]` at address 1. -/
def demoMemory : Memory := [[7, 1, 2, 9], [3, 0]]

/-- The slice `[1, 2]` of the example memory, with spare capacity behind it. -/
def demoPath : Slice := { array := 0, offset := 1, len := 2, cap := 3 }

/-- The slice `[3]` of the example memory. -/
def demoIndex : Slice := { array := 1, offset := 0, len := 1, cap := 2 }

end slices

/-- The fields along a path of positions that starts at the struct type `t`,
pointers followed: each field as `t.Field(i)` returns it, with the index path
`[i]`. -/
def fieldsAlong (E : Env) : Nat → List Nat → Option (List StructField)
  | _, [] => some []
  | t, i :: rest =>
    if (E.types t).kind = Kind.Struct then
      match (E.types t).fields[i]? with
      | none => none
      | some f =>
        match fieldsAlong E (derefType E f.Typ) rest with
        | none => none
        | some fs => some ({ f with Index := [(i : Int)] } :: fs)
    else none

end util

/-! ## Example types with `builder` options and with a repeated column name -/

namespace util

/-- An instance of the `tag` operations for examples with two tag keys: the raw
struct tag is written `db-options|builder-options` (or just the `db` options),
the options of a key are values separated by commas, and `Contains` looks for
a value among them. -/
def flagTag : TagOps where
  New := fun key raw =>
    match exp.stringsSplit raw '|' with
    | [d] => if key = "db" then d else ""
    | [d, b] => if key = "db" then d else if key = "builder" then b else ""
    | _ => ""
  Contains := fun o v => (exp.stringsSplit o ',').contains v
  Values := fun o => if o = "" then [] else exp.stringsSplit o ','
  IsEmpty := fun o => o = ""
  Equals := fun o v => o = v

/-- A type table for examples with `builder` options.  Type 0 is
`struct { Id int `db:"id" builder:"skipinsert"`; Created int `db:"created" builder:"skipupdate"`; Name string `db:"name" builder:"defaultifempty,skipupdate"`; Plain int `db:"plain"` }`
and every other handle is `int`. -/
def flagTypes : Nat → RType
  | 0 => ⟨Kind.Struct, 0, [⟨"Id", "", 9, "id|skipinsert", [], false⟩,
      ⟨"Created", "", 9, "created|skipupdate", [], false⟩,
      ⟨"Name", "", 9, "name|defaultifempty,skipupdate", [], false⟩,
      ⟨"Plain", "", 9, "plain", [], false⟩]⟩
  | _ => ⟨Kind.Other, 0, []⟩

/-- The example environment with the `builder` options. -/
def flagEnv : Env := { demoEnv with types := flagTypes, tag := flagTag }

/-- The column map of the example type with the `builder` options. -/
def flagColumnMap : ColumnMap :=
  [("id", ⟨"id", [0], false, true, false, 9⟩),
   ("created", ⟨"created", [1], true, false, false, 9⟩),
   ("name", ⟨"name", [2], true, false, true, 9⟩),
   ("plain", ⟨"plain", [3], true, true, false, 9⟩)]

/-- A type table for examples with a repeated column name.  Type 0 is
`struct { A int `db:"x"`; B int `db:"x"` }` and every other handle is `int`. -/
def sameNameTypes : Nat → RType
  | 0 => ⟨Kind.Struct, 0, [⟨"A", "", 9, "x", [], false⟩, ⟨"B", "", 9, "x", [], false⟩]⟩
  | _ => ⟨Kind.Other, 0, []⟩

/-- The example environment with the repeated column name. -/
def sameNameEnv : Env := { demoEnv with types := sameNameTypes }

end util

/-! ## Package `exp`: the builder of case expressions, with slices in memory

`When` appends to the slice `whens` of a copy of the receiver.  The copy has
the slice header of the receiver, so both point into one backing array, and
`append` writes into that array when it has room.  To follow this, the slice
is modelled here with its backing array: a slice is a window into an array of
the memory. -/

namespace exp

namespace slices

/-- A slice of `CaseWhen` values: the backing array it points into, the
position of its first element there, its length and its capacity. -/
structure Slice where
  array : Nat
  offset : Nat
  len : Nat
  cap : Nat
  deriving DecidableEq, Repr

/-- The memory: the backing arrays, by address.  An element of an array is a
value of the interface type `CaseWhen`, nil where nothing was written. -/
abbrev Memory := List (List Val)

/-- The elements of a slice. -/
def Slice.elems (m : Memory) (s : Slice) : List Val :=
  ((m.getD s.array []).drop s.offset).take s.len

/-- The window of the slice lies within an array of the memory. -/
def Slice.inMemory (m : Memory) (s : Slice) : Prop :=
  s.array < m.length ∧ s.offset + s.cap ≤ (m.getD s.array []).length

instance (m : Memory) (s : Slice) : Decidable (s.inMemory m) := by
  unfold Slice.inMemory; infer_instance

/-- The capacity that the Go runtime gives a slice that `append` has to grow,
for small slices: the capacity needed when that is more than twice the old
capacity, and twice the old capacity otherwise. -/
def growCap (oldCap needed : Nat) : Nat :=
  if 2 * oldCap < needed then needed else 2 * oldCap

/-- The built-in `append(s, x)`.  When the capacity suffices, `x` is written
into the backing array behind the elements of `s`; otherwise the elements and
`x` go to a new array, whose capacity the runtime chooses (`grow`). -/
def append (grow : Nat → Nat → Nat) (m : Memory) (s : Slice) (x : Val) : Slice × Memory :=
  if s.len + 1 ≤ s.cap then
    ({ s with len := s.len + 1 },
      m.set s.array ((m.getD s.array []).set (s.offset + s.len) x))
  else
    ({ array := m.length, offset := 0, len := s.len + 1, cap := grow s.cap (s.len + 1) },
      m ++ [s.elems m ++ [x] ++ List.replicate (grow s.cap (s.len + 1) - (s.len + 1)) Val.nil])

/-- The struct `caseExpression` of `case.go` with the header of its slice. -/
structure caseExpression where
  value : Val
  whens : Slice
  elseCondition : Val
  deriving DecidableEq, Repr

/-- `func NewCaseExpression() CaseExpression`; the literal `[]CaseWhen{}` is an
empty slice without capacity. -/
def NewCaseExpression : caseExpression :=
  { value := Val.nil, whens := { array := 0, offset := 0, len := 0, cap := 0 },
    elseCondition := Val.nil }

/-- `func (c caseExpression) GetValue() any`. -/
def caseExpression.GetValue (c : caseExpression) : Val := c.value

/-- `func (c caseExpression) GetWhens() []CaseWhen`: the slice of the struct;
what it holds is read from the memory. -/
def caseExpression.GetWhens (m : Memory) (c : caseExpression) : List Val := c.whens.elems m

/-- `func (c caseExpression) GetElse() CaseElse`. -/
def caseExpression.GetElse (c : caseExpression) : Val := c.elseCondition

/-- `func (c caseExpression) Value(value any) CaseExpression`.  The receiver
is a copy of the struct, and the method returns the copy after the
assignment. -/
def caseExpression.Value (c : caseExpression) (value : Val) : caseExpression :=
  { c with value := value }

/-- `func (c caseExpression) When(condition, result any) CaseExpression`:
`c.whens = append(c.whens, NewCaseWhen(condition, result))` on the copy of the
struct, which is returned. -/
def caseExpression.When (grow : Nat → Nat → Nat) (m : Memory) (c : caseExpression)
    (condition result : Val) : caseExpression × Memory :=
  let r := append grow m c.whens (NewCaseWhen condition result)
  ({ c with whens := r.1 }, r.2)

/-- `func (c caseExpression) Else(result any) CaseExpression`. -/
def caseExpression.Else (c : caseExpression) (result : Val) : caseExpression :=
  { c with elseCondition := NewCaseElse result }

/-- The case expression with the elements of its slice, as the other methods
of `case.go` see it. -/
def caseExpression.elements (m : Memory) (c : caseExpression) : exp.caseExpression :=
  { value := c.value, whens := c.whens.elems m, elseCondition := c.elseCondition }

/-- The expression `Case().When(a, 1).When(b, 2).When(c, 3)` built in the empty
memory, and the memory after it. -/
def demoCase : caseExpression × Memory :=
  let r1 := NewCaseExpression.When growCap [] (Val.str "a") (Val.int 1)
  let r2 := r1.1.When growCap r1.2 (Val.str "b") (Val.int 2)
  r2.1.When growCap r2.2 (Val.str "c") (Val.int 3)

end slices

end exp

/-! ## Rendering with the writers in memory

`sb.SQLBuilder` is an interface whose value is a pointer to a writer: the
renderer of a dialect returns nothing and leaves its output in the writer it
was handed.  To state what a call of `ToSQL` leaves behind, the functions of
`insert_dataset.go` and `truncate_dataset.go` that render are embedded here a
second time with the writers in a store of their own, next to the heap of the
datasets, and they return the heap and the store as they leave them. -/

namespace builder

namespace writers

open exp

/-- The writers that exist: the writer at each address.  A `sb.SQLBuilder` is
an address of this store. -/
abbrev Writers := List SQLBuilder

/-- Modelled from the spec: `sb.NewSQLBuilder(isPrepared)` makes an empty
writer at the first free address. -/
def NewSQLBuilder (ws : Writers) (isPrepared : Bool) : Nat × Writers :=
  (ws.length, ws ++ [builder.NewSQLBuilder isPrepared])

/-- Modelled from the spec: `b.SetError(err)` writes into the writer and
returns it. -/
def SetError (ws : Writers) (b : Nat) (err : Option GoError) : Except GoError (Nat × Writers) :=
  match ws[b]? with
  | some w => .ok (b, ws.set b (w.SetError err))
  | none => .error nilDereference

/-- Modelled from the spec: `b.ToSQL()` reads the writer. -/
def ToSQL (ws : Writers) (b : Nat) : Except GoError (String × List Val × Option GoError) :=
  match ws[b]? with
  | some w => .ok w.ToSQL
  | none => .error nilDereference

/-- Modelled from the spec: the call `dialect.ToInsertSQL(b, clauses)`.  The
renderer is "side-effect-free" apart from the writer it is handed: it reads
the clauses and what they point to, and leaves its output in the writer `b`. -/
def ToInsertSQL (W : Deps) (dialect : SQLDialect) (h : Heap) (ws : Writers) (b : Nat)
    (clauses : InsertClauses) : Except GoError Writers :=
  match ws[b]? with
  | some w => do
    let w ← W.ToInsertSQL dialect h w clauses
    pure (ws.set b w)
  | none => .error nilDereference

/-- Modelled from the spec: the call `dialect.ToTruncateSQL(b, clauses)`. -/
def ToTruncateSQL (W : Deps) (dialect : SQLDialect) (h : Heap) (ws : Writers) (b : Nat)
    (clauses : TruncateClauses) : Except GoError Writers :=
  match ws[b]? with
  | some w => do
    let w ← W.ToTruncateSQL dialect h w clauses
    pure (ws.set b w)
  | none => .error nilDereference

/-- `func (id *InsertDataset) insertSQLBuilder() sb.SQLBuilder`: the writer it
returns, with the heap and the writers after the call. -/
def InsertDataset.insertSQLBuilder (W : Deps) (h : Heap) (ws : Writers) (id : Nat) :
    Except GoError (Nat × Heap × Writers) := do
  let d ← h.insertAt id
  let (buf, ws) := writers.NewSQLBuilder ws (d.isPrepared.Bool W.defaultPrepared)
  if d.err ≠ none then
    let (b, ws) ← writers.SetError ws buf d.err
    pure (b, h, ws)
  else
    let ws ← writers.ToInsertSQL W d.dialect h ws buf d.clauses
    pure (buf, h, ws)

/-- `func (id *InsertDataset) ToSQL() (sql string, params []any, err error)`:
what it returns, with the heap and the writers after the call. -/
def InsertDataset.ToSQL (W : Deps) (h : Heap) (ws : Writers) (id : Nat) :
    Except GoError ((String × List Val × Option GoError) × Heap × Writers) := do
  let (b, h, ws) ← InsertDataset.insertSQLBuilder W h ws id
  let r ← writers.ToSQL ws b
  pure (r, h, ws)

/-- `func (td *TruncateDataset) truncateSQLBuilder() sb.SQLBuilder`. -/
def TruncateDataset.truncateSQLBuilder (W : Deps) (h : Heap) (ws : Writers) (td : Nat) :
    Except GoError (Nat × Heap × Writers) := do
  let d ← h.truncateAt td
  let (buf, ws) := writers.NewSQLBuilder ws (d.isPrepared.Bool W.defaultPrepared)
  if d.err ≠ none then
    let (b, ws) ← writers.SetError ws buf d.err
    pure (b, h, ws)
  else
    let ws ← writers.ToTruncateSQL W d.dialect h ws buf d.clauses
    pure (buf, h, ws)

/-- `func (td *TruncateDataset) ToSQL() (sql string, params []any, err error)`. -/
def TruncateDataset.ToSQL (W : Deps) (h : Heap) (ws : Writers) (td : Nat) :
    Except GoError ((String × List Val × Option GoError) × Heap × Writers) := do
  let (b, h, ws) ← TruncateDataset.truncateSQLBuilder W h ws td
  let r ← writers.ToSQL ws b
  pure (r, h, ws)

end writers

end builder

/-! # Theorems -/

/-! ## The column map -/

namespace util

theorem foldl_keys (cm : ColumnMap) (acc : List String) :
    cm.foldl (fun structCols kv => structCols ++ [kv.1]) acc = acc ++ cm.keys := by
  induction cm generalizing acc with
  | nil => simp [ColumnMap.keys]
  | cons kv rest ih => simp [List.foldl_cons, ih, ColumnMap.keys]

theorem Cols_eq_sort_keys (cm : ColumnMap) : cm.Cols = sortStrings cm.keys := by
  simp [ColumnMap.Cols, foldl_keys]

theorem sortStrings_sorted_le (xs : List String) :
    List.Sorted (fun a b : String => a ≤ b) (sortStrings xs) := by
  have h := List.sorted_insertionSort (fun a b : String => a ≤ b) xs
  have e : (fun a b : String => a.toList ≤ b.toList) = (fun a b : String => a ≤ b) := by
    funext a b; exact propext String.le_iff_toList_le.symm
  unfold sortStrings
  convert h using 2

theorem sortStrings_perm (xs : List String) : List.Perm (sortStrings xs) xs :=
  List.perm_insertionSort _ xs

/-- C1. For every column map (a list of entries without repeated keys, in any
iteration order) `Cols` returns the keys in strictly ascending string order,
each key exactly once, and the result is the same for every iteration order
of the same map. -/
theorem Cols_sorted_keys_every_order (cm : ColumnMap) (h : cm.NodupKeys) :
    List.Sorted (fun a b : String => a < b) cm.Cols ∧ List.Perm cm.Cols cm.keys ∧
    ∀ cm' : ColumnMap, List.Perm cm' cm → cm'.Cols = cm.Cols := by
  have hperm : List.Perm cm.Cols cm.keys := by
    rw [Cols_eq_sort_keys]; exact sortStrings_perm _
  have hnd : cm.Cols.Nodup := hperm.nodup_iff.mpr h
  have hle : List.Sorted (fun a b : String => a ≤ b) cm.Cols := by
    rw [Cols_eq_sort_keys]; exact sortStrings_sorted_le _
  refine ⟨?_, hperm, ?_⟩
  · exact (List.Sorted.lt_of_le hle hnd)
  · intro cm' hp
    have hperm' : List.Perm cm'.Cols cm'.keys := by
      rw [Cols_eq_sort_keys]; exact sortStrings_perm _
    have hk : List.Perm cm'.keys cm.keys := hp.map _
    have hle' : List.Sorted (fun a b : String => a ≤ b) cm'.Cols := by
      rw [Cols_eq_sort_keys]; exact sortStrings_sorted_le _
    exact List.eq_of_perm_of_sorted (hperm'.trans (hk.trans hperm.symm)) hle' hle

/-- C1 at a map with the keys `b`, `a`, `ab`. -/
theorem Cols_sorted_keys_every_order_witness :
    ColumnMap.NodupKeys [("b", demoColumn), ("a", demoColumn), ("ab", demoColumn)] ∧
    (List.Sorted (fun a b : String => a < b)
        (ColumnMap.Cols [("b", demoColumn), ("a", demoColumn), ("ab", demoColumn)]) ∧
      List.Perm (ColumnMap.Cols [("b", demoColumn), ("a", demoColumn), ("ab", demoColumn)])
        (ColumnMap.keys [("b", demoColumn), ("a", demoColumn), ("ab", demoColumn)]) ∧
      ∀ cm' : ColumnMap, List.Perm cm' [("b", demoColumn), ("a", demoColumn), ("ab", demoColumn)] →
        cm'.Cols = ColumnMap.Cols [("b", demoColumn), ("a", demoColumn), ("ab", demoColumn)]) :=
  ⟨by decide, Cols_sorted_keys_every_order _ (by decide)⟩

theorem get?_set (cm : ColumnMap) (k k' : String) (v : ColumnData) :
    (cm.set k v).get? k' = if k = k' then some v else cm.get? k' := by
  induction cm with
  | nil => simp [ColumnMap.set, ColumnMap.get?]
  | cons kv rest ih =>
    obtain ⟨a, b⟩ := kv
    by_cases h : a = k
    · subst h
      by_cases h' : a = k' <;> simp [ColumnMap.set, ColumnMap.get?, h']
    · by_cases h' : a = k'
      · subst h'
        simp [ColumnMap.set, ColumnMap.get?, h, Ne.symm h]
      · simp [ColumnMap.set, ColumnMap.get?, h, h', ih]

theorem mergeOne_get? (sub cm : ColumnMap) (k : String) (v : ColumnData)
    (h : cm.get? k = some v) : (cm.mergeOne sub).get? k = some v := by
  induction sub generalizing cm with
  | nil => simpa [ColumnMap.mergeOne] using h
  | cons kv rest ih =>
    simp only [ColumnMap.mergeOne, List.foldl_cons]
    apply ih
    by_cases hn : (cm.get? kv.1).isNone = true
    · have hne : kv.1 ≠ k := by
        intro e; rw [e, h] at hn; simp at hn
      simp [hn, get?_set, hne, h]
    · simp [hn, h]

theorem Merge_get? (subs : List ColumnMap) (cm : ColumnMap) (k : String) (v : ColumnData)
    (h : cm.get? k = some v) : (cm.Merge subs).get? k = some v := by
  induction subs generalizing cm with
  | nil => simpa [ColumnMap.Merge] using h
  | cons s rest ih =>
    simp only [ColumnMap.Merge, List.foldl_cons]
    exact ih _ (mergeOne_get? s cm k v h)

theorem storeLeaf_get? (E : Env) (f : StructField) (fieldIndex : List Int)
    (prefixes : List String) (name : String) (st : LoopState) (k : String) :
    (storeLeaf E f fieldIndex prefixes name st).1.get? k =
      if String.intercalate "." (prefixes ++ [name]) = k then
        some (newColumnData E f (String.intercalate "." (prefixes ++ [name])) fieldIndex
          (E.tag.New "builder" f.Tag))
      else st.1.get? k := by
  simp [storeLeaf, get?_set]

/-- What one pass of the loop does to `cm`: it is left alone, or the field is
stored as a leaf. -/
theorem fieldStep_cases (E : Env) (recur : Nat → List Int → List String → Except Fail ColumnMap)
    (fieldIndex : List Int) (prefixes : List String) (f : StructField) (st st' : LoopState)
    (h : fieldStep E recur fieldIndex prefixes f st = .ok st') :
    st'.1 = st.1 ∨
    (isDirectField E f = true ∧ ∃ name, getColumnName E f (E.tag.New "db" f.Tag) = .ok name ∧
      st' = storeLeaf E f fieldIndex prefixes name st) := by
  by_cases hemb : (f.Anonymous && ((E.types f.Typ).kind == Kind.Struct || (E.types f.Typ).kind == Kind.Ptr)) = true
  · left
    simp only [fieldStep, hemb, if_true] at h
    by_cases hc : (!E.tag.Contains (E.tag.New "db" f.Tag) "-") = true
    · simp only [hc, if_true] at h
      cases hg : getStructColumnMap E recur f fieldIndex (E.tag.Values (E.tag.New "db" f.Tag)) prefixes with
      | error e => rw [hg] at h; cases h
      | ok sub => rw [hg] at h; cases h; rfl
    · simp only [hc] at h; cases h; rfl
  · by_cases hpkg : (f.PkgPath == "") = true
    · simp only [fieldStep, hemb, hpkg, if_true] at h
      cases hn : getColumnName E f (E.tag.New "db" f.Tag) with
      | error e => rw [hn] at h; cases h
      | ok name =>
        rw [hn] at h
        by_cases hign : (!shouldIgnoreField E (E.tag.New "db" f.Tag)) = true
        · have hdir : isDirectField E f = true := by
            have hf := Bool.eq_false_iff.mpr hemb
            simp only [isDirectField, hf, hpkg, hign, Bool.not_false, Bool.and_self]
          simp only [hign, if_true] at h
          by_cases hs : (!implementsScanner E f.Typ) = true
          · simp only [hs, if_true] at h
            cases hg : getStructColumnMap E recur f fieldIndex [name] prefixes with
            | error e => rw [hg] at h; cases h
            | ok subCm =>
              rw [hg] at h
              by_cases hl : (subCm.length != 0) = true
              · simp only [hl, if_true] at h; cases h; left; rfl
              · simp only [hl] at h; cases h; right; exact ⟨hdir, name, rfl, rfl⟩
          · simp only [hs] at h; cases h; right; exact ⟨hdir, name, rfl, rfl⟩
        · simp only [hign] at h; cases h; left; rfl
    · simp only [fieldStep, hemb, hpkg] at h; cases h; left; rfl

theorem fieldStep_leaf (E : Env) (recur : Nat → List Int → List String → Except Fail ColumnMap)
    (fieldIndex : List Int) (prefixes : List String) (f : StructField) (st : LoopState)
    (name : String) (hd : isDirectField E f = true)
    (hn : getColumnName E f (E.tag.New "db" f.Tag) = .ok name)
    (hl : implementsScanner E f.Typ = true ∨
      getStructColumnMap E recur f fieldIndex [name] prefixes = .ok []) :
    fieldStep E recur fieldIndex prefixes f st = .ok (storeLeaf E f fieldIndex prefixes name st) := by
  simp only [isDirectField, Bool.and_eq_true] at hd
  obtain ⟨⟨hemb, hpkg⟩, hign⟩ := hd
  have hemb' : (f.Anonymous && ((E.types f.Typ).kind == Kind.Struct || (E.types f.Typ).kind == Kind.Ptr)) = false := by
    exact (Bool.not_eq_true' _).mp hemb
  simp only [fieldStep, hemb', hpkg, hn, hign, if_true, Bool.false_eq_true, if_false]
  by_cases hs : implementsScanner E f.Typ = true
  · simp [hs]
  · rcases hl with hl | hl
    · exact absurd hl hs
    · simp [hs, hl]

theorem fieldsLoop_entries (E : Env) (recur : Nat → List Int → List String → Except Fail ColumnMap)
    (fieldIndex : List Int) (prefixes : List String) (rest : List StructField) :
    ∀ (i : Nat) (st st' : LoopState),
      fieldsLoop E recur fieldIndex prefixes rest i st = .ok st' →
      ∀ k v, st'.1.get? k = some v →
        st.1.get? k = some v ∨
        ∃ j g, rest[j]? = some g ∧ IsDirectEntry E fieldIndex prefixes (i + j) g k v := by
  induction rest with
  | nil =>
    intro i st st' h k v hk
    simp only [fieldsLoop] at h
    cases h; left; exact hk
  | cons f rest ih =>
    intro i st st' h k v hk
    simp only [fieldsLoop] at h
    cases hstep : fieldStep E recur fieldIndex prefixes { f with Index := [(i : Int)] } st with
    | error e => rw [hstep] at h; cases h
    | ok st1 =>
      rw [hstep] at h
      rcases ih (i + 1) st1 st' h k v hk with h1 | ⟨j, g, hj, hent⟩
      · rcases fieldStep_cases E recur fieldIndex prefixes _ st st1 hstep with hsame | ⟨hd, name, hn, hst⟩
        · left; rw [← hsame]; exact h1
        · rw [hst, storeLeaf_get?] at h1
          by_cases hkey : String.intercalate "." (prefixes ++ [name]) = k
          · right
            refine ⟨0, f, by simp, hd, name, hn, hkey.symm, ?_⟩
            simp only [hkey, if_true, Option.some.injEq] at h1
            rw [← h1]
            simp
          · left; simpa [hkey] using h1
      · right
        refine ⟨j + 1, g, by simpa using hj, ?_⟩
        have e : i + (j + 1) = i + 1 + j := by omega
        rw [e]; exact hent

theorem fieldStep_keeps (E : Env) (recur : Nat → List Int → List String → Except Fail ColumnMap)
    (fieldIndex : List Int) (prefixes : List String) (f : StructField) (st st' : LoopState)
    (h : fieldStep E recur fieldIndex prefixes f st = .ok st') (k : String)
    (hk : (st.1.get? k).isSome = true) : (st'.1.get? k).isSome = true := by
  rcases fieldStep_cases E recur fieldIndex prefixes f st st' h with hsame | ⟨_, name, _, hst⟩
  · rw [hsame]; exact hk
  · rw [hst, storeLeaf_get?]
    by_cases hkey : String.intercalate "." (prefixes ++ [name]) = k
    · simp [hkey]
    · simpa [hkey] using hk

theorem fieldsLoop_keeps (E : Env) (recur : Nat → List Int → List String → Except Fail ColumnMap)
    (fieldIndex : List Int) (prefixes : List String) (rest : List StructField) :
    ∀ (i : Nat) (st st' : LoopState),
      fieldsLoop E recur fieldIndex prefixes rest i st = .ok st' →
      ∀ k, (st.1.get? k).isSome = true → (st'.1.get? k).isSome = true := by
  induction rest with
  | nil =>
    intro i st st' h k hk
    simp only [fieldsLoop] at h
    cases h; exact hk
  | cons f rest ih =>
    intro i st st' h k hk
    simp only [fieldsLoop] at h
    cases hstep : fieldStep E recur fieldIndex prefixes { f with Index := [(i : Int)] } st with
    | error e => rw [hstep] at h; cases h
    | ok st1 =>
      rw [hstep] at h
      exact ih (i + 1) st1 st' h k (fieldStep_keeps E recur fieldIndex prefixes _ st st1 hstep k hk)

theorem fieldsLoop_leaf (E : Env) (recur : Nat → List Int → List String → Except Fail ColumnMap)
    (fieldIndex : List Int) (prefixes : List String) (rest : List StructField) :
    ∀ (i : Nat) (st st' : LoopState),
      fieldsLoop E recur fieldIndex prefixes rest i st = .ok st' →
      ∀ (j : Nat) (g : StructField) (name : String), rest[j]? = some g →
        isDirectField E g = true →
        getColumnName E g (E.tag.New "db" g.Tag) = .ok name →
        (implementsScanner E g.Typ = true ∨
          getStructColumnMap E recur { g with Index := [((i + j : Nat) : Int)] } fieldIndex [name]
            prefixes = .ok []) →
        (st'.1.get? (String.intercalate "." (prefixes ++ [name]))).isSome = true := by
  induction rest with
  | nil => intro i st st' _ j g name hj; simp at hj
  | cons f rest ih =>
    intro i st st' h j g name hj hd hn hl
    simp only [fieldsLoop] at h
    cases hstep : fieldStep E recur fieldIndex prefixes { f with Index := [(i : Int)] } st with
    | error e => rw [hstep] at h; cases h
    | ok st1 =>
      rw [hstep] at h
      cases j with
      | zero =>
        simp only [List.getElem?_cons_zero, Option.some.injEq] at hj
        subst hj
        have hleaf := fieldStep_leaf E recur fieldIndex prefixes { f with Index := [(i : Int)] } st
          name hd hn (by simpa using hl)
        rw [hleaf] at hstep
        cases hstep
        apply fieldsLoop_keeps E recur fieldIndex prefixes rest (i + 1) _ st' h
        rw [storeLeaf_get?]; simp
      | succ j =>
        simp only [List.getElem?_cons_succ] at hj
        have e : i + (j + 1) = i + 1 + j := by omega
        rw [e] at hl
        exact ih (i + 1) st1 st' h j g name hj hd hn hl

/-- C2. `Merge` never changes the entry of a key that the receiver already has.
Consequently, when `newColumnMap` returns for a struct type, every field that
the loop stores as a leaf column (a direct field: exported, not an embedded
struct or pointer, not ignored, and a scanner or a struct without columns) has
its column name bound, in the result, to the data of a direct field of that
same struct, never to a column promoted from an embedded or nested struct;
the position of the field among the others plays no role. -/
theorem Merge_keeps_entries_and_direct_field_wins :
    (∀ (cm : ColumnMap) (subs : List ColumnMap) (k : String) (v : ColumnData),
      cm.get? k = some v → (cm.Merge subs).get? k = some v) ∧
    (∀ (E : Env) (fuel t : Nat) (fieldIndex : List Int) (prefixes : List String)
      (cm : ColumnMap), newColumnMap E (fuel + 1) t fieldIndex prefixes = .ok cm →
      ∀ (i : Nat) (f : StructField) (name : String), (E.types t).fields[i]? = some f →
        isDirectField E f = true →
        getColumnName E f (E.tag.New "db" f.Tag) = .ok name →
        (implementsScanner E f.Typ = true ∨
          getStructColumnMap E (newColumnMap E fuel) { f with Index := [(i : Int)] } fieldIndex
            [name] prefixes = .ok []) →
        ∃ (j : Nat) (g : StructField) (v : ColumnData), (E.types t).fields[j]? = some g ∧
          IsDirectEntry E fieldIndex prefixes j g (String.intercalate "." (prefixes ++ [name])) v ∧
          cm.get? (String.intercalate "." (prefixes ++ [name])) = some v) := by
  refine ⟨fun cm subs k v h => Merge_get? subs cm k v h, ?_⟩
  intro E fuel t fieldIndex prefixes cm hrun i f name hi hd hn hl
  simp only [newColumnMap] at hrun
  by_cases hk : (E.types t).kind = Kind.Struct
  · simp only [hk, if_true] at hrun
    cases hloop : fieldsLoop E (newColumnMap E fuel) fieldIndex prefixes (E.types t).fields 0 ([], []) with
    | error e => rw [hloop] at hrun; cases hrun
    | ok st =>
      rw [hloop] at hrun
      cases hrun
      have hsome := fieldsLoop_leaf E (newColumnMap E fuel) fieldIndex prefixes (E.types t).fields 0
        ([], []) st hloop i f name hi hd hn (by simpa using hl)
      obtain ⟨v, hv⟩ := Option.isSome_iff_exists.mp hsome
      rcases fieldsLoop_entries E (newColumnMap E fuel) fieldIndex prefixes (E.types t).fields 0
        ([], []) st hloop _ v hv with h0 | ⟨j, g, hj, hent⟩
      · simp [ColumnMap.get?] at h0
      · refine ⟨j, g, v, hj, ?_, Merge_get? st.2 st.1 _ v hv⟩
        simpa using hent
  · simp [hk] at hrun

/-- C2 at the example types: in `struct { Inner; Id; Name }` and in
`struct { Id; Inner }` the column `id` is the direct field. -/
theorem Merge_keeps_entries_and_direct_field_wins_witness :
    (∃ cm, newColumnMap demoEnv 3 0 [] [] = .ok cm ∧
      ∃ (j : Nat) (g : StructField) (v : ColumnData), (demoEnv.types 0).fields[j]? = some g ∧
        IsDirectEntry demoEnv [] [] j g (String.intercalate "." ([] ++ ["id"])) v ∧
        cm.get? (String.intercalate "." ([] ++ ["id"])) = some v) ∧
    (∃ cm, newColumnMap demoEnv 3 2 [] [] = .ok cm ∧
      ∃ (j : Nat) (g : StructField) (v : ColumnData), (demoEnv.types 2).fields[j]? = some g ∧
        IsDirectEntry demoEnv [] [] j g (String.intercalate "." ([] ++ ["id"])) v ∧
        cm.get? (String.intercalate "." ([] ++ ["id"])) = some v) :=
  ⟨⟨_, rfl, Merge_keeps_entries_and_direct_field_wins.2 demoEnv 2 0 [] [] _ rfl 1
      ⟨"Id", "", 9, "id", [], false⟩ "id" (by decide) (by decide) rfl (Or.inl (by decide))⟩,
   ⟨_, rfl, Merge_keeps_entries_and_direct_field_wins.2 demoEnv 2 2 [] [] _ rfl 0
      ⟨"Id", "", 9, "id", [], false⟩ "id" (by decide) (by decide) rfl (Or.inl (by decide))⟩⟩

end util

/-! ## Identifiers -/

namespace exp

theorem splitChars_ne_nil (sep : Char) (l : List Char) : splitChars sep l ≠ [] := by
  induction l with
  | nil => simp [splitChars]
  | cons c cs ih =>
    simp only [splitChars]
    split
    · simp
    · split
      · simp
      · simp

theorem splitChars_no_sep (sep : Char) (l : List Char) (h : sep ∉ l) :
    splitChars sep l = [l] := by
  induction l with
  | nil => simp [splitChars]
  | cons c cs ih =>
    have hc : c ≠ sep := fun e => h (by simp [e])
    have hcs : sep ∉ cs := fun e => h (by simp [e])
    simp [splitChars, hc, ih hcs]

theorem splitChars_append_sep (sep : Char) (a rest : List Char) (h : sep ∉ a) :
    splitChars sep (a ++ sep :: rest) = a :: splitChars sep rest := by
  induction a with
  | nil => simp [splitChars]
  | cons c cs ih =>
    have hc : c ≠ sep := fun e => h (by simp [e])
    have hcs : sep ∉ cs := fun e => h (by simp [e])
    simp [splitChars, hc, ih hcs]

theorem length_splitChars (sep : Char) (l : List Char) :
    (splitChars sep l).length = l.count sep + 1 := by
  induction l with
  | nil => simp [splitChars]
  | cons c cs ih =>
    by_cases hc : c = sep
    · subst hc
      simp [splitChars, ih]
    · have hne := splitChars_ne_nil sep cs
      simp only [splitChars, hc, if_false]
      cases hs : splitChars sep cs with
      | nil => exact absurd hs hne
      | cons p ps =>
        rw [hs] at ih
        simp only [List.length_cons] at ih ⊢
        rw [List.count_cons_of_ne (Ne.symm hc)] 
        exact ih

theorem length_stringsSplit (s : String) :
    (stringsSplit s '.').length = s.toList.count '.' + 1 := by
  simp [stringsSplit, length_splitChars]

theorem stringsSplit_three (a b c : String) (ha : '.' ∉ a.toList) (hb : '.' ∉ b.toList)
    (hc : '.' ∉ c.toList) : stringsSplit (a ++ "." ++ b ++ "." ++ c) '.' = [a, b, c] := by
  have e : (a ++ "." ++ b ++ "." ++ c).toList = a.toList ++ '.' :: (b.toList ++ '.' :: c.toList) := by
    simp [String.toList]
  simp only [stringsSplit, e]
  rw [splitChars_append_sep _ _ _ ha, splitChars_append_sep _ _ _ hb, splitChars_no_sep _ _ hc]
  simp [String.toList]

theorem stringsSplit_two (a b : String) (ha : '.' ∉ a.toList) (hb : '.' ∉ b.toList) :
    stringsSplit (a ++ "." ++ b) '.' = [a, b] := by
  have e : (a ++ "." ++ b).toList = a.toList ++ '.' :: b.toList := by
    simp [String.toList]
  simp only [stringsSplit, e]
  rw [splitChars_append_sep _ _ _ ha, splitChars_no_sep _ _ hb]
  simp [String.toList]

/-- C3. `ParseIdentifier` splits on the dot.  Three dot-free segments
`a.b.c` give `NewIdentifierExpression(a, b, c)`, whose schema is `a` and table
`b`; two segments `a.b` give `NewIdentifierExpression("", a, b)`; and a string
with any other number of segments (the number of dots is neither one nor two)
gives `NewIdentifierExpression("", "", s)` with the whole string as column. -/
theorem ParseIdentifier_by_segments :
    (∀ a b c : String, '.' ∉ a.toList → '.' ∉ b.toList → '.' ∉ c.toList →
      ParseIdentifier (a ++ "." ++ b ++ "." ++ c) = NewIdentifierExpression a b (Val.str c) ∧
      (ParseIdentifier (a ++ "." ++ b ++ "." ++ c)).GetSchema = a ∧
      (ParseIdentifier (a ++ "." ++ b ++ "." ++ c)).GetTable = b ∧
      (c ≠ "*" → (ParseIdentifier (a ++ "." ++ b ++ "." ++ c)).GetCol = Val.str c)) ∧
    (∀ a b : String, '.' ∉ a.toList → '.' ∉ b.toList →
      ParseIdentifier (a ++ "." ++ b) = NewIdentifierExpression "" a (Val.str b) ∧
      (ParseIdentifier (a ++ "." ++ b)).GetSchema = "" ∧
      (ParseIdentifier (a ++ "." ++ b)).GetTable = a ∧
      (b ≠ "*" → (ParseIdentifier (a ++ "." ++ b)).GetCol = Val.str b)) ∧
    (∀ s : String, (stringsSplit s '.').length = s.toList.count '.' + 1 ∧
      (s.toList.count '.' ≠ 1 → s.toList.count '.' ≠ 2 →
        ParseIdentifier s = NewIdentifierExpression "" "" (Val.str s) ∧
        (ParseIdentifier s).GetSchema = "" ∧ (ParseIdentifier s).GetTable = "" ∧
        (s ≠ "*" → (ParseIdentifier s).GetCol = Val.str s))) := by
  refine ⟨?_, ?_, ?_⟩
  · intro a b c ha hb hc
    have hp : ParseIdentifier (a ++ "." ++ b ++ "." ++ c) = NewIdentifierExpression a b (Val.str c) := by
      simp [ParseIdentifier, stringsSplit_three a b c ha hb hc, tableAndColumnParts,
        schemaTableAndColumnIdentifierParts]
    refine ⟨hp, ?_, ?_, ?_⟩
    · rw [hp]; simp [NewIdentifierExpression, identifier.Col, identifier.Table, identifier.Schema, identifier.GetSchema]; split <;> rfl
    · rw [hp]; simp [NewIdentifierExpression, identifier.Col, identifier.Table, identifier.Schema, identifier.GetTable]; split <;> rfl
    · intro hne
      rw [hp]; simp [NewIdentifierExpression, identifier.Col, identifier.Table, identifier.Schema, identifier.GetCol, hne]
  · intro a b ha hb
    have hp : ParseIdentifier (a ++ "." ++ b) = NewIdentifierExpression "" a (Val.str b) := by
      simp [ParseIdentifier, stringsSplit_two a b ha hb, tableAndColumnParts]
    refine ⟨hp, ?_, ?_, ?_⟩
    · rw [hp]; simp [NewIdentifierExpression, identifier.Col, identifier.Table, identifier.Schema, identifier.GetSchema]; split <;> rfl
    · rw [hp]; simp [NewIdentifierExpression, identifier.Col, identifier.Table, identifier.Schema, identifier.GetTable]; split <;> rfl
    · intro hne
      rw [hp]; simp [NewIdentifierExpression, identifier.Col, identifier.Table, identifier.Schema, identifier.GetCol, hne]
  · intro s
    refine ⟨length_stringsSplit s, ?_⟩
    intro h1 h2
    have hp : ParseIdentifier s = NewIdentifierExpression "" "" (Val.str s) := by
      simp only [String.toList] at h1 h2
      simp [ParseIdentifier, length_stringsSplit, tableAndColumnParts,
        schemaTableAndColumnIdentifierParts, h1, h2]
    refine ⟨hp, ?_, ?_, ?_⟩
    · rw [hp]; simp [NewIdentifierExpression, identifier.Col, identifier.Table, identifier.Schema, identifier.GetSchema]; split <;> rfl
    · rw [hp]; simp [NewIdentifierExpression, identifier.Col, identifier.Table, identifier.Schema, identifier.GetTable]; split <;> rfl
    · intro hne
      rw [hp]; simp [NewIdentifierExpression, identifier.Col, identifier.Table, identifier.Schema, identifier.GetCol, hne]

end exp

namespace exp

/-- C3 at `s.t.c`, `t.c`, `col` and `a.b.c.d`. -/
theorem ParseIdentifier_by_segments_witness :
    ParseIdentifier ("s" ++ "." ++ "t" ++ "." ++ "c") = NewIdentifierExpression "s" "t" (Val.str "c") ∧
    ParseIdentifier ("t" ++ "." ++ "c") = NewIdentifierExpression "" "t" (Val.str "c") ∧
    ParseIdentifier "col" = NewIdentifierExpression "" "" (Val.str "col") ∧
    ParseIdentifier "a.b.c.d" = NewIdentifierExpression "" "" (Val.str "a.b.c.d") :=
  ⟨(ParseIdentifier_by_segments.1 "s" "t" "c" (by decide) (by decide) (by decide)).1,
   (ParseIdentifier_by_segments.2.1 "t" "c" (by decide) (by decide)).1,
   ((ParseIdentifier_by_segments.2.2 "col").2 (by decide) (by decide)).1,
   ((ParseIdentifier_by_segments.2.2 "a.b.c.d").2 (by decide) (by decide)).1⟩

/-- C4. `Col` stores the star literal, the literal with the text `*` and no
arguments, when its argument is the string `"*"`, and its argument unchanged
otherwise, and leaves schema and table alone.  Hence for a table name `t`
without a dot `ParseIdentifier(t + ".*")`, `NewIdentifierExpression("", t, "*")`
and `T(t).All()` are one identifier, whose column is that literal and not a
string. -/
theorem Col_star_is_literal :
    (∀ (i : identifier) (c : Val),
      (i.Col (Val.str "*")).GetCol = Val.literal "*" Vals.nil ∧ Star = Val.literal "*" Vals.nil ∧
      (c ≠ Val.str "*" → (i.Col c).GetCol = c) ∧
      (i.Col c).GetSchema = i.GetSchema ∧ (i.Col c).GetTable = i.GetTable) ∧
    (∀ t : String, '.' ∉ t.toList →
      ParseIdentifier (t ++ ".*") = NewIdentifierExpression "" t (Val.str "*") ∧
      NewIdentifierExpression "" t (Val.str "*") = (T t).All ∧
      (T t).All = { schema := "", table := t, col := Val.literal "*" Vals.nil } ∧
      ∀ s, (T t).All.GetCol ≠ Val.str s) := by
  constructor
  · intro i c
    refine ⟨?_, rfl, ?_, ?_, ?_⟩
    · simp [identifier.Col, identifier.GetCol, Star, NewLiteralExpression, Vals.ofList]
    · intro hc
      simp [identifier.Col, identifier.GetCol, hc]
    · simp only [identifier.Col, identifier.GetSchema]; split <;> rfl
    · simp only [identifier.Col, identifier.GetTable]; split <;> rfl
  · intro t ht
    have hall : (T t).All = { schema := "", table := t, col := Val.literal "*" Vals.nil } := by
      simp [T, identifier.All, NewIdentifierExpression, identifier.Col, identifier.Table,
        identifier.Schema, Star, NewLiteralExpression, Vals.ofList]
    have hnew : NewIdentifierExpression "" t (Val.str "*") =
        { schema := "", table := t, col := Val.literal "*" Vals.nil } := by
      simp [NewIdentifierExpression, identifier.Col, identifier.Table,
        identifier.Schema, Star, NewLiteralExpression, Vals.ofList]
    have hstr : t ++ ".*" = t ++ "." ++ "*" := by
      rw [String.append_assoc]; rfl
    have hsplit : stringsSplit (t ++ "." ++ "*") '.' = [t, "*"] :=
      stringsSplit_two t "*" ht (by decide)
    refine ⟨?_, ?_, hall, ?_⟩
    · rw [hstr]
      simp [ParseIdentifier, hsplit, tableAndColumnParts]
    · rw [hnew, hall]
    · intro s
      rw [hall]
      simp [identifier.GetCol]

/-- C4 at the table `t`. -/
theorem Col_star_is_literal_witness :
    ParseIdentifier ("t" ++ ".*") = NewIdentifierExpression "" "t" (Val.str "*") ∧
    NewIdentifierExpression "" "t" (Val.str "*") = (T "t").All ∧
    (T "t").All = { schema := "", table := "t", col := Val.literal "*" Vals.nil } ∧
    ∀ s, (T "t").All.GetCol ≠ Val.str s :=
  Col_star_is_literal.2 "t" (by decide)

end exp

/-! ## The datasets -/

namespace builder

open exp

theorem insertAt_lt (h : Heap) (p : Nat) (d : InsertDataset) (hd : h.insertAt p = .ok d) :
    p < h.length ∧ h[p]? = some (Obj.insert d) := by
  unfold Heap.insertAt at hd
  cases ho : h[p]? with
  | none => rw [ho] at hd; cases hd
  | some o =>
    rw [ho] at hd
    refine ⟨(List.getElem?_eq_some_iff.mp ho).1, ?_⟩
    cases o with
    | insert d' => simp at hd; cases hd; rfl
    | truncate d' => cases hd
    | select d' => cases hd

theorem truncateAt_lt (h : Heap) (p : Nat) (d : TruncateDataset) (hd : h.truncateAt p = .ok d) :
    p < h.length ∧ h[p]? = some (Obj.truncate d) := by
  unfold Heap.truncateAt at hd
  cases ho : h[p]? with
  | none => rw [ho] at hd; cases hd
  | some o =>
    rw [ho] at hd
    refine ⟨(List.getElem?_eq_some_iff.mp ho).1, ?_⟩
    cases o with
    | insert d' => cases hd
    | truncate d' => simp at hd; cases hd; rfl
    | select d' => cases hd

theorem insertAt_of_getElem? (h : Heap) (p : Nat) (d : InsertDataset)
    (hd : h[p]? = some (Obj.insert d)) : h.insertAt p = .ok d := by
  simp [Heap.insertAt, hd]

theorem truncateAt_of_getElem? (h : Heap) (p : Nat) (d : TruncateDataset)
    (hd : h[p]? = some (Obj.truncate d)) : h.truncateAt p = .ok d := by
  simp [Heap.truncateAt, hd]

theorem insertAt_set_self (h : Heap) (p : Nat) (d : InsertDataset) (hp : p < h.length) :
    Heap.insertAt (h.set p (Obj.insert d)) p = .ok d := by
  apply insertAt_of_getElem?
  simp [List.getElem?_set, hp]

theorem truncateAt_set_self (h : Heap) (p : Nat) (d : TruncateDataset) (hp : p < h.length) :
    Heap.truncateAt (h.set p (Obj.truncate d)) p = .ok d := by
  apply truncateAt_of_getElem?
  simp [List.getElem?_set, hp]

theorem copy_eq (h : Heap) (id : Nat) (d : InsertDataset) (c : InsertClauses)
    (hd : h.insertAt id = .ok d) :
    InsertDataset.copy h id c = .ok (h.length, h ++ [Obj.insert { d with clauses := c }]) := by
  simp [InsertDataset.copy, hd, Heap.new, bind, Except.bind, pure, Except.pure]

theorem insertAt_append_new (h : Heap) (d : InsertDataset) :
    Heap.insertAt (h ++ [Obj.insert d]) h.length = .ok d := by
  simp [Heap.insertAt]

theorem set_append_new (h : Heap) (o o' : Obj) : (h ++ [o]).set h.length o' = h ++ [o'] := by
  induction h with
  | nil => simp
  | cons x xs ih => simp [ih]

theorem getElem?_append_old (h : Heap) (o : Obj) (p : Nat) (x : Obj) (hp : h[p]? = some x) :
    (h ++ [o])[p]? = some x := by
  have hlt := (List.getElem?_eq_some_iff.mp hp).1
  rw [List.getElem?_append_left hlt]; exact hp

theorem Prepared_eq (h : Heap) (id : Nat) (d : InsertDataset) (b : Bool)
    (hd : h.insertAt id = .ok d) :
    InsertDataset.Prepared h id b =
      .ok (h.length, h ++ [Obj.insert { d with isPrepared := preparedFromBool b }]) := by
  have h1 := insertAt_append_new h { d with clauses := d.clauses }
  simp only [InsertDataset.Prepared, hd, copy_eq h id d _ hd, bind, Except.bind, pure, Except.pure,
    h1, set_append_new]

theorem WithDialect_eq (W : Deps) (h : Heap) (id : Nat) (d : InsertDataset) (dl : String)
    (hd : h.insertAt id = .ok d) :
    InsertDataset.WithDialect W h id dl =
      .ok (h.length, h ++ [Obj.insert { d with dialect := W.GetDialect dl }]) := by
  have h1 := insertAt_append_new h { d with clauses := d.clauses }
  simp only [InsertDataset.WithDialect, InsertDataset.GetClauses, hd, copy_eq h id d _ hd, bind,
    Except.bind, pure, Except.pure, h1, set_append_new]

theorem SetDialect_eq (h : Heap) (id : Nat) (d : InsertDataset) (dialect : SQLDialect)
    (hd : h.insertAt id = .ok d) :
    InsertDataset.SetDialect h id dialect =
      .ok (h.length, h ++ [Obj.insert { d with dialect := dialect }]) := by
  have h1 := insertAt_append_new h { d with clauses := d.clauses }
  simp only [InsertDataset.SetDialect, InsertDataset.GetClauses, hd, copy_eq h id d _ hd, bind,
    Except.bind, pure, Except.pure, h1, set_append_new]

/-- The dataset that a call derives from the receiver `d`, when the call
returns: the clauses (or the prepared flag, or the dialect) it replaces. -/
theorem run_eq (W : Deps) (h : Heap) (id : Nat) (d : InsertDataset)
    (hd : h.insertAt id = .ok d) (c : Call) (hc : ∀ frm, c ≠ Call.FromQuery frm)
    (q : Nat) (h' : Heap) (hrun : c.run W h id = .ok (q, h')) :
    q = h.length ∧ ∃ d' : InsertDataset, h' = h ++ [Obj.insert d'] ∧ d'.err = d.err ∧
      d'.executor = d.executor := by
  cases c with
  | Prepared b =>
    simp only [Call.run, Prepared_eq h id d b hd] at hrun
    cases hrun; exact ⟨rfl, _, rfl, rfl, rfl⟩
  | WithDialect dl =>
    simp only [Call.run, WithDialect_eq W h id d dl hd] at hrun
    cases hrun; exact ⟨rfl, _, rfl, rfl, rfl⟩
  | SetDialect dialect =>
    simp only [Call.run, SetDialect_eq h id d dialect hd] at hrun
    cases hrun; exact ⟨rfl, _, rfl, rfl, rfl⟩
  | With name subquery =>
    simp only [Call.run, InsertDataset.With, hd, copy_eq h id d _ hd, bind, Except.bind] at hrun
    cases hrun; exact ⟨rfl, _, rfl, rfl, rfl⟩
  | WithRecursive name subquery =>
    simp only [Call.run, InsertDataset.WithRecursive, hd, copy_eq h id d _ hd, bind, Except.bind] at hrun
    cases hrun; exact ⟨rfl, _, rfl, rfl, rfl⟩
  | Into into =>
    simp only [Call.run, InsertDataset.Into] at hrun
    split at hrun
    · simp only [hd, copy_eq h id d _ hd, bind, Except.bind] at hrun
      cases hrun; exact ⟨rfl, _, rfl, rfl, rfl⟩
    · split at hrun
      · simp only [hd, copy_eq h id d _ hd, bind, Except.bind] at hrun
        cases hrun; exact ⟨rfl, _, rfl, rfl, rfl⟩
      · cases hrun
  | Cols cols =>
    simp only [Call.run, InsertDataset.Cols, hd, bind, Except.bind] at hrun
    cases hcl : W.NewColumnListExpression cols with
    | error e => rw [hcl] at hrun; cases hrun
    | ok cl =>
      rw [hcl] at hrun
      simp only [copy_eq h id d _ hd] at hrun
      cases hrun; exact ⟨rfl, _, rfl, rfl, rfl⟩
  | ColsAppend cols =>
    simp only [Call.run, InsertDataset.ColsAppend, hd, bind, Except.bind] at hrun
    cases hcl : W.NewColumnListExpression cols with
    | error e => rw [hcl] at hrun; cases hrun
    | ok cl =>
      rw [hcl] at hrun
      simp only [copy_eq h id d _ hd] at hrun
      cases hrun; exact ⟨rfl, _, rfl, rfl, rfl⟩
  | ClearCols =>
    simp only [Call.run, InsertDataset.ClearCols, hd, copy_eq h id d _ hd, bind, Except.bind] at hrun
    cases hrun; exact ⟨rfl, _, rfl, rfl, rfl⟩
  | FromQuery frm => exact absurd rfl (hc frm)
  | Vals vals =>
    simp only [Call.run, InsertDataset.Vals, hd, copy_eq h id d _ hd, bind, Except.bind] at hrun
    cases hrun; exact ⟨rfl, _, rfl, rfl, rfl⟩
  | ClearVals =>
    simp only [Call.run, InsertDataset.ClearVals, hd, copy_eq h id d _ hd, bind, Except.bind] at hrun
    cases hrun; exact ⟨rfl, _, rfl, rfl, rfl⟩
  | Rows rows =>
    simp only [Call.run, InsertDataset.Rows, hd, copy_eq h id d _ hd, bind, Except.bind] at hrun
    cases hrun; exact ⟨rfl, _, rfl, rfl, rfl⟩
  | ClearRows =>
    simp only [Call.run, InsertDataset.ClearRows, hd, copy_eq h id d _ hd, bind, Except.bind] at hrun
    cases hrun; exact ⟨rfl, _, rfl, rfl, rfl⟩
  | Returning returning =>
    simp only [Call.run, InsertDataset.Returning, hd, bind, Except.bind] at hrun
    cases hcl : W.NewColumnListExpression returning with
    | error e => rw [hcl] at hrun; cases hrun
    | ok cl =>
      rw [hcl] at hrun
      simp only [copy_eq h id d _ hd] at hrun
      cases hrun; exact ⟨rfl, _, rfl, rfl, rfl⟩
  | OnConflict conflict =>
    simp only [Call.run, InsertDataset.OnConflict, hd, copy_eq h id d _ hd, bind, Except.bind] at hrun
    cases hrun; exact ⟨rfl, _, rfl, rfl, rfl⟩
  | ClearOnConflict =>
    simp only [Call.run, InsertDataset.ClearOnConflict, InsertDataset.OnConflict, hd,
      copy_eq h id d _ hd, bind, Except.bind] at hrun
    cases hrun; exact ⟨rfl, _, rfl, rfl, rfl⟩
  | As als =>
    simp only [Call.run, InsertDataset.As, hd, copy_eq h id d _ hd, bind, Except.bind] at hrun
    cases hrun; exact ⟨rfl, _, rfl, rfl, rfl⟩

theorem insertAt_set_select (h : Heap) (id q : Nat) (d : InsertDataset) (sds sds' : SelectDataset)
    (hd : h.insertAt id = .ok d) (hq : h[q]? = some (Obj.select sds)) :
    Heap.insertAt (h.set q (Obj.select sds')) id = .ok d := by
  have hid := (insertAt_lt h id d hd).2
  have hne : q ≠ id := by
    intro e; rw [e, hid] at hq; cases hq
  apply insertAt_of_getElem?
  rw [List.getElem?_set_ne hne]; exact hid

/-- What `FromQuery` does with a select dataset whose dialect fits. -/
theorem FromQuery_select_eq (W : Deps) (h : Heap) (id q : Nat) (d : InsertDataset)
    (sds : SelectDataset) (hd : h.insertAt id = .ok d) (hq : h[q]? = some (Obj.select sds))
    (hok : sds.dialect = W.GetDialect "default" ∨ d.dialect = sds.dialect) :
    InsertDataset.FromQuery W h id (Val.dataset q) =
      .ok (h.length, h.set q (Obj.select { sds with dialect := d.dialect }) ++
        [Obj.insert { d with clauses := d.clauses.SetFrom (Val.dataset q) }]) := by
  have hcond : ¬(sds.dialect ≠ W.GetDialect "default" ∧ d.dialect ≠ sds.dialect) := by
    rintro ⟨h1, h2⟩
    rcases hok with h3 | h3
    · exact h1 h3
    · exact h2 h3
  have hset := insertAt_set_select h id q d sds { sds with dialect := d.dialect } hd hq
  simp only [InsertDataset.FromQuery, hq, hd, bind, Except.bind, hcond, if_false]
  rw [copy_eq _ id d _ hset]
  simp

/-- What `FromQuery` does with a select dataset of another dialect. -/
theorem FromQuery_select_panic (W : Deps) (h : Heap) (id q : Nat) (d : InsertDataset)
    (sds : SelectDataset) (hd : h.insertAt id = .ok d) (hq : h[q]? = some (Obj.select sds))
    (h1 : sds.dialect ≠ W.GetDialect "default") (h2 : d.dialect ≠ sds.dialect) :
    InsertDataset.FromQuery W h id (Val.dataset q) =
      .error (GoError.fmtError incompatibleDialectsFormat
        [W.dialectName d.dialect, W.dialectName sds.dialect]) := by
  have hcond : sds.dialect ≠ W.GetDialect "default" ∧ d.dialect ≠ sds.dialect := ⟨h1, h2⟩
  simp only [InsertDataset.FromQuery, hq, hd, bind, Except.bind]
  rw [if_pos hcond]

/-- What `FromQuery` does with an argument that is not a select dataset. -/
theorem FromQuery_other_eq (W : Deps) (h : Heap) (id : Nat) (d : InsertDataset) (frm : Val)
    (hd : h.insertAt id = .ok d)
    (hq : ∀ q sds, frm = Val.dataset q → h[q]? ≠ some (Obj.select sds)) :
    InsertDataset.FromQuery W h id frm =
      .ok (h.length, h ++ [Obj.insert { d with clauses := d.clauses.SetFrom frm }]) := by
  unfold InsertDataset.FromQuery
  split
  · rename_i q
    split
    · rename_i sds hs
      exact absurd hs (hq q sds rfl)
    · simp only [hd, bind, Except.bind, copy_eq h id d _ hd]
  · simp only [hd, bind, Except.bind, copy_eq h id d _ hd]


theorem Into_str_eq (h : Heap) (id : Nat) (d : InsertDataset) (s : String)
    (hd : h.insertAt id = .ok d) :
    InsertDataset.Into h id (Val.str s) = .ok (h.length,
      h ++ [Obj.insert { d with clauses := d.clauses.SetInto (ParseIdentifier s).Expression }]) := by
  simp only [InsertDataset.Into, Val.isExpression, hd, bind, Except.bind, copy_eq h id d _ hd]
  simp

theorem Into_expression_eq (h : Heap) (id : Nat) (d : InsertDataset) (x : Val)
    (hd : h.insertAt id = .ok d) (hx : x.isExpression = true) :
    InsertDataset.Into h id x = .ok (h.length,
      h ++ [Obj.insert { d with clauses := d.clauses.SetInto x }]) := by
  simp only [InsertDataset.Into, hx, if_true, hd, bind, Except.bind, copy_eq h id d _ hd]

theorem Into_other_panics (h : Heap) (id : Nat) (x : Val)
    (hx : x.isExpression = false) (hs : ∀ s, x ≠ Val.str s) :
    InsertDataset.Into h id x = .error ErrUnsupportedIntoType := by
  simp only [InsertDataset.Into, hx]
  cases x with
  | str s => exact absurd rfl (hs s)
  | _ => rfl

theorem Error_eq (h : Heap) (id : Nat) (d : InsertDataset) (hd : h.insertAt id = .ok d) :
    InsertDataset.Error h id = .ok d.err := by
  simp only [InsertDataset.Error, hd, bind, Except.bind, pure, Except.pure]

theorem insertAt_append_old (h : Heap) (o : Obj) (p : Nat) (d : InsertDataset)
    (hd : h.insertAt p = .ok d) : Heap.insertAt (h ++ [o]) p = .ok d :=
  insertAt_of_getElem? _ _ _ (getElem?_append_old h o p _ (insertAt_lt h p d hd).2)


/-- C5. `SetError` keeps the first error, on INSERT and on TRUNCATE datasets:
after `ds.SetError(e1).SetError(e2)` with `e1` not nil, both calls return the
receiver and `Error()` is `e1` when the dataset had no error and the error the
dataset already had otherwise. -/
theorem SetError_first_error_wins :
    (∀ (h : Heap) (id : Nat) (d : InsertDataset) (e1 : GoError) (e2 : Option GoError),
      h.insertAt id = .ok d →
      ∃ h1 h2, InsertDataset.SetError h id (some e1) = .ok (id, h1) ∧
        InsertDataset.SetError h1 id e2 = .ok (id, h2) ∧
        InsertDataset.Error h2 id = .ok (if d.err = none then some e1 else d.err)) ∧
    (∀ (h : Heap) (td : Nat) (d : TruncateDataset) (e1 : GoError) (e2 : Option GoError),
      h.truncateAt td = .ok d →
      ∃ h1 h2, TruncateDataset.SetError h td (some e1) = .ok (td, h1) ∧
        TruncateDataset.SetError h1 td e2 = .ok (td, h2) ∧
        TruncateDataset.Error h2 td = .ok (if d.err = none then some e1 else d.err)) := by
  constructor
  · intro h id d e1 e2 hd
    have hlt := (insertAt_lt h id d hd).1
    by_cases he : d.err = none
    · refine ⟨h.set id (Obj.insert { d with err := some e1 }),
        h.set id (Obj.insert { d with err := some e1 }), ?_, ?_, ?_⟩
      · simp [InsertDataset.SetError, hd, he, bind, Except.bind, pure, Except.pure]
      · simp [InsertDataset.SetError, insertAt_set_self h id _ hlt, bind, Except.bind, pure,
          Except.pure]
      · simp [InsertDataset.Error, insertAt_set_self h id _ hlt, he, bind, Except.bind, pure,
          Except.pure]
    · refine ⟨h, h, ?_, ?_, ?_⟩
      · simp [InsertDataset.SetError, hd, he, bind, Except.bind, pure, Except.pure]
      · simp [InsertDataset.SetError, hd, he, bind, Except.bind, pure, Except.pure]
      · simp [InsertDataset.Error, hd, he, bind, Except.bind, pure, Except.pure]
  · intro h td d e1 e2 hd
    have hlt := (truncateAt_lt h td d hd).1
    by_cases he : d.err = none
    · refine ⟨h.set td (Obj.truncate { d with err := some e1 }),
        h.set td (Obj.truncate { d with err := some e1 }), ?_, ?_, ?_⟩
      · simp [TruncateDataset.SetError, hd, he, bind, Except.bind, pure, Except.pure]
      · simp [TruncateDataset.SetError, truncateAt_set_self h td _ hlt, bind, Except.bind, pure,
          Except.pure]
      · simp [TruncateDataset.Error, truncateAt_set_self h td _ hlt, he, bind, Except.bind, pure,
          Except.pure]
    · refine ⟨h, h, ?_, ?_, ?_⟩
      · simp [TruncateDataset.SetError, hd, he, bind, Except.bind, pure, Except.pure]
      · simp [TruncateDataset.SetError, hd, he, bind, Except.bind, pure, Except.pure]
      · simp [TruncateDataset.Error, hd, he, bind, Except.bind, pure, Except.pure]

/-- C6. A dataset with a recorded error renders to `("", no arguments, e)`:
`ToSQL` returns this for every dialect, clauses, prepared flag and renderer,
also for a renderer that panics on every call, so the renderer is not called. -/
theorem ToSQL_returns_recorded_error :
    (∀ (W : Deps) (h : Heap) (id : Nat) (d : InsertDataset) (e : GoError),
      h.insertAt id = .ok d → d.err = some e →
      InsertDataset.ToSQL W h id = .ok ("", [], some e)) ∧
    (∀ (W : Deps) (h : Heap) (td : Nat) (d : TruncateDataset) (e : GoError),
      h.truncateAt td = .ok d → d.err = some e →
      TruncateDataset.ToSQL W h td = .ok ("", [], some e)) := by
  constructor
  · intro W h id d e hd he
    simp [InsertDataset.ToSQL, InsertDataset.insertSQLBuilder, hd, he, bind, Except.bind, pure,
      Except.pure, SQLBuilder.SetError, NewSQLBuilder, SQLBuilder.ToSQL]
  · intro W h td d e hd he
    simp [TruncateDataset.ToSQL, TruncateDataset.truncateSQLBuilder, hd, he, bind, Except.bind,
      pure, Except.pure, SQLBuilder.SetError, NewSQLBuilder, SQLBuilder.ToSQL]

/-- C7. A call of a deriving method of `*InsertDataset` on a receiver in the
heap either returns a dataset with the `Error()` of the receiver, or it
panics, and it panics only in `Into` on a value that is neither an expression
nor a string, in `Cols`, `ColsAppend` and `Returning` when the constructor of
the column list panics, and in `FromQuery` on a select dataset of an
incompatible dialect. -/
theorem derived_dataset_keeps_error (W : Deps) (h : Heap) (id : Nat) (d : InsertDataset)
    (c : Call) (hd : h.insertAt id = .ok d) :
    (∀ q h', c.run W h id = .ok (q, h') →
      InsertDataset.Error h' q = InsertDataset.Error h id) ∧
    (∀ e, c.run W h id = .error e →
      (∃ into, c = Call.Into into ∧ into.isExpression = false ∧ (∀ s, into ≠ Val.str s) ∧
        e = ErrUnsupportedIntoType) ∨
      (∃ cols, (c = Call.Cols cols ∨ c = Call.ColsAppend cols ∨ c = Call.Returning cols) ∧
        W.NewColumnListExpression cols = .error e) ∨
      (∃ q sds, c = Call.FromQuery (Val.dataset q) ∧ h[q]? = some (Obj.select sds) ∧
        sds.dialect ≠ W.GetDialect "default" ∧ d.dialect ≠ sds.dialect)) := by
  by_cases hc : ∀ frm, c ≠ Call.FromQuery frm
  · constructor
    · intro q h' hrun
      obtain ⟨hq, d', hh, herr, _⟩ := run_eq W h id d hd c hc q h' hrun
      subst hq hh
      rw [Error_eq h id d hd, Error_eq _ _ d' (insertAt_append_new h d'), herr]
    · intro e hrun
      cases c with
      | Prepared b => simp only [Call.run, Prepared_eq h id d b hd] at hrun; cases hrun
      | WithDialect dl => simp only [Call.run, WithDialect_eq W h id d dl hd] at hrun; cases hrun
      | SetDialect dialect =>
        simp only [Call.run, SetDialect_eq h id d dialect hd] at hrun; cases hrun
      | With name subquery =>
        simp only [Call.run, InsertDataset.With, hd, copy_eq h id d _ hd, bind, Except.bind] at hrun
        cases hrun
      | WithRecursive name subquery =>
        simp only [Call.run, InsertDataset.WithRecursive, hd, copy_eq h id d _ hd, bind,
          Except.bind] at hrun
        cases hrun
      | Into into =>
        left
        by_cases hx : into.isExpression = true
        · simp only [Call.run, Into_expression_eq h id d into hd hx] at hrun
          cases hrun
        · have hx' : into.isExpression = false := by simpa using hx
          by_cases hs : ∃ s, into = Val.str s
          · obtain ⟨s, hs⟩ := hs
            subst hs
            simp only [Call.run, Into_str_eq h id d s hd] at hrun
            cases hrun
          · have hs' : ∀ s, into ≠ Val.str s := fun s e => hs ⟨s, e⟩
            simp only [Call.run, Into_other_panics h id into hx' hs'] at hrun
            cases hrun
            exact ⟨into, rfl, hx', hs', rfl⟩
      | Cols cols =>
        right; left
        simp only [Call.run, InsertDataset.Cols, hd, bind, Except.bind] at hrun
        cases hcl : W.NewColumnListExpression cols with
        | error e' => rw [hcl] at hrun; cases hrun; exact ⟨cols, Or.inl rfl, hcl⟩
        | ok cl => rw [hcl] at hrun; simp only [copy_eq h id d _ hd] at hrun; cases hrun
      | ColsAppend cols =>
        right; left
        simp only [Call.run, InsertDataset.ColsAppend, hd, bind, Except.bind] at hrun
        cases hcl : W.NewColumnListExpression cols with
        | error e' => rw [hcl] at hrun; cases hrun; exact ⟨cols, Or.inr (Or.inl rfl), hcl⟩
        | ok cl => rw [hcl] at hrun; simp only [copy_eq h id d _ hd] at hrun; cases hrun
      | ClearCols =>
        simp only [Call.run, InsertDataset.ClearCols, hd, copy_eq h id d _ hd, bind,
          Except.bind] at hrun
        cases hrun
      | FromQuery frm => exact absurd rfl (hc frm)
      | Vals vals =>
        simp only [Call.run, InsertDataset.Vals, hd, copy_eq h id d _ hd, bind, Except.bind] at hrun
        cases hrun
      | ClearVals =>
        simp only [Call.run, InsertDataset.ClearVals, hd, copy_eq h id d _ hd, bind,
          Except.bind] at hrun
        cases hrun
      | Rows rows =>
        simp only [Call.run, InsertDataset.Rows, hd, copy_eq h id d _ hd, bind, Except.bind] at hrun
        cases hrun
      | ClearRows =>
        simp only [Call.run, InsertDataset.ClearRows, hd, copy_eq h id d _ hd, bind,
          Except.bind] at hrun
        cases hrun
      | Returning returning =>
        right; left
        simp only [Call.run, InsertDataset.Returning, hd, bind, Except.bind] at hrun
        cases hcl : W.NewColumnListExpression returning with
        | error e' => rw [hcl] at hrun; cases hrun; exact ⟨returning, Or.inr (Or.inr rfl), hcl⟩
        | ok cl => rw [hcl] at hrun; simp only [copy_eq h id d _ hd] at hrun; cases hrun
      | OnConflict conflict =>
        simp only [Call.run, InsertDataset.OnConflict, hd, copy_eq h id d _ hd, bind,
          Except.bind] at hrun
        cases hrun
      | ClearOnConflict =>
        simp only [Call.run, InsertDataset.ClearOnConflict, InsertDataset.OnConflict, hd,
          copy_eq h id d _ hd, bind, Except.bind] at hrun
        cases hrun
      | As als =>
        simp only [Call.run, InsertDataset.As, hd, copy_eq h id d _ hd, bind, Except.bind] at hrun
        cases hrun
  · have hex : ∃ frm, c = Call.FromQuery frm := by
      by_contra hn
      exact hc (fun frm e => hn ⟨frm, e⟩)
    obtain ⟨frm, hfrm⟩ := hex
    subst hfrm
    simp only [Call.run]
    by_cases hsel : ∃ q sds, frm = Val.dataset q ∧ h[q]? = some (Obj.select sds)
    · obtain ⟨q, sds, hfq, hq⟩ := hsel
      subst hfq
      by_cases hbad : sds.dialect ≠ W.GetDialect "default" ∧ d.dialect ≠ sds.dialect
      · have hp := FromQuery_select_panic W h id q d sds hd hq hbad.1 hbad.2
        constructor
        · intro r h' hrun
          rw [hp] at hrun; cases hrun
        · intro e _
          right; right
          exact ⟨q, sds, rfl, hq, hbad.1, hbad.2⟩
      · have hok : sds.dialect = W.GetDialect "default" ∨ d.dialect = sds.dialect := by
          by_cases h1 : sds.dialect = W.GetDialect "default"
          · exact Or.inl h1
          · right
            by_contra h2
            exact hbad ⟨h1, h2⟩
        have hp := FromQuery_select_eq W h id q d sds hd hq hok
        constructor
        · intro r h' hrun
          rw [hp] at hrun
          cases hrun
          have hlen : h.length = (h.set q (Obj.select { sds with dialect := d.dialect })).length := by
            simp
          have hins' : Heap.insertAt (h.set q (Obj.select { sds with dialect := d.dialect }) ++
              [Obj.insert { d with clauses := d.clauses.SetFrom (Val.dataset q) }]) h.length =
              .ok { d with clauses := d.clauses.SetFrom (Val.dataset q) } := by
            rw [hlen]; exact insertAt_append_new _ _
          rw [Error_eq h id d hd, Error_eq _ _ _ hins']
        · intro e hrun
          rw [hp] at hrun; cases hrun
    · have hq : ∀ q sds, frm = Val.dataset q → h[q]? ≠ some (Obj.select sds) :=
        fun q sds e1 e2 => hsel ⟨q, sds, e1, e2⟩
      have hp := FromQuery_other_eq W h id d frm hd hq
      constructor
      · intro r h' hrun
        rw [hp] at hrun
        cases hrun
        rw [Error_eq h id d hd, Error_eq _ _ _ (insertAt_append_new h _)]
      · intro e hrun
        rw [hp] at hrun; cases hrun


/-- C8. Copy on write: a call of a clause-building method (every deriving
method but `FromQuery`) that returns gives a pointer to a dataset at a new
address, different from the receiver, and every object that was in the heap
before the call, the receiver and every dataset branched from it earlier
among them, is still there unchanged; so `GetClauses()`, `Dialect()`,
`IsPrepared()` and `Error()` of the receiver are what they were. -/
theorem clause_methods_copy_on_write (W : Deps) (h : Heap) (id : Nat) (d : InsertDataset)
    (c : Call) (q : Nat) (h' : Heap) (hd : h.insertAt id = .ok d)
    (hc : ∀ frm, c ≠ Call.FromQuery frm) (hrun : c.run W h id = .ok (q, h')) :
    q ≠ id ∧ h[q]? = none ∧ (∃ d', h'.insertAt q = .ok d') ∧
    (∀ (p : Nat) (o : Obj), h[p]? = some o → h'[p]? = some o) ∧
    InsertDataset.GetClauses h' id = InsertDataset.GetClauses h id ∧
    InsertDataset.Dialect h' id = InsertDataset.Dialect h id ∧
    InsertDataset.IsPrepared W h' id = InsertDataset.IsPrepared W h id ∧
    InsertDataset.Error h' id = InsertDataset.Error h id := by
  obtain ⟨hq, d', hh, _, _⟩ := run_eq W h id d hd c hc q h' hrun
  subst hq hh
  have hlt := (insertAt_lt h id d hd).1
  have hold := insertAt_append_old h (Obj.insert d') id d hd
  refine ⟨by omega, by simp, ⟨d', insertAt_append_new h d'⟩,
    fun p o hp => getElem?_append_old h _ p o hp, ?_, ?_, ?_, ?_⟩
  · simp only [InsertDataset.GetClauses, hold, hd]
  · simp only [InsertDataset.Dialect, hold, hd]
  · simp only [InsertDataset.IsPrepared, hold, hd]
  · simp only [InsertDataset.Error, hold, hd]

/-- C9. `Into(x)`: for a string the INTO clause becomes `ParseIdentifier(x)`,
for an expression it becomes `x` itself, in both cases on a new dataset that
differs from the receiver in this clause only; for every other value, such as
a bool, `Into` panics with `ErrUnsupportedIntoType` and returns no dataset. -/
theorem Into_by_argument_type (h : Heap) (id : Nat) (d : InsertDataset) (x : Val)
    (hd : h.insertAt id = .ok d) :
    (∀ s, x = Val.str s →
      InsertDataset.Into h id x = .ok (h.length,
        h ++ [Obj.insert { d with clauses := d.clauses.SetInto (ParseIdentifier s).Expression }])) ∧
    (x.isExpression = true →
      InsertDataset.Into h id x = .ok (h.length,
        h ++ [Obj.insert { d with clauses := d.clauses.SetInto x }])) ∧
    (x.isExpression = false → (∀ s, x ≠ Val.str s) →
      InsertDataset.Into h id x = .error ErrUnsupportedIntoType) ∧
    (∀ b, InsertDataset.Into h id (Val.bool b) = .error ErrUnsupportedIntoType) ∧
    (∀ c : InsertClauses, (c.SetInto x).into = x) := by
  refine ⟨?_, ?_, ?_, ?_, ?_⟩
  · intro s hs
    subst hs
    exact Into_str_eq h id d s hd
  · intro hx
    exact Into_expression_eq h id d x hd hx
  · intro hx hs
    exact Into_other_panics h id x hx hs
  · intro b
    exact Into_other_panics h id (Val.bool b) rfl (fun s e => by cases e)
  · intro c; rfl

/-- C10. For a select dataset `q` in the heap, `FromQuery(q)` panics exactly
when the dialect of `q` is neither the registered default dialect nor the
dialect of the insert dataset, and the panic is the error made from the text
`incompatible dialects for INSERT (%q) and SELECT (%q)` with the names of the
insert and of the select dialect.  In every other case it returns a dataset
whose FROM clause is the pointer `q`, and `q` then has the dialect of the
insert dataset. -/
theorem FromQuery_dialects (W : Deps) (h : Heap) (id q : Nat) (d : InsertDataset)
    (sds : SelectDataset) (hd : h.insertAt id = .ok d) (hq : h[q]? = some (Obj.select sds)) :
    ((∃ e, InsertDataset.FromQuery W h id (Val.dataset q) = .error e) ↔
      (sds.dialect ≠ W.GetDialect "default" ∧ sds.dialect ≠ d.dialect)) ∧
    (∀ e, InsertDataset.FromQuery W h id (Val.dataset q) = .error e →
      e = GoError.fmtError "incompatible dialects for INSERT (%q) and SELECT (%q)"
        [W.dialectName d.dialect, W.dialectName sds.dialect]) ∧
    (∀ r h', InsertDataset.FromQuery W h id (Val.dataset q) = .ok (r, h') →
      ∃ d' sds', h'.insertAt r = .ok d' ∧ d'.clauses.From = Val.dataset q ∧
        h'[q]? = some (Obj.select sds') ∧ sds'.dialect = d.dialect ∧
        InsertDataset.Dialect h' r = .ok d.dialect) := by
  by_cases hbad : sds.dialect ≠ W.GetDialect "default" ∧ d.dialect ≠ sds.dialect
  · have hp := FromQuery_select_panic W h id q d sds hd hq hbad.1 hbad.2
    refine ⟨⟨fun _ => ⟨hbad.1, fun e => hbad.2 e.symm⟩, fun _ => ⟨_, hp⟩⟩, ?_, ?_⟩
    · intro e he
      rw [hp] at he; cases he; rfl
    · intro r h' he
      rw [hp] at he; cases he
  · have hok : sds.dialect = W.GetDialect "default" ∨ d.dialect = sds.dialect := by
      by_cases h1 : sds.dialect = W.GetDialect "default"
      · exact Or.inl h1
      · right
        by_contra h2
        exact hbad ⟨h1, h2⟩
    have hp := FromQuery_select_eq W h id q d sds hd hq hok
    have hqlt := (List.getElem?_eq_some_iff.mp hq).1
    refine ⟨⟨?_, ?_⟩, ?_, ?_⟩
    · rintro ⟨e, he⟩
      rw [hp] at he; cases he
    · rintro ⟨h1, h2⟩
      exact absurd ⟨h1, fun e => h2 e.symm⟩ hbad
    · intro e he
      rw [hp] at he; cases he
    · intro r h' he
      rw [hp] at he
      cases he
      have hlen : h.length = (h.set q (Obj.select { sds with dialect := d.dialect })).length := by
        simp
      have hins : Heap.insertAt (h.set q (Obj.select { sds with dialect := d.dialect }) ++
          [Obj.insert { d with clauses := d.clauses.SetFrom (Val.dataset q) }]) h.length =
          .ok { d with clauses := d.clauses.SetFrom (Val.dataset q) } := by
        rw [hlen]; exact insertAt_append_new _ _
      refine ⟨_, { sds with dialect := d.dialect }, hins, rfl, ?_, rfl, ?_⟩
      · apply getElem?_append_old
        simp [List.getElem?_set, hqlt]
      · simp only [InsertDataset.Dialect, hins, bind, Except.bind, pure, Except.pure]


end builder

namespace builder

open exp

/-- C5 at the example heap: the insert dataset without error at address 0 and
the truncate dataset with the error 1 at address 5. -/
theorem SetError_first_error_wins_witness :
    (∃ h1 h2, InsertDataset.SetError demoHeap 0 (some (GoError.other 1)) = .ok (0, h1) ∧
      InsertDataset.SetError h1 0 (some (GoError.other 2)) = .ok (0, h2) ∧
      InsertDataset.Error h2 0 =
        .ok (if demoInsert.err = none then some (GoError.other 1) else demoInsert.err)) ∧
    (∃ h1 h2, TruncateDataset.SetError demoHeap 5 (some (GoError.other 2)) = .ok (5, h1) ∧
      TruncateDataset.SetError h1 5 (some (GoError.other 3)) = .ok (5, h2) ∧
      TruncateDataset.Error h2 5 =
        .ok (if demoTruncate.err = none then some (GoError.other 2) else demoTruncate.err)) :=
  ⟨SetError_first_error_wins.1 demoHeap 0 demoInsert (GoError.other 1) (some (GoError.other 2)) rfl,
   SetError_first_error_wins.2 demoHeap 5 demoTruncate (GoError.other 2) (some (GoError.other 3)) rfl⟩

/-- C6 at the example heap, with renderers that panic when called. -/
theorem ToSQL_returns_recorded_error_witness :
    InsertDataset.ToSQL demoDeps demoHeap 1 = .ok ("", [], some (GoError.other 1)) ∧
    TruncateDataset.ToSQL demoDeps demoHeap 5 = .ok ("", [], some (GoError.other 1)) :=
  ⟨ToSQL_returns_recorded_error.1 demoDeps demoHeap 1 demoInsertFailed (GoError.other 1) rfl rfl,
   ToSQL_returns_recorded_error.2 demoDeps demoHeap 5 demoTruncate (GoError.other 1) rfl rfl⟩

/-- C7 at the example heap: `Cols("a", "b")` on the dataset with the error 1. -/
theorem derived_dataset_keeps_error_witness :
    Heap.insertAt demoHeap 1 = .ok demoInsertFailed ∧
    (∃ q h', (Call.Cols [Val.str "a", Val.str "b"]).run demoDeps demoHeap 1 = .ok (q, h') ∧
      InsertDataset.Error h' q = .ok (some (GoError.other 1))) :=
  ⟨rfl, _, _, rfl,
    ((derived_dataset_keeps_error demoDeps demoHeap 1 demoInsertFailed
      (Call.Cols [Val.str "a", Val.str "b"]) rfl).1 _ _ rfl).trans rfl⟩

/-- C8 at the example heap: `Cols("a", "b")` on the dataset at address 0. -/
theorem clause_methods_copy_on_write_witness :
    (Call.Cols [Val.str "a", Val.str "b"]).run demoDeps demoHeap 0 =
      .ok (7, demoHeap ++ [Obj.insert { demoInsert with
        clauses := demoInsert.clauses.SetCols (some { columns :=
          [(ParseIdentifier "a").Expression, (ParseIdentifier "b").Expression] }) }]) ∧
    InsertDataset.GetClauses (demoHeap ++ [Obj.insert { demoInsert with
        clauses := demoInsert.clauses.SetCols (some { columns :=
          [(ParseIdentifier "a").Expression, (ParseIdentifier "b").Expression] }) }]) 0 =
      InsertDataset.GetClauses demoHeap 0 :=
  ⟨rfl, (clause_methods_copy_on_write demoDeps demoHeap 0 demoInsert
    (Call.Cols [Val.str "a", Val.str "b"]) 7 _ rfl (fun _ e => by cases e) rfl).2.2.2.2.1⟩

/-- C9 at the example heap: `Into("items2")`, `Into(L("items2"))` and
`Into(true)` on the dataset at address 0. -/
theorem Into_by_argument_type_witness :
    InsertDataset.Into demoHeap 0 (Val.str "items2") = .ok (7,
      demoHeap ++ [Obj.insert { demoInsert with
        clauses := demoInsert.clauses.SetInto (ParseIdentifier "items2").Expression }]) ∧
    InsertDataset.Into demoHeap 0 (NewLiteralExpression "items2" []) = .ok (7,
      demoHeap ++ [Obj.insert { demoInsert with
        clauses := demoInsert.clauses.SetInto (NewLiteralExpression "items2" []) }]) ∧
    InsertDataset.Into demoHeap 0 (Val.bool true) = .error ErrUnsupportedIntoType :=
  ⟨(Into_by_argument_type demoHeap 0 demoInsert (Val.str "items2") rfl).1 "items2" rfl,
   (Into_by_argument_type demoHeap 0 demoInsert (NewLiteralExpression "items2" []) rfl).2.1 rfl,
   (Into_by_argument_type demoHeap 0 demoInsert (Val.bool true) rfl).2.2.1 rfl
     (fun _ e => by cases e)⟩

/-- C10 at the example heap: the insert dataset of the dialect 1 takes the
select datasets of the default dialect and of the dialect 1, and panics on
the select dataset of the dialect 2. -/
theorem FromQuery_dialects_witness :
    (¬ ∃ e, InsertDataset.FromQuery demoDeps demoHeap 0 (Val.dataset 2) = .error e) ∧
    (¬ ∃ e, InsertDataset.FromQuery demoDeps demoHeap 0 (Val.dataset 3) = .error e) ∧
    InsertDataset.FromQuery demoDeps demoHeap 0 (Val.dataset 4) =
      .error (GoError.fmtError "incompatible dialects for INSERT (%q) and SELECT (%q)"
        ["dialect", "other_dialect"]) :=
  ⟨fun hex => absurd
      ((FromQuery_dialects demoDeps demoHeap 0 2 demoInsert ⟨0, 0⟩ rfl rfl).1.mp hex).1 (by decide),
   fun hex => absurd
      ((FromQuery_dialects demoDeps demoHeap 0 3 demoInsert ⟨1, 0⟩ rfl rfl).1.mp hex).2 (by decide),
   rfl⟩

end builder

/-! ## Chains of builder calls -/

namespace builder

open exp

theorem GetClauses_eq (h : Heap) (id : Nat) (d : InsertDataset) (hd : h.insertAt id = .ok d) :
    InsertDataset.GetClauses h id = .ok d.clauses := by
  simp only [InsertDataset.GetClauses, hd, bind, Except.bind, pure, Except.pure]

theorem IsPrepared_eq (W : Deps) (h : Heap) (id : Nat) (d : InsertDataset)
    (hd : h.insertAt id = .ok d) :
    InsertDataset.IsPrepared W h id = .ok (d.isPrepared.Bool W.defaultPrepared) := by
  simp only [InsertDataset.IsPrepared, hd, bind, Except.bind, pure, Except.pure]

theorem Vals_eq (h : Heap) (id : Nat) (d : InsertDataset) (vals : List (List Val))
    (hd : h.insertAt id = .ok d) :
    InsertDataset.Vals h id vals =
      .ok (h.length, h ++ [Obj.insert { d with clauses := d.clauses.ValsAppend vals }]) := by
  simp only [InsertDataset.Vals, hd, copy_eq h id d _ hd, bind, Except.bind]

theorem ClearVals_eq (h : Heap) (id : Nat) (d : InsertDataset) (hd : h.insertAt id = .ok d) :
    InsertDataset.ClearVals h id =
      .ok (h.length, h ++ [Obj.insert { d with clauses := d.clauses.SetVals [] }]) := by
  simp only [InsertDataset.ClearVals, hd, copy_eq h id d _ hd, bind, Except.bind]

theorem Rows_eq (h : Heap) (id : Nat) (d : InsertDataset) (rows : List Val)
    (hd : h.insertAt id = .ok d) :
    InsertDataset.Rows h id rows =
      .ok (h.length, h ++ [Obj.insert { d with clauses := d.clauses.SetRows rows }]) := by
  simp only [InsertDataset.Rows, hd, copy_eq h id d _ hd, bind, Except.bind]

theorem ClearRows_eq (h : Heap) (id : Nat) (d : InsertDataset) (hd : h.insertAt id = .ok d) :
    InsertDataset.ClearRows h id =
      .ok (h.length, h ++ [Obj.insert { d with clauses := d.clauses.SetRows [] }]) := by
  simp only [InsertDataset.ClearRows, hd, copy_eq h id d _ hd, bind, Except.bind]

theorem Cols_eq (W : Deps) (h : Heap) (id : Nat) (d : InsertDataset) (cols : List Val)
    (cl : ColumnListExpression) (hd : h.insertAt id = .ok d)
    (hcl : W.NewColumnListExpression cols = .ok cl) :
    InsertDataset.Cols W h id cols =
      .ok (h.length, h ++ [Obj.insert { d with clauses := d.clauses.SetCols (some cl) }]) := by
  simp only [InsertDataset.Cols, hd, hcl, copy_eq h id d _ hd, bind, Except.bind]

theorem ColsAppend_eq (W : Deps) (h : Heap) (id : Nat) (d : InsertDataset) (cols : List Val)
    (cl : ColumnListExpression) (hd : h.insertAt id = .ok d)
    (hcl : W.NewColumnListExpression cols = .ok cl) :
    InsertDataset.ColsAppend W h id cols =
      .ok (h.length, h ++ [Obj.insert { d with clauses := d.clauses.ColsAppend cl }]) := by
  simp only [InsertDataset.ColsAppend, hd, hcl, copy_eq h id d _ hd, bind, Except.bind]

theorem ClearCols_eq (h : Heap) (id : Nat) (d : InsertDataset) (hd : h.insertAt id = .ok d) :
    InsertDataset.ClearCols h id =
      .ok (h.length, h ++ [Obj.insert { d with clauses := d.clauses.SetCols none }]) := by
  simp only [InsertDataset.ClearCols, hd, copy_eq h id d _ hd, bind, Except.bind]

theorem Returning_eq (W : Deps) (h : Heap) (id : Nat) (d : InsertDataset) (cols : List Val)
    (cl : ColumnListExpression) (hd : h.insertAt id = .ok d)
    (hcl : W.NewColumnListExpression cols = .ok cl) :
    InsertDataset.Returning W h id cols =
      .ok (h.length, h ++ [Obj.insert { d with clauses := d.clauses.SetReturning cl }]) := by
  simp only [InsertDataset.Returning, hd, hcl, copy_eq h id d _ hd, bind, Except.bind]

theorem OnConflict_eq (h : Heap) (id : Nat) (d : InsertDataset) (conflict : Val)
    (hd : h.insertAt id = .ok d) :
    InsertDataset.OnConflict h id conflict =
      .ok (h.length, h ++ [Obj.insert { d with clauses := d.clauses.SetOnConflict conflict }]) := by
  simp only [InsertDataset.OnConflict, hd, copy_eq h id d _ hd, bind, Except.bind]

theorem With_eq (h : Heap) (id : Nat) (d : InsertDataset) (name : String) (subquery : Val)
    (hd : h.insertAt id = .ok d) :
    InsertDataset.With h id name subquery =
      .ok (h.length, h ++ [Obj.insert { d with
        clauses := d.clauses.CommonTablesAppend (NewCommonTableExpression false name subquery) }]) := by
  simp only [InsertDataset.With, hd, copy_eq h id d _ hd, bind, Except.bind]

theorem WithRecursive_eq (h : Heap) (id : Nat) (d : InsertDataset) (name : String)
    (subquery : Val) (hd : h.insertAt id = .ok d) :
    InsertDataset.WithRecursive h id name subquery =
      .ok (h.length, h ++ [Obj.insert { d with
        clauses := d.clauses.CommonTablesAppend (NewCommonTableExpression true name subquery) }]) := by
  simp only [InsertDataset.WithRecursive, hd, copy_eq h id d _ hd, bind, Except.bind]

theorem As_eq (h : Heap) (id : Nat) (d : InsertDataset) (als : String)
    (hd : h.insertAt id = .ok d) :
    InsertDataset.As h id als =
      .ok (h.length, h ++ [Obj.insert { d with clauses := d.clauses.SetAlias (T als) }]) := by
  simp only [InsertDataset.As, hd, copy_eq h id d _ hd, bind, Except.bind]

/-- A deriving call other than `Prepared` copies the prepared choice of the
receiver into the dataset it returns. -/
theorem run_keeps_prepared (W : Deps) (h : Heap) (id : Nat) (d : InsertDataset)
    (hd : h.insertAt id = .ok d) (c : Call) (hc : ∀ b, c ≠ Call.Prepared b)
    (q : Nat) (h' : Heap) (hrun : c.run W h id = .ok (q, h')) :
    ∃ d' : InsertDataset, h'.insertAt q = .ok d' ∧ d'.isPrepared = d.isPrepared := by
  by_cases hf : ∀ frm, c ≠ Call.FromQuery frm
  · have hnew : ∀ d1 : InsertDataset, c.run W h id = .ok (h.length, h ++ [Obj.insert d1]) →
        d1.isPrepared = d.isPrepared →
        ∃ d' : InsertDataset, h'.insertAt q = .ok d' ∧ d'.isPrepared = d.isPrepared := by
      intro d1 h1 hp
      rw [h1] at hrun
      cases hrun
      exact ⟨d1, insertAt_append_new h d1, hp⟩
    cases c with
    | Prepared b => exact absurd rfl (hc b)
    | WithDialect dl => exact hnew _ (WithDialect_eq W h id d dl hd) rfl
    | SetDialect dialect => exact hnew _ (SetDialect_eq h id d dialect hd) rfl
    | With name subquery =>
      exact hnew _ (With_eq h id d name subquery hd) rfl
    | WithRecursive name subquery =>
      exact hnew _ (WithRecursive_eq h id d name subquery hd) rfl
    | Into into =>
      by_cases hx : into.isExpression = true
      · exact hnew _ (Into_expression_eq h id d into hd hx) rfl
      · have hx' : into.isExpression = false := by simpa using hx
        by_cases hs : ∃ s, into = Val.str s
        · obtain ⟨s, hs⟩ := hs
          subst hs
          exact hnew _ (Into_str_eq h id d s hd) rfl
        · have hs' : ∀ s, into ≠ Val.str s := fun s e => hs ⟨s, e⟩
          simp only [Call.run, Into_other_panics h id into hx' hs'] at hrun
          cases hrun
    | Cols cols =>
      cases hcl : W.NewColumnListExpression cols with
      | error e =>
        simp only [Call.run, InsertDataset.Cols, hd, hcl, bind, Except.bind] at hrun
        cases hrun
      | ok cl => exact hnew _ (Cols_eq W h id d cols cl hd hcl) rfl
    | ColsAppend cols =>
      cases hcl : W.NewColumnListExpression cols with
      | error e =>
        simp only [Call.run, InsertDataset.ColsAppend, hd, hcl, bind, Except.bind] at hrun
        cases hrun
      | ok cl => exact hnew _ (ColsAppend_eq W h id d cols cl hd hcl) rfl
    | ClearCols => exact hnew _ (ClearCols_eq h id d hd) rfl
    | FromQuery frm => exact absurd rfl (hf frm)
    | Vals vals => exact hnew _ (Vals_eq h id d vals hd) rfl
    | ClearVals => exact hnew _ (ClearVals_eq h id d hd) rfl
    | Rows rows => exact hnew _ (Rows_eq h id d rows hd) rfl
    | ClearRows => exact hnew _ (ClearRows_eq h id d hd) rfl
    | Returning returning =>
      cases hcl : W.NewColumnListExpression returning with
      | error e =>
        simp only [Call.run, InsertDataset.Returning, hd, hcl, bind, Except.bind] at hrun
        cases hrun
      | ok cl => exact hnew _ (Returning_eq W h id d returning cl hd hcl) rfl
    | OnConflict conflict => exact hnew _ (OnConflict_eq h id d conflict hd) rfl
    | ClearOnConflict => exact hnew _ (OnConflict_eq h id d Val.nil hd) rfl
    | As als =>
      exact hnew _ (As_eq h id d als hd) rfl
  · have hex : ∃ frm, c = Call.FromQuery frm := by
      by_contra hn
      exact hf (fun frm e => hn ⟨frm, e⟩)
    obtain ⟨frm, hfrm⟩ := hex
    subst hfrm
    simp only [Call.run] at hrun
    by_cases hsel : ∃ q sds, frm = Val.dataset q ∧ h[q]? = some (Obj.select sds)
    · obtain ⟨p, sds, hfq, hq⟩ := hsel
      subst hfq
      by_cases hbad : sds.dialect ≠ W.GetDialect "default" ∧ d.dialect ≠ sds.dialect
      · rw [FromQuery_select_panic W h id p d sds hd hq hbad.1 hbad.2] at hrun
        cases hrun
      · have hok : sds.dialect = W.GetDialect "default" ∨ d.dialect = sds.dialect := by
          by_cases h1 : sds.dialect = W.GetDialect "default"
          · exact Or.inl h1
          · right
            by_contra h2
            exact hbad ⟨h1, h2⟩
        rw [FromQuery_select_eq W h id p d sds hd hq hok] at hrun
        cases hrun
        have hlen : h.length = (h.set p (Obj.select { sds with dialect := d.dialect })).length := by
          simp
        refine ⟨{ d with clauses := d.clauses.SetFrom (Val.dataset p) }, ?_, rfl⟩
        rw [hlen]
        exact insertAt_append_new _ _
    · have hq : ∀ q sds, frm = Val.dataset q → h[q]? ≠ some (Obj.select sds) :=
        fun q sds e1 e2 => hsel ⟨q, sds, e1, e2⟩
      rw [FromQuery_other_eq W h id d frm hd hq] at hrun
      cases hrun
      exact ⟨_, insertAt_append_new h _, rfl⟩

theorem clausesOf_new (h : Heap) (d : InsertDataset) :
    clausesOf (.ok (h.length, h ++ [Obj.insert d])) = .ok d.clauses := by
  simp only [clausesOf, GetClauses_eq _ _ d (insertAt_append_new h d)]

theorem thenCall_new (h : Heap) (d : InsertDataset)
    (m : Heap → Nat → Except GoError (Nat × Heap)) :
    thenCall (.ok (h.length, h ++ [Obj.insert d])) m = m (h ++ [Obj.insert d]) h.length := rfl

theorem clausesOf_new_succ (h : Heap) (o : Obj) (d : InsertDataset) :
    clausesOf (.ok ((h ++ [o]).length, h ++ [o] ++ [Obj.insert d])) = .ok d.clauses :=
  clausesOf_new (h ++ [o]) d

/-- C11. `ds.Prepared(b)` returns a dataset whose `IsPrepared()` is `b`, the
`IsPrepared()` of `ds` is what it was, and every dataset derived from the
result by a further deriving method other than `Prepared` has `IsPrepared()`
equal to `b`. -/
theorem Prepared_sets_the_flag (W : Deps) (h : Heap) (id : Nat) (d : InsertDataset) (b : Bool)
    (hd : h.insertAt id = .ok d) :
    ∃ q h1, InsertDataset.Prepared h id b = .ok (q, h1) ∧
      InsertDataset.IsPrepared W h1 q = .ok b ∧
      InsertDataset.IsPrepared W h1 id = InsertDataset.IsPrepared W h id ∧
      ∀ (c : Call) (q2 : Nat) (h2 : Heap), (∀ b', c ≠ Call.Prepared b') →
        c.run W h1 q = .ok (q2, h2) → InsertDataset.IsPrepared W h2 q2 = .ok b := by
  have hb : (preparedFromBool b).Bool W.defaultPrepared = b := by
    cases b <;> rfl
  have hnew := insertAt_append_new h { d with isPrepared := preparedFromBool b }
  refine ⟨h.length, h ++ [Obj.insert { d with isPrepared := preparedFromBool b }],
    Prepared_eq h id d b hd, ?_, ?_, ?_⟩
  · rw [IsPrepared_eq W _ _ _ hnew]
    exact congrArg Except.ok hb
  · rw [IsPrepared_eq W _ _ _ (insertAt_append_old h _ id d hd), IsPrepared_eq W h id d hd]
  · intro c q2 h2 hc hrun
    obtain ⟨d', hd', hp⟩ := run_keeps_prepared W _ _ _ hnew c hc q2 h2 hrun
    rw [IsPrepared_eq W _ _ _ hd', hp]
    exact congrArg Except.ok hb

/-- C12. `Vals` accumulates and `Rows`, `Cols`, `Returning` replace: the
clauses of `ds.Vals(v1).Vals(v2)` are those of `ds.Vals(v1, v2)`, the value
rows in call order; those of `ds.Rows(r1).Rows(r2)` are those of
`ds.Rows(r2)`; those of `ds.Cols(a).Cols(b)` are those of `ds.Cols(b)`; those
of `ds.Returning(a).Returning(b)` are those of `ds.Returning(b)`; and those of
`ds.Cols(a).ColsAppend(b)` are those of `ds.Cols(a, b)`, for a column-list
constructor that returns on `a` and `b` and works argument by argument. -/
theorem Vals_accumulates_others_replace (W : Deps) (h : Heap) (id : Nat) (d : InsertDataset)
    (hd : h.insertAt id = .ok d) :
    (∀ v1 v2 : List (List Val),
      clausesOf (thenCall (InsertDataset.Vals h id v1) (fun h q => InsertDataset.Vals h q v2)) =
        .ok { d.clauses with values := d.clauses.values ++ (v1 ++ v2) } ∧
      clausesOf (InsertDataset.Vals h id (v1 ++ v2)) =
        .ok { d.clauses with values := d.clauses.values ++ (v1 ++ v2) }) ∧
    (∀ r1 r2 : List Val,
      clausesOf (thenCall (InsertDataset.Rows h id r1) (fun h q => InsertDataset.Rows h q r2)) =
        .ok { d.clauses with rows := r2 } ∧
      clausesOf (InsertDataset.Rows h id r2) = .ok { d.clauses with rows := r2 }) ∧
    (∀ (a b : List Val) (ca cb : ColumnListExpression),
      W.NewColumnListExpression a = .ok ca → W.NewColumnListExpression b = .ok cb →
      clausesOf (thenCall (InsertDataset.Cols W h id a) (fun h q => InsertDataset.Cols W h q b)) =
        .ok { d.clauses with cols := some cb } ∧
      clausesOf (InsertDataset.Cols W h id b) = .ok { d.clauses with cols := some cb }) ∧
    (∀ (a b : List Val) (ca cb : ColumnListExpression),
      W.NewColumnListExpression a = .ok ca → W.NewColumnListExpression b = .ok cb →
      clausesOf (thenCall (InsertDataset.Returning W h id a)
          (fun h q => InsertDataset.Returning W h q b)) =
        .ok { d.clauses with returning := some cb } ∧
      clausesOf (InsertDataset.Returning W h id b) = .ok { d.clauses with returning := some cb }) ∧
    (∀ (a b : List Val) (ca cb : ColumnListExpression),
      W.NewColumnListExpression a = .ok ca → W.NewColumnListExpression b = .ok cb →
      W.NewColumnListExpression (a ++ b) = .ok { columns := ca.columns ++ cb.columns } →
      clausesOf (thenCall (InsertDataset.Cols W h id a)
          (fun h q => InsertDataset.ColsAppend W h q b)) =
        .ok { d.clauses with cols := some { columns := ca.columns ++ cb.columns } } ∧
      clausesOf (InsertDataset.Cols W h id (a ++ b)) =
        .ok { d.clauses with cols := some { columns := ca.columns ++ cb.columns } }) := by
  refine ⟨?_, ?_, ?_, ?_, ?_⟩
  · intro v1 v2
    constructor
    · rw [Vals_eq h id d v1 hd, thenCall_new, Vals_eq _ _ _ v2 (insertAt_append_new h _),
        clausesOf_new_succ]
      simp [InsertClauses.ValsAppend]
    · rw [Vals_eq h id d _ hd, clausesOf_new]
      simp [InsertClauses.ValsAppend]
  · intro r1 r2
    constructor
    · rw [Rows_eq h id d r1 hd, thenCall_new, Rows_eq _ _ _ r2 (insertAt_append_new h _),
        clausesOf_new_succ]
      simp [InsertClauses.SetRows]
    · rw [Rows_eq h id d _ hd, clausesOf_new]
      simp [InsertClauses.SetRows]
  · intro a b ca cb ha hb
    constructor
    · rw [Cols_eq W h id d a ca hd ha, thenCall_new,
        Cols_eq W _ _ _ b cb (insertAt_append_new h _) hb, clausesOf_new_succ]
      simp [InsertClauses.SetCols]
    · rw [Cols_eq W h id d b cb hd hb, clausesOf_new]
      simp [InsertClauses.SetCols]
  · intro a b ca cb ha hb
    constructor
    · rw [Returning_eq W h id d a ca hd ha, thenCall_new,
        Returning_eq W _ _ _ b cb (insertAt_append_new h _) hb, clausesOf_new_succ]
      simp [InsertClauses.SetReturning]
    · rw [Returning_eq W h id d b cb hd hb, clausesOf_new]
      simp [InsertClauses.SetReturning]
  · intro a b ca cb ha hb hab
    constructor
    · rw [Cols_eq W h id d a ca hd ha, thenCall_new,
        ColsAppend_eq W _ _ _ b cb (insertAt_append_new h _) hb, clausesOf_new_succ]
      simp [InsertClauses.SetCols, InsertClauses.ColsAppend]
    · rw [Cols_eq W h id d (a ++ b) _ hd hab, clausesOf_new]
      simp [InsertClauses.SetCols]

/-- C13. The Clear methods undo the matching setter and leave the other
clauses alone: when the dataset has no columns (no values, no rows, no
conflict clause), the clauses of `ds.Cols(..).ClearCols()` (of
`ds.Vals(..).ClearVals()`, `ds.Rows(..).ClearRows()`,
`ds.OnConflict(c).ClearOnConflict()`) are the clauses of `ds`; and
`ClearOnConflict()` is `OnConflict(nil)`. -/
theorem Clear_undoes_setter (W : Deps) (h : Heap) (id : Nat) (d : InsertDataset)
    (hd : h.insertAt id = .ok d) :
    (∀ (a : List Val) (ca : ColumnListExpression), d.clauses.cols = none →
      W.NewColumnListExpression a = .ok ca →
      clausesOf (thenCall (InsertDataset.Cols W h id a) (fun h q => InsertDataset.ClearCols h q)) =
        InsertDataset.GetClauses h id) ∧
    (∀ v : List (List Val), d.clauses.values = [] →
      clausesOf (thenCall (InsertDataset.Vals h id v) (fun h q => InsertDataset.ClearVals h q)) =
        InsertDataset.GetClauses h id) ∧
    (∀ r : List Val, d.clauses.rows = [] →
      clausesOf (thenCall (InsertDataset.Rows h id r) (fun h q => InsertDataset.ClearRows h q)) =
        InsertDataset.GetClauses h id) ∧
    (∀ c : Val, d.clauses.conflict = Val.nil →
      clausesOf (thenCall (InsertDataset.OnConflict h id c)
          (fun h q => InsertDataset.ClearOnConflict h q)) =
        InsertDataset.GetClauses h id) ∧
    InsertDataset.GetClauses h id = .ok d.clauses ∧
    InsertDataset.ClearOnConflict h id = InsertDataset.OnConflict h id Val.nil := by
  have hg := GetClauses_eq h id d hd
  refine ⟨?_, ?_, ?_, ?_, hg, rfl⟩
  · intro a ca hnone ha
    rw [Cols_eq W h id d a ca hd ha, thenCall_new, ClearCols_eq _ _ _ (insertAt_append_new h _),
      clausesOf_new_succ, hg]
    simp [InsertClauses.SetCols, ← hnone]
  · intro v hnone
    rw [Vals_eq h id d v hd, thenCall_new, ClearVals_eq _ _ _ (insertAt_append_new h _),
      clausesOf_new_succ, hg]
    simp [InsertClauses.SetVals, InsertClauses.ValsAppend, ← hnone]
  · intro r hnone
    rw [Rows_eq h id d r hd, thenCall_new, ClearRows_eq _ _ _ (insertAt_append_new h _),
      clausesOf_new_succ, hg]
    simp [InsertClauses.SetRows, ← hnone]
  · intro c hnone
    rw [OnConflict_eq h id d c hd, thenCall_new]
    simp only [InsertDataset.ClearOnConflict]
    rw [OnConflict_eq _ _ _ Val.nil (insertAt_append_new h _), clausesOf_new_succ, hg]
    simp [InsertClauses.SetOnConflict, ← hnone]

/-- C11 at the example heap: `Prepared(true)` on the dataset at address 0. -/
theorem Prepared_sets_the_flag_witness :
    ∃ q h1, InsertDataset.Prepared demoHeap 0 true = .ok (q, h1) ∧
      InsertDataset.IsPrepared demoDeps h1 q = .ok true ∧
      InsertDataset.IsPrepared demoDeps h1 0 = InsertDataset.IsPrepared demoDeps demoHeap 0 ∧
      ∀ (c : Call) (q2 : Nat) (h2 : Heap), (∀ b', c ≠ Call.Prepared b') →
        c.run demoDeps h1 q = .ok (q2, h2) → InsertDataset.IsPrepared demoDeps h2 q2 = .ok true :=
  Prepared_sets_the_flag demoDeps demoHeap 0 demoInsert true rfl

/-- C12 at the example heap: `Vals` with the rows `(a, b)` and `(c, d)`, and
`Cols("a").ColsAppend("b")` against `Cols("a", "b")`. -/
theorem Vals_accumulates_others_replace_witness :
    (clausesOf (thenCall (InsertDataset.Vals demoHeap 0 [[Val.str "a", Val.str "b"]])
        (fun h q => InsertDataset.Vals h q [[Val.str "c", Val.str "d"]])) =
      .ok { demoInsert.clauses with values := demoInsert.clauses.values ++
        ([[Val.str "a", Val.str "b"]] ++ [[Val.str "c", Val.str "d"]]) } ∧
     clausesOf (InsertDataset.Vals demoHeap 0
        ([[Val.str "a", Val.str "b"]] ++ [[Val.str "c", Val.str "d"]])) =
      .ok { demoInsert.clauses with values := demoInsert.clauses.values ++
        ([[Val.str "a", Val.str "b"]] ++ [[Val.str "c", Val.str "d"]]) }) ∧
    (clausesOf (thenCall (InsertDataset.Cols demoDeps demoHeap 0 [Val.str "a"])
        (fun h q => InsertDataset.ColsAppend demoDeps h q [Val.str "b"])) =
      .ok { demoInsert.clauses with cols := some { columns :=
        [(ParseIdentifier "a").Expression] ++ [(ParseIdentifier "b").Expression] } } ∧
     clausesOf (InsertDataset.Cols demoDeps demoHeap 0 ([Val.str "a"] ++ [Val.str "b"])) =
      .ok { demoInsert.clauses with cols := some { columns :=
        [(ParseIdentifier "a").Expression] ++ [(ParseIdentifier "b").Expression] } }) :=
  ⟨(Vals_accumulates_others_replace demoDeps demoHeap 0 demoInsert rfl).1
      [[Val.str "a", Val.str "b"]] [[Val.str "c", Val.str "d"]],
   (Vals_accumulates_others_replace demoDeps demoHeap 0 demoInsert rfl).2.2.2.2
      [Val.str "a"] [Val.str "b"] { columns := [(ParseIdentifier "a").Expression] }
      { columns := [(ParseIdentifier "b").Expression] } rfl rfl rfl⟩

/-- C13 at the example heap: `Cols("a", "b").ClearCols()` and
`Vals((a, b)).ClearVals()` on the dataset at address 0. -/
theorem Clear_undoes_setter_witness :
    clausesOf (thenCall (InsertDataset.Cols demoDeps demoHeap 0 [Val.str "a", Val.str "b"])
        (fun h q => InsertDataset.ClearCols h q)) = InsertDataset.GetClauses demoHeap 0 ∧
    clausesOf (thenCall (InsertDataset.Vals demoHeap 0 [[Val.str "a", Val.str "b"]])
        (fun h q => InsertDataset.ClearVals h q)) = InsertDataset.GetClauses demoHeap 0 ∧
    InsertDataset.GetClauses demoHeap 0 = .ok demoInsert.clauses :=
  ⟨(Clear_undoes_setter demoDeps demoHeap 0 demoInsert rfl).1 [Val.str "a", Val.str "b"]
      { columns := [(ParseIdentifier "a").Expression, (ParseIdentifier "b").Expression] } rfl rfl,
   (Clear_undoes_setter demoDeps demoHeap 0 demoInsert rfl).2.1 [[Val.str "a", Val.str "b"]] rfl,
   (Clear_undoes_setter demoDeps demoHeap 0 demoInsert rfl).2.2.2.2.1⟩

end builder

/-! ## The column map: fields, tags and embedded structs -/

namespace util

theorem mergeOne_get?_eq (sub cm : ColumnMap) (k : String) :
    (cm.mergeOne sub).get? k = (cm.get? k).orElse (fun _ => sub.get? k) := by
  induction sub generalizing cm with
  | nil =>
    simp only [ColumnMap.mergeOne, List.foldl_nil, ColumnMap.get?]
    cases cm.get? k <;> rfl
  | cons kv rest ih =>
    obtain ⟨a, b⟩ := kv
    have hstep : ColumnMap.mergeOne cm ((a, b) :: rest) =
        ColumnMap.mergeOne (if (cm.get? a).isNone then cm.set a b else cm) rest := by
      simp only [ColumnMap.mergeOne, List.foldl_cons]
    rw [hstep, ih]
    by_cases hn : (cm.get? a).isNone = true
    · simp only [hn, if_true, get?_set]
      by_cases hak : a = k
      · subst hak
        have hnone : cm.get? a = none := by simpa using hn
        simp [hnone, ColumnMap.get?]
      · simp only [hak, if_false, ColumnMap.get?]
    · simp only [hn]
      by_cases hak : a = k
      · subst hak
        cases hc : cm.get? a with
        | none => simp [hc] at hn
        | some v => simp [hc]
      · simp only [ColumnMap.get?, hak, if_false]
        simp

/-- The first of the sub-maps, in list order, that has the key. -/
theorem Merge_get?_eq (subs : List ColumnMap) (cm : ColumnMap) (k : String) :
    (cm.Merge subs).get? k = (cm.get? k).orElse (fun _ => subs.findSome? (fun s => s.get? k)) := by
  induction subs generalizing cm with
  | nil =>
    simp only [ColumnMap.Merge, List.foldl_nil, List.findSome?]
    cases cm.get? k <;> rfl
  | cons s rest ih =>
    have hstep : ColumnMap.Merge cm (s :: rest) = ColumnMap.Merge (cm.mergeOne s) rest := by
      simp only [ColumnMap.Merge, List.foldl_cons]
    rw [hstep, ih, mergeOne_get?_eq]
    cases hc : cm.get? k with
    | some v => simp
    | none =>
      cases hs : s.get? k with
      | some v => simp [List.findSome?, hs]
      | none => simp [List.findSome?, hs]

theorem Merge_get?_source (subs : List ColumnMap) (cm : ColumnMap) (k : String) (v : ColumnData)
    (h : (cm.Merge subs).get? k = some v) :
    cm.get? k = some v ∨ ∃ s ∈ subs, s.get? k = some v := by
  rw [Merge_get?_eq] at h
  cases hc : cm.get? k with
  | some w => rw [hc] at h; left; simpa using h
  | none =>
    rw [hc] at h
    right
    simp only [Option.orElse] at h
    obtain ⟨s, hs, hv⟩ := List.exists_of_findSome?_eq_some h
    exact ⟨s, hs, hv⟩

theorem isDirectField_eq (E : Env) (f : StructField) :
    isDirectField E f =
      (!isEmbeddedStruct E f && f.PkgPath == "" && !shouldIgnoreField E (E.tag.New "db" f.Tag)) :=
  rfl

theorem fieldStep_embedded_skip (E : Env)
    (recur : Nat → List Int → List String → Except Fail ColumnMap)
    (fieldIndex : List Int) (prefixes : List String) (f : StructField) (st : LoopState)
    (hemb : isEmbeddedStruct E f = true)
    (hc : E.tag.Contains (E.tag.New "db" f.Tag) "-" = true) :
    fieldStep E recur fieldIndex prefixes f st = .ok st := by
  simp only [isEmbeddedStruct] at hemb
  simp only [fieldStep, hemb, if_true, hc, Bool.not_true, Bool.false_eq_true, if_false]

theorem fieldStep_embedded (E : Env)
    (recur : Nat → List Int → List String → Except Fail ColumnMap)
    (fieldIndex : List Int) (prefixes : List String) (f : StructField) (st : LoopState)
    (hemb : isEmbeddedStruct E f = true)
    (hc : E.tag.Contains (E.tag.New "db" f.Tag) "-" = false) :
    fieldStep E recur fieldIndex prefixes f st =
      match getStructColumnMap E recur f fieldIndex (E.tag.Values (E.tag.New "db" f.Tag))
        prefixes with
      | .error e => .error e
      | .ok sub => .ok (st.1, st.2 ++ [sub]) := by
  simp only [isEmbeddedStruct] at hemb
  simp only [fieldStep, hemb, if_true, hc, Bool.not_false]

theorem fieldStep_unexported (E : Env)
    (recur : Nat → List Int → List String → Except Fail ColumnMap)
    (fieldIndex : List Int) (prefixes : List String) (f : StructField) (st : LoopState)
    (hemb : isEmbeddedStruct E f = false) (hp : f.PkgPath ≠ "") :
    fieldStep E recur fieldIndex prefixes f st = .ok st := by
  simp only [isEmbeddedStruct] at hemb
  have hp' : (f.PkgPath == "") = false := by simpa using hp
  simp only [fieldStep, hemb, hp', Bool.false_eq_true, if_false]

theorem fieldStep_ignored (E : Env)
    (recur : Nat → List Int → List String → Except Fail ColumnMap)
    (fieldIndex : List Int) (prefixes : List String) (f : StructField) (st : LoopState)
    (name : String) (hemb : isEmbeddedStruct E f = false) (hp : f.PkgPath = "")
    (hn : getColumnName E f (E.tag.New "db" f.Tag) = .ok name)
    (hi : shouldIgnoreField E (E.tag.New "db" f.Tag) = true) :
    fieldStep E recur fieldIndex prefixes f st = .ok st := by
  simp only [isEmbeddedStruct] at hemb
  have hp' : (f.PkgPath == "") = true := by simpa using hp
  simp only [fieldStep, hemb, hp', hn, hi, Bool.false_eq_true, if_false, if_true, Bool.not_true]

theorem fieldStep_nested (E : Env)
    (recur : Nat → List Int → List String → Except Fail ColumnMap)
    (fieldIndex : List Int) (prefixes : List String) (f : StructField) (st : LoopState)
    (name : String) (sub : ColumnMap) (hd : isDirectField E f = true)
    (hn : getColumnName E f (E.tag.New "db" f.Tag) = .ok name)
    (hs : implementsScanner E f.Typ = false)
    (hg : getStructColumnMap E recur f fieldIndex [name] prefixes = .ok sub)
    (hne : sub ≠ []) :
    fieldStep E recur fieldIndex prefixes f st = .ok (st.1, st.2 ++ [sub]) := by
  simp only [isDirectField, Bool.and_eq_true] at hd
  obtain ⟨⟨hemb, hpkg⟩, hign⟩ := hd
  have hemb' : (f.Anonymous && ((E.types f.Typ).kind == Kind.Struct || (E.types f.Typ).kind == Kind.Ptr)) = false :=
    (Bool.not_eq_true' _).mp hemb
  have hl : (sub.length != 0) = true := by
    cases sub with
    | nil => exact absurd rfl hne
    | cons a b => simp
  simp only [fieldStep, hemb', hpkg, hn, hign, hs, hg, hl, if_true, Bool.false_eq_true, if_false,
    Bool.not_false]

/-- What one pass of the loop does to `subColMaps`: nothing, or the column
map of an embedded field or of a struct-typed field is appended. -/
theorem fieldStep_subs (E : Env) (recur : Nat → List Int → List String → Except Fail ColumnMap)
    (fieldIndex : List Int) (prefixes : List String) (f : StructField) (st st' : LoopState)
    (h : fieldStep E recur fieldIndex prefixes f st = .ok st') :
    st'.2 = st.2 ∨
    ∃ sub, st'.2 = st.2 ++ [sub] ∧ st'.1 = st.1 ∧
      ((isEmbeddedStruct E f = true ∧ E.tag.Contains (E.tag.New "db" f.Tag) "-" = false ∧
        getStructColumnMap E recur f fieldIndex (E.tag.Values (E.tag.New "db" f.Tag)) prefixes =
          .ok sub) ∨
       (isDirectField E f = true ∧ implementsScanner E f.Typ = false ∧ sub ≠ [] ∧
        ∃ name, getColumnName E f (E.tag.New "db" f.Tag) = .ok name ∧
          getStructColumnMap E recur f fieldIndex [name] prefixes = .ok sub)) := by
  by_cases hemb : isEmbeddedStruct E f = true
  · by_cases hc : E.tag.Contains (E.tag.New "db" f.Tag) "-" = true
    · rw [fieldStep_embedded_skip E recur fieldIndex prefixes f st hemb hc] at h
      cases h; left; rfl
    · have hc' : E.tag.Contains (E.tag.New "db" f.Tag) "-" = false := by simpa using hc
      rw [fieldStep_embedded E recur fieldIndex prefixes f st hemb hc'] at h
      cases hg : getStructColumnMap E recur f fieldIndex (E.tag.Values (E.tag.New "db" f.Tag))
          prefixes with
      | error e => rw [hg] at h; cases h
      | ok sub =>
        rw [hg] at h
        cases h
        right
        exact ⟨sub, rfl, rfl, Or.inl ⟨hemb, hc', rfl⟩⟩
  · have hemb' : isEmbeddedStruct E f = false := by simpa using hemb
    by_cases hp : f.PkgPath = ""
    · cases hn : getColumnName E f (E.tag.New "db" f.Tag) with
      | error e =>
        simp only [isEmbeddedStruct] at hemb'
        have hp' : (f.PkgPath == "") = true := by simpa using hp
        simp only [fieldStep, hemb', hp', hn, Bool.false_eq_true, if_false, if_true] at h
        cases h
      | ok name =>
        by_cases hi : shouldIgnoreField E (E.tag.New "db" f.Tag) = true
        · rw [fieldStep_ignored E recur fieldIndex prefixes f st name hemb' hp hn hi] at h
          cases h; left; rfl
        · have hd : isDirectField E f = true := by
            have hi' : shouldIgnoreField E (E.tag.New "db" f.Tag) = false := by simpa using hi
            have hp' : (f.PkgPath == "") = true := by simpa using hp
            rw [isDirectField_eq, hemb', hp', hi']
            rfl
          by_cases hs : implementsScanner E f.Typ = true
          · rw [fieldStep_leaf E recur fieldIndex prefixes f st name hd hn (Or.inl hs)] at h
            cases h; left; rfl
          · have hs' : implementsScanner E f.Typ = false := by simpa using hs
            cases hg : getStructColumnMap E recur f fieldIndex [name] prefixes with
            | error e =>
              simp only [isEmbeddedStruct] at hemb'
              have hp' : (f.PkgPath == "") = true := by simpa using hp
              have hi' : shouldIgnoreField E (E.tag.New "db" f.Tag) = false := by simpa using hi
              simp only [fieldStep, hemb', hp', hn, hi', hs', hg, Bool.false_eq_true, if_false,
                if_true, Bool.not_false] at h
              cases h
            | ok sub =>
              by_cases hne : sub = []
              · subst hne
                rw [fieldStep_leaf E recur fieldIndex prefixes f st name hd hn (Or.inr hg)] at h
                cases h; left; rfl
              · rw [fieldStep_nested E recur fieldIndex prefixes f st name sub hd hn hs' hg hne] at h
                cases h
                right
                exact ⟨sub, rfl, rfl, Or.inr ⟨hd, hs', hne, name, rfl, hg⟩⟩
    · rw [fieldStep_unexported E recur fieldIndex prefixes f st hemb' hp] at h
      cases h; left; rfl

theorem isDirectField_contributes (E : Env) (f : StructField) (h : isDirectField E f = true) :
    contributes E f = true := by
  rw [isDirectField_eq] at h
  simp only [Bool.and_eq_true] at h
  obtain ⟨⟨hemb, hp⟩, hi⟩ := h
  have hemb' : isEmbeddedStruct E f = false := (Bool.not_eq_true' _).mp hemb
  simp only [contributes, hemb', Bool.false_eq_true, if_false, hp, hi, Bool.and_self]

/-- The sub-maps that the loop appends come from fields that contribute, each
from the recursive call for its field. -/
theorem fieldsLoop_subs (E : Env) (recur : Nat → List Int → List String → Except Fail ColumnMap)
    (fieldIndex : List Int) (prefixes : List String) (rest : List StructField) :
    ∀ (i : Nat) (st st' : LoopState),
      fieldsLoop E recur fieldIndex prefixes rest i st = .ok st' →
      ∃ more, st'.2 = st.2 ++ more ∧
        ∀ s ∈ more, ∃ (j : Nat) (g : StructField) (names : List String), rest[j]? = some g ∧
          contributes E g = true ∧
          getStructColumnMap E recur { g with Index := [((i + j : Nat) : Int)] } fieldIndex names
            prefixes = .ok s := by
  induction rest with
  | nil =>
    intro i st st' h
    simp only [fieldsLoop] at h
    cases h
    exact ⟨[], by simp, by simp⟩
  | cons f rest ih =>
    intro i st st' h
    simp only [fieldsLoop] at h
    cases hstep : fieldStep E recur fieldIndex prefixes { f with Index := [(i : Int)] } st with
    | error e => rw [hstep] at h; cases h
    | ok st1 =>
      rw [hstep] at h
      obtain ⟨more, hmore, hall⟩ := ih (i + 1) st1 st' h
      have hshift : ∀ s ∈ more, ∃ (j : Nat) (g : StructField) (names : List String),
          (f :: rest)[j]? = some g ∧ contributes E g = true ∧
          getStructColumnMap E recur { g with Index := [((i + j : Nat) : Int)] } fieldIndex names
            prefixes = .ok s := by
        intro s hs
        obtain ⟨j, g, names, hj, hc, hg⟩ := hall s hs
        refine ⟨j + 1, g, names, by simpa using hj, hc, ?_⟩
        have e : i + (j + 1) = i + 1 + j := by omega
        rw [e]; exact hg
      rcases fieldStep_subs E recur fieldIndex prefixes _ st st1 hstep with hsame | ⟨sub, hsub, _, hsrc⟩
      · exact ⟨more, by rw [hmore, hsame], hshift⟩
      · refine ⟨sub :: more, by rw [hmore, hsub]; simp, ?_⟩
        intro s hs
        rcases List.mem_cons.mp hs with hs0 | hs1
        · subst hs0
          rcases hsrc with ⟨hemb, hc, hg⟩ | ⟨hd, _, _, name, _, hg⟩
          · refine ⟨0, f, _, by simp, ?_, by simpa using hg⟩
            have hemb' : isEmbeddedStruct E f = true := hemb
            have hc' : E.tag.Contains (E.tag.New "db" f.Tag) "-" = false := hc
            simp only [contributes, hemb', if_true, hc', Bool.not_false]
          · exact ⟨0, f, _, by simp, isDirectField_contributes E f hd, by simpa using hg⟩
        · exact hshift s hs1

/-- A property of the entries that holds for every leaf the loop stores, and
that a struct passes on from its embedded and nested structs, holds for every
entry of the column map. -/
theorem newColumnMap_entries (E : Env)
    (Q : List Int → List String → String → ColumnData → Prop)
    (hleaf : ∀ (j : Nat) (g : StructField) (fi : List Int) (px : List String) (k : String)
      (v : ColumnData), IsDirectEntry E fi px j g k v → Q fi px k v)
    (hsub : ∀ (fi idx : List Int) (px names : List String) (k : String) (v : ColumnData),
      Q (concatFieldIndexes fi idx) (px ++ names) k v → Q fi px k v) :
    ∀ (fuel t : Nat) (fi : List Int) (px : List String) (cm : ColumnMap),
      newColumnMap E fuel t fi px = .ok cm → ∀ k v, cm.get? k = some v → Q fi px k v := by
  intro fuel
  induction fuel with
  | zero =>
    intro t fi px cm h
    simp [newColumnMap] at h
  | succ fuel ih =>
    intro t fi px cm h k v hk
    simp only [newColumnMap] at h
    by_cases hkind : (E.types t).kind = Kind.Struct
    · simp only [hkind, if_true] at h
      cases hloop : fieldsLoop E (newColumnMap E fuel) fi px (E.types t).fields 0 ([], []) with
      | error e => rw [hloop] at h; cases h
      | ok st =>
        rw [hloop] at h
        cases h
        rcases Merge_get?_source st.2 st.1 k v hk with h1 | ⟨s, hs, hv⟩
        · rcases fieldsLoop_entries E (newColumnMap E fuel) fi px (E.types t).fields 0
            ([], []) st hloop k v h1 with h0 | ⟨j, g, _, hent⟩
          · simp [ColumnMap.get?] at h0
          · exact hleaf _ g fi px k v hent
        · obtain ⟨more, hmore, hall⟩ := fieldsLoop_subs E (newColumnMap E fuel) fi px
            (E.types t).fields 0 ([], []) st hloop
          have hs' : s ∈ more := by
            rw [hmore] at hs; simpa using hs
          obtain ⟨j, g, names, _, _, hg⟩ := hall s hs'
          simp only [getStructColumnMap] at hg
          split at hg
          · exact hsub fi _ px names k v (ih _ _ _ s hg k v hv)
          · exact hsub fi _ px names k v (ih _ _ _ s hg k v hv)
    · simp [hkind] at h

/-- The field index of every entry starts with the index path of the struct. -/
theorem newColumnMap_fieldIndex (E : Env) (fuel t : Nat) (fi : List Int) (px : List String)
    (cm : ColumnMap) (h : newColumnMap E fuel t fi px = .ok cm) (k : String) (v : ColumnData)
    (hk : cm.get? k = some v) : ∃ rest, v.FieldIndex = fi ++ rest := by
  refine newColumnMap_entries E (fun fi _ _ v => ∃ rest, v.FieldIndex = fi ++ rest) ?_ ?_
    fuel t fi px cm h k v hk
  · intro j g fi px k v hent
    obtain ⟨_, name, _, _, hv⟩ := hent
    exact ⟨[(j : Int)], by rw [hv]; simp [newColumnData, concatFieldIndexes]⟩
  · intro fi idx px names k v hq
    obtain ⟨rest, hr⟩ := hq
    exact ⟨idx ++ rest, by rw [hr]; simp [concatFieldIndexes]⟩

/-- Every entry of the column map of a struct comes from one of its fields
that contributes, and its field index goes through that field. -/
theorem newColumnMap_entry_field (E : Env) (fuel t : Nat) (fi : List Int) (px : List String)
    (cm : ColumnMap) (h : newColumnMap E (fuel + 1) t fi px = .ok cm) (k : String)
    (v : ColumnData) (hk : cm.get? k = some v) :
    ∃ (j : Nat) (g : StructField) (rest : List Int), (E.types t).fields[j]? = some g ∧
      contributes E g = true ∧ v.FieldIndex = fi ++ (j : Int) :: rest := by
  simp only [newColumnMap] at h
  by_cases hkind : (E.types t).kind = Kind.Struct
  · simp only [hkind, if_true] at h
    cases hloop : fieldsLoop E (newColumnMap E fuel) fi px (E.types t).fields 0 ([], []) with
    | error e => rw [hloop] at h; cases h
    | ok st =>
      rw [hloop] at h
      cases h
      rcases Merge_get?_source st.2 st.1 k v hk with h1 | ⟨s, hs, hv⟩
      · rcases fieldsLoop_entries E (newColumnMap E fuel) fi px (E.types t).fields 0
          ([], []) st hloop k v h1 with h0 | ⟨j, g, hj, hent⟩
        · simp [ColumnMap.get?] at h0
        · obtain ⟨hd, name, _, _, hval⟩ := hent
          refine ⟨j, g, [], hj, isDirectField_contributes E g hd, ?_⟩
          rw [hval]
          simp [newColumnData, concatFieldIndexes]
      · obtain ⟨more, hmore, hall⟩ := fieldsLoop_subs E (newColumnMap E fuel) fi px
          (E.types t).fields 0 ([], []) st hloop
        have hs' : s ∈ more := by
          rw [hmore] at hs; simpa using hs
        obtain ⟨j, g, names, hj, hc, hg⟩ := hall s hs'
        have hrest : ∃ rest, v.FieldIndex = concatFieldIndexes fi [((0 + j : Nat) : Int)] ++ rest := by
          simp only [getStructColumnMap] at hg
          split at hg
          · exact newColumnMap_fieldIndex E fuel _ _ _ s hg k v hv
          · exact newColumnMap_fieldIndex E fuel _ _ _ s hg k v hv
        obtain ⟨rest, hr⟩ := hrest
        refine ⟨j, g, rest, hj, hc, ?_⟩
        rw [hr]
        simp [concatFieldIndexes]
  · simp [hkind] at h

theorem not_embedded_of_not_anonymous (E : Env) (f : StructField) (h : f.Anonymous = false) :
    isEmbeddedStruct E f = false := by
  simp only [isEmbeddedStruct, h, Bool.false_and]

theorem fieldIndex_through (fi rest rest' : List Int) (i j : Nat)
    (h : fi ++ (j : Int) :: rest' = fi ++ (i : Int) :: rest) : j = i := by
  have h1 := List.append_cancel_left h
  simp only [List.cons.injEq] at h1
  exact_mod_cast h1.1

/-- A field that does not contribute leaves no entry whose field index goes
through it. -/
theorem no_entry_through (E : Env) (fuel t : Nat) (fi : List Int) (px : List String)
    (cm : ColumnMap) (h : newColumnMap E (fuel + 1) t fi px = .ok cm) (i : Nat)
    (f : StructField) (hi : (E.types t).fields[i]? = some f) (hc : contributes E f = false)
    (k : String) (v : ColumnData) (rest : List Int) (hk : cm.get? k = some v) :
    v.FieldIndex ≠ fi ++ (i : Int) :: rest := by
  intro hv
  obtain ⟨j, g, rest', hj, hcg, hfi⟩ := newColumnMap_entry_field E fuel t fi px cm h k v hk
  rw [hv] at hfi
  have hji : j = i := fieldIndex_through fi rest rest' i j hfi.symm
  subst hji
  rw [hi] at hj
  cases hj
  rw [hc] at hcg
  cases hcg

theorem fieldsLoop_append (E : Env) (recur : Nat → List Int → List String → Except Fail ColumnMap)
    (fieldIndex : List Int) (prefixes : List String) (l1 l2 : List StructField) :
    ∀ (i : Nat) (st : LoopState),
      fieldsLoop E recur fieldIndex prefixes (l1 ++ l2) i st =
        match fieldsLoop E recur fieldIndex prefixes l1 i st with
        | .error e => .error e
        | .ok st1 => fieldsLoop E recur fieldIndex prefixes l2 (i + l1.length) st1 := by
  induction l1 with
  | nil => intro i st; simp [fieldsLoop]
  | cons f rest ih =>
    intro i st
    simp only [List.cons_append, fieldsLoop]
    cases hstep : fieldStep E recur fieldIndex prefixes { f with Index := [(i : Int)] } st with
    | error e => rfl
    | ok st1 =>
      have e : i + (rest.length + 1) = i + 1 + rest.length := by omega
      simp only [List.length_cons, e]
      exact ih (i + 1) st1

theorem fields_split (l : List StructField) (i : Nat) (f : StructField) (h : l[i]? = some f) :
    l = l.take i ++ f :: l.drop (i + 1) ∧ (l.take i).length = i := by
  have hlt := (List.getElem?_eq_some_iff.mp h).1
  have hget := (List.getElem?_eq_some_iff.mp h).2
  constructor
  · have h1 : l.drop i = f :: l.drop (i + 1) := by
      rw [← hget, List.drop_eq_getElem_cons hlt]
    calc l = l.take i ++ l.drop i := (List.take_append_drop i l).symm
      _ = l.take i ++ f :: l.drop (i + 1) := by rw [h1]
  · simp [List.length_take, Nat.min_eq_left (Nat.le_of_lt hlt)]

/-- The loop of `newColumnMap` seen from the field at position `i`: the fields
before it, the pass for the field, the fields after it. -/
theorem fieldsLoop_at (E : Env) (recur : Nat → List Int → List String → Except Fail ColumnMap)
    (fieldIndex : List Int) (prefixes : List String) (l : List StructField) (i : Nat)
    (f : StructField) (st : LoopState) (hi : l[i]? = some f)
    (h : fieldsLoop E recur fieldIndex prefixes l 0 ([], []) = .ok st) :
    ∃ st0 st1, fieldsLoop E recur fieldIndex prefixes (l.take i) 0 ([], []) = .ok st0 ∧
      fieldStep E recur fieldIndex prefixes { f with Index := [(i : Int)] } st0 = .ok st1 ∧
      fieldsLoop E recur fieldIndex prefixes (l.drop (i + 1)) (i + 1) st1 = .ok st := by
  obtain ⟨hsplit, hlen⟩ := fields_split l i f hi
  rw [hsplit, fieldsLoop_append] at h
  cases h0 : fieldsLoop E recur fieldIndex prefixes (l.take i) 0 ([], []) with
  | error e => rw [h0] at h; cases h
  | ok st0 =>
    rw [h0] at h
    simp only [fieldsLoop, hlen, Nat.zero_add] at h
    cases h1 : fieldStep E recur fieldIndex prefixes { f with Index := [(i : Int)] } st0 with
    | error e => rw [h1] at h; cases h
    | ok st1 =>
      rw [h1] at h
      exact ⟨st0, st1, rfl, h1, h⟩

theorem findSome?_skip (pre post : List ColumnMap) (k : String)
    (hpre : ∀ s ∈ pre, s.get? k = none) :
    (pre ++ post).findSome? (fun s => s.get? k) = post.findSome? (fun s => s.get? k) := by
  induction pre with
  | nil => rfl
  | cons s rest ih =>
    have hs : s.get? k = none := hpre s (by simp)
    simp only [List.cons_append, List.findSome?, hs]
    exact ih (fun s' hs' => hpre s' (by simp [hs']))

theorem get?_isSome_of_mem_subs (subs : List ColumnMap) (cm s : ColumnMap) (k : String)
    (hs : s ∈ subs) (hk : (s.get? k).isSome = true) : ((cm.Merge subs).get? k).isSome = true := by
  rw [Merge_get?_eq]
  cases hc : cm.get? k with
  | some v => simp
  | none =>
    simp only [Option.orElse]
    cases hf : subs.findSome? (fun s => s.get? k) with
    | some v => simp
    | none =>
      rw [List.findSome?_eq_none_iff] at hf
      have := hf s hs
      rw [this] at hk
      cases hk

theorem go_acc (s : String) (l : List String) :
    ∀ x y : String, String.intercalate.go (x ++ y) s l = x ++ String.intercalate.go y s l := by
  induction l with
  | nil => intro x y; simp [String.intercalate.go]
  | cons a rest ih =>
    intro x y
    simp only [String.intercalate.go]
    rw [← ih x (y ++ s ++ a)]
    simp [String.append_assoc]

theorem go_eq (s : String) (l : List String) (acc : String) :
    String.intercalate.go acc s l = acc ++ String.intercalate.go "" s l := by
  have h := go_acc s l acc ""
  simpa using h

theorem go_append (s : String) (l1 l2 : List String) :
    String.intercalate.go "" s (l1 ++ l2) =
      String.intercalate.go "" s l1 ++ String.intercalate.go "" s l2 := by
  induction l1 with
  | nil => simp [String.intercalate.go]
  | cons a rest ih =>
    show String.intercalate.go ("" ++ s ++ a) s (rest ++ l2) =
      String.intercalate.go ("" ++ s ++ a) s rest ++ String.intercalate.go "" s l2
    rw [go_eq s (rest ++ l2), go_eq s rest, ih]
    simp [String.append_assoc]

theorem sep_intercalate (s : String) (l : List String) (h : l ≠ []) :
    s ++ String.intercalate s l = String.intercalate.go "" s l := by
  cases l with
  | nil => exact absurd rfl h
  | cons a rest =>
    simp only [String.intercalate, String.intercalate.go]
    rw [go_eq s rest a, go_eq s rest ("" ++ s ++ a)]
    simp [String.append_assoc]

theorem prefixed_nil (k : String) : prefixed [] k = k := by
  simp [prefixed, String.intercalate, String.intercalate.go]

theorem prefixed_cons (a : String) (l : List String) (k : String) :
    prefixed (a :: l) k = a ++ String.intercalate.go "" "." l ++ "." ++ k := by
  simp only [prefixed, List.cons_append, String.intercalate]
  rw [go_eq "." (l ++ [k]) a, go_append]
  simp [String.intercalate.go, String.append_assoc]

theorem prefixed_prefixed (px names : List String) (k : String) :
    prefixed px (prefixed names k) = prefixed (px ++ names) k := by
  cases px with
  | nil => simp [prefixed_nil]
  | cons a l =>
    rw [prefixed_cons]
    simp only [List.cons_append]
    rw [prefixed_cons, go_append]
    have h := sep_intercalate "." (names ++ [k]) (by simp)
    rw [go_append] at h
    have h2 : "." ++ prefixed names k =
        String.intercalate.go "" "." names ++ String.intercalate.go "" "." [k] := h
    have h3 : String.intercalate.go "" "." [k] = "." ++ k := by
      simp [String.intercalate.go]
    rw [h3] at h2
    calc a ++ String.intercalate.go "" "." l ++ "." ++ prefixed names k
        = a ++ String.intercalate.go "" "." l ++ ("." ++ prefixed names k) := by
          simp [String.append_assoc]
      _ = a ++ String.intercalate.go "" "." l ++
            (String.intercalate.go "" "." names ++ ("." ++ k)) := by rw [h2]
      _ = a ++ (String.intercalate.go "" "." l ++ String.intercalate.go "" "." names) ++ "." ++ k := by
          simp [String.append_assoc]

theorem string_append_cancel_left (a b c : String) (h : a ++ b = a ++ c) : b = c := by
  have h1 : (a ++ b).data = (a ++ c).data := by rw [h]
  simp only [String.data_append] at h1
  exact String.ext (List.append_cancel_left h1)

theorem prefixed_inj (px : List String) (k k' : String) (h : prefixed px k = prefixed px k') :
    k = k' := by
  cases px with
  | nil => simpa [prefixed_nil] using h
  | cons a l =>
    rw [prefixed_cons, prefixed_cons] at h
    simp only [String.append_assoc] at h
    exact string_append_cancel_left _ _ _
      (string_append_cancel_left _ _ _ (string_append_cancel_left _ _ _ h))

theorem get?_prefixMap (px : List String) (cm : ColumnMap) (k : String) :
    (prefixMap px cm).get? (prefixed px k) = (cm.get? k).map (prefixData px) := by
  induction cm with
  | nil => simp [prefixMap, ColumnMap.get?]
  | cons kv rest ih =>
    obtain ⟨a, b⟩ := kv
    have ih' : ColumnMap.get? (List.map (prefixEntry px) rest) (prefixed px k) =
        (ColumnMap.get? rest k).map (prefixData px) := ih
    by_cases h : a = k
    · subst h
      simp [prefixMap, prefixEntry, ColumnMap.get?]
    · have h' : prefixed px a ≠ prefixed px k := fun e => h (prefixed_inj px a k e)
      simp only [prefixMap, List.map_cons, prefixEntry, ColumnMap.get?, h, h', if_false]
      exact ih'

theorem set_prefixMap (px : List String) (cm : ColumnMap) (k : String) (v : ColumnData) :
    (prefixMap px cm).set (prefixed px k) (prefixData px v) = prefixMap px (cm.set k v) := by
  induction cm with
  | nil => simp [prefixMap, ColumnMap.set, prefixEntry]
  | cons kv rest ih =>
    obtain ⟨a, b⟩ := kv
    have ih' : ColumnMap.set (List.map (prefixEntry px) rest) (prefixed px k) (prefixData px v) =
        List.map (prefixEntry px) (ColumnMap.set rest k v) := ih
    by_cases h : a = k
    · subst h
      simp [prefixMap, prefixEntry, ColumnMap.set]
    · have h' : prefixed px a ≠ prefixed px k := fun e => h (prefixed_inj px a k e)
      simp only [prefixMap, List.map_cons, prefixEntry, ColumnMap.set, h, h', if_false]
      rw [ih']

theorem mergeOne_prefixMap (px : List String) (sub cm : ColumnMap) :
    (prefixMap px cm).mergeOne (prefixMap px sub) = prefixMap px (cm.mergeOne sub) := by
  induction sub generalizing cm with
  | nil => simp [prefixMap, ColumnMap.mergeOne]
  | cons kv rest ih =>
    obtain ⟨a, b⟩ := kv
    have hstep : ∀ c : ColumnMap, ColumnMap.mergeOne c ((a, b) :: rest) =
        ColumnMap.mergeOne (if (c.get? a).isNone then c.set a b else c) rest := by
      intro c; simp only [ColumnMap.mergeOne, List.foldl_cons]
    have hstep' : ∀ c : ColumnMap,
        ColumnMap.mergeOne c (prefixMap px ((a, b) :: rest)) =
        ColumnMap.mergeOne (if (c.get? (prefixed px a)).isNone
          then c.set (prefixed px a) (prefixData px b) else c) (prefixMap px rest) := by
      intro c; simp only [ColumnMap.mergeOne, prefixMap, List.map_cons, List.foldl_cons, prefixEntry]
    rw [hstep, hstep', get?_prefixMap]
    by_cases hn : (cm.get? a).isNone = true
    · have hn' : ((cm.get? a).map (prefixData px)).isNone = true := by
        simpa using hn
      simp only [hn, hn', if_true, set_prefixMap]
      exact ih _
    · have hn' : ¬ ((cm.get? a).map (prefixData px)).isNone = true := by
        simpa using hn
      simp only [hn, hn', if_false]
      exact ih _

theorem Merge_prefixMap (px : List String) (subs : List ColumnMap) (cm : ColumnMap) :
    (prefixMap px cm).Merge (subs.map (prefixMap px)) = prefixMap px (cm.Merge subs) := by
  induction subs generalizing cm with
  | nil => simp [ColumnMap.Merge]
  | cons s rest ih =>
    have h1 : ∀ (c : ColumnMap) (x : ColumnMap) (xs : List ColumnMap),
        ColumnMap.Merge c (x :: xs) = ColumnMap.Merge (c.mergeOne x) xs := by
      intro c x xs; simp only [ColumnMap.Merge, List.foldl_cons]
    simp only [List.map_cons, h1, mergeOne_prefixMap]
    exact ih _

theorem prefixMap_prefixMap (px names : List String) (cm : ColumnMap) :
    prefixMap px (prefixMap names cm) = prefixMap (px ++ names) cm := by
  simp only [prefixMap, List.map_map]
  apply List.map_congr_left
  intro kv _
  simp [prefixEntry, prefixData, prefixed_prefixed]

theorem prefixMap_nil (cm : ColumnMap) : prefixMap [] cm = cm := by
  simp only [prefixMap]
  have : prefixEntry [] = id := by
    funext kv
    simp [prefixEntry, prefixData, prefixed_nil]
  rw [this]; simp

theorem map_map_except {α β γ : Type} (g : β → γ) (f : α → β) (x : Except Fail α) :
    Except.map g (Except.map f x) = Except.map (fun a => g (f a)) x := by
  cases x <;> rfl

theorem getStructColumnMap_prefixed (E : Env)
    (recur : Nat → List Int → List String → Except Fail ColumnMap) (px : List String)
    (H : ∀ t fi names, recur t fi (px ++ names) = Except.map (prefixMap px) (recur t fi names))
    (f : StructField) (fi : List Int) (names : List String) :
    getStructColumnMap E recur f fi names px =
      Except.map (prefixMap px) (getStructColumnMap E recur f fi names []) := by
  simp only [getStructColumnMap, List.nil_append]
  split
  · exact H _ _ _
  · exact H _ _ _

theorem storeLeaf_prefixed (E : Env) (f : StructField) (fi : List Int) (px : List String)
    (name : String) (st : LoopState) :
    storeLeaf E f fi px name (prefixState px st) = prefixState px (storeLeaf E f fi [] name st) := by
  have hk : String.intercalate "." ([] ++ [name]) = name := prefixed_nil name
  have hp : String.intercalate "." (px ++ [name]) = prefixed px name := rfl
  simp only [storeLeaf, prefixState, hk, hp]
  rw [← set_prefixMap]
  simp [prefixData, newColumnData]

theorem fieldStep_prefixed (E : Env)
    (recur : Nat → List Int → List String → Except Fail ColumnMap) (px : List String)
    (H : ∀ t fi names, recur t fi (px ++ names) = Except.map (prefixMap px) (recur t fi names))
    (fi : List Int) (f : StructField) (st : LoopState) :
    fieldStep E recur fi px f (prefixState px st) =
      Except.map (prefixState px) (fieldStep E recur fi [] f st) := by
  have hG := getStructColumnMap_prefixed E recur px H f fi
  have hL := fun name => storeLeaf_prefixed E f fi px name st
  unfold fieldStep
  by_cases hemb : (f.Anonymous && ((E.types f.Typ).kind == Kind.Struct || (E.types f.Typ).kind == Kind.Ptr)) = true
  · simp only [hemb, if_true]
    by_cases hc : (!E.tag.Contains (E.tag.New "db" f.Tag) "-") = true
    · simp only [hc, if_true, hG]
      cases getStructColumnMap E recur f fi (E.tag.Values (E.tag.New "db" f.Tag)) [] with
      | error e => rfl
      | ok sub => simp [Except.map, prefixState]
    · simp only [hc]; rfl
  · simp only [hemb]
    by_cases hp : (f.PkgPath == "") = true
    · simp only [hp, if_true]
      cases getColumnName E f (E.tag.New "db" f.Tag) with
      | error e => rfl
      | ok name =>
        simp only []
        by_cases hi : (!shouldIgnoreField E (E.tag.New "db" f.Tag)) = true
        · simp only [hi, if_true]
          by_cases hs : (!implementsScanner E f.Typ) = true
          · simp only [hs, if_true, hG]
            cases getStructColumnMap E recur f fi [name] [] with
            | error e => rfl
            | ok subCm =>
              have hlen : ((prefixMap px subCm).length != 0) = (subCm.length != 0) := by
                simp [prefixMap]
              simp only [Except.map, hlen]
              by_cases hl : (subCm.length != 0) = true
              · simp [hl, prefixState]
              · simp only [hl, hL]; rfl
          · simp only [hs, hL]; rfl
        · simp only [hi]; rfl
    · simp only [hp]; rfl

theorem fieldsLoop_prefixed (E : Env)
    (recur : Nat → List Int → List String → Except Fail ColumnMap) (px : List String)
    (H : ∀ t fi names, recur t fi (px ++ names) = Except.map (prefixMap px) (recur t fi names))
    (fi : List Int) (rest : List StructField) :
    ∀ (i : Nat) (st : LoopState),
      fieldsLoop E recur fi px rest i (prefixState px st) =
        Except.map (prefixState px) (fieldsLoop E recur fi [] rest i st) := by
  induction rest with
  | nil => intro i st; rfl
  | cons f rest ih =>
    intro i st
    simp only [fieldsLoop]
    rw [fieldStep_prefixed E recur px H]
    cases fieldStep E recur fi [] { f with Index := [(i : Int)] } st with
    | error e => rfl
    | ok st1 =>
      simp only [Except.map]
      exact ih (i + 1) st1

/-- The column map computed under the prefixes is the column map computed
without prefix, with the prefixes put in front of every column name. -/
theorem newColumnMap_prefixed (E : Env) :
    ∀ (fuel t : Nat) (fi : List Int) (px : List String),
      newColumnMap E fuel t fi px = Except.map (prefixMap px) (newColumnMap E fuel t fi []) := by
  intro fuel
  induction fuel with
  | zero => intro t fi px; rfl
  | succ fuel ih =>
    intro t fi px
    have H : ∀ t' fi' names, newColumnMap E fuel t' fi' (px ++ names) =
        Except.map (prefixMap px) (newColumnMap E fuel t' fi' names) := by
      intro t' fi' names
      rw [ih t' fi' (px ++ names), ih t' fi' names, map_map_except]
      congr 1
      funext cm
      exact (prefixMap_prefixMap px names cm).symm
    simp only [newColumnMap]
    by_cases hk : (E.types t).kind = Kind.Struct
    · simp only [hk, if_true]
      have hloop := fieldsLoop_prefixed E (newColumnMap E fuel) px H fi (E.types t).fields 0 ([], [])
      have h0 : prefixState px (([], []) : LoopState) = ([], []) := rfl
      rw [h0] at hloop
      rw [hloop]
      cases fieldsLoop E (newColumnMap E fuel) fi [] (E.types t).fields 0 ([], []) with
      | error e => rfl
      | ok st =>
        simp only [Except.map, prefixState]
        rw [Merge_prefixMap]
    · simp only [hk, if_false]; rfl

theorem isEmbeddedStruct_index (E : Env) (f : StructField) (idx : List Int) :
    isEmbeddedStruct E { f with Index := idx } = isEmbeddedStruct E f := rfl

/-- C16, amended. For an embedded struct or pointer field at position `i` of a
struct whose column map is computed: when the `db` options of the field
contain `-` no entry of the map comes through the field.  Otherwise the
column map of the embedded type is computed, and each of its columns, with
the values of the `db` options (after the prefixes of the struct) put in
front of its name, is a key of the result; the entry of that key is the
column of the embedded type unless the name is already that of a direct leaf
column of the struct or of a column contributed by a field before `i`.  With
no prefixes the names are unchanged. -/
theorem embedded_struct_columns (E : Env) (fuel t : Nat) (fi : List Int) (px : List String)
    (res : ColumnMap) (i : Nat) (f : StructField)
    (hrun : newColumnMap E (fuel + 1) t fi px = .ok res)
    (hi : (E.types t).fields[i]? = some f) (hemb : isEmbeddedStruct E f = true) :
    (E.tag.Contains (E.tag.New "db" f.Tag) "-" = true →
      ∀ k v rest, res.get? k = some v → v.FieldIndex ≠ fi ++ (i : Int) :: rest) ∧
    (E.tag.Contains (E.tag.New "db" f.Tag) "-" = false →
      ∃ (own : ColumnMap) (st0 st : LoopState),
        newColumnMap E fuel (derefType E f.Typ) (concatFieldIndexes fi [(i : Int)]) [] = .ok own ∧
        fieldsLoop E (newColumnMap E fuel) fi px ((E.types t).fields.take i) 0 ([], []) = .ok st0 ∧
        fieldsLoop E (newColumnMap E fuel) fi px (E.types t).fields 0 ([], []) = .ok st ∧
        res = st.1.Merge st.2 ∧
        ∀ k v, own.get? k = some v →
          (res.get? (prefixed (px ++ E.tag.Values (E.tag.New "db" f.Tag)) k)).isSome = true ∧
          (st.1.get? (prefixed (px ++ E.tag.Values (E.tag.New "db" f.Tag)) k) = none →
            (∀ s ∈ st0.2, s.get? (prefixed (px ++ E.tag.Values (E.tag.New "db" f.Tag)) k) = none) →
            res.get? (prefixed (px ++ E.tag.Values (E.tag.New "db" f.Tag)) k) =
              some (prefixData (px ++ E.tag.Values (E.tag.New "db" f.Tag)) v))) ∧
    (∀ (k : String) (v : ColumnData), prefixed [] k = k ∧ prefixData [] v = v) := by
  refine ⟨?_, ?_, ?_⟩
  · intro hc k v rest hk
    have hcon : contributes E f = false := by
      simp only [contributes, hemb, if_true, hc, Bool.not_true]
    exact no_entry_through E fuel t fi px res hrun i f hi hcon k v rest hk
  · intro hc
    simp only [newColumnMap] at hrun
    by_cases hkind : (E.types t).kind = Kind.Struct
    · simp only [hkind, if_true] at hrun
      cases hloop : fieldsLoop E (newColumnMap E fuel) fi px (E.types t).fields 0 ([], []) with
      | error e => rw [hloop] at hrun; cases hrun
      | ok st =>
        rw [hloop] at hrun
        cases hrun
        obtain ⟨st0, st1, h0, h1, h2⟩ :=
          fieldsLoop_at E (newColumnMap E fuel) fi px (E.types t).fields i f st hi hloop
        rw [fieldStep_embedded E (newColumnMap E fuel) fi px { f with Index := [(i : Int)] } st0
          hemb hc] at h1
        cases hg : getStructColumnMap E (newColumnMap E fuel) { f with Index := [(i : Int)] } fi
            (E.tag.Values (E.tag.New "db" f.Tag)) px with
        | error e =>
          have h1' := h1
          simp only [] at h1'
          rw [hg] at h1'
          cases h1'
        | ok sub =>
          have h1' := h1
          simp only [] at h1'
          rw [hg] at h1'
          cases h1'
          have hsub : newColumnMap E fuel (derefType E f.Typ) (concatFieldIndexes fi [(i : Int)])
              (px ++ E.tag.Values (E.tag.New "db" f.Tag)) = .ok sub := by
            simp only [getStructColumnMap] at hg
            simp only [derefType]
            split at hg
            · rename_i hp
              simp only [hp, if_true]
              exact hg
            · rename_i hp
              simp only [hp, if_false]
              exact hg
          rw [newColumnMap_prefixed] at hsub
          cases hown : newColumnMap E fuel (derefType E f.Typ) (concatFieldIndexes fi [(i : Int)])
              [] with
          | error e => rw [hown] at hsub; cases hsub
          | ok own =>
            rw [hown] at hsub
            simp only [Except.map] at hsub
            cases hsub
            obtain ⟨more, hmore, _⟩ := fieldsLoop_subs E (newColumnMap E fuel) fi px
              ((E.types t).fields.drop (i + 1)) (i + 1) _ st h2
            have hst2 : st.2 = st0.2 ++
                prefixMap (px ++ E.tag.Values (E.tag.New "db" f.Tag)) own :: more := by
              rw [hmore]; simp
            refine ⟨own, st0, st, rfl, h0, rfl, rfl, ?_⟩
            intro k v hk
            have hsubk : (prefixMap (px ++ E.tag.Values (E.tag.New "db" f.Tag)) own).get?
                (prefixed (px ++ E.tag.Values (E.tag.New "db" f.Tag)) k) =
                some (prefixData (px ++ E.tag.Values (E.tag.New "db" f.Tag)) v) := by
              rw [get?_prefixMap, hk]; rfl
            constructor
            · apply get?_isSome_of_mem_subs st.2 st.1
                (prefixMap (px ++ E.tag.Values (E.tag.New "db" f.Tag)) own)
              · rw [hst2]; simp
              · rw [hsubk]; rfl
            · intro hnone hpre
              rw [Merge_get?_eq, hnone, hst2]
              simp only [Option.orElse]
              rw [findSome?_skip _ _ _ hpre]
              simp only [List.findSome?, hsubk]
    · simp [hkind] at hrun
  · intro k v
    exact ⟨prefixed_nil k, by simp [prefixData, prefixed_nil]⟩

/-- C16 as stated fails at `struct { Inner; Id; Name }` with
`Inner = struct { Id; X }`: the column `id` of the embedded type `Inner`, with
the field index `[0, 0]`, is not in the column map of the struct, whose `id`
is the direct field with the field index `[1]`. -/
theorem embedded_struct_columns_counterexample :
    isEmbeddedStruct demoEnv ⟨"Inner", "", 1, "", [], true⟩ = true ∧
    demoEnv.tag.Contains (demoEnv.tag.New "db" "") "-" = false ∧
    ∃ own res v, newColumnMap demoEnv 2 1 (concatFieldIndexes [] [0]) [] = .ok own ∧
      own.get? "id" = some v ∧ v.FieldIndex = [0, 0] ∧
      newColumnMap demoEnv 3 0 [] [] = .ok res ∧ res.get? "id" ≠ some v ∧
      (res.get? "id").map ColumnData.FieldIndex = some [1] :=
  ⟨by decide, by decide, _, _, _, rfl, rfl, by decide, rfl, by decide, by decide⟩

/-- C16, amended, at `struct { Inner; Id; Name }`: the column `x` of `Inner`
is in the column map of the struct, with the data it has in `Inner`. -/
theorem embedded_struct_columns_witness :
    ∃ (own : ColumnMap) (st0 st : LoopState) (res : ColumnMap),
      newColumnMap demoEnv 3 0 [] [] = .ok res ∧
      newColumnMap demoEnv 2 (derefType demoEnv 1) (concatFieldIndexes [] [((0 : Nat) : Int)]) [] =
        .ok own ∧
      fieldsLoop demoEnv (newColumnMap demoEnv 2) [] [] ((demoEnv.types 0).fields.take 0) 0
        ([], []) = .ok st0 ∧
      fieldsLoop demoEnv (newColumnMap demoEnv 2) [] [] (demoEnv.types 0).fields 0 ([], []) =
        .ok st ∧
      res = st.1.Merge st.2 ∧
      ∀ k v, own.get? k = some v →
        (res.get? (prefixed ([] ++ demoEnv.tag.Values (demoEnv.tag.New "db" "")) k)).isSome = true ∧
        (st.1.get? (prefixed ([] ++ demoEnv.tag.Values (demoEnv.tag.New "db" "")) k) = none →
          (∀ s ∈ st0.2,
            s.get? (prefixed ([] ++ demoEnv.tag.Values (demoEnv.tag.New "db" "")) k) = none) →
          res.get? (prefixed ([] ++ demoEnv.tag.Values (demoEnv.tag.New "db" "")) k) =
            some (prefixData ([] ++ demoEnv.tag.Values (demoEnv.tag.New "db" "")) v)) := by
  obtain ⟨own, st0, st, h1, h2, h3, h4, h5⟩ :=
    (embedded_struct_columns demoEnv 2 0 [] [] _ 0 ⟨"Inner", "", 1, "", [], true⟩ rfl rfl
      (by decide)).2.1 (by decide)
  exact ⟨own, st0, st, _, rfl, h1, h2, h3, h4, h5⟩

/-- C17, amended. The scanner test holds for a type when the pointer to it, or
to the type it points to, implements the scanner interface, and also when
that type is not a struct.  A field that is not an embedded struct or pointer,
is exported and not ignored, and passes the test, is stored as one leaf
column without any recursive call; such a field that fails the test is a
struct or a pointer to a struct and is expanded by the recursive call (and
stored as a leaf when the expansion has no column).  An embedded struct or
pointer field whose `db` options do not contain `-` is expanded by the
recursive call whether or not it passes the test. -/
theorem scanner_field_is_leaf (E : Env) (f : StructField) :
    (implementsScanner E f.Typ = true ↔
      (E.ptrImplementsScanner (derefType E f.Typ) = true ∨
        (E.types (derefType E f.Typ)).kind ≠ Kind.Struct)) ∧
    (isEmbeddedStruct E f = false → f.PkgPath = "" →
      shouldIgnoreField E (E.tag.New "db" f.Tag) = false →
      implementsScanner E f.Typ = true →
      ∀ name, getColumnName E f (E.tag.New "db" f.Tag) = .ok name →
      ∀ recur fi px st, fieldStep E recur fi px f st = .ok (storeLeaf E f fi px name st)) ∧
    (isEmbeddedStruct E f = false → f.PkgPath = "" →
      shouldIgnoreField E (E.tag.New "db" f.Tag) = false →
      implementsScanner E f.Typ = false →
      (E.types (derefType E f.Typ)).kind = Kind.Struct ∧
      ∀ name, getColumnName E f (E.tag.New "db" f.Tag) = .ok name →
      ∀ recur fi px st, fieldStep E recur fi px f st =
        match recur (derefType E f.Typ) (concatFieldIndexes fi f.Index) (px ++ [name]) with
        | .error e => .error e
        | .ok sub => if sub = [] then .ok (storeLeaf E f fi px name st)
                     else .ok (st.1, st.2 ++ [sub])) ∧
    (isEmbeddedStruct E f = true → E.tag.Contains (E.tag.New "db" f.Tag) "-" = false →
      ∀ recur fi px st, fieldStep E recur fi px f st =
        match recur (derefType E f.Typ) (concatFieldIndexes fi f.Index)
          (px ++ E.tag.Values (E.tag.New "db" f.Tag)) with
        | .error e => .error e
        | .ok sub => .ok (st.1, st.2 ++ [sub])) := by
  have hG : ∀ recur fi names px, getStructColumnMap E recur f fi names px =
      recur (derefType E f.Typ) (concatFieldIndexes fi f.Index) (px ++ names) := by
    intro recur fi names px
    simp only [getStructColumnMap, derefType]
    split <;> rfl
  have hscan : implementsScanner E f.Typ = true ↔
      (E.ptrImplementsScanner (derefType E f.Typ) = true ∨
        (E.types (derefType E f.Typ)).kind ≠ Kind.Struct) := by
    have hd : (if IsPointer (E.types f.Typ).kind = true then (E.types f.Typ).elem else f.Typ) =
        derefType E f.Typ := by
      simp only [derefType, IsPointer, beq_iff_eq]
    simp only [implementsScanner, hd]
    by_cases h1 : E.ptrImplementsScanner (derefType E f.Typ) = true
    · simp [h1]
    · by_cases h2 : (E.types (derefType E f.Typ)).kind = Kind.Struct
      · simp [h1, h2, IsStruct]
      · simp [h1, h2, IsStruct]
  refine ⟨hscan, ?_, ?_, ?_⟩
  · intro hemb hp hi hs name hn recur fi px st
    have hd : isDirectField E f = true := by
      have hp' : (f.PkgPath == "") = true := by simpa using hp
      rw [isDirectField_eq, hemb, hp', hi]
      rfl
    exact fieldStep_leaf E recur fi px f st name hd hn (Or.inl hs)
  · intro hemb hp hi hs
    have hd : isDirectField E f = true := by
      have hp' : (f.PkgPath == "") = true := by simpa using hp
      rw [isDirectField_eq, hemb, hp', hi]
      rfl
    constructor
    · by_contra hk
      have := hscan.mpr (Or.inr hk)
      rw [hs] at this
      cases this
    · intro name hn recur fi px st
      rw [← hG recur fi [name] px]
      cases hg : getStructColumnMap E recur f fi [name] px with
      | error e =>
        simp only [isEmbeddedStruct] at hemb
        have hp' : (f.PkgPath == "") = true := by simpa using hp
        simp only [fieldStep, hemb, hp', hn, hi, hs, hg, Bool.false_eq_true, if_false,
          if_true, Bool.not_false]
      | ok sub =>
        by_cases hne : sub = []
        · subst hne
          simp only [if_true]
          exact fieldStep_leaf E recur fi px f st name hd hn (Or.inr hg)
        · simp only [hne, if_false]
          exact fieldStep_nested E recur fi px f st name sub hd hn hs hg hne
  · intro hemb hc recur fi px st
    rw [fieldStep_embedded E recur fi px f st hemb hc, hG]

/-- C17 as stated fails at `struct { NullString }`: the embedded field has a
scanner type and is expanded into the columns `string` and `valid` of its
sub-fields, with the field indexes `[0, 0]` and `[0, 1]`, instead of being
one leaf column. -/
theorem scanner_field_is_leaf_counterexample :
    implementsScanner scanEnv 1 = true ∧
    isEmbeddedStruct scanEnv ⟨"NullString", "", 1, "", [], true⟩ = true ∧
    ∃ cm, newColumnMap scanEnv 3 0 [] [] = .ok cm ∧ cm.keys = ["string", "valid"] ∧
      cm.map (fun kv => kv.2.FieldIndex) = [[0, 0], [0, 1]] :=
  ⟨by decide, by decide, _, rfl, by decide, by decide⟩

/-- C17, amended, at `struct { Name NullString }`: the field `Name` is one
leaf column. -/
theorem scanner_field_is_leaf_witness :
    fieldStep scanEnv (newColumnMap scanEnv 2) [] [] ⟨"Name", "", 1, "name", [0], false⟩
        ([], []) =
      .ok (storeLeaf scanEnv ⟨"Name", "", 1, "name", [0], false⟩ [] [] "name" ([], [])) :=
  (scanner_field_is_leaf scanEnv ⟨"Name", "", 1, "name", [0], false⟩).2.1 (by decide) rfl
    (by decide) (by decide) "name" rfl (newColumnMap scanEnv 2) [] [] ([], [])

end util

/-! ## Identifiers: builder methods, aliases; bitwise expressions -/

namespace exp

open builder

/-- C18. The builder methods of an identifier return a value that differs
from the receiver in one component: `i.Table(t)` has the table `t` and the
schema and column of `i`, `i.Schema(s)` has the schema `s` and the table and
column of `i`, `i.Col(c)` has the schema and table of `i` and the column `c`
(the star literal for the string `*`).  The methods have value receivers:
they are functions of the identifier, which they cannot change. -/
theorem identifier_methods_change_one_component (i : identifier) (t s : String) (c : Val) :
    ((i.Table t).GetTable = t ∧ (i.Table t).GetSchema = i.GetSchema ∧
      (i.Table t).GetCol = i.GetCol) ∧
    ((i.Schema s).GetSchema = s ∧ (i.Schema s).GetTable = i.GetTable ∧
      (i.Schema s).GetCol = i.GetCol) ∧
    ((i.Col c).GetSchema = i.GetSchema ∧ (i.Col c).GetTable = i.GetTable ∧
      (i.Col c).GetCol = if c = Val.str "*" then Star else c) := by
  refine ⟨⟨rfl, rfl, rfl⟩, ⟨rfl, rfl, rfl⟩, ⟨?_, ?_, ?_⟩⟩
  · simp only [identifier.Col, identifier.GetSchema]; split <;> rfl
  · simp only [identifier.Col, identifier.GetTable]; split <;> rfl
  · simp only [identifier.Col, identifier.GetCol]; split <;> rfl

/-- C19, amended. For an identifier that has a column (neither nil nor the
empty string) and a string alias `s`, `i.As(s)` is what `NewAliasExpression`
makes of `i` and the identifier `ParseIdentifier(s)`; the alias handed over is
an identifier and not the string, and for `a.b` it is the identifier with
table `a` and column `b`. -/
theorem As_parses_the_alias (mk : Val → Val → Except GoError Val) (i : identifier) (s : String)
    (hnil : i.col ≠ Val.nil) (hempty : i.col ≠ Val.str "") :
    i.As mk (Val.str s) = mk i.Expression (ParseIdentifier s).Expression ∧
    (ParseIdentifier s).Expression ≠ Val.str s ∧
    ParseIdentifier "a.b" = { schema := "", table := "a", col := Val.str "b" } := by
  refine ⟨?_, ?_, by decide⟩
  · have hc : i.col ≠ Val.nil ∧ i.col ≠ Val.str "" := ⟨hnil, hempty⟩
    simp only [identifier.As]
    rw [if_pos hc]
  · simp [identifier.Expression]

/-- C19 at the identifier `"t"."c"` and the alias `a.b`. -/
theorem As_parses_the_alias_witness :
    identifier.As demoNewAliasExpression (NewIdentifierExpression "" "t" (Val.str "c"))
        (Val.str "a.b") =
      .ok (Val.aliased (Val.identifier "" "t" (Val.str "c"))
        (Val.identifier "" "a" (Val.str "b"))) :=
  (As_parses_the_alias demoNewAliasExpression (NewIdentifierExpression "" "t" (Val.str "c")) "a.b"
    (by decide) (by decide)).1

/-- C19 as stated fails at the table identifier `T("t")` and the alias `a.b`:
the alias handed to `NewAliasExpression` is the table identifier `b`, built
from the column part of `ParseIdentifier("a.b")`, and not
`ParseIdentifier("a.b")`, the identifier with table `a` and column `b`. -/
theorem As_parses_the_alias_counterexample :
    (∀ mk : Val → Val → Except GoError Val,
      identifier.As mk (T "t") (Val.str "a.b") =
        mk (T "t").Expression (NewIdentifierExpression "" "b" Val.nil).Expression) ∧
    (NewIdentifierExpression "" "b" Val.nil).Expression ≠ (ParseIdentifier "a.b").Expression ∧
    (ParseIdentifier "a.b").Expression = Val.identifier "" "a" (Val.str "b") ∧
    (NewIdentifierExpression "" "b" Val.nil).Expression = Val.identifier "" "b" Val.nil :=
  ⟨fun _ => rfl, by decide, by decide, by decide⟩

/-- C20, the defect. `Clone` on the expression that `BitwiseInversion` builds
panics with a nil dereference, for every operand and every `Clone` of the
operands: `bitwiseInversion` stores nil as the left-hand side and `Clone`
calls `b.lhs.Clone()`.  On a bitwise expression with a left-hand side whose
own `Clone` returns, `Clone` returns the expression with the same operator,
the clone of the left-hand side and the same right-hand side. -/
theorem bitwise_Clone_panics_on_inversion :
    (∀ (cloneOf : Val → Except GoError Val) (rhs : Val),
      (bitwiseInversion rhs).Clone cloneOf = .error nilDereference) ∧
    (∀ rhs : Val,
      (bitwiseInversion rhs).LHS = Val.nil ∧ (bitwiseInversion rhs).RHS = rhs ∧
      (bitwiseInversion rhs).Op = BitwiseOperation.BitwiseInversionOp) ∧
    (∀ (cloneOf : Val → Except GoError Val) (i : identifier),
      i.BitwiseInversion.Clone cloneOf = .error nilDereference) ∧
    (∀ (cloneOf : Val → Except GoError Val) (b : bitwise) (l : Val),
      b.lhs ≠ Val.nil → cloneOf b.lhs = .ok l →
      b.Clone cloneOf = .ok { op := b.op, lhs := l, rhs := b.rhs }) := by
  refine ⟨fun _ _ => rfl, fun _ => ⟨rfl, rfl, rfl⟩, fun _ _ => rfl, ?_⟩
  intro cloneOf b l hne hl
  obtain ⟨lhs, rhs, op⟩ := b
  simp only at hne hl
  cases lhs with
  | nil => exact absurd rfl hne
  | _ => simp only [bitwise.Clone, hl]; rfl

/-- C20 at `I("a").BitwiseInversion().Clone()` and at
`I("a").BitwiseOr(1).Clone()`. -/
theorem bitwise_Clone_panics_on_inversion_witness :
    (NewIdentifierExpression "" "" (Val.str "a")).BitwiseInversion.Clone demoCloneOf =
      .error nilDereference ∧
    ((NewIdentifierExpression "" "" (Val.str "a")).BitwiseOr (Val.int 1)).Clone demoCloneOf =
      .ok { op := BitwiseOperation.BitwiseOrOp, lhs := Val.identifier "" "" (Val.str "a"),
            rhs := Val.int 1 } :=
  ⟨bitwise_Clone_panics_on_inversion.2.2.1 demoCloneOf _,
   bitwise_Clone_panics_on_inversion.2.2.2 demoCloneOf _ _ (by decide) rfl⟩

end exp

/-! ## The option setters of TRUNCATE -/

namespace builder

open exp

theorem truncate_copy_eq (h : Heap) (td : Nat) (d : TruncateDataset) (c : TruncateClauses)
    (hd : h.truncateAt td = .ok d) :
    TruncateDataset.copy h td c = .ok (h.length, h ++ [Obj.truncate { d with clauses := c }]) := by
  simp [TruncateDataset.copy, hd, Heap.new, bind, Except.bind, pure, Except.pure]

theorem truncateAt_append_new (h : Heap) (d : TruncateDataset) :
    Heap.truncateAt (h ++ [Obj.truncate d]) h.length = .ok d := by
  simp [Heap.truncateAt]

theorem truncateAt_append_old (h : Heap) (o : Obj) (p : Nat) (d : TruncateDataset)
    (hd : h.truncateAt p = .ok d) : Heap.truncateAt (h ++ [o]) p = .ok d :=
  truncateAt_of_getElem? _ _ _ (getElem?_append_old h o p _ (truncateAt_lt h p d hd).2)

theorem OptionCall_run_eq (h : Heap) (td : Nat) (d : TruncateDataset) (c : OptionCall)
    (hd : h.truncateAt td = .ok d) :
    c.run h td = .ok (h.length, h ++ [Obj.truncate { d with
      clauses := { d.clauses with options :=
        match c with
        | OptionCall.Cascade => { d.clauses.options with Cascade := true }
        | OptionCall.NoCascade => { d.clauses.options with Cascade := false }
        | OptionCall.Restrict => { d.clauses.options with Restrict := true }
        | OptionCall.NoRestrict => { d.clauses.options with Restrict := false }
        | OptionCall.Identity s => { d.clauses.options with Identity := s } } }]) := by
  cases c <;>
    simp only [OptionCall.run, TruncateDataset.Cascade, TruncateDataset.NoCascade,
      TruncateDataset.Restrict, TruncateDataset.NoRestrict, TruncateDataset.Identity, hd, bind,
      Except.bind, truncate_copy_eq h td d _ hd, TruncateClauses.Options,
      TruncateClauses.SetOptions]

/-- C24. The option setters of TRUNCATE.  A call of `Cascade()`, `NoCascade()`,
`Restrict()`, `NoRestrict()` or `Identity(s)` on a dataset returns a pointer to
a new dataset whose option of that name is true, false, true, false or `s`,
and whose two other options, table list, dialect, prepared flag, executor and
error are those of the receiver; every object that was in the heap, the
receiver among them, is unchanged, so `GetClauses()`, `Dialect()`,
`IsPrepared()` and `Error()` of the receiver return what they returned
before. -/
theorem truncate_option_setters (W : Deps) (h : Heap) (td : Nat) (d : TruncateDataset)
    (c : OptionCall) (hd : h.truncateAt td = .ok d) :
    ∃ d' : TruncateDataset, c.run h td = .ok (h.length, h ++ [Obj.truncate d']) ∧
      (match c with
        | OptionCall.Cascade => d'.clauses.options.Cascade = true ∧
            d'.clauses.options.Restrict = d.clauses.options.Restrict ∧
            d'.clauses.options.Identity = d.clauses.options.Identity
        | OptionCall.NoCascade => d'.clauses.options.Cascade = false ∧
            d'.clauses.options.Restrict = d.clauses.options.Restrict ∧
            d'.clauses.options.Identity = d.clauses.options.Identity
        | OptionCall.Restrict => d'.clauses.options.Restrict = true ∧
            d'.clauses.options.Cascade = d.clauses.options.Cascade ∧
            d'.clauses.options.Identity = d.clauses.options.Identity
        | OptionCall.NoRestrict => d'.clauses.options.Restrict = false ∧
            d'.clauses.options.Cascade = d.clauses.options.Cascade ∧
            d'.clauses.options.Identity = d.clauses.options.Identity
        | OptionCall.Identity s => d'.clauses.options.Identity = s ∧
            d'.clauses.options.Cascade = d.clauses.options.Cascade ∧
            d'.clauses.options.Restrict = d.clauses.options.Restrict) ∧
      d'.clauses.tables = d.clauses.tables ∧ d'.dialect = d.dialect ∧
      d'.isPrepared = d.isPrepared ∧ d'.executor = d.executor ∧ d'.err = d.err ∧
      (∀ (p : Nat) (o : Obj), h[p]? = some o → (h ++ [Obj.truncate d'])[p]? = some o) ∧
      td ≠ h.length ∧
      TruncateDataset.GetClauses (h ++ [Obj.truncate d']) td = TruncateDataset.GetClauses h td ∧
      TruncateDataset.Dialect (h ++ [Obj.truncate d']) td = TruncateDataset.Dialect h td ∧
      TruncateDataset.IsPrepared W (h ++ [Obj.truncate d']) td =
        TruncateDataset.IsPrepared W h td ∧
      TruncateDataset.Error (h ++ [Obj.truncate d']) td = TruncateDataset.Error h td := by
  refine ⟨_, OptionCall_run_eq h td d c hd, ?_, rfl, rfl, rfl, rfl, rfl,
    fun p o hp => getElem?_append_old h _ p o hp, ?_, ?_, ?_, ?_, ?_⟩
  · cases c <;> exact ⟨rfl, rfl, rfl⟩
  · have hlt := (truncateAt_lt h td d hd).1
    omega
  · simp only [TruncateDataset.GetClauses, truncateAt_append_old h _ td d hd, hd]
  · simp only [TruncateDataset.Dialect, truncateAt_append_old h _ td d hd, hd]
  · simp only [TruncateDataset.IsPrepared, truncateAt_append_old h _ td d hd, hd]
  · simp only [TruncateDataset.Error, truncateAt_append_old h _ td d hd, hd]

/-- C24 at the example heap: `Cascade()` on the truncate dataset at address 6. -/
theorem truncate_option_setters_witness :
    Heap.truncateAt demoHeap 6 = .ok demoTruncateClean ∧
    ∃ d' : TruncateDataset,
      TruncateDataset.Cascade demoHeap 6 = .ok (7, demoHeap ++ [Obj.truncate d']) ∧
      d'.clauses.options.Cascade = true ∧
      d'.clauses.options.Restrict = false ∧
      d'.clauses.options.Identity = "" ∧
      d'.clauses.tables = none ∧
      TruncateDataset.GetClauses (demoHeap ++ [Obj.truncate d']) 6 =
        .ok NewTruncateClauses :=
  ⟨rfl, (truncate_option_setters demoDeps demoHeap 6 demoTruncateClean OptionCall.Cascade rfl).imp
    (fun _ hx => ⟨hx.1, hx.2.1.1, hx.2.1.2.1, hx.2.1.2.2, hx.2.2.1, hx.2.2.2.2.2.2.2.2.2.1⟩)⟩

end builder

/-! ## The texts of the errors -/

namespace internal

open builder exp

theorem sprintfChars_plain (F : Fmt) (cs : List Char) (h : ∀ c ∈ cs, c ≠ '%') :
    sprintfChars F cs [] = cs := by
  induction cs with
  | nil => rfl
  | cons c rest ih =>
    have hc : c ≠ '%' := h c (List.mem_cons_self _ _)
    simp only [sprintfChars, hc, if_false]
    rw [ih (fun x hx => h x (List.mem_cons_of_mem _ hx))]

theorem Sprintf_plain (F : Fmt) (message : String) (h : ∀ c ∈ message.toList, c ≠ '%') :
    Sprintf F message [] = message := by
  unfold Sprintf
  rw [sprintfChars_plain F _ h]
  rfl

/-- C30. The texts of the errors of `internal/errors`.  For every message
without the character `%`, so without format verbs, `New(msg)` is the struct
`Error` whose method `Error()` returns `"builder: "` followed by the message;
`NewEncodeError(v).Error()` is `"builder_encode_error: Unable to encode value "`
followed by what the verb `%+v` writes for `v`; and
`ErrUnsupportedIntoType.Error()` is
`"builder: unsupported table type, a string or identifier expression is required"`. -/
theorem error_texts_carry_fixed_heads (F : Fmt) (other : GoError → String) (msg : String)
    (hmsg : ∀ c ∈ msg.toList, c ≠ '%') :
    errorText other (errors.New F msg []) = "builder: " ++ msg ∧
    errors.New F msg [] = builder.errors.New msg ∧
    (∀ v : Val, errorText other (errors.NewEncodeError F v) =
      "builder_encode_error: Unable to encode value " ++ String.mk (F.verb ['+', 'v'] [v])) ∧
    ErrUnsupportedIntoType =
      errors.New F "unsupported table type, a string or identifier expression is required" [] ∧
    errorText other ErrUnsupportedIntoType =
      "builder: unsupported table type, a string or identifier expression is required" := by
  refine ⟨?_, ?_, ?_, ?_, ?_⟩
  · simp only [errors.New, errorText, builder.errors.Error, Sprintf_plain F msg hmsg]
  · simp only [errors.New, builder.errors.New, Sprintf_plain F msg hmsg]
  · intro v
    simp only [errors.NewEncodeError, errorText, builder.errors.Error]
    rfl
  · simp only [ErrUnsupportedIntoType, errors.New, builder.errors.New]
    rw [Sprintf_plain F _ (by decide)]
  · rfl

/-- C30 at the message `"unsupported dialect"`. -/
theorem error_texts_carry_fixed_heads_witness :
    errorText (fun _ => "") (errors.New demoFmt "unsupported dialect" []) =
      "builder: unsupported dialect" ∧
    errorText (fun _ => "") (errors.NewEncodeError demoFmt (Val.int 1)) =
      "builder_encode_error: Unable to encode value <+v>" :=
  ⟨(error_texts_carry_fixed_heads demoFmt (fun _ => "") "unsupported dialect" (by decide)).1,
   (error_texts_carry_fixed_heads demoFmt (fun _ => "") "unsupported dialect"
      (by decide)).2.2.1 (Val.int 1)⟩

end internal

/-! ## Clone, the shorthands and the case builder -/

namespace exp

open builder

theorem Vals.ofList_toList : ∀ a : Vals, Vals.ofList a.toList = a
  | Vals.nil => rfl
  | Vals.cons v vs => by
    simp only [Vals.toList, Vals.ofList, Vals.ofList_toList vs]

theorem Vals.toList_ofList : ∀ l : List Val, (Vals.ofList l).toList = l
  | [] => rfl
  | v :: vs => by
    simp only [Vals.toList, Vals.ofList, Vals.toList_ofList vs]

theorem Clone_cast (cloneOther : Val → Except GoError Val) (casted t : Val) :
    Clone cloneOther (Val.cast casted t) =
      cast.Clone (Clone cloneOther casted) { casted := casted, t := t } := by
  simp only [Clone]

theorem Clone_window (cloneOther : Val → Except GoError Val) (fn windowName window : Val) :
    Clone cloneOther (Val.sqlWindowFunction fn windowName window) =
      sqlWindowFunctionExpression.Clone (Clone cloneOther fn)
        { fn := fn, windowName := windowName, window := window } := by
  simp only [Clone]

theorem Clone_plain (cloneOther : Val → Except GoError Val) :
    ∀ (n : Nat) (v : Val), sizeOf v ≤ n → plainExpression v = true →
      Clone cloneOther v = .ok v := by
  intro n
  induction n with
  | zero =>
    intro v hv
    cases v <;> simp at hv
  | succ n ih =>
    intro v hv hp
    cases v with
    | identifier s t c => rfl
    | literal l a =>
      simp only [Clone, literal.Clone, NewLiteralExpression, Vals.ofList_toList]
    | sqlFunction name a =>
      simp only [Clone, sqlFunctionExpression.Clone, sqlFunctionExpression.Expression,
        Vals.ofList_toList]
    | caseExpression value whens e =>
      simp only [Clone, caseExpression.Clone, caseExpression.Expression, Vals.ofList_toList]
    | cast casted t =>
      have hc : plainExpression casted = true := by simpa [plainExpression] using hp
      have hs : sizeOf casted ≤ n := by
        simp only [Val.cast.sizeOf_spec] at hv
        omega
      rw [Clone_cast, ih casted hs hc]
      rfl
    | sqlWindowFunction fn wn w =>
      cases fn with
      | sqlFunction name a =>
        rw [Clone_window]
        simp only [Clone, sqlFunctionExpression.Clone, sqlFunctionExpression.Expression,
          Vals.ofList_toList, sqlWindowFunctionExpression.Clone,
          sqlWindowFunctionExpression.clone, sqlWindowFunctionExpression.Expression]
      | _ => simp [plainExpression] at hp
    | _ => simp [plainExpression] at hp

theorem Expression_plain (expressionOther : Val → Except GoError Val) (v : Val)
    (hp : plainExpression v = true) : Expression expressionOther v = .ok v := by
  cases v with
  | identifier s t c => rfl
  | literal l a => simp only [Expression, literal.Expression, Vals.ofList_toList]
  | sqlFunction name a =>
    simp only [Expression, sqlFunctionExpression.Expression, Vals.ofList_toList]
  | caseExpression value whens e =>
    simp only [Expression, caseExpression.Expression, Vals.ofList_toList]
  | cast casted t => rfl
  | sqlWindowFunction fn wn w => rfl
  | _ => simp [plainExpression] at hp

/-- C21, as amended. `Clone` returns an expression with the same components,
and `Expression` the expression itself, on every identifier, literal, SQL
function expression and case expression, on every cast of an expression on
which `Clone` does so, and on every window function expression over a function
expression.  A cast clones the expression it casts: its clone has the clone of
that expression and the same type.  `Clone` of a cast that holds no expression
and of a window function expression that holds no function panics with a nil
dereference. -/
theorem Clone_keeps_the_components (cloneOther expressionOther : Val → Except GoError Val) :
    (∀ v : Val, plainExpression v = true →
      Clone cloneOther v = .ok v ∧ Expression expressionOther v = .ok v) ∧
    (∀ i : identifier, plainExpression i.Expression = true ∧ i.Clone = i.Expression ∧
      i.clone.schema = i.schema ∧ i.clone.table = i.table ∧ i.clone.col = i.col) ∧
    (∀ l : literal, plainExpression l.Expression = true ∧ l.Clone = l.Expression) ∧
    (∀ sfe : sqlFunctionExpression, plainExpression sfe.Expression = true ∧
      sfe.Clone = sfe.Expression) ∧
    (∀ c : caseExpression, plainExpression c.Expression = true ∧ c.Clone = c.Expression) ∧
    (∀ c : cast, plainExpression c.Expression = plainExpression c.casted ∧
      ∀ e : Val, Clone cloneOther c.casted = .ok e →
        Clone cloneOther c.Expression = .ok (cast.Expression { casted := e, t := c.t })) ∧
    (∀ (sfe : sqlFunctionExpression) (windowName window : Val),
      plainExpression
        (NewSQLWindowFunctionExpression sfe.Expression windowName window).Expression = true) ∧
    (∀ c : cast, c.casted = Val.nil → Clone cloneOther c.Expression = .error nilDereference) ∧
    (∀ swfe : sqlWindowFunctionExpression, swfe.fn = Val.nil →
      Clone cloneOther swfe.Expression = .error nilDereference) := by
  refine ⟨fun v hp => ⟨Clone_plain cloneOther (sizeOf v) v (Nat.le_refl _) hp,
      Expression_plain expressionOther v hp⟩,
    fun i => ⟨rfl, rfl, rfl, rfl, rfl⟩, fun l => ⟨rfl, rfl⟩, fun sfe => ⟨rfl, rfl⟩,
    fun c => ⟨rfl, rfl⟩, fun c => ⟨rfl, ?_⟩, fun _ _ _ => rfl, ?_, ?_⟩
  · intro e he
    simp only [cast.Expression, Clone_cast, he, cast.Clone]
  · intro c hc
    obtain ⟨casted, t⟩ := c
    simp only at hc
    subst hc
    rfl
  · intro swfe hfn
    obtain ⟨fn, wn, w⟩ := swfe
    simp only at hfn
    subst hfn
    rfl

/-- C21 as it was stated fails at `NewCastExpression(nil, "INT")`: `Clone`
panics and returns no expression. -/
theorem Clone_keeps_the_components_counterexample :
    Clone demoCloneOther (NewCastExpression Val.nil "INT").Expression =
      .error nilDereference ∧
    ¬ ∃ e : Val, Clone demoCloneOther (NewCastExpression Val.nil "INT").Expression = .ok e :=
  ⟨rfl, fun ⟨_, he⟩ => by cases he⟩

/-- C21 at `I("a").Cast("NUMERIC")`, the cast of an identifier. -/
theorem Clone_keeps_the_components_witness :
    plainExpression ((NewIdentifierExpression "" "" (Val.str "a")).Cast "NUMERIC").Expression =
      true ∧
    Clone demoCloneOther ((NewIdentifierExpression "" "" (Val.str "a")).Cast "NUMERIC").Expression
      = .ok ((NewIdentifierExpression "" "" (Val.str "a")).Cast "NUMERIC").Expression ∧
    Expression demoCloneOther
      ((NewIdentifierExpression "" "" (Val.str "a")).Cast "NUMERIC").Expression
      = .ok ((NewIdentifierExpression "" "" (Val.str "a")).Cast "NUMERIC").Expression :=
  ⟨rfl, (Clone_keeps_the_components demoCloneOther demoCloneOther).1 _ rfl⟩

end exp

/-! ## The shorthands of the comparison methods -/

namespace exp

open builder

/-- C22. On identifiers, literals, casts, SQL function expressions, bitwise
expressions and window function expressions, whatever the producers of
`exp/bool.go` and `exp/range.go` build: `IsNull()` is `Is(nil)`, `IsNotNull()`
is `IsNot(nil)`, `IsTrue()` is `Is(true)`, `IsNotTrue()` is `IsNot(true)`,
`IsFalse()` is `Is(false)` and `IsNotFalse()` is `IsNot(false)`; and every
comparison method hands the receiver itself, as a value of the interface type,
to its producer as the left-hand side, with the value it was given. -/
theorem shorthands_are_the_general_producers {B R : Type} (P : Producers B R) :
    (∀ (i : identifier) (val : Val) (vals : List Val),
      i.IsNull P = i.Is P (Val.nil) ∧
      i.IsNotNull P = i.IsNot P (Val.nil) ∧
      i.IsTrue P = i.Is P (Val.bool true) ∧
      i.IsNotTrue P = i.IsNot P (Val.bool true) ∧
      i.IsFalse P = i.Is P (Val.bool false) ∧
      i.IsNotFalse P = i.IsNot P (Val.bool false) ∧
      i.Eq P val = P.eq i.Expression val ∧
      i.Neq P val = P.neq i.Expression val ∧
      i.Gt P val = P.gt i.Expression val ∧
      i.Gte P val = P.gte i.Expression val ∧
      i.Lt P val = P.lt i.Expression val ∧
      i.Lte P val = P.lte i.Expression val ∧
      i.Like P val = P.like i.Expression val ∧
      i.NotLike P val = P.notLike i.Expression val ∧
      i.ILike P val = P.iLike i.Expression val ∧
      i.NotILike P val = P.notILike i.Expression val ∧
      i.RegexpLike P val = P.regexpLike i.Expression val ∧
      i.RegexpNotLike P val = P.regexpNotLike i.Expression val ∧
      i.RegexpILike P val = P.regexpILike i.Expression val ∧
      i.RegexpNotILike P val = P.regexpNotILike i.Expression val ∧
      i.Is P val = P.is i.Expression val ∧
      i.IsNot P val = P.isNot i.Expression val ∧
      i.In P vals = P.in_ i.Expression vals ∧
      i.NotIn P vals = P.notIn i.Expression vals ∧
      i.Between P val = P.between i.Expression val ∧
      i.NotBetween P val = P.notBetween i.Expression val) ∧
    (∀ (l : literal) (val : Val) (vals : List Val),
      l.IsNull P = l.Is P (Val.nil) ∧
      l.IsNotNull P = l.IsNot P (Val.nil) ∧
      l.IsTrue P = l.Is P (Val.bool true) ∧
      l.IsNotTrue P = l.IsNot P (Val.bool true) ∧
      l.IsFalse P = l.Is P (Val.bool false) ∧
      l.IsNotFalse P = l.IsNot P (Val.bool false) ∧
      l.Eq P val = P.eq l.Expression val ∧
      l.Neq P val = P.neq l.Expression val ∧
      l.Gt P val = P.gt l.Expression val ∧
      l.Gte P val = P.gte l.Expression val ∧
      l.Lt P val = P.lt l.Expression val ∧
      l.Lte P val = P.lte l.Expression val ∧
      l.Like P val = P.like l.Expression val ∧
      l.NotLike P val = P.notLike l.Expression val ∧
      l.ILike P val = P.iLike l.Expression val ∧
      l.NotILike P val = P.notILike l.Expression val ∧
      l.RegexpLike P val = P.regexpLike l.Expression val ∧
      l.RegexpNotLike P val = P.regexpNotLike l.Expression val ∧
      l.RegexpILike P val = P.regexpILike l.Expression val ∧
      l.RegexpNotILike P val = P.regexpNotILike l.Expression val ∧
      l.Is P val = P.is l.Expression val ∧
      l.IsNot P val = P.isNot l.Expression val ∧
      l.In P vals = P.in_ l.Expression vals ∧
      l.NotIn P vals = P.notIn l.Expression vals ∧
      l.Between P val = P.between l.Expression val ∧
      l.NotBetween P val = P.notBetween l.Expression val) ∧
    (∀ (c : cast) (val : Val) (vals : List Val),
      c.IsNull P = c.Is P (Val.nil) ∧
      c.IsNotNull P = c.IsNot P (Val.nil) ∧
      c.IsTrue P = c.Is P (Val.bool true) ∧
      c.IsNotTrue P = c.IsNot P (Val.bool true) ∧
      c.IsFalse P = c.Is P (Val.bool false) ∧
      c.IsNotFalse P = c.IsNot P (Val.bool false) ∧
      c.Eq P val = P.eq c.Expression val ∧
      c.Neq P val = P.neq c.Expression val ∧
      c.Gt P val = P.gt c.Expression val ∧
      c.Gte P val = P.gte c.Expression val ∧
      c.Lt P val = P.lt c.Expression val ∧
      c.Lte P val = P.lte c.Expression val ∧
      c.Like P val = P.like c.Expression val ∧
      c.NotLike P val = P.notLike c.Expression val ∧
      c.ILike P val = P.iLike c.Expression val ∧
      c.NotILike P val = P.notILike c.Expression val ∧
      c.RegexpLike P val = P.regexpLike c.Expression val ∧
      c.RegexpNotLike P val = P.regexpNotLike c.Expression val ∧
      c.RegexpILike P val = P.regexpILike c.Expression val ∧
      c.RegexpNotILike P val = P.regexpNotILike c.Expression val ∧
      c.Is P val = P.is c.Expression val ∧
      c.IsNot P val = P.isNot c.Expression val ∧
      c.In P vals = P.in_ c.Expression vals ∧
      c.NotIn P vals = P.notIn c.Expression vals ∧
      c.Between P val = P.between c.Expression val ∧
      c.NotBetween P val = P.notBetween c.Expression val) ∧
    (∀ (sfe : sqlFunctionExpression) (val : Val) (vals : List Val),
      sfe.IsNull P = sfe.Is P (Val.nil) ∧
      sfe.IsNotNull P = sfe.IsNot P (Val.nil) ∧
      sfe.IsTrue P = sfe.Is P (Val.bool true) ∧
      sfe.IsNotTrue P = sfe.IsNot P (Val.bool true) ∧
      sfe.IsFalse P = sfe.Is P (Val.bool false) ∧
      sfe.IsNotFalse P = sfe.IsNot P (Val.bool false) ∧
      sfe.Eq P val = P.eq sfe.Expression val ∧
      sfe.Neq P val = P.neq sfe.Expression val ∧
      sfe.Gt P val = P.gt sfe.Expression val ∧
      sfe.Gte P val = P.gte sfe.Expression val ∧
      sfe.Lt P val = P.lt sfe.Expression val ∧
      sfe.Lte P val = P.lte sfe.Expression val ∧
      sfe.Like P val = P.like sfe.Expression val ∧
      sfe.NotLike P val = P.notLike sfe.Expression val ∧
      sfe.ILike P val = P.iLike sfe.Expression val ∧
      sfe.NotILike P val = P.notILike sfe.Expression val ∧
      sfe.RegexpLike P val = P.regexpLike sfe.Expression val ∧
      sfe.RegexpNotLike P val = P.regexpNotLike sfe.Expression val ∧
      sfe.RegexpILike P val = P.regexpILike sfe.Expression val ∧
      sfe.RegexpNotILike P val = P.regexpNotILike sfe.Expression val ∧
      sfe.Is P val = P.is sfe.Expression val ∧
      sfe.IsNot P val = P.isNot sfe.Expression val ∧
      sfe.In P vals = P.in_ sfe.Expression vals ∧
      sfe.NotIn P vals = P.notIn sfe.Expression vals ∧
      sfe.Between P val = P.between sfe.Expression val ∧
      sfe.NotBetween P val = P.notBetween sfe.Expression val) ∧
    (∀ (b : bitwise) (val : Val) (vals : List Val),
      b.IsNull P = b.Is P (Val.nil) ∧
      b.IsNotNull P = b.IsNot P (Val.nil) ∧
      b.IsTrue P = b.Is P (Val.bool true) ∧
      b.IsNotTrue P = b.IsNot P (Val.bool true) ∧
      b.IsFalse P = b.Is P (Val.bool false) ∧
      b.IsNotFalse P = b.IsNot P (Val.bool false) ∧
      b.Eq P val = P.eq b.Expression val ∧
      b.Neq P val = P.neq b.Expression val ∧
      b.Gt P val = P.gt b.Expression val ∧
      b.Gte P val = P.gte b.Expression val ∧
      b.Lt P val = P.lt b.Expression val ∧
      b.Lte P val = P.lte b.Expression val ∧
      b.Like P val = P.like b.Expression val ∧
      b.NotLike P val = P.notLike b.Expression val ∧
      b.ILike P val = P.iLike b.Expression val ∧
      b.NotILike P val = P.notILike b.Expression val ∧
      b.RegexpLike P val = P.regexpLike b.Expression val ∧
      b.RegexpNotLike P val = P.regexpNotLike b.Expression val ∧
      b.RegexpILike P val = P.regexpILike b.Expression val ∧
      b.RegexpNotILike P val = P.regexpNotILike b.Expression val ∧
      b.Is P val = P.is b.Expression val ∧
      b.IsNot P val = P.isNot b.Expression val ∧
      b.In P vals = P.in_ b.Expression vals ∧
      b.NotIn P vals = P.notIn b.Expression vals ∧
      b.Between P val = P.between b.Expression val ∧
      b.NotBetween P val = P.notBetween b.Expression val) ∧
    (∀ (swfe : sqlWindowFunctionExpression) (val : Val) (vals : List Val),
      swfe.IsNull P = swfe.Is P (Val.nil) ∧
      swfe.IsNotNull P = swfe.IsNot P (Val.nil) ∧
      swfe.IsTrue P = swfe.Is P (Val.bool true) ∧
      swfe.IsNotTrue P = swfe.IsNot P (Val.bool true) ∧
      swfe.IsFalse P = swfe.Is P (Val.bool false) ∧
      swfe.IsNotFalse P = swfe.IsNot P (Val.bool false) ∧
      swfe.Eq P val = P.eq swfe.Expression val ∧
      swfe.Neq P val = P.neq swfe.Expression val ∧
      swfe.Gt P val = P.gt swfe.Expression val ∧
      swfe.Gte P val = P.gte swfe.Expression val ∧
      swfe.Lt P val = P.lt swfe.Expression val ∧
      swfe.Lte P val = P.lte swfe.Expression val ∧
      swfe.Like P val = P.like swfe.Expression val ∧
      swfe.NotLike P val = P.notLike swfe.Expression val ∧
      swfe.ILike P val = P.iLike swfe.Expression val ∧
      swfe.NotILike P val = P.notILike swfe.Expression val ∧
      swfe.RegexpLike P val = P.regexpLike swfe.Expression val ∧
      swfe.RegexpNotLike P val = P.regexpNotLike swfe.Expression val ∧
      swfe.RegexpILike P val = P.regexpILike swfe.Expression val ∧
      swfe.RegexpNotILike P val = P.regexpNotILike swfe.Expression val ∧
      swfe.Is P val = P.is swfe.Expression val ∧
      swfe.IsNot P val = P.isNot swfe.Expression val ∧
      swfe.In P vals = P.in_ swfe.Expression vals ∧
      swfe.NotIn P vals = P.notIn swfe.Expression vals ∧
      swfe.Between P val = P.between swfe.Expression val ∧
      swfe.NotBetween P val = P.notBetween swfe.Expression val) := by
  refine ⟨?_, ?_, ?_, ?_, ?_, ?_⟩ <;> intro _ _ _ <;>
    exact ⟨rfl, rfl, rfl, rfl, rfl, rfl, rfl, rfl, rfl, rfl, rfl, rfl, rfl, rfl, rfl, rfl, rfl, rfl, rfl, rfl, rfl, rfl, rfl, rfl, rfl, rfl⟩

end exp

/-! ## The depth of the recursion of `newColumnMap` -/

namespace util

theorem getStructColumnMap_eq (E : Env)
    (recur : Nat → List Int → List String → Except Fail ColumnMap) (f : StructField)
    (fi : List Int) (names px : List String) :
    getStructColumnMap E recur f fi names px =
      recur (derefType E f.Typ) (concatFieldIndexes fi f.Index) (px ++ names) := by
  simp only [getStructColumnMap, derefType]
  split <;> rfl

end util

/-! ## The rendering of a statement in the two modes of the writer -/

namespace builder

open exp

theorem foldl_append_string (l : List String) :
    ∀ acc : String, l.foldl (fun r s => r ++ s) acc = acc ++ String.join l := by
  induction l with
  | nil => intro acc; simp [String.join]
  | cons x xs ih =>
    intro acc
    simp only [List.foldl_cons, String.join]
    rw [ih (acc ++ x), ih ("" ++ x)]
    simp [String.append_assoc]

theorem join_append (l1 l2 : List String) :
    String.join (l1 ++ l2) = String.join l1 ++ String.join l2 := by
  simp only [String.join, List.foldl_append]
  rw [foldl_append_string l2 (List.foldl (fun r s => r ++ s) "" l1)]
  simp [String.join]

theorem joinPieces_append (p q : List Piece) :
    joinPieces (p ++ q) = joinPieces p ++ joinPieces q := by
  simp only [joinPieces, List.map_append, join_append]

theorem joinPieces_nil : joinPieces [] = "" := rfl

theorem joinPieces_single (p : Piece) : joinPieces [p] = p.str := by
  simp [joinPieces, String.join]

theorem tokensOf_append (p q : List Piece) : tokensOf (p ++ q) = tokensOf p ++ tokensOf q := by
  induction p with
  | nil => rfl
  | cons x xs ih =>
    cases x with
    | skeleton s => simpa [tokensOf] using ih
    | token s v => simp [tokensOf, ih]

theorem skeletonOf_append (p q : List Piece) :
    skeletonOf (p ++ q) = skeletonOf p ++ skeletonOf q := by
  induction p with
  | nil => rfl
  | cons x xs ih =>
    cases x with
    | skeleton s => simp [skeletonOf, ih]
    | token s v => simp [skeletonOf, ih]

/-- Once an error is recorded, the walk leaves the writer as it is. -/
theorem render_of_error (opts : SQLDialectOptions) (encode : Val → Except GoError String)
    (e : Emit) : ∀ b : SQLBuilder, b.err ≠ none → e.render opts encode b = b := by
  induction e with
  | empty => intro b _; rfl
  | text s => intro b hb; simp [Emit.render, SQLBuilder.WriteStrings, hb]
  | arg v => intro b hb; simp [Emit.render, SQLBuilder.WriteArg, hb]
  | error err => intro b hb; simp [Emit.render, SQLBuilder.SetError, hb]
  | seq x y ihx ihy =>
    intro b hb
    simp only [Emit.render]
    rw [ihx b hb, ihy b hb]

/-- The walk keeps the mode of the writer. -/
theorem render_isPrepared (opts : SQLDialectOptions) (encode : Val → Except GoError String)
    (e : Emit) : ∀ b : SQLBuilder, (e.render opts encode b).isPrepared = b.isPrepared := by
  induction e with
  | empty => intro b; rfl
  | text s => intro b; simp only [Emit.render, SQLBuilder.WriteStrings]; split <;> rfl
  | arg v =>
    intro b
    simp only [Emit.render, SQLBuilder.WriteArg]
    split
    · split
      · rfl
      · split
        · rfl
        · simp only [SQLBuilder.SetError]; split <;> rfl
    · rfl
  | error err => intro b; simp only [Emit.render, SQLBuilder.SetError]; split <;> rfl
  | seq x y ihx ihy =>
    intro b
    simp only [Emit.render]
    rw [ihy, ihx]

/-- An error that is in the writer after the walk of a first part is still
there after the walk of a second. -/
theorem render_error_stays (opts : SQLDialectOptions) (encode : Val → Except GoError String)
    (e : Emit) (b : SQLBuilder) (h : (e.render opts encode b).err = none) : b.err = none := by
  by_contra hb
  rw [render_of_error opts encode e b hb] at h
  exact hb h

/-- The walk in prepared mode: the text grows by the pieces of the statement
with a placeholder for every value, numbered from the counter of the writer
on, the arguments grow by the values, and the counter by their number. -/
theorem render_prepared (opts : SQLDialectOptions) (encode : Val → Except GoError String)
    (e : Emit) : ∀ b : SQLBuilder, b.err = none → b.isPrepared = true → e.noError = true →
      e.render opts encode b =
        { b with
          buf := b.buf ++
            joinPieces (e.pieces (fun n _ => placeHolder opts n) b.currentArgPosition)
          args := b.args ++ e.values
          currentArgPosition := b.currentArgPosition + e.values.length } := by
  induction e with
  | empty => intro b _ _ _; simp [Emit.render, Emit.pieces, Emit.values, joinPieces_nil]
  | text s =>
    intro b hb _ _
    simp [Emit.render, SQLBuilder.WriteStrings, hb, Emit.pieces, Emit.values, joinPieces_single,
      Piece.str]
  | arg v =>
    intro b hb hp _
    simp [Emit.render, SQLBuilder.WriteArg, hb, hp, Emit.pieces, Emit.values, joinPieces_single,
      Piece.str]
  | error err => intro b _ _ hn; simp [Emit.noError] at hn
  | seq x y ihx ihy =>
    intro b hb hp hn
    simp only [Emit.noError, Bool.and_eq_true] at hn
    simp only [Emit.render]
    rw [ihx b hb hp hn.1]
    have hy := ihy
      { buf := b.buf ++ joinPieces (x.pieces (fun n _ => placeHolder opts n) b.currentArgPosition)
        args := b.args ++ x.values
        isPrepared := b.isPrepared
        err := b.err
        currentArgPosition := b.currentArgPosition + x.values.length } hb hp hn.2
    rw [hy]
    simp [Emit.pieces, Emit.values, joinPieces_append, String.append_assoc, Nat.add_assoc]

/-- The walk in interpolated mode, when it ends without an error: the text
grows by the pieces of the statement with every value encoded by the literal
rule, and the arguments stay as they are. -/
theorem render_interpolated (opts : SQLDialectOptions) (encode : Val → Except GoError String)
    (e : Emit) : ∀ (b : SQLBuilder) (k : Nat), b.isPrepared = false →
      (e.render opts encode b).err = none →
      e.noError = true ∧ (∀ v ∈ e.values, ∃ s, encode v = .ok s) ∧
      e.render opts encode b =
        { b with
          buf := b.buf ++ joinPieces (e.pieces (fun _ v => encoded encode v) k) } := by
  induction e with
  | empty => intro b k _ _; simp [Emit.render, Emit.pieces, Emit.values, Emit.noError, joinPieces_nil]
  | text s =>
    intro b k _ h
    have hb := render_error_stays opts encode _ b h
    simp [Emit.render, SQLBuilder.WriteStrings, hb, Emit.pieces, Emit.values, Emit.noError,
      joinPieces_single, Piece.str]
  | arg v =>
    intro b k hp h
    have hb := render_error_stays opts encode _ b h
    simp only [Emit.render, SQLBuilder.WriteArg, hb, hp, if_true, Bool.false_eq_true,
      if_false] at h ⊢
    cases he : encode v with
    | error x =>
      rw [he] at h
      simp [SQLBuilder.SetError, hb] at h
    | ok s =>
      simp [Emit.pieces, Emit.values, Emit.noError, joinPieces_single, Piece.str, he, encoded]
  | error err =>
    intro b k _ h
    have hb := render_error_stays opts encode _ b h
    simp [Emit.render, SQLBuilder.SetError, hb] at h
  | seq x y ihx ihy =>
    intro b k hp h
    simp only [Emit.render] at h ⊢
    have h1 := render_error_stays opts encode y _ h
    obtain ⟨hnx, hvx, hx⟩ := ihx b k hp h1
    have hp' : (x.render opts encode b).isPrepared = false := by
      rw [render_isPrepared]; exact hp
    obtain ⟨hny, hvy, hy⟩ := ihy (x.render opts encode b) (k + x.values.length) hp' h
    refine ⟨by simp [Emit.noError, hnx, hny], ?_, ?_⟩
    · intro v hv
      simp only [Emit.values, List.mem_append] at hv
      rcases hv with hv | hv
      · exact hvx v hv
      · exact hvy v hv
    · rw [hy, hx]
      simp [Emit.pieces, joinPieces_append, String.append_assoc]

/-- The tokens of the pieces are the values in their order, each with the
token of its number. -/
theorem tokensOf_pieces (token : Nat → Val → String) (e : Emit) :
    ∀ k : Nat, tokensOf (e.pieces token k) =
      (e.values.enumFrom k).map (fun p => (token p.1 p.2, p.2)) := by
  induction e with
  | empty => intro k; rfl
  | text s => intro k; rfl
  | arg v => intro k; rfl
  | error err => intro k; rfl
  | seq x y ihx ihy =>
    intro k
    simp only [Emit.pieces, Emit.values, tokensOf_append, ihx, ihy, List.enumFrom_append,
      List.map_append]

/-- The skeleton of a statement does not depend on the tokens. -/
theorem skeletonOf_pieces (token1 token2 : Nat → Val → String) (e : Emit) :
    ∀ k1 k2 : Nat, skeletonOf (e.pieces token1 k1) = skeletonOf (e.pieces token2 k2) := by
  induction e with
  | empty => intro _ _; rfl
  | text s => intro _ _; rfl
  | arg v => intro _ _; rfl
  | error err => intro _ _; rfl
  | seq x y ihx ihy =>
    intro k1 k2
    simp only [Emit.pieces, skeletonOf_append]
    rw [ihx k1 k2, ihy (k1 + x.values.length) (k2 + x.values.length)]

theorem placeHolder_postgres (n : Nat) :
    placeHolder postgres.DialectOptions n = "$" ++ toString n := rfl

theorem ToSQL_rendered (R : Renderer) (W : Deps) (h : Heap) (id : Nat) (d : InsertDataset)
    (hd : h.insertAt id = .ok d) (herr : d.err = none) :
    InsertDataset.ToSQL (R.deps W) h id =
      .ok ((R.insert (R.options d.dialect) h d.clauses).render (R.options d.dialect)
        (R.encode (R.options d.dialect))
        (NewSQLBuilder (d.isPrepared.Bool W.defaultPrepared))).ToSQL := by
  simp [InsertDataset.ToSQL, InsertDataset.insertSQLBuilder, hd, herr, bind, Except.bind, pure,
    Except.pure, Renderer.deps, Renderer.ToInsertSQL]

theorem getElem?_tokens (token : Nat → Val → String) (e : Emit) (k i : Nat) :
    (tokensOf (e.pieces token k))[i]? = (e.values[i]?).map (fun v => (token (k + i) v, v)) := by
  rw [tokensOf_pieces, List.getElem?_map, List.getElem?_enumFrom]
  cases e.values[i]? <;> rfl

/-- C25. The placeholders of postgres.  `DialectOptions()` of postgres is the
default dialect with the placeholder fragment `$` and the numbering switched
on.  With these options a statement rendered in prepared mode without error
has the text of its pieces where the value with the number `k`, counted from 1
on from left to right, is the token `$k`, and the arguments are the values in
that order: the token at the place `i`, counted from 0, is `$(i+1)` and stands
for the argument `args[i]`.  The numbers of a second part of a statement, such
as a sub-query after a common table expression, go on after those of the
first.  So it is for the statement of every INSERT dataset of the dialect
postgres in prepared mode. -/
theorem postgres_placeholders_are_numbered (R : Renderer) (W : Deps) (h : Heap) (id : Nat)
    (d : InsertDataset) (hd : h.insertAt id = .ok d) (herr : d.err = none)
    (hprep : d.isPrepared.Bool W.defaultPrepared = true)
    (hpg : R.options d.dialect = postgres.DialectOptions)
    (hne : (R.insert postgres.DialectOptions h d.clauses).noError = true) :
    (postgres.DialectOptions.PlaceHolderFragment = "$" ∧
      postgres.DialectOptions.IncludePlaceholderNum = true ∧
      postgres.DialectOptions.rest = DefaultDialectOptions.rest) ∧
    (∀ (encode : Val → Except GoError String) (e : Emit), e.noError = true →
      (e.render postgres.DialectOptions encode (NewSQLBuilder true)).ToSQL =
        (joinPieces (e.pieces (fun n _ => "$" ++ toString n) 1), e.values, none)) ∧
    (∀ (e : Emit) (i : Nat), (tokensOf (e.pieces (fun n _ => "$" ++ toString n) 1))[i]? =
      (e.values[i]?).map (fun v => ("$" ++ toString (1 + i), v))) ∧
    (∀ (first second : Emit) (k : Nat),
      (Emit.seq first second).pieces (fun n _ => "$" ++ toString n) k =
        first.pieces (fun n _ => "$" ++ toString n) k ++
          second.pieces (fun n _ => "$" ++ toString n) (k + first.values.length)) ∧
    InsertDataset.ToSQL (R.deps W) h id =
      .ok (joinPieces ((R.insert postgres.DialectOptions h d.clauses).pieces
          (fun n _ => "$" ++ toString n) 1),
        (R.insert postgres.DialectOptions h d.clauses).values, none) := by
  have hw : ∀ (encode : Val → Except GoError String) (e : Emit), e.noError = true →
      (e.render postgres.DialectOptions encode (NewSQLBuilder true)).ToSQL =
        (joinPieces (e.pieces (fun n _ => "$" ++ toString n) 1), e.values, none) := by
    intro encode e he
    rw [render_prepared postgres.DialectOptions encode e (NewSQLBuilder true) rfl rfl he]
    simp [SQLBuilder.ToSQL, NewSQLBuilder, placeHolder_postgres]
  refine ⟨⟨rfl, rfl, rfl⟩, hw, fun e i => getElem?_tokens _ e 1 i, fun _ _ _ => rfl, ?_⟩
  rw [ToSQL_rendered R W h id d hd herr, hprep, hpg, hw _ _ hne]

/-- C26. Switching a dataset to prepared mode.  Let `Prepared(true)` be called
on an INSERT dataset without error that is in interpolated mode and whose
statement is rendered without error, as the text `sql` with the arguments
`args`.  Then `args` is empty and `sql` is the text of the pieces of the
statement with every literal value encoded by the literal rule of the dialect;
the dataset that `Prepared(true)` returns renders as the text of the same
pieces with a placeholder at the place of every literal value, numbered from
left to right, with the literal values as arguments in that order and without
error; the skeleton, the pieces that are not literal values, is the same in
both texts, at the same places. -/
theorem prepared_replaces_the_values (R : Renderer) (W : Deps) (h h' : Heap) (id q : Nat)
    (d : InsertDataset) (sql : String) (args : List Val)
    (hd : h.insertAt id = .ok d) (herr : d.err = none)
    (hint : d.isPrepared.Bool W.defaultPrepared = false)
    (hrun : InsertDataset.Prepared h id true = .ok (q, h'))
    (hsql : InsertDataset.ToSQL (R.deps W) h' id = .ok (sql, args, none)) :
    args = [] ∧
    sql = joinPieces ((R.insert (R.options d.dialect) h' d.clauses).pieces
      (fun _ v => encoded (R.encode (R.options d.dialect)) v) 1) ∧
    InsertDataset.ToSQL (R.deps W) h' q =
      .ok (joinPieces ((R.insert (R.options d.dialect) h' d.clauses).pieces
          (fun n _ => placeHolder (R.options d.dialect) n) 1),
        (R.insert (R.options d.dialect) h' d.clauses).values, none) ∧
    skeletonOf ((R.insert (R.options d.dialect) h' d.clauses).pieces
        (fun n _ => placeHolder (R.options d.dialect) n) 1) =
      skeletonOf ((R.insert (R.options d.dialect) h' d.clauses).pieces
        (fun _ v => encoded (R.encode (R.options d.dialect)) v) 1) ∧
    tokensOf ((R.insert (R.options d.dialect) h' d.clauses).pieces
        (fun _ v => encoded (R.encode (R.options d.dialect)) v) 1) =
      ((R.insert (R.options d.dialect) h' d.clauses).values.enumFrom 1).map
        (fun p => (encoded (R.encode (R.options d.dialect)) p.2, p.2)) ∧
    tokensOf ((R.insert (R.options d.dialect) h' d.clauses).pieces
        (fun n _ => placeHolder (R.options d.dialect) n) 1) =
      ((R.insert (R.options d.dialect) h' d.clauses).values.enumFrom 1).map
        (fun p => (placeHolder (R.options d.dialect) p.1, p.2)) := by
  rw [Prepared_eq h id d true hd] at hrun
  simp only [Except.ok.injEq, Prod.mk.injEq] at hrun
  obtain ⟨hq, hh⟩ := hrun
  subst hq hh
  have hold := insertAt_append_old h
    (Obj.insert { d with isPrepared := preparedFromBool true }) id d hd
  have hnew := insertAt_append_new h { d with isPrepared := preparedFromBool true }
  rw [ToSQL_rendered R W _ id d hold herr, hint] at hsql
  simp only [Except.ok.injEq] at hsql
  have herr0 : ((R.insert (R.options d.dialect)
      (h ++ [Obj.insert { d with isPrepared := preparedFromBool true }]) d.clauses).render
      (R.options d.dialect) (R.encode (R.options d.dialect)) (NewSQLBuilder false)).err = none := by
    cases hx : ((R.insert (R.options d.dialect)
      (h ++ [Obj.insert { d with isPrepared := preparedFromBool true }]) d.clauses).render
      (R.options d.dialect) (R.encode (R.options d.dialect)) (NewSQLBuilder false)).err with
    | none => rfl
    | some e =>
      simp only [SQLBuilder.ToSQL, hx] at hsql
      cases hsql
  obtain ⟨hne, _, hrender⟩ := render_interpolated (R.options d.dialect)
    (R.encode (R.options d.dialect)) _ (NewSQLBuilder false) 1 rfl herr0
  rw [hrender] at hsql
  simp only [SQLBuilder.ToSQL, NewSQLBuilder, Prod.mk.injEq] at hsql
  refine ⟨hsql.2.1.symm, ?_, ?_, skeletonOf_pieces _ _ _ 1 1, tokensOf_pieces _ _ 1,
    tokensOf_pieces _ _ 1⟩
  · rw [← hsql.1]; simp
  · rw [ToSQL_rendered R W _ _ _ hnew herr]
    have hp : prepared.Bool W.defaultPrepared (preparedFromBool true) = true := rfl
    simp only [hp]
    rw [render_prepared _ _ _ (NewSQLBuilder true) rfl rfl hne]
    simp [SQLBuilder.ToSQL, NewSQLBuilder]

/-- C25 at the example heap: the example INSERT in prepared mode with the
dialect postgres. -/
theorem postgres_placeholders_are_numbered_witness :
    Heap.insertAt (demoHeap ++ [Obj.insert { demoInsert with
      isPrepared := prepared.preparedEnabled }]) 7 =
        .ok { demoInsert with isPrepared := prepared.preparedEnabled } ∧
    InsertDataset.ToSQL (demoRenderer.deps demoDeps)
      (demoHeap ++ [Obj.insert { demoInsert with isPrepared := prepared.preparedEnabled }]) 7 =
      .ok ("INSERT INTO \"items\" (\"address\", \"name\") VALUES ($1, $2)",
        [Val.str "111 Test Addr", Val.str "Test1"], none) :=
  ⟨rfl, ((postgres_placeholders_are_numbered demoRenderer demoDeps
    (demoHeap ++ [Obj.insert { demoInsert with isPrepared := prepared.preparedEnabled }]) 7
    { demoInsert with isPrepared := prepared.preparedEnabled } rfl rfl rfl rfl rfl).2.2.2.2).trans
    rfl⟩

/-- C26 at the example heap: `Prepared(true)` on the example INSERT. -/
theorem prepared_replaces_the_values_witness :
    InsertDataset.Prepared demoHeap 0 true =
      .ok (7, demoHeap ++ [Obj.insert { demoInsert with
        isPrepared := prepared.preparedEnabled }]) ∧
    InsertDataset.ToSQL (demoRenderer.deps demoDeps)
      (demoHeap ++ [Obj.insert { demoInsert with isPrepared := prepared.preparedEnabled }]) 0 =
      .ok ("INSERT INTO \"items\" (\"address\", \"name\") VALUES ('111 Test Addr', 'Test1')",
        [], none) ∧
    InsertDataset.ToSQL (demoRenderer.deps demoDeps)
      (demoHeap ++ [Obj.insert { demoInsert with isPrepared := prepared.preparedEnabled }]) 7 =
      .ok ("INSERT INTO \"items\" (\"address\", \"name\") VALUES ($1, $2)",
        [Val.str "111 Test Addr", Val.str "Test1"], none) :=
  ⟨rfl, rfl,
    ((prepared_replaces_the_values demoRenderer demoDeps demoHeap
      (demoHeap ++ [Obj.insert { demoInsert with isPrepared := prepared.preparedEnabled }]) 0 7
      demoInsert
      "INSERT INTO \"items\" (\"address\", \"name\") VALUES ('111 Test Addr', 'Test1')" []
      rfl rfl rfl rfl rfl).2.2.1).trans rfl⟩

end builder

/-! ## The rows of struct values with embedded pointers -/

namespace util

theorem haveTypes_get (E : Env) :
    ∀ (vs : List RValue) (fs : List StructField) (i : Nat) (g : StructField),
      haveTypes E vs fs = true → fs[i]? = some g →
      ∃ fv, vs[i]? = some fv ∧ fv.hasType E g.Typ = true := by
  intro vs
  induction vs with
  | nil =>
    intro fs i g h hg
    cases fs with
    | nil => simp at hg
    | cons f fs => simp [haveTypes] at h
  | cons v vs ih =>
    intro fs i g h hg
    cases fs with
    | nil => simp [haveTypes] at h
    | cons f fs =>
      simp only [haveTypes, Bool.and_eq_true] at h
      cases i with
      | zero =>
        simp only [List.getElem?_cons_zero, Option.some.injEq] at hg
        subst hg
        exact ⟨v, by simp, h.1⟩
      | succ i =>
        simp only [List.getElem?_cons_succ] at hg ⊢
        exact ih fs i g h.2 hg

/-- A value of a struct type is a struct, and its field at an index of the
type is a value of the type of the field. -/
theorem hasType_struct_field (E : Env) (v : RValue) (t i : Nat) (g : StructField)
    (hv : v.hasType E t = true) (hk : (E.types t).kind = Kind.Struct)
    (hg : (E.types t).fields[i]? = some g) :
    ∃ fs fv, v = RValue.struct fs ∧ fs[i]? = some fv ∧ fv.hasType E g.Typ = true ∧
      v.Field (i : Int) = .ok fv := by
  cases v with
  | scalar x => simp [RValue.hasType, hk] at hv
  | nilPtr => simp [RValue.hasType, hk] at hv
  | ptr target => simp [RValue.hasType, hk] at hv
  | struct fs =>
    simp only [RValue.hasType, Bool.and_eq_true] at hv
    obtain ⟨fv, hfv, hty⟩ := haveTypes_get E fs _ i g hv.2 hg
    refine ⟨fs, fv, rfl, hfv, hty, ?_⟩
    simp [RValue.Field, hfv]

/-- Reading a field at an index path of the type of a value does not panic. -/
theorem SafeGetFieldByIndex_returns (E : Env) :
    ∀ (path : List Int) (v : RValue) (t : Nat), v.hasType E t = true →
      validPath E t path = true → ∃ r, SafeGetFieldByIndex v path = .ok r := by
  intro path
  induction path with
  | nil => intro v t _ hp; simp [validPath] at hp
  | cons i rest ih =>
    intro v t hv hp
    simp only [validPath, Bool.and_eq_true, decide_eq_true_eq, beq_iff_eq] at hp
    obtain ⟨⟨hk, hi⟩, hf⟩ := hp
    cases hg : (E.types t).fields[i.toNat]? with
    | none => rw [hg] at hf; cases hf
    | some g =>
      rw [hg] at hf
      obtain ⟨fs, fv, hvs, _, hty, hfield⟩ := hasType_struct_field E v t i.toNat g hv hk hg
      have hi' : ((i.toNat : Nat) : Int) = i := Int.toNat_of_nonneg hi
      rw [hi'] at hfield
      simp only [SafeGetFieldByIndex, hfield]
      by_cases hr : rest = []
      · simp [hr]
      · simp only [hr, if_false] at hf ⊢
        cases fv with
        | nilPtr => exact ⟨none, rfl⟩
        | ptr target =>
          simp only [RValue.hasType, Bool.and_eq_true, beq_iff_eq] at hty
          have hd : derefType E g.Typ = (E.types g.Typ).elem := by simp [derefType, hty.1]
          rw [hd] at hf
          exact ih target _ hty.2 hf
        | scalar x =>
          simp only [RValue.hasType, beq_iff_eq] at hty
          have hd : derefType E g.Typ = g.Typ := by simp [derefType, hty]
          rw [hd] at hf
          exact ih (RValue.scalar x) g.Typ (by simp [RValue.hasType, hty]) hf
        | struct fs' =>
          have hk' : (E.types g.Typ).kind = Kind.Struct := by
            simp only [RValue.hasType, Bool.and_eq_true, beq_iff_eq] at hty
            exact hty.1
          have hd : derefType E g.Typ = g.Typ := by simp [derefType, hk']
          rw [hd] at hf
          exact ih (RValue.struct fs') g.Typ hty hf

/-- Every entry of a column map has a field index that leads from the type
through fields that exist; an index path of one step belongs to a direct
field. -/
theorem newColumnMap_validPath (E : Env) :
    ∀ (fuel t : Nat) (fi : List Int) (px : List String) (cm : ColumnMap),
      newColumnMap E fuel t fi px = .ok cm → ∀ k v, cm.get? k = some v →
      ∃ (j : Nat) (g : StructField) (rest : List Int), (E.types t).fields[j]? = some g ∧
        v.FieldIndex = fi ++ (j : Int) :: rest ∧ validPath E t ((j : Int) :: rest) = true ∧
        (rest = [] → isDirectField E g = true) := by
  intro fuel
  induction fuel with
  | zero => intro t fi px cm h; simp [newColumnMap] at h
  | succ fuel ih =>
    intro t fi px cm h k v hk
    simp only [newColumnMap] at h
    by_cases hkind : (E.types t).kind = Kind.Struct
    · simp only [hkind, if_true] at h
      cases hloop : fieldsLoop E (newColumnMap E fuel) fi px (E.types t).fields 0 ([], []) with
      | error e => rw [hloop] at h; cases h
      | ok st =>
        rw [hloop] at h
        cases h
        rcases Merge_get?_source st.2 st.1 k v hk with h1 | ⟨s, hs, hv⟩
        · rcases fieldsLoop_entries E (newColumnMap E fuel) fi px (E.types t).fields 0
            ([], []) st hloop k v h1 with h0 | ⟨j, g, hj, hent⟩
          · simp [ColumnMap.get?] at h0
          · obtain ⟨hd, name, _, _, hval⟩ := hent
            refine ⟨j, g, [], hj, ?_, ?_, fun _ => hd⟩
            · rw [hval]
              simp [newColumnData, concatFieldIndexes]
            · simp [validPath, hkind, hj]
        · obtain ⟨more, hmore, hall⟩ := fieldsLoop_subs E (newColumnMap E fuel) fi px
            (E.types t).fields 0 ([], []) st hloop
          have hs' : s ∈ more := by
            rw [hmore] at hs; simpa using hs
          obtain ⟨j, g, names, hj, _, hg⟩ := hall s hs'
          rw [getStructColumnMap_eq] at hg
          obtain ⟨j', g', rest', _, hfi, hvp, _⟩ := ih _ _ _ s hg k v hv
          refine ⟨j, g, (j' : Int) :: rest', hj, ?_, ?_, fun hx => by cases hx⟩
          · rw [hfi]
            simp [concatFieldIndexes]
          · have hvp' : validPath E (derefType E g.Typ) ((j' : Int) :: rest') = true := hvp
            simp only [validPath, hkind, hj, Int.toNat_ofNat, beq_self_eq_true, Bool.true_and,
              Int.ofNat_zero_le, decide_True]
            simpa [validPath] using hvp'
    · simp [hkind] at h

theorem get?_some_mem_keys (cm : ColumnMap) (k : String) (v : ColumnData)
    (h : cm.get? k = some v) : k ∈ cm.keys := by
  induction cm with
  | nil => simp [ColumnMap.get?] at h
  | cons kv rest ih =>
    obtain ⟨k', v'⟩ := kv
    simp only [ColumnMap.get?] at h
    by_cases hk : k' = k
    · simp [ColumnMap.keys, hk]
    · simp only [hk, if_false] at h
      have := ih h
      simp only [ColumnMap.keys, List.map_cons, List.mem_cons] at this ⊢
      exact Or.inr this

theorem get?_some_mem_Cols (cm : ColumnMap) (k : String) (v : ColumnData)
    (h : cm.get? k = some v) : k ∈ cm.Cols := by
  rw [Cols_eq_sort_keys]
  exact (sortStrings_perm cm.keys).mem_iff.mpr (get?_some_mem_keys cm k v h)

/-- The loop over the columns returns when reading the fields does, and the
row has the columns that are not left out and whose field is available. -/
theorem recordCols_spec (cm : ColumnMap) (value : RValue) (forInsert forUpdate : Bool) :
    ∀ cols : List String,
      (∀ col ∈ cols, ∀ f, cm.get? col = some f → shouldSkipField f forInsert forUpdate = false →
        ∃ r, SafeGetFieldByIndex value f.FieldIndex = .ok r) →
      ∃ r, recordCols cm value forInsert forUpdate cols = .ok r ∧
        ∀ col x, (col, x) ∈ r ↔ (col ∈ cols ∧ ∃ f, cm.get? col = some f ∧
          shouldSkipField f forInsert forUpdate = false ∧
          SafeGetFieldByIndex value f.FieldIndex = .ok (some x)) := by
  intro cols
  induction cols with
  | nil => intro _; exact ⟨[], rfl, by simp⟩
  | cons c cols ih =>
    intro hall
    obtain ⟨r, hr, hmem⟩ := ih (fun col hc => hall col (List.mem_cons_of_mem _ hc))
    simp only [recordCols]
    cases hg : cm.get? c with
    | none =>
      refine ⟨r, hr, fun col x => ?_⟩
      rw [hmem col x]
      constructor
      · rintro ⟨h1, h2⟩; exact ⟨List.mem_cons_of_mem _ h1, h2⟩
      · rintro ⟨h1, f, hf, h2⟩
        rcases List.mem_cons.mp h1 with h1 | h1
        · subst h1; rw [hg] at hf; cases hf
        · exact ⟨h1, f, hf, h2⟩
    | some f =>
      by_cases hs : shouldSkipField f forInsert forUpdate = true
      · simp only [hs, if_true]
        refine ⟨r, hr, fun col x => ?_⟩
        rw [hmem col x]
        constructor
        · rintro ⟨h1, h2⟩; exact ⟨List.mem_cons_of_mem _ h1, h2⟩
        · rintro ⟨h1, f', hf, h2, h3⟩
          rcases List.mem_cons.mp h1 with h1 | h1
          · subst h1
            rw [hg] at hf
            cases hf
            rw [hs] at h2
            cases h2
          · exact ⟨h1, f', hf, h2, h3⟩
      · have hs' : shouldSkipField f forInsert forUpdate = false := by simpa using hs
        obtain ⟨got, hgot⟩ := hall c (List.mem_cons_self _ _) f hg hs'
        simp only [hs', Bool.false_eq_true, if_false, hgot]
        cases got with
        | none =>
          refine ⟨r, hr, fun col x => ?_⟩
          rw [hmem col x]
          constructor
          · rintro ⟨h1, h2⟩; exact ⟨List.mem_cons_of_mem _ h1, h2⟩
          · rintro ⟨h1, f', hf, h2, h3⟩
            rcases List.mem_cons.mp h1 with h1 | h1
            · subst h1
              rw [hg] at hf
              cases hf
              rw [hgot] at h3
              cases h3
            · exact ⟨h1, f', hf, h2, h3⟩
        | some fv =>
          simp only [hr]
          refine ⟨(c, fv) :: r, rfl, fun col x => ?_⟩
          simp only [List.mem_cons, Prod.mk.injEq]
          rw [hmem col x]
          constructor
          · rintro (⟨h1, h2⟩ | ⟨h1, h2⟩)
            · subst h1 h2
              exact ⟨Or.inl rfl, f, hg, hs', hgot⟩
            · exact ⟨Or.inr h1, h2⟩
          · rintro ⟨h1, f', hf, h2, h3⟩
            rcases h1 with h1 | h1
            · subst h1
              rw [hg] at hf
              cases hf
              rw [hgot] at h3
              cases h3
              exact Or.inl ⟨rfl, rfl⟩
            · exact Or.inr ⟨h1, f', hf, h2, h3⟩

theorem Field_struct (fs : List RValue) (i : Nat) (fv : RValue) (h : fs[i]? = some fv) :
    (RValue.struct fs).Field (i : Int) = .ok fv := by
  simp [RValue.Field, h]

theorem SafeGetFieldByIndex_single (v : RValue) (j : Int) :
    SafeGetFieldByIndex v [j] =
      match v.Field j with
      | .error e => .error e
      | .ok f => .ok (some f) := by
  simp only [SafeGetFieldByIndex, if_true]

theorem SafeGetFieldByIndex_ptr (fs : List RValue) (i : Nat) (target : RValue)
    (rest : List Int) (h : fs[i]? = some (RValue.ptr target)) (hr : rest ≠ []) :
    SafeGetFieldByIndex (RValue.struct fs) ((i : Int) :: rest) =
      SafeGetFieldByIndex target rest := by
  simp only [SafeGetFieldByIndex, Field_struct fs i _ h, hr, if_false]

theorem SafeGetFieldByIndex_nil (fs : List RValue) (i : Nat) (rest : List Int)
    (h : fs[i]? = some RValue.nilPtr) (hr : rest ≠ []) :
    SafeGetFieldByIndex (RValue.struct fs) ((i : Int) :: rest) = .ok none := by
  simp only [SafeGetFieldByIndex, Field_struct fs i _ h, hr, if_false]

/-- C28. The row of a struct value with an embedded pointer.  For a value of a
record type with a column map, building the row for an INSERT or the
assignments for an UPDATE does not panic, and the row has exactly the columns
of the column map that are not left out by a directive tag and whose field is
available.  When the pointer in an embedded field is nil, the row has no
column whose field index goes through that field: the embedded type
contributes nothing.  When it points to a struct, every column of the column
map that is a field of that struct and is not left out is in the row, with the
value of the field. -/
theorem nil_embedded_pointer_gives_no_columns (E : Env) (fuel t : Nat) (cm : ColumnMap)
    (value : RValue) (forInsert forUpdate : Bool)
    (hcm : newColumnMap E fuel t [] [] = .ok cm) (hty : value.hasType E t = true) :
    ∃ r, recordFromStruct cm value forInsert forUpdate = .ok r ∧
      (∀ col x, (col, x) ∈ r ↔ ∃ f, cm.get? col = some f ∧
        shouldSkipField f forInsert forUpdate = false ∧
        SafeGetFieldByIndex value f.FieldIndex = .ok (some x)) ∧
      ∀ (i : Nat) (g : StructField) (fs : List RValue), value = RValue.struct fs →
        (E.types t).fields[i]? = some g → isEmbeddedStruct E g = true →
        (fs[i]? = some RValue.nilPtr →
          ∀ col f rest x, cm.get? col = some f → f.FieldIndex = (i : Int) :: rest →
            (col, x) ∉ r) ∧
        (∀ target, fs[i]? = some (RValue.ptr target) →
          ∀ col f (j : Int), cm.get? col = some f → f.FieldIndex = [(i : Int), j] →
            shouldSkipField f forInsert forUpdate = false →
            ∃ x, target.Field j = .ok x ∧ (col, x) ∈ r) := by
  have hsafe : ∀ col f, cm.get? col = some f →
      ∃ r, SafeGetFieldByIndex value f.FieldIndex = .ok r := by
    intro col f hf
    obtain ⟨j, g, rest, _, hfi, hvp, _⟩ := newColumnMap_validPath E fuel t [] [] cm hcm col f hf
    rw [hfi]
    exact SafeGetFieldByIndex_returns E _ value t hty hvp
  obtain ⟨r, hr, hmem⟩ := recordCols_spec cm value forInsert forUpdate cm.Cols
    (fun col _ f hf _ => hsafe col f hf)
  have hmem' : ∀ col x, (col, x) ∈ r ↔ ∃ f, cm.get? col = some f ∧
      shouldSkipField f forInsert forUpdate = false ∧
      SafeGetFieldByIndex value f.FieldIndex = .ok (some x) := by
    intro col x
    rw [hmem col x]
    constructor
    · rintro ⟨_, h2⟩; exact h2
    · rintro ⟨f, hf, h2⟩; exact ⟨get?_some_mem_Cols cm col f hf, f, hf, h2⟩
  refine ⟨r, hr, hmem', ?_⟩
  intro i g fs hv hg hemb
  subst hv
  refine ⟨?_, ?_⟩
  · intro hnil col f rest x hf hfi hin
    obtain ⟨f', hf', _, hget⟩ := (hmem' col x).mp hin
    rw [hf] at hf'
    cases hf'
    obtain ⟨j, g', rest', hj, hfi', _, hdirect⟩ :=
      newColumnMap_validPath E fuel t [] [] cm hcm col f hf
    rw [hfi] at hfi'
    simp only [List.nil_append, List.cons.injEq, Nat.cast_inj] at hfi'
    obtain ⟨hij, hrest⟩ := hfi'
    subst hij hrest
    rw [hg] at hj
    cases hj
    have hne : rest ≠ [] := by
      intro hx
      have hd := hdirect hx
      simp only [isDirectField, Bool.and_eq_true, Bool.not_eq_true'] at hd
      have he : isEmbeddedStruct E g = false := hd.1.1
      rw [hemb] at he
      cases he
    rw [hfi, SafeGetFieldByIndex_nil fs i rest hnil hne] at hget
    cases hget
  · intro target hptr col f j hf hfi hskip
    obtain ⟨got, hgot⟩ := hsafe col f hf
    rw [hfi, SafeGetFieldByIndex_ptr fs i target [j] hptr (by simp),
      SafeGetFieldByIndex_single] at hgot
    cases hx : target.Field j with
    | error e => rw [hx] at hgot; cases hgot
    | ok x =>
      refine ⟨x, rfl, (hmem' col x).mpr ⟨f, hf, hskip, ?_⟩⟩
      rw [hfi, SafeGetFieldByIndex_ptr fs i target [j] hptr (by simp),
        SafeGetFieldByIndex_single, hx]

/-- C28 at the example type `User = struct { *Address; FirstName; LastName }`:
with a nil `*Address` the row of an INSERT has no column `street`, and with an
address it has the column `street` with the value of the field. -/
theorem nil_embedded_pointer_gives_no_columns_witness :
    newColumnMap userEnv 3 0 [] [] = .ok userColumnMap ∧
    userNil.hasType userEnv 0 = true ∧ userFull.hasType userEnv 0 = true ∧
    (∃ r, recordFromStruct userColumnMap userNil true false = .ok r ∧
      ∀ x, ("street", x) ∉ r) ∧
    (∃ r, recordFromStruct userColumnMap userFull true false = .ok r ∧
      ("street", RValue.scalar (exp.Val.str "111 Test Addr")) ∈ r) :=
  ⟨rfl, rfl, rfl,
    (nil_embedded_pointer_gives_no_columns userEnv 3 0 userColumnMap userNil true false
      rfl rfl).imp (fun _ hr => ⟨hr.1, fun x =>
        (hr.2.2 0 ⟨"Address", "", 1, "", [], true⟩ _ rfl rfl rfl).1 rfl "street" _ [0] x rfl rfl⟩),
    (nil_embedded_pointer_gives_no_columns userEnv 3 0 userColumnMap userFull true false
      rfl rfl).imp (fun _ hr => ⟨hr.1,
        match (hr.2.2 0 ⟨"Address", "", 1, "", [], true⟩ _ rfl rfl rfl).2 _ rfl "street" _ 0
          rfl rfl rfl with
        | ⟨_, hx, hin⟩ => by
          cases hx
          exact hin⟩)⟩

end util

/-! ## Empty and qualified identifiers -/

namespace exp

open builder

theorem string_length_pos (s : String) : s.length > 0 ↔ s ≠ "" := by
  constructor
  · intro h hs
    subst hs
    exact absurd h (by decide)
  · intro h
    by_contra hl
    apply h
    have h0 : s.length = 0 := by omega
    have hd : s.data = [] := List.length_eq_zero.mp h0
    exact String.ext hd

theorem IsEmpty_iff (i : identifier) :
    i.IsEmpty = true ↔ i.schema = "" ∧ i.table = "" ∧ i.colSet = false := by
  obtain ⟨schema, table, col⟩ := i
  simp only [identifier.IsEmpty, identifier.colSet]
  by_cases hs : schema = ""
  · by_cases ht : table = ""
    · subst hs ht
      cases col with
      | nil => simp
      | str c => by_cases hc : c = "" <;> simp [hc]
      | _ => simp
    · simp [hs, ht]
  · simp [hs]

theorem IsQualified_iff (i : identifier) :
    i.IsQualified = true ↔
      (i.colSet = true ∧ (i.table ≠ "" ∨ i.schema ≠ "")) ∨
      (i.colSet = false ∧ i.table ≠ "" ∧ i.schema ≠ "") := by
  obtain ⟨schema, table, col⟩ := i
  simp only [identifier.IsQualified, identifier.colSet, string_length_pos]
  cases col with
  | nil => by_cases hs : schema = "" <;> by_cases ht : table = "" <;> simp [hs, ht]
  | str c =>
    by_cases hc : c = "" <;> by_cases hs : schema = "" <;> by_cases ht : table = "" <;>
      simp [hc, hs, ht]
  | _ => by_cases hs : schema = "" <;> by_cases ht : table = "" <;> simp [hs, ht]

/-- C31. Empty and qualified identifiers.  With a component of an identifier
set when the schema is not empty, the table is not empty, or the column is
neither nil nor the empty string: `IsEmpty()` holds exactly when no component
is set, and `IsQualified()` exactly when at least two of the three are set.
So an empty identifier is not qualified, and an identifier with exactly one
component set, be it the schema, the table or the column, is neither empty nor
qualified. -/
theorem IsEmpty_and_IsQualified_count_the_components (i : identifier) :
    (i.IsEmpty = true ↔ i.setCount = 0) ∧
    (i.IsQualified = true ↔ 2 ≤ i.setCount) ∧
    (i.IsEmpty = true → i.IsQualified = false) ∧
    (i.setCount = 1 → i.IsEmpty = false ∧ i.IsQualified = false) ∧
    (i.setCount = 0 ↔ i.schema = "" ∧ i.table = "" ∧ (i.col = Val.nil ∨ i.col = Val.str "")) ∧
    i.setCount ≤ 3 := by
  have hE := IsEmpty_iff i
  have hQ := IsQualified_iff i
  have hcount : i.setCount = (if i.schema ≠ "" then 1 else 0) + (if i.table ≠ "" then 1 else 0) +
      (if i.colSet then 1 else 0) := rfl
  have hcol : i.colSet = false ↔ (i.col = Val.nil ∨ i.col = Val.str "") := by
    simp only [identifier.colSet, decide_eq_false_iff_not, not_and_or, not_not]
  rw [← hcol]
  cases hq : i.IsQualified <;> cases he : i.IsEmpty <;>
  by_cases hs : i.schema = "" <;> by_cases ht : i.table = "" <;>
    cases hc : i.colSet <;>
    simp [hs, ht, hc, hq, he] at hE hQ hcount ⊢ <;> omega

end exp

namespace exp

open builder

/-- The instance of C31 at the table-only identifier `T("t")`: one component is
set, and the identifier is neither empty nor qualified. -/
theorem IsEmpty_and_IsQualified_count_the_components_witness :
    (T "t").setCount = 1 ∧ (T "t").IsEmpty = false ∧ (T "t").IsQualified = false :=
  ⟨by decide, (IsEmpty_and_IsQualified_count_the_components (T "t")).2.2.2.1 (by decide)⟩

end exp
namespace exp

open builder

theorem splitChars_cons (sep : Char) (l p : List Char) (ps : List (List Char))
    (h : splitChars sep l = p :: ps) :
    (ps = [] ∧ l = p) ∨ ∃ rest, l = p ++ sep :: rest ∧ splitChars sep rest = ps := by
  induction l generalizing p ps with
  | nil =>
    simp only [splitChars, List.cons.injEq] at h
    exact Or.inl ⟨h.2.symm, h.1⟩
  | cons c cs ih =>
    by_cases hc : c = sep
    · simp only [splitChars, hc, if_true, List.cons.injEq] at h
      refine Or.inr ⟨cs, ?_, h.2⟩
      rw [← h.1, hc]
      rfl
    · simp only [splitChars, hc, if_false] at h
      cases hs : splitChars sep cs with
      | nil => exact absurd hs (splitChars_ne_nil sep cs)
      | cons p1 ps1 =>
        rw [hs] at h
        simp only [List.cons.injEq] at h
        rcases ih p1 ps1 hs with ⟨h1, h2⟩ | ⟨rest, h1, h2⟩
        · refine Or.inl ⟨h.2 ▸ h1, ?_⟩
          rw [← h.1, h2]
        · refine Or.inr ⟨rest, ?_, h.2 ▸ h2⟩
          rw [← h.1, h1]
          rfl

theorem splitChars_single (sep : Char) (l p : List Char) (h : splitChars sep l = [p]) : l = p := by
  rcases splitChars_cons sep l p [] h with ⟨_, h2⟩ | ⟨rest, _, h2⟩
  · exact h2
  · exact absurd h2 (splitChars_ne_nil sep rest)

theorem splitChars_pair (sep : Char) (l p q : List Char) (h : splitChars sep l = [p, q]) :
    l = p ++ sep :: q := by
  rcases splitChars_cons sep l p [q] h with ⟨h1, _⟩ | ⟨rest, h1, h2⟩
  · exact absurd h1 (by simp)
  · rw [h1, splitChars_single sep rest q h2]

theorem splitChars_triple (sep : Char) (l p q r : List Char)
    (h : splitChars sep l = [p, q, r]) : l = p ++ sep :: (q ++ sep :: r) := by
  rcases splitChars_cons sep l p [q, r] h with ⟨h1, _⟩ | ⟨rest, h1, h2⟩
  · exact absurd h1 (by simp)
  · rw [h1, splitChars_pair sep rest q r h2]

theorem mk_eq_empty (p : List Char) : String.mk p = "" ↔ p = [] := by
  constructor
  · intro h
    have := congrArg String.data h
    exact this
  · intro h
    subst h
    rfl

theorem NewIdentifierExpression_IsEmpty (a b c : String) :
    (NewIdentifierExpression a b (Val.str c)).IsEmpty = true ↔ a = "" ∧ b = "" ∧ c = "" := by
  by_cases hc : c = "*"
  · subst hc
    have h1 : ("*" : String) ≠ "" := by decide
    simp [NewIdentifierExpression, identifier.Schema, identifier.Table, identifier.Col,
      identifier.IsEmpty, Star, NewLiteralExpression, h1]
    tauto
  · have h2 : Val.str c ≠ Val.str "*" := by
      intro h
      exact hc (Val.str.inj h)
    simp [NewIdentifierExpression, identifier.Schema, identifier.Table, identifier.Col,
      identifier.IsEmpty, h2, and_assoc]

/-- C32. The inputs that parse to the empty identifier.  For every string `s`,
`ParseIdentifier(s).IsEmpty()` holds exactly when `s` is `""`, `"."` or
`".."`.  Every other input gives an identifier that is not empty, among them
`"..."`, `"a."` and `".b"`. -/
theorem ParseIdentifier_IsEmpty_exactly_for_dots :
    (∀ s : String, (ParseIdentifier s).IsEmpty = true ↔ s = "" ∨ s = "." ∨ s = "..") ∧
    (ParseIdentifier "...").IsEmpty = false ∧
    (ParseIdentifier "a.").IsEmpty = false ∧
    (ParseIdentifier ".b").IsEmpty = false := by
  have main : ∀ s : String, (ParseIdentifier s).IsEmpty = true ↔ s = "" ∨ s = "." ∨ s = ".." := by
    intro s
    constructor
    · intro h
      unfold ParseIdentifier at h
      simp only [stringsSplit, tableAndColumnParts, schemaTableAndColumnIdentifierParts,
        List.length_map] at h
      split_ifs at h with h2 h3
      · obtain ⟨p, q, hpq⟩ := List.length_eq_two.mp h2
        rw [hpq] at h
        simp only [List.map_cons, List.map_nil, List.getD_cons_zero, List.getD_cons_succ,
          NewIdentifierExpression_IsEmpty, mk_eq_empty, true_and] at h
        have hl := splitChars_pair _ _ _ _ hpq
        rw [h.1, h.2] at hl
        right; left
        exact String.ext hl
      · obtain ⟨p, q, r, hpqr⟩ := List.length_eq_three.mp h3
        rw [hpqr] at h
        simp only [List.map_cons, List.map_nil, List.getD_cons_zero, List.getD_cons_succ,
          NewIdentifierExpression_IsEmpty, mk_eq_empty] at h
        have hl := splitChars_triple _ _ _ _ _ hpqr
        rw [h.1, h.2.1, h.2.2] at hl
        right; right
        exact String.ext hl
      · rw [NewIdentifierExpression_IsEmpty] at h
        left
        exact h.2.2
    · rintro (h | h | h) <;> subst h <;> rfl
  exact ⟨main, by rw [Bool.eq_false_iff, Ne, main]; decide,
    by rw [Bool.eq_false_iff, Ne, main]; decide, by rw [Bool.eq_false_iff, Ne, main]; decide⟩

end exp
namespace exp

open builder

theorem NewIdentifierExpression_col (a b c : String) :
    (NewIdentifierExpression a b (Val.str c)).GetCol = if c = "*" then Star else Val.str c := by
  by_cases hc : c = "*"
  · subst hc
    rfl
  · have h2 : Val.str c ≠ Val.str "*" := fun h => hc (Val.str.inj h)
    simp [NewIdentifierExpression, identifier.Schema, identifier.Table, identifier.Col,
      identifier.GetCol, h2, hc]

theorem Star_ne_str (c : String) : Star ≠ Val.str c := by
  intro h
  simp [Star, NewLiteralExpression] at h

/-- The column part of a parsed identifier is the last of at most three
segments, or the whole input when there are more. -/
theorem ParseIdentifier_col (s : String) :
    (ParseIdentifier s).GetCol =
      if (stringsSplit s '.').length = 2 ∨ (stringsSplit s '.').length = 3 then
        (if (stringsSplit s '.').getLast? = some "*" then Star
         else Val.str ((stringsSplit s '.').getLastD ""))
      else (if s = "*" then Star else Val.str s) := by
  unfold ParseIdentifier
  simp only [tableAndColumnParts, schemaTableAndColumnIdentifierParts]
  by_cases h2 : (stringsSplit s '.').length = 2
  · obtain ⟨p, q, hpq⟩ := List.length_eq_two.mp h2
    simp only [hpq, List.length_cons, List.length_nil, if_true, true_or,
      NewIdentifierExpression_col, List.getD_cons_zero, List.getD_cons_succ,
      List.getLast?_cons_cons, List.getLast?_singleton, Option.some.injEq,
      List.getLastD_cons, List.getLastD_nil]
  · by_cases h3 : (stringsSplit s '.').length = 3
    · obtain ⟨p, q, r, hpqr⟩ := List.length_eq_three.mp h3
      simp only [hpqr, List.length_cons, List.length_nil, if_true, or_true,
        NewIdentifierExpression_col, List.getD_cons_zero, List.getD_cons_succ,
        List.getLast?_cons_cons, List.getLast?_singleton, Option.some.injEq,
        List.getLastD_cons, List.getLastD_nil]
      exact NewIdentifierExpression_col p q r
    · simp only [h2, h3, if_false, or_self, NewIdentifierExpression_col]


theorem stringsSplit_single (s q : String) (h : stringsSplit s '.' = [q]) : q = s := by
  unfold stringsSplit at h
  cases hs : splitChars '.' s.toList with
  | nil => rw [hs] at h; simp at h
  | cons p ps =>
    rw [hs] at h
    cases ps with
    | nil =>
      simp only [List.map_cons, List.map_nil, List.cons.injEq, and_true] at h
      have := splitChars_single _ _ _ hs
      rw [← h]
      exact String.ext this.symm
    | cons _ _ => simp at h

theorem ParseIdentifier_col_Star (s : String) :
    (ParseIdentifier s).GetCol = Star ↔
      (stringsSplit s '.').length ≤ 3 ∧ (stringsSplit s '.').getLast? = some "*" := by
  rw [ParseIdentifier_col]
  by_cases h23 : (stringsSplit s '.').length = 2 ∨ (stringsSplit s '.').length = 3
  · rw [if_pos h23]
    have hle : (stringsSplit s '.').length ≤ 3 := by omega
    by_cases hl : (stringsSplit s '.').getLast? = some "*"
    · simp [hl, hle]
    · simp only [hl, if_false, and_false, iff_false]
      exact fun h => Star_ne_str _ h.symm
  · rw [if_neg h23]
    have hlen := length_stringsSplit s
    by_cases h1 : (stringsSplit s '.').length = 1
    · obtain ⟨q, hq⟩ := List.length_eq_one.mp h1
      have hqs := stringsSplit_single s q hq
      subst hqs
      rw [hq]
      by_cases hs : q = "*"
      · simp [hs]
      · simp only [hs, if_false, List.length_singleton, List.getLast?_singleton,
          Option.some.injEq, and_false, iff_false]
        exact fun h => Star_ne_str _ h.symm
    · have hs : s ≠ "*" := by
        intro hs
        subst hs
        exact h1 rfl
      simp only [hs, if_false]
      constructor
      · exact fun h => absurd h.symm (Star_ne_str _)
      · rintro ⟨hle, _⟩
        omega

/-- C33. `As` on an identifier without a column, for a string alias `s`, as
amended.  If the table is not empty, the alias is the table-only identifier
named by the column part of `ParseIdentifier(s)`; else if the schema is not
empty, the schema-only identifier of that name; a qualifier that
`ParseIdentifier` found in `s` is dropped.  In these two cases, when the column
part is the star literal, `As` returns no alias and panics on the type
assertion; the column part is the star literal exactly when `s` has at most
three segments between dots and the last segment is `"*"`, and it is a string
otherwise.  When schema, table and column are all unset, the alias is the raw
string `s`. -/
theorem identifier.As_without_a_column (mk : Val → Val → Except GoError Val) (i : identifier)
    (s : String) (hcol : i.col = Val.nil ∨ i.col = Val.str "") :
    (i.table ≠ "" →
      (∀ c, (ParseIdentifier s).GetCol = Val.str c →
        i.As mk (Val.str s) = mk i.Expression (NewIdentifierExpression "" c Val.nil).Expression) ∧
      ((ParseIdentifier s).GetCol = Star → i.As mk (Val.str s) = .error notAString)) ∧
    (i.table = "" → i.schema ≠ "" →
      (∀ c, (ParseIdentifier s).GetCol = Val.str c →
        i.As mk (Val.str s) = mk i.Expression (NewIdentifierExpression c "" Val.nil).Expression) ∧
      ((ParseIdentifier s).GetCol = Star → i.As mk (Val.str s) = .error notAString)) ∧
    (i.table = "" → i.schema = "" → i.As mk (Val.str s) = mk i.Expression (Val.str s)) ∧
    ((ParseIdentifier s).GetCol = Star ∨ ∃ c, (ParseIdentifier s).GetCol = Val.str c) ∧
    ((ParseIdentifier s).GetCol = Star ↔
      (stringsSplit s '.').length ≤ 3 ∧ (stringsSplit s '.').getLast? = some "*") ∧
    (∀ a b : String, '.' ∉ a.toList → '.' ∉ b.toList →
      (ParseIdentifier (a ++ "." ++ b)).GetCol = (if b = "*" then Star else Val.str b)) := by
  have hno : ¬ (i.col ≠ Val.nil ∧ i.col ≠ Val.str "") := by
    rcases hcol with h | h <;> simp [h]
  refine ⟨?_, ?_, ?_, ?_, ParseIdentifier_col_Star s, ?_⟩
  · intro ht
    constructor
    · intro c hc
      simp only [identifier.As, hno, if_false, ht, ne_eq, not_false_eq_true, if_true, hc]
    · intro hc
      simp only [identifier.As, hno, if_false, ht, ne_eq, not_false_eq_true, if_true, hc, Star,
        NewLiteralExpression]
  · intro ht hs
    constructor
    · intro c hc
      simp only [identifier.As, hno, if_false, ht, ne_eq, not_true_eq_false, hs,
        not_false_eq_true, if_true, hc]
    · intro hc
      simp only [identifier.As, hno, if_false, ht, ne_eq, not_true_eq_false, hs,
        not_false_eq_true, if_true, hc, Star, NewLiteralExpression]
  · intro ht hs
    simp only [identifier.As, hno, if_false, ht, ne_eq, not_true_eq_false, hs]
  · rw [ParseIdentifier_col]
    split_ifs
    · exact Or.inl rfl
    · exact Or.inr ⟨_, rfl⟩
    · exact Or.inl rfl
    · exact Or.inr ⟨_, rfl⟩
  · intro a b ha hb
    have h : ParseIdentifier (a ++ "." ++ b) = NewIdentifierExpression "" a (Val.str b) := by
      simp [ParseIdentifier, stringsSplit_two a b ha hb, tableAndColumnParts,
        schemaTableAndColumnIdentifierParts]
    rw [h, NewIdentifierExpression_col]

/-- The instance of C33 at `T("t").As("a.b")`: the alias is the table `"b"`,
and `T("t").As("a.*")` panics. -/
theorem identifier.As_without_a_column_witness :
    ((T "t").col = Val.nil ∨ (T "t").col = Val.str "") ∧
    (T "t").As demoNewAliasExpression (Val.str "a.b") =
      .ok (Val.aliased (T "t").Expression (NewIdentifierExpression "" "b" Val.nil).Expression) ∧
    (T "t").As demoNewAliasExpression (Val.str "a.*") = .error notAString :=
  ⟨Or.inr rfl,
   ((identifier.As_without_a_column demoNewAliasExpression (T "t") "a.b" (Or.inr rfl)).1
      (by decide)).1 "b" rfl,
   ((identifier.As_without_a_column demoNewAliasExpression (T "t") "a.*" (Or.inr rfl)).1
      (by decide)).2 rfl⟩

/-- The counterexample to C33 as stated: the alias `"a.b.c.*"` ends in `".*"`,
but it has four segments, so its column part is the whole string and not the
star literal; `As("a.b.c.*")` on the table-only identifier `t` returns the
alias named by the whole string and does not panic.  And on the identifier
with nothing set, `As("*")` returns the alias with the raw string, although
the column part of `"*"` is the star literal. -/
theorem identifier.As_without_a_column_counterexample :
    (NewIdentifierExpression "" "t" Val.nil).col = Val.nil ∧
    (NewIdentifierExpression "" "t" Val.nil).table = "t" ∧
    ("a.b.c.*" : String) = "a.b.c" ++ ".*" ∧
    (ParseIdentifier "a.b.c.*").GetCol = Val.str "a.b.c.*" ∧
    (ParseIdentifier "a.b.c.*").GetCol ≠ Star ∧
    (NewIdentifierExpression "" "t" Val.nil).As demoNewAliasExpression (Val.str "a.b.c.*") =
      .ok (Val.aliased (NewIdentifierExpression "" "t" Val.nil).Expression
        (NewIdentifierExpression "" "a.b.c.*" Val.nil).Expression) ∧
    (NewIdentifierExpression "" "t" Val.nil).As demoNewAliasExpression (Val.str "a.b.c.*") ≠
      .error notAString ∧
    (ParseIdentifier "*").GetCol = Star ∧
    (NewIdentifierExpression "" "" Val.nil).As demoNewAliasExpression (Val.str "*") =
      .ok (Val.aliased (NewIdentifierExpression "" "" Val.nil).Expression (Val.str "*")) :=
  ⟨rfl, rfl, by decide, rfl, by decide, rfl, (fun h => by cases h), rfl, rfl⟩

end exp

/-! ## `SetError` in place, `FromQuery` and its argument, datasets without executor -/

namespace builder

open exp

/-- A call of a deriving method that returns: the result is a new address, the
receiver is unchanged, and the new dataset has the error and the executor of
the receiver. -/
theorem run_derives (W : Deps) (h : Heap) (id : Nat) (d : InsertDataset)
    (hd : h.insertAt id = .ok d) (c : Call) (q : Nat) (h' : Heap)
    (hrun : c.run W h id = .ok (q, h')) :
    q = h.length ∧ h'.length = h.length + 1 ∧ h'.insertAt id = .ok d ∧
      ∃ d' : InsertDataset, h'.insertAt q = .ok d' ∧ d'.err = d.err ∧
        d'.executor = d.executor := by
  by_cases hc : ∀ frm, c ≠ Call.FromQuery frm
  · obtain ⟨hq, d', hh, herr, hex⟩ := run_eq W h id d hd c hc q h' hrun
    subst hq hh
    exact ⟨rfl, by simp, insertAt_append_old h _ id d hd, d', insertAt_append_new h d', herr, hex⟩
  · have hex : ∃ frm, c = Call.FromQuery frm := by
      by_contra hn
      exact hc (fun frm e => hn ⟨frm, e⟩)
    obtain ⟨frm, rfl⟩ := hex
    simp only [Call.run] at hrun
    by_cases hsel : ∃ p sds, frm = Val.dataset p ∧ h[p]? = some (Obj.select sds)
    · obtain ⟨p, sds, rfl, hp⟩ := hsel
      by_cases hok : sds.dialect = W.GetDialect "default" ∨ d.dialect = sds.dialect
      · rw [FromQuery_select_eq W h id p d sds hd hp hok] at hrun
        cases hrun
        have hset := insertAt_set_select h id p d sds { sds with dialect := d.dialect } hd hp
        have hlen : (h.set p (Obj.select { sds with dialect := d.dialect })).length = h.length :=
          List.length_set _ _ _
        refine ⟨rfl, by simp, insertAt_append_old _ _ id d hset,
          { d with clauses := d.clauses.SetFrom (Val.dataset p) }, ?_, rfl, rfl⟩
        rw [← hlen]
        exact insertAt_append_new _ _
      · have h1 : sds.dialect ≠ W.GetDialect "default" := fun e => hok (Or.inl e)
        have h2 : d.dialect ≠ sds.dialect := fun e => hok (Or.inr e)
        rw [FromQuery_select_panic W h id p d sds hd hp h1 h2] at hrun
        cases hrun
    · have hq : ∀ p sds, frm = Val.dataset p → h[p]? ≠ some (Obj.select sds) :=
        fun p sds e hp => hsel ⟨p, sds, e, hp⟩
      rw [FromQuery_other_eq W h id d frm hd hq] at hrun
      cases hrun
      exact ⟨rfl, by simp, insertAt_append_old h _ id d hd,
        { d with clauses := d.clauses.SetFrom frm }, insertAt_append_new h _, rfl, rfl⟩

/-- The same for the option setters of a TRUNCATE dataset. -/
theorem OptionCall_run_derives (h : Heap) (td : Nat) (d : TruncateDataset)
    (hd : h.truncateAt td = .ok d) (c : OptionCall) (q : Nat) (h' : Heap)
    (hrun : c.run h td = .ok (q, h')) :
    q = h.length ∧ h'.length = h.length + 1 ∧ h'.truncateAt td = .ok d ∧
      ∃ d' : TruncateDataset, h'.truncateAt q = .ok d' ∧ d'.err = d.err ∧
        d'.executor = d.executor := by
  rw [OptionCall_run_eq h td d c hd] at hrun
  cases hrun
  exact ⟨rfl, by simp, truncateAt_append_old h _ td d hd, _, truncateAt_append_new h _, rfl, rfl⟩

theorem SetError_eq (h : Heap) (id : Nat) (d : InsertDataset) (e : Option GoError)
    (hd : h.insertAt id = .ok d) (he : d.err = none) :
    InsertDataset.SetError h id e = .ok (id, h.set id (Obj.insert { d with err := e })) := by
  simp [InsertDataset.SetError, hd, he, bind, Except.bind, pure, Except.pure]

theorem truncate_SetError_eq (h : Heap) (td : Nat) (d : TruncateDataset) (e : Option GoError)
    (hd : h.truncateAt td = .ok d) (he : d.err = none) :
    TruncateDataset.SetError h td e =
      .ok (td, h.set td (Obj.truncate { d with err := e })) := by
  simp [TruncateDataset.SetError, hd, he, bind, Except.bind, pure, Except.pure]

theorem insertAt_set_other (h : Heap) (p q : Nat) (o : Obj) (d : InsertDataset) (hne : p ≠ q)
    (hd : h.insertAt q = .ok d) : Heap.insertAt (h.set p o) q = .ok d := by
  apply insertAt_of_getElem?
  rw [List.getElem?_set_ne hne]
  exact (insertAt_lt h q d hd).2

theorem truncateAt_set_other (h : Heap) (p q : Nat) (o : Obj) (d : TruncateDataset)
    (hne : p ≠ q) (hd : h.truncateAt q = .ok d) : Heap.truncateAt (h.set p o) q = .ok d := by
  apply truncateAt_of_getElem?
  rw [List.getElem?_set_ne hne]
  exact (truncateAt_lt h q d hd).2

theorem truncate_Error_eq (h : Heap) (td : Nat) (d : TruncateDataset)
    (hd : h.truncateAt td = .ok d) : TruncateDataset.Error h td = .ok d.err := by
  simp only [TruncateDataset.Error, hd, bind, Except.bind, pure, Except.pure]

/-- C34. `SetError` works in place.  On an INSERT or TRUNCATE dataset without
error, `ds.SetError(e)` returns the receiver itself and writes `e` into the
object the receiver points to: `Error()` through that pointer is `e` from then
on, and no other object of the heap changes.  Every other builder method (a
deriving method of INSERT, an option setter of TRUNCATE) returns a pointer to
a new object and leaves the receiver as it was.  So a dataset derived from
`ds` before the call still has no error after it, and a dataset derived from
`ds` after the call carries `e`. -/
theorem SetError_updates_the_receiver_in_place (W : Deps) (h : Heap) (e : Option GoError) :
    (∀ (id : Nat) (d : InsertDataset), h.insertAt id = .ok d → d.err = none →
      ∃ h1, InsertDataset.SetError h id e = .ok (id, h1) ∧
        h1 = h.set id (Obj.insert { d with err := e }) ∧
        InsertDataset.Error h1 id = .ok e ∧
        (∀ p, p ≠ id → h1[p]? = h[p]?) ∧
        (∀ c q h2, Call.run W h id c = .ok (q, h2) →
          q ≠ id ∧ h2.insertAt id = .ok d ∧
          ∃ h3, InsertDataset.SetError h2 id e = .ok (id, h3) ∧
            InsertDataset.Error h3 id = .ok e ∧ InsertDataset.Error h3 q = .ok none) ∧
        (∀ c q h2, Call.run W h1 id c = .ok (q, h2) →
          q ≠ id ∧ InsertDataset.Error h2 q = .ok e ∧ InsertDataset.Error h2 id = .ok e)) ∧
    (∀ (td : Nat) (d : TruncateDataset), h.truncateAt td = .ok d → d.err = none →
      ∃ h1, TruncateDataset.SetError h td e = .ok (td, h1) ∧
        h1 = h.set td (Obj.truncate { d with err := e }) ∧
        TruncateDataset.Error h1 td = .ok e ∧
        (∀ p, p ≠ td → h1[p]? = h[p]?) ∧
        (∀ c q h2, OptionCall.run h td c = .ok (q, h2) →
          q ≠ td ∧ h2.truncateAt td = .ok d ∧
          ∃ h3, TruncateDataset.SetError h2 td e = .ok (td, h3) ∧
            TruncateDataset.Error h3 td = .ok e ∧ TruncateDataset.Error h3 q = .ok none) ∧
        (∀ c q h2, OptionCall.run h1 td c = .ok (q, h2) →
          q ≠ td ∧ TruncateDataset.Error h2 q = .ok e ∧
            TruncateDataset.Error h2 td = .ok e)) := by
  constructor
  · intro id d hd he
    have hlt := (insertAt_lt h id d hd).1
    have hself := insertAt_set_self h id { d with err := e } hlt
    refine ⟨_, SetError_eq h id d e hd he, rfl, ?_, ?_, ?_, ?_⟩
    · rw [Error_eq _ _ _ hself]
    · intro p hp
      exact List.getElem?_set_ne (Ne.symm hp)
    · intro c q h2 hrun
      obtain ⟨hq, hlen, hid, d', hq', herr, _⟩ := run_derives W h id d hd c q h2 hrun
      have hne : q ≠ id := by omega
      have hlt2 : id < h2.length := by omega
      refine ⟨hne, hid, _, SetError_eq h2 id d e hid he, ?_, ?_⟩
      · rw [Error_eq _ _ _ (insertAt_set_self h2 id { d with err := e } hlt2)]
      · rw [Error_eq _ _ _ (insertAt_set_other h2 id q _ d' (Ne.symm hne) hq'), herr, he]
    · intro c q h2 hrun
      obtain ⟨hq, hlen, hid, d', hq', herr, _⟩ :=
        run_derives W _ id { d with err := e } hself c q h2 hrun
      have hls : (h.set id (Obj.insert { d with err := e })).length = h.length :=
        List.length_set _ _ _
      refine ⟨by omega, ?_, ?_⟩
      · rw [Error_eq _ _ _ hq', herr]
      · rw [Error_eq _ _ _ hid]
  · intro td d hd he
    have hlt := (truncateAt_lt h td d hd).1
    have hself := truncateAt_set_self h td { d with err := e } hlt
    refine ⟨_, truncate_SetError_eq h td d e hd he, rfl, ?_, ?_, ?_, ?_⟩
    · rw [truncate_Error_eq _ _ _ hself]
    · intro p hp
      exact List.getElem?_set_ne (Ne.symm hp)
    · intro c q h2 hrun
      obtain ⟨hq, hlen, hid, d', hq', herr, _⟩ := OptionCall_run_derives h td d hd c q h2 hrun
      have hne : q ≠ td := by omega
      have hlt2 : td < h2.length := by omega
      refine ⟨hne, hid, _, truncate_SetError_eq h2 td d e hid he, ?_, ?_⟩
      · rw [truncate_Error_eq _ _ _ (truncateAt_set_self h2 td { d with err := e } hlt2)]
      · rw [truncate_Error_eq _ _ _ (truncateAt_set_other h2 td q _ d' (Ne.symm hne) hq'), herr,
          he]
    · intro c q h2 hrun
      obtain ⟨hq, hlen, hid, d', hq', herr, _⟩ :=
        OptionCall_run_derives _ td { d with err := e } hself c q h2 hrun
      have hls : (h.set td (Obj.truncate { d with err := e })).length = h.length :=
        List.length_set _ _ _
      refine ⟨by omega, ?_, ?_⟩
      · rw [truncate_Error_eq _ _ _ hq', herr]
      · rw [truncate_Error_eq _ _ _ hid]

/-- C34 at the example heap: `SetError` on the INSERT dataset at address 0 and
on the TRUNCATE dataset at address 6, neither of which has an error. -/
theorem SetError_updates_the_receiver_in_place_witness :
    (Heap.insertAt demoHeap 0 = .ok demoInsert ∧ demoInsert.err = none ∧
      ∃ h1, InsertDataset.SetError demoHeap 0 (some (GoError.other 2)) = .ok (0, h1) ∧
        InsertDataset.Error h1 0 = .ok (some (GoError.other 2))) ∧
    (Heap.truncateAt demoHeap 6 = .ok demoTruncateClean ∧ demoTruncateClean.err = none ∧
      ∃ h1, TruncateDataset.SetError demoHeap 6 (some (GoError.other 2)) = .ok (6, h1) ∧
        TruncateDataset.Error h1 6 = .ok (some (GoError.other 2))) :=
  ⟨⟨rfl, rfl,
    ((SetError_updates_the_receiver_in_place demoDeps demoHeap (some (GoError.other 2))).1
      0 demoInsert rfl rfl).imp (fun _ hx => ⟨hx.1, hx.2.2.1⟩)⟩,
   ⟨rfl, rfl,
    ((SetError_updates_the_receiver_in_place demoDeps demoHeap (some (GoError.other 2))).2
      6 demoTruncateClean rfl rfl).imp (fun _ hx => ⟨hx.1, hx.2.2.1⟩)⟩⟩

/-- C35. `FromQuery` writes into its argument.  When `q` is a select dataset
whose dialect is the default one or that of the insert dataset, the call
`id.FromQuery(q)` returns a new dataset and leaves the receiver and all other
objects as they were, but the dialect of `q` itself is afterwards the dialect
`d` of the insert dataset: a `q` of the default dialect is changed when `d` is
another dialect, and a `q` whose dialect is `d` already is unchanged. -/
theorem FromQuery_overwrites_the_dialect_of_its_argument (W : Deps) (h : Heap) (id q : Nat)
    (d : InsertDataset) (sds : SelectDataset) (hd : h.insertAt id = .ok d)
    (hq : h[q]? = some (Obj.select sds))
    (hok : sds.dialect = W.GetDialect "default" ∨ d.dialect = sds.dialect) :
    ∃ r h', InsertDataset.FromQuery W h id (Val.dataset q) = .ok (r, h') ∧
      r = h.length ∧ r ≠ id ∧ r ≠ q ∧
      h'.insertAt id = .ok d ∧
      (∀ p o, p ≠ q → h[p]? = some o → h'[p]? = some o) ∧
      h'[q]? = some (Obj.select { sds with dialect := d.dialect }) ∧
      (sds.dialect = W.GetDialect "default" → d.dialect ≠ W.GetDialect "default" →
        h'[q]? ≠ h[q]?) ∧
      (d.dialect = sds.dialect → h'[q]? = h[q]?) := by
  have hlt := (insertAt_lt h id d hd).1
  have hqlt := (List.getElem?_eq_some_iff.mp hq).1
  have hset := insertAt_set_select h id q d sds { sds with dialect := d.dialect } hd hq
  have hlen : (h.set q (Obj.select { sds with dialect := d.dialect })).length = h.length :=
    List.length_set _ _ _
  have hqnew : (h.set q (Obj.select { sds with dialect := d.dialect }) ++
      [Obj.insert { d with clauses := d.clauses.SetFrom (Val.dataset q) }])[q]? =
      some (Obj.select { sds with dialect := d.dialect }) := by
    apply getElem?_append_old
    simp [List.getElem?_set, hqlt]
  refine ⟨_, _, FromQuery_select_eq W h id q d sds hd hq hok, rfl, by omega, by omega,
    insertAt_append_old _ _ id d hset, ?_, hqnew, ?_, ?_⟩
  · intro p o hp hpo
    apply getElem?_append_old
    rw [List.getElem?_set_ne (Ne.symm hp)]
    exact hpo
  · intro h1 h2
    rw [hqnew, hq]
    intro e
    have e' := congrArg SelectDataset.dialect (Obj.select.inj (Option.some.inj e))
    exact h2 (e'.trans h1)
  · intro h1
    rw [hqnew, hq, h1]

/-- C35 at the example heap: the insert dataset at address 0 has the dialect 1
and the select dataset at address 2 the default dialect 0; after
`FromQuery` the select dataset has the dialect 1. -/
theorem FromQuery_overwrites_the_dialect_of_its_argument_witness :
    Heap.insertAt demoHeap 0 = .ok demoInsert ∧
    demoHeap[2]? = some (Obj.select ⟨0, 0⟩) ∧
    ∃ r h', InsertDataset.FromQuery demoDeps demoHeap 0 (Val.dataset 2) = .ok (r, h') ∧
      h'.insertAt 0 = .ok demoInsert ∧ h'[2]? = some (Obj.select ⟨1, 0⟩) :=
  ⟨rfl, rfl,
    (FromQuery_overwrites_the_dialect_of_its_argument demoDeps demoHeap 0 2 demoInsert ⟨0, 0⟩
      rfl rfl (Or.inl rfl)).imp
      (fun _ hx => hx.imp (fun _ hy => ⟨hy.1, hy.2.2.2.2.1, hy.2.2.2.2.2.2.1⟩))⟩

theorem buildSQL_no_executor (W : Deps) (h : Heap) (id : Nat) (d : InsertDataset)
    (hd : h.insertAt id = .ok d) (hex : d.executor = none) :
    InsertDataset.buildSQL W h id = .ok ("", [], some ErrExecutorNotFoundError) := by
  simp [InsertDataset.buildSQL, hd, hex, bind, Except.bind, pure, Except.pure]

/-- C36. A dataset without executor fails before any SQL is generated.  For an
INSERT dataset whose executor is nil, `Exec`, `ExecCtx`, `QueryRow`,
`QueryRowCtx`, `QueryRowPartial`, `QueryRowPartialCtx`, `QueryRows`,
`QueryRowsCtx`, `QueryRowsPartial` and `QueryRowsPartialCtx` return
`ErrExecutorNotFoundError`, and so do `Truncate` and `TruncateCtx` on a
TRUNCATE dataset whose executor is nil: for every renderer and session, also
ones that panic on every call, for all clauses, and whatever error `SetError`
recorded.  The datasets that `Insert(table)` and `Truncate(table...)` create
have no executor, and a dataset derived by a builder method or returned by
`SetError` has the executor of its receiver. -/
theorem no_executor_fails_before_the_SQL (W : Deps) (S : Session) (h : Heap) :
    (∀ (id : Nat) (d : InsertDataset) (ctx : Nat) (v : Val),
      h.insertAt id = .ok d → d.executor = none →
      InsertDataset.Exec W S h id = .ok (none, some ErrExecutorNotFoundError) ∧
      InsertDataset.ExecCtx W S h id ctx = .ok (none, some ErrExecutorNotFoundError) ∧
      InsertDataset.QueryRow W S h id v = .ok (some ErrExecutorNotFoundError) ∧
      InsertDataset.QueryRowCtx W S h id ctx v = .ok (some ErrExecutorNotFoundError) ∧
      InsertDataset.QueryRowPartial W S h id v = .ok (some ErrExecutorNotFoundError) ∧
      InsertDataset.QueryRowPartialCtx W S h id ctx v = .ok (some ErrExecutorNotFoundError) ∧
      InsertDataset.QueryRows W S h id v = .ok (some ErrExecutorNotFoundError) ∧
      InsertDataset.QueryRowsCtx W S h id ctx v = .ok (some ErrExecutorNotFoundError) ∧
      InsertDataset.QueryRowsPartial W S h id v = .ok (some ErrExecutorNotFoundError) ∧
      InsertDataset.QueryRowsPartialCtx W S h id ctx v = .ok (some ErrExecutorNotFoundError)) ∧
    (∀ (td : Nat) (d : TruncateDataset) (ctx : Nat),
      h.truncateAt td = .ok d → d.executor = none →
      TruncateDataset.Truncate W S h td = .ok (none, some ErrExecutorNotFoundError) ∧
      TruncateDataset.TruncateCtx W S h td ctx = .ok (none, some ErrExecutorNotFoundError)) ∧
    (∀ (table : Val) (id : Nat) (h' : Heap), Insert W h table = .ok (id, h') →
      ∃ d, h'.insertAt id = .ok d ∧ d.executor = none) ∧
    (∀ (table : List Val) (td : Nat) (h' : Heap), Truncate W h table = .ok (td, h') →
      ∃ d, h'.truncateAt td = .ok d ∧ d.executor = none) ∧
    (∀ (id : Nat) (d : InsertDataset) (c : Call) (q : Nat) (h' : Heap),
      h.insertAt id = .ok d → c.run W h id = .ok (q, h') →
      ∃ d', h'.insertAt q = .ok d' ∧ d'.executor = d.executor) ∧
    (∀ (td : Nat) (d : TruncateDataset) (c : OptionCall) (q : Nat) (h' : Heap),
      h.truncateAt td = .ok d → c.run h td = .ok (q, h') →
      ∃ d', h'.truncateAt q = .ok d' ∧ d'.executor = d.executor) ∧
    (∀ (id : Nat) (d : InsertDataset) (e : Option GoError) (q : Nat) (h' : Heap),
      h.insertAt id = .ok d → InsertDataset.SetError h id e = .ok (q, h') →
      ∃ d', h'.insertAt q = .ok d' ∧ d'.executor = d.executor) ∧
    (∀ (td : Nat) (d : TruncateDataset) (e : Option GoError) (q : Nat) (h' : Heap),
      h.truncateAt td = .ok d → TruncateDataset.SetError h td e = .ok (q, h') →
      ∃ d', h'.truncateAt q = .ok d' ∧ d'.executor = d.executor) := by
  refine ⟨?_, ?_, ?_, ?_, ?_, ?_, ?_, ?_⟩
  · intro id d ctx v hd hex
    have hb := buildSQL_no_executor W h id d hd hex
    simp [InsertDataset.Exec, InsertDataset.ExecCtx, InsertDataset.QueryRow,
      InsertDataset.QueryRowCtx, InsertDataset.QueryRowPartial, InsertDataset.QueryRowPartialCtx,
      InsertDataset.QueryRows, InsertDataset.QueryRowsCtx, InsertDataset.QueryRowsPartial,
      InsertDataset.QueryRowsPartialCtx, hb, bind, Except.bind, pure, Except.pure]
  · intro td d ctx hd hex
    simp [TruncateDataset.Truncate, TruncateDataset.TruncateCtx, hd, hex, bind, Except.bind, pure,
      Except.pure]
  · intro table id h' hrun
    have hnew : Heap.insertAt (newInsertDataset W h "default" none).2
        (newInsertDataset W h "default" none).1 = .ok
          { clauses := NewInsertClauses, dialect := W.GetDialect "default", executor := none,
            isPrepared := prepared.preparedNoPreference, err := none } :=
      insertAt_append_new h _
    have hrun' : (Call.Into table).run W (newInsertDataset W h "default" none).2
        (newInsertDataset W h "default" none).1 = .ok (id, h') := hrun
    obtain ⟨_, _, _, d', hd', _, hex⟩ := run_derives W _ _ _ hnew _ id h' hrun'
    exact ⟨d', hd', hex⟩
  · intro table td h' hrun
    have hnew : Heap.truncateAt (newTruncateDataset W h "default" none).2
        (newTruncateDataset W h "default" none).1 = .ok
          { clauses := NewTruncateClauses, dialect := W.GetDialect "default", executor := none,
            isPrepared := prepared.preparedNoPreference, err := none } :=
      truncateAt_append_new h _
    have hrun' : TruncateDataset.Table W (newTruncateDataset W h "default" none).2
        (newTruncateDataset W h "default" none).1 table = .ok (td, h') := hrun
    simp only [TruncateDataset.Table, hnew, bind, Except.bind] at hrun'
    cases hcl : W.NewColumnListExpression table with
    | error e => rw [hcl] at hrun'; cases hrun'
    | ok cl =>
      rw [hcl] at hrun'
      simp only [truncate_copy_eq _ _ _ _ hnew] at hrun'
      cases hrun'
      exact ⟨_, truncateAt_append_new _ _, rfl⟩
  · intro id d c q h' hd hrun
    obtain ⟨_, _, _, d', hd', _, hex⟩ := run_derives W h id d hd c q h' hrun
    exact ⟨d', hd', hex⟩
  · intro td d c q h' hd hrun
    obtain ⟨_, _, _, d', hd', _, hex⟩ := OptionCall_run_derives h td d hd c q h' hrun
    exact ⟨d', hd', hex⟩
  · intro id d e q h' hd hrun
    have hlt := (insertAt_lt h id d hd).1
    by_cases he : d.err = none
    · rw [SetError_eq h id d e hd he] at hrun
      cases hrun
      exact ⟨_, insertAt_set_self h id _ hlt, rfl⟩
    · simp only [InsertDataset.SetError, hd, he, bind, Except.bind, pure, Except.pure,
        if_false] at hrun
      cases hrun
      exact ⟨d, hd, rfl⟩
  · intro td d e q h' hd hrun
    have hlt := (truncateAt_lt h td d hd).1
    by_cases he : d.err = none
    · rw [truncate_SetError_eq h td d e hd he] at hrun
      cases hrun
      exact ⟨_, truncateAt_set_self h td _ hlt, rfl⟩
    · simp only [TruncateDataset.SetError, hd, he, bind, Except.bind, pure, Except.pure,
        if_false] at hrun
      cases hrun
      exact ⟨d, hd, rfl⟩

/-- C36 at the example heap, whose renderers and session panic when they are
called: the INSERT dataset at address 1 and the TRUNCATE dataset at address 5
have no executor and a recorded error, and running them returns
`ErrExecutorNotFoundError`, not the recorded error. -/
theorem no_executor_fails_before_the_SQL_witness :
    Heap.insertAt demoHeap 1 = .ok demoInsertFailed ∧ demoInsertFailed.executor = none ∧
    demoInsertFailed.err = some (GoError.other 1) ∧
    InsertDataset.Exec demoDeps demoSession demoHeap 1 =
      .ok (none, some ErrExecutorNotFoundError) ∧
    InsertDataset.QueryRows demoDeps demoSession demoHeap 1 Val.nil =
      .ok (some ErrExecutorNotFoundError) ∧
    Heap.truncateAt demoHeap 5 = .ok demoTruncate ∧ demoTruncate.executor = none ∧
    demoTruncate.err = some (GoError.other 1) ∧
    TruncateDataset.Truncate demoDeps demoSession demoHeap 5 =
      .ok (none, some ErrExecutorNotFoundError) :=
  ⟨rfl, rfl, rfl,
    ((no_executor_fails_before_the_SQL demoDeps demoSession demoHeap).1 1 demoInsertFailed 0
      Val.nil rfl rfl).1,
    ((no_executor_fails_before_the_SQL demoDeps demoSession demoHeap).1 1 demoInsertFailed 0
      Val.nil rfl rfl).2.2.2.2.2.2.1,
    rfl, rfl, rfl,
    ((no_executor_fails_before_the_SQL demoDeps demoSession demoHeap).2.1 5 demoTruncate 0
      rfl rfl).1⟩

end builder

/-! ## The column map: struct-typed fields, the order of `Merge`, field indexes -/

namespace util

theorem get?_nil (k : String) : ColumnMap.get? ([] : ColumnMap) k = none := rfl

theorem directEntry_fieldIndex (E : Env) (fi : List Int) (px : List String) (j : Nat)
    (g : StructField) (k : String) (v : ColumnData) (h : IsDirectEntry E fi px j g k v) :
    v.FieldIndex = fi ++ [(j : Int)] := by
  obtain ⟨_, name, _, _, hv⟩ := h
  rw [hv]
  simp [newColumnData, concatFieldIndexes]

theorem getElem?_take_lt {α : Type} (l : List α) (i j : Nat) (x : α)
    (h : (l.take i)[j]? = some x) : j < i ∧ l[j]? = some x := by
  have hlt := (List.getElem?_eq_some_iff.mp h).1
  have hji : j < i := by
    have := List.length_take_le i l
    omega
  refine ⟨hji, ?_⟩
  rw [List.getElem?_take_of_lt hji] at h
  exact h

/-- The loop of `newColumnMap` around the field at position `i`: the state
`st0` before the pass for the field, `st1` after it, and the final state.
The leaves and sub-maps of `st0` come from fields before `i`, and what is
added after `st1` comes from fields after `i`. -/
theorem newColumnMap_at (E : Env) (fuel t : Nat) (fi : List Int) (px : List String)
    (res : ColumnMap) (i : Nat) (f : StructField)
    (hrun : newColumnMap E (fuel + 1) t fi px = .ok res)
    (hi : (E.types t).fields[i]? = some f) :
    ∃ (st0 st1 st : LoopState) (more : List ColumnMap),
      fieldsLoop E (newColumnMap E fuel) fi px ((E.types t).fields.take i) 0 ([], []) = .ok st0 ∧
      fieldStep E (newColumnMap E fuel) fi px { f with Index := [(i : Int)] } st0 = .ok st1 ∧
      fieldsLoop E (newColumnMap E fuel) fi px (E.types t).fields 0 ([], []) = .ok st ∧
      res = st.1.Merge st.2 ∧ st.2 = st1.2 ++ more ∧
      (∀ k, (st1.1.get? k).isSome = true → (st.1.get? k).isSome = true) ∧
      (∀ k v, st0.1.get? k = some v → ∃ j : Nat, j < i ∧ v.FieldIndex = fi ++ [(j : Int)]) ∧
      (∀ s ∈ st0.2, ∀ k v, s.get? k = some v →
        ∃ (j : Nat) (rest : List Int), j < i ∧ v.FieldIndex = fi ++ (j : Int) :: rest) ∧
      (∀ k v, st.1.get? k = some v →
        st1.1.get? k = some v ∨ ∃ j : Nat, i < j ∧ v.FieldIndex = fi ++ [(j : Int)]) ∧
      (∀ s ∈ more, ∀ k v, s.get? k = some v →
        ∃ (j : Nat) (rest : List Int), i < j ∧ v.FieldIndex = fi ++ (j : Int) :: rest) := by
  simp only [newColumnMap] at hrun
  by_cases hkind : (E.types t).kind = Kind.Struct
  · simp only [hkind, if_true] at hrun
    cases hloop : fieldsLoop E (newColumnMap E fuel) fi px (E.types t).fields 0 ([], []) with
    | error e => rw [hloop] at hrun; cases hrun
    | ok st =>
      rw [hloop] at hrun
      cases hrun
      obtain ⟨st0, st1, h0, h1, h2⟩ :=
        fieldsLoop_at E (newColumnMap E fuel) fi px (E.types t).fields i f st hi hloop
      obtain ⟨more0, hmore0, hall0⟩ := fieldsLoop_subs E (newColumnMap E fuel) fi px
        ((E.types t).fields.take i) 0 _ st0 h0
      obtain ⟨more, hmore, hall⟩ := fieldsLoop_subs E (newColumnMap E fuel) fi px
        ((E.types t).fields.drop (i + 1)) (i + 1) _ st h2
      refine ⟨st0, st1, st, more, h0, h1, rfl, rfl, hmore, ?_, ?_, ?_, ?_, ?_⟩
      · exact fieldsLoop_keeps E (newColumnMap E fuel) fi px _ (i + 1) st1 st h2
      · intro k v hk
        rcases fieldsLoop_entries E (newColumnMap E fuel) fi px _ 0 _ st0 h0 k v hk with
          hnil | ⟨j, g, hj, hent⟩
        · simp [ColumnMap.get?] at hnil
        · refine ⟨j, (getElem?_take_lt _ _ _ _ hj).1, ?_⟩
          have := directEntry_fieldIndex E fi px _ g k v hent
          simpa using this
      · intro s hs k v hk
        have hs' : s ∈ more0 := by
          rw [hmore0] at hs; simpa using hs
        obtain ⟨j, g, names, hj, _, hg⟩ := hall0 s hs'
        rw [getStructColumnMap_eq] at hg
        obtain ⟨rest, hr⟩ := newColumnMap_fieldIndex E fuel _ _ _ s hg k v hk
        refine ⟨j, rest, (getElem?_take_lt _ _ _ _ hj).1, ?_⟩
        rw [hr]
        simp [concatFieldIndexes]
      · intro k v hk
        rcases fieldsLoop_entries E (newColumnMap E fuel) fi px _ (i + 1) st1 st h2 k v hk with
          h1' | ⟨j, g, hj, hent⟩
        · exact Or.inl h1'
        · right
          refine ⟨i + 1 + j, by omega, ?_⟩
          exact directEntry_fieldIndex E fi px _ g k v hent
      · intro s hs k v hk
        obtain ⟨j, g, names, hj, _, hg⟩ := hall s hs
        rw [getStructColumnMap_eq] at hg
        obtain ⟨rest, hr⟩ := newColumnMap_fieldIndex E fuel _ _ _ s hg k v hk
        refine ⟨i + 1 + j, rest, by omega, ?_⟩
        rw [hr]
        simp [concatFieldIndexes]
  · simp [hkind] at hrun

theorem get?_prefixMap_some (px : List String) (cm : ColumnMap) (k : String) (v : ColumnData)
    (h : (prefixMap px cm).get? k = some v) :
    ∃ k' v', cm.get? k' = some v' ∧ k = prefixed px k' ∧ v = prefixData px v' := by
  induction cm with
  | nil => simp [prefixMap, ColumnMap.get?] at h
  | cons kv rest ih =>
    obtain ⟨a, b⟩ := kv
    simp only [prefixMap, List.map_cons, prefixEntry, ColumnMap.get?] at h
    by_cases hk : prefixed px a = k
    · simp only [hk, if_true, Option.some.injEq] at h
      exact ⟨a, b, by simp [ColumnMap.get?], hk.symm, h.symm⟩
    · simp only [hk, if_false] at h
      obtain ⟨k', v', h1, h2, h3⟩ := ih h
      refine ⟨k', v', ?_, h2, h3⟩
      have hne : a ≠ k' := by
        intro e
        apply hk
        rw [e, h2]
      simp [ColumnMap.get?, hne, h1]

theorem Merge_get?_isSome (subs : List ColumnMap) (cm : ColumnMap) (k : String)
    (h : (cm.get? k).isSome = true) : ((cm.Merge subs).get? k).isSome = true := by
  rw [Merge_get?_eq]
  cases hc : cm.get? k with
  | none => rw [hc] at h; cases h
  | some v => rfl

theorem prefixed_single (name k : String) : prefixed [name] k = name ++ "." ++ k := by
  rw [prefixed_cons]
  simp [String.intercalate.go]

end util

namespace util

/-- C37, amended. A field whose type is a struct without scanner.  Let the field at
position `i` of a struct be exported, not embedded and not ignored, with the
column name `name`, and let its type be a struct or a pointer to a struct that
does not implement the scanner; the column map `own` of that struct is then
computed.  When `own` is not empty, the pass of the loop for the field stores
no leaf and hands in exactly the columns of `own`, each with `name` (after the
prefixes of the struct) and a dot in front of its column name: no entry of the
result has the field itself as its leaf, each of the prefixed names is a key of
the result, every entry whose field index goes through the field is one of
these columns, and the entry of a prefixed name is the column of `own` when no
leaf column and no field before `i` has that name.  When `own` is empty, the
pass stores exactly one leaf column named after the field, that name is a key
of the result, and the only entry whose field index goes through the field is
that leaf. -/
theorem struct_field_gives_its_sub_columns (E : Env) (fuel t : Nat) (fi : List Int)
    (px : List String) (res : ColumnMap) (i : Nat) (f : StructField) (name : String)
    (hrun : newColumnMap E (fuel + 1) t fi px = .ok res)
    (hi : (E.types t).fields[i]? = some f) (hd : isDirectField E f = true)
    (hs : implementsScanner E f.Typ = false)
    (hn : getColumnName E f (E.tag.New "db" f.Tag) = .ok name) :
    ∃ (own : ColumnMap) (st0 st : LoopState),
      newColumnMap E fuel (derefType E f.Typ) (concatFieldIndexes fi [(i : Int)]) [] = .ok own ∧
      fieldsLoop E (newColumnMap E fuel) fi px ((E.types t).fields.take i) 0 ([], []) = .ok st0 ∧
      fieldsLoop E (newColumnMap E fuel) fi px (E.types t).fields 0 ([], []) = .ok st ∧
      res = st.1.Merge st.2 ∧
      (own ≠ [] →
        fieldStep E (newColumnMap E fuel) fi px { f with Index := [(i : Int)] } st0 =
          .ok (st0.1, st0.2 ++ [prefixMap (px ++ [name]) own]) ∧
        (∀ k v, res.get? k = some v → v.FieldIndex ≠ concatFieldIndexes fi [(i : Int)]) ∧
        (∀ k v, own.get? k = some v →
          (res.get? (prefixed (px ++ [name]) k)).isSome = true) ∧
        (∀ k v rest, res.get? k = some v → v.FieldIndex = fi ++ (i : Int) :: rest →
          ∃ k' v', own.get? k' = some v' ∧ k = prefixed (px ++ [name]) k' ∧
            v = prefixData (px ++ [name]) v') ∧
        (∀ k v, own.get? k = some v →
          st.1.get? (prefixed (px ++ [name]) k) = none →
          (∀ s ∈ st0.2, s.get? (prefixed (px ++ [name]) k) = none) →
          res.get? (prefixed (px ++ [name]) k) = some (prefixData (px ++ [name]) v))) ∧
      (own = [] →
        fieldStep E (newColumnMap E fuel) fi px { f with Index := [(i : Int)] } st0 =
          .ok (storeLeaf E { f with Index := [(i : Int)] } fi px name st0) ∧
        (storeLeaf E { f with Index := [(i : Int)] } fi px name st0).1 =
          st0.1.set (prefixed px name)
            (newColumnData E { f with Index := [(i : Int)] } (prefixed px name) fi
              (E.tag.New "builder" f.Tag)) ∧
        (storeLeaf E { f with Index := [(i : Int)] } fi px name st0).2 = st0.2 ∧
        (res.get? (prefixed px name)).isSome = true ∧
        (∀ k v rest, res.get? k = some v → v.FieldIndex = fi ++ (i : Int) :: rest →
          rest = [] ∧ k = prefixed px name ∧
            v = newColumnData E { f with Index := [(i : Int)] } (prefixed px name) fi
              (E.tag.New "builder" f.Tag))) ∧
      (∀ k, prefixed [name] k = name ++ "." ++ k) ∧ prefixed [] name = name := by
  obtain ⟨st0, st1, st, more, h0, h1, hloop, hres, hst2, hkeep, hpre1, hpre2, hpost1, hpost2⟩ :=
    newColumnMap_at E fuel t fi px res i f hrun hi
  have hd' : isDirectField E { f with Index := [(i : Int)] } = true := hd
  have hn' : getColumnName E { f with Index := [(i : Int)] }
      (E.tag.New "db" ({ f with Index := [(i : Int)] } : StructField).Tag) = .ok name := hn
  have hs' : implementsScanner E ({ f with Index := [(i : Int)] } : StructField).Typ = false := hs
  -- the recursive call returns, since the pass for the field returns
  have hgdef : getStructColumnMap E (newColumnMap E fuel) { f with Index := [(i : Int)] } fi
      [name] px = newColumnMap E fuel (derefType E f.Typ) (concatFieldIndexes fi [(i : Int)])
        (px ++ [name]) := getStructColumnMap_eq E _ _ fi [name] px
  cases hg : getStructColumnMap E (newColumnMap E fuel) { f with Index := [(i : Int)] } fi
      [name] px with
  | error e =>
    exfalso
    have hstep := h1
    simp only [isDirectField, Bool.and_eq_true] at hd'
    obtain ⟨⟨hemb, hpkg⟩, hign⟩ := hd'
    have hemb' := (Bool.not_eq_true' _).mp hemb
    simp only [fieldStep, hemb', hpkg, hn', hign, hs', hg, if_true, Bool.false_eq_true,
      if_false, Bool.not_false] at hstep
    cases hstep
  | ok sub =>
    have hsub := hg
    rw [hgdef, newColumnMap_prefixed] at hsub
    cases hown : newColumnMap E fuel (derefType E f.Typ) (concatFieldIndexes fi [(i : Int)])
        [] with
    | error e => rw [hown] at hsub; cases hsub
    | ok own =>
      rw [hown] at hsub
      simp only [Except.map] at hsub
      cases hsub
      refine ⟨own, st0, st, rfl, h0, hloop, hres, ?_, ?_, prefixed_single name, prefixed_nil name⟩
      · -- the column map of the struct is not empty
        intro hne
        have hne' : prefixMap (px ++ [name]) own ≠ [] := by
          intro e
          apply hne
          simpa [prefixMap] using e
        have hstep := fieldStep_nested E (newColumnMap E fuel) fi px
          { f with Index := [(i : Int)] } st0 name _ hd' hn' hs' hg hne'
        rw [hstep] at h1
        cases h1
        have hst2' : st.2 = st0.2 ++ prefixMap (px ++ [name]) own :: more := by
          rw [hst2]; simp
        have hownfi : ∀ k' v', own.get? k' = some v' →
            ∃ (j : Nat) (rest : List Int), v'.FieldIndex = fi ++ (i : Int) :: (j : Int) :: rest := by
          intro k' v' hk'
          obtain ⟨j, _, rest, _, hf, _, _⟩ :=
            newColumnMap_validPath E fuel _ _ _ own hown k' v' hk'
          exact ⟨j, rest, by rw [hf]; simp [concatFieldIndexes]⟩
        refine ⟨hstep, ?_, ?_, ?_, ?_⟩
        · intro k v hk hv
          have hv' : v.FieldIndex = fi ++ [(i : Int)] := by
            rw [hv]; simp [concatFieldIndexes]
          rw [hres] at hk
          rcases Merge_get?_source st.2 st.1 k v hk with hleaf | ⟨s, hsmem, hsk⟩
          · rcases hpost1 k v hleaf with hin | ⟨j, hj, hfj⟩
            · obtain ⟨j, hj, hfj⟩ := hpre1 k v hin
              rw [hfj] at hv'
              have := fieldIndex_through fi [] [] i j hv'
              omega
            · rw [hfj] at hv'
              have := fieldIndex_through fi [] [] i j hv'
              omega
          · rw [hst2'] at hsmem
            rcases List.mem_append.mp hsmem with hs0 | hs1
            · obtain ⟨j, rest, hj, hf⟩ := hpre2 s hs0 k v hsk
              rw [hf] at hv'
              have := fieldIndex_through fi [] rest i j hv'
              omega
            · rcases List.mem_cons.mp hs1 with hs2 | hs3
              · subst hs2
                obtain ⟨k', v', hk', _, hvv⟩ := get?_prefixMap_some _ _ _ _ hsk
                obtain ⟨j, rest, hf⟩ := hownfi k' v' hk'
                have hf' : v.FieldIndex = fi ++ (i : Int) :: (j : Int) :: rest := by
                  rw [hvv]; exact hf
                rw [hf'] at hv'
                have := List.append_cancel_left hv'
                simp at this
              · obtain ⟨j, rest, hj, hf⟩ := hpost2 s hs3 k v hsk
                rw [hf] at hv'
                have := fieldIndex_through fi [] rest i j hv'
                omega
        · intro k v hk
          rw [hres]
          apply get?_isSome_of_mem_subs st.2 st.1 (prefixMap (px ++ [name]) own)
          · rw [hst2']; simp
          · rw [get?_prefixMap, hk]; rfl
        · intro k v rest hk hv
          rw [hres] at hk
          rcases Merge_get?_source st.2 st.1 k v hk with hleaf | ⟨s, hsmem, hsk⟩
          · exfalso
            rcases hpost1 k v hleaf with hin | ⟨j, hj, hfj⟩
            · obtain ⟨j, hj, hfj⟩ := hpre1 k v hin
              rw [hfj] at hv
              have := fieldIndex_through fi rest [] i j hv
              omega
            · rw [hfj] at hv
              have := fieldIndex_through fi rest [] i j hv
              omega
          · rw [hst2'] at hsmem
            rcases List.mem_append.mp hsmem with hs0 | hs1
            · exfalso
              obtain ⟨j, rest', hj, hf⟩ := hpre2 s hs0 k v hsk
              rw [hf] at hv
              have := fieldIndex_through fi rest rest' i j hv
              omega
            · rcases List.mem_cons.mp hs1 with hs2 | hs3
              · subst hs2
                exact get?_prefixMap_some _ _ _ _ hsk
              · exfalso
                obtain ⟨j, rest', hj, hf⟩ := hpost2 s hs3 k v hsk
                rw [hf] at hv
                have := fieldIndex_through fi rest rest' i j hv
                omega
        · intro k v hk hnone hpre
          rw [hres, Merge_get?_eq, hnone, hst2']
          simp only [Option.orElse]
          rw [findSome?_skip _ _ _ hpre]
          simp only [List.findSome?, get?_prefixMap, hk, Option.map]
      · -- the column map of the struct is empty
        intro he
        subst he
        have hg' : getStructColumnMap E (newColumnMap E fuel) { f with Index := [(i : Int)] } fi
            [name] px = .ok [] := hg
        have hstep := fieldStep_leaf E (newColumnMap E fuel) fi px
          { f with Index := [(i : Int)] } st0 name hd' hn' (Or.inr hg')
        rw [hstep] at h1
        cases h1
        have hkey : ((storeLeaf E { f with Index := [(i : Int)] } fi px name st0).1.get?
            (prefixed px name)).isSome = true := by
          rw [storeLeaf_get?]
          simp [prefixed]
        refine ⟨hstep, rfl, rfl, ?_, ?_⟩
        · rw [hres]
          exact Merge_get?_isSome _ _ _ (hkeep _ hkey)
        · intro k v rest hk hv
          rw [hres] at hk
          rcases Merge_get?_source st.2 st.1 k v hk with hleaf | ⟨s, hsmem, hsk⟩
          · rcases hpost1 k v hleaf with hin | ⟨j, hj, hfj⟩
            · rw [storeLeaf_get?] at hin
              by_cases hkk : String.intercalate "." (px ++ [name]) = k
              · simp only [hkk, if_true, Option.some.injEq] at hin
                have hvi : v.FieldIndex = fi ++ [(i : Int)] := by
                  rw [← hin]; simp [newColumnData, concatFieldIndexes]
                rw [hvi] at hv
                have hr := List.append_cancel_left hv
                simp only [List.cons.injEq, true_and] at hr
                refine ⟨hr.symm, hkk.symm, ?_⟩
                rw [← hin, ← hkk]
                rfl
              · exfalso
                simp only [hkk, if_false] at hin
                obtain ⟨j, hj, hfj⟩ := hpre1 k v hin
                rw [hfj] at hv
                have := fieldIndex_through fi rest [] i j hv
                omega
            · exfalso
              rw [hfj] at hv
              have := fieldIndex_through fi rest [] i j hv
              omega
          · exfalso
            rw [hst2] at hsmem
            rcases List.mem_append.mp hsmem with hs0 | hs1
            · obtain ⟨j, rest', hj, hf⟩ := hpre2 s hs0 k v hsk
              rw [hf] at hv
              have := fieldIndex_through fi rest rest' i j hv
              omega
            · obtain ⟨j, rest', hj, hf⟩ := hpost2 s hs1 k v hsk
              rw [hf] at hv
              have := fieldIndex_through fi rest rest' i j hv
              omega

end util

namespace util

/-- C37 at the example type `Order`: the field `Address` is no column of its
own and its columns are `address.street` and `address.state`; the field
`Created` of the type `time.Time`, which has no column, is the leaf column
`created`. -/
theorem struct_field_gives_its_sub_columns_witness :
    newColumnMap orderEnv 3 0 [] [] = .ok orderColumnMap ∧
    newColumnMap orderEnv 2 1 [1] [] = .ok addressColumnMap ∧
    newColumnMap orderEnv 2 2 [2] [] = .ok [] ∧
    (∀ k v, orderColumnMap.get? k = some v → v.FieldIndex ≠ [1]) ∧
    (orderColumnMap.get? "address.street").isSome = true ∧
    (orderColumnMap.get? "created").isSome = true := by
  obtain ⟨own, _, _, hown, _, _, _, hne, _, _⟩ :=
    struct_field_gives_its_sub_columns orderEnv 2 0 [] [] orderColumnMap 1
      ⟨"Address", "", 1, "address", [], false⟩ "address" rfl rfl (by decide) (by decide) rfl
  obtain ⟨own2, _, _, hown2, _, _, _, _, hempty, _⟩ :=
    struct_field_gives_its_sub_columns orderEnv 2 0 [] [] orderColumnMap 2
      ⟨"Created", "", 2, "created", [], false⟩ "created" rfl rfl (by decide) (by decide) rfl
  have e1 : own = addressColumnMap := (Except.ok.inj (hown.symm.trans rfl))
  have e2 : own2 = [] := (Except.ok.inj (hown2.symm.trans rfl))
  subst e1 e2
  have h1 := hne (by decide)
  have h2 := hempty rfl
  exact ⟨rfl, rfl, rfl, h1.2.1, h1.2.2.1 "street" _ rfl, h2.2.2.2.1⟩

end util

namespace util

/-- The counterexample to C37 as stated, the struct
`struct { Address Address `db:"address"`; Street string `db:"address.street"` }`:
the column map of `Address` has the columns `street` and `state`, but the
column `address.street` of the result is the direct field `Street` (field
index `[1]`), and the sub-column `Street` of `Address` (field index `[0, 0]`)
does not appear in the result. -/
theorem struct_field_gives_its_sub_columns_counterexample :
    newColumnMap shadowEnv 3 0 [] [] = .ok shadowColumnMap ∧
    isDirectField shadowEnv ⟨"Address", "", 1, "address", [], false⟩ = true ∧
    implementsScanner shadowEnv 1 = false ∧
    getColumnName shadowEnv ⟨"Address", "", 1, "address", [], false⟩
      (shadowEnv.tag.New "db" "address") = .ok "address" ∧
    newColumnMap shadowEnv 2 1 [0] [] =
      .ok [("street", ⟨"street", [0, 0], true, true, false, 9⟩),
        ("state", ⟨"state", [0, 1], true, true, false, 9⟩)] ∧
    prefixed ["address"] "street" = "address.street" ∧
    shadowColumnMap.get? "address.street" = some ⟨"address.street", [1], true, true, false, 9⟩ ∧
    ¬ ∃ k v, shadowColumnMap.get? k = some v ∧ v.FieldIndex = [0, 0] := by
  refine ⟨rfl, by decide, by decide, rfl, rfl, by decide, rfl, ?_⟩
  rintro ⟨k, v, hk, hv⟩
  simp only [shadowColumnMap, ColumnMap.get?] at hk
  split_ifs at hk
  · cases hk
    simp at hv
  · cases hk
    simp at hv

end util

namespace util

theorem mem_keys_iff (cm : ColumnMap) (k : String) :
    k ∈ cm.keys ↔ ∃ v, cm.get? k = some v := by
  induction cm with
  | nil => simp [ColumnMap.keys, ColumnMap.get?]
  | cons kv rest ih =>
    obtain ⟨a, b⟩ := kv
    have ih' : k ∈ List.map Prod.fst rest ↔ ∃ v, ColumnMap.get? rest k = some v := ih
    by_cases h : a = k
    · subst h
      simp [ColumnMap.keys, ColumnMap.get?]
    · have h' : ¬ k = a := fun e => h e.symm
      simp only [ColumnMap.keys, List.map_cons, List.mem_cons, h', false_or, ColumnMap.get?, h,
        if_false]
      exact ih'

theorem findSome?_append_some (pre post : List ColumnMap) (k : String) (w : ColumnData)
    (h : (pre ++ post).findSome? (fun s => s.get? k) = some w) :
    (∃ s ∈ pre, s.get? k = some w) ∨
    ((∀ s ∈ pre, s.get? k = none) ∧ post.findSome? (fun s => s.get? k) = some w) := by
  induction pre with
  | nil => exact Or.inr ⟨by simp, h⟩
  | cons s rest ih =>
    simp only [List.cons_append, List.findSome?] at h
    cases hs : s.get? k with
    | some x =>
      rw [hs] at h
      simp only [Option.some.injEq] at h
      subst h
      exact Or.inl ⟨s, by simp, hs⟩
    | none =>
      rw [hs] at h
      rcases ih h with ⟨s', hs', hw⟩ | ⟨hall, hpost⟩
      · exact Or.inl ⟨s', by simp [hs'], hw⟩
      · refine Or.inr ⟨?_, hpost⟩
        intro s' hs'
        rcases List.mem_cons.mp hs' with e | e
        · rw [e]; exact hs
        · exact hall s' e

/-- C38. `Merge` unites the keys, and the first sub-map wins.  For every column
map `cm` and list of sub-maps, a key is in `cm.Merge(subs)` exactly when it is
in `cm` or in one of the sub-maps; a key of `cm` keeps the entry it has in
`cm`; and a key that `cm` does not have gets the entry of the first sub-map in
list order that has it.  The loop of `newColumnMap` appends the sub-maps in the
order of the fields, so of two embedded structs that promote the same column
name the one declared later never provides the entry: the entry of that name
is the column of the one declared first, unless it is a leaf column of the
struct itself or comes from a field declared before both. -/
theorem Merge_unites_keys_and_first_sub_map_wins :
    (∀ (cm : ColumnMap) (subs : List ColumnMap) (k : String),
      k ∈ (cm.Merge subs).keys ↔ k ∈ cm.keys ∨ ∃ s ∈ subs, k ∈ s.keys) ∧
    (∀ (cm : ColumnMap) (subs : List ColumnMap) (k : String) (v : ColumnData),
      cm.get? k = some v → (cm.Merge subs).get? k = some v) ∧
    (∀ (cm : ColumnMap) (pre post : List ColumnMap) (s : ColumnMap) (k : String)
      (v : ColumnData), cm.get? k = none → (∀ p ∈ pre, p.get? k = none) →
      s.get? k = some v → (cm.Merge (pre ++ s :: post)).get? k = some v) ∧
    (∀ (E : Env) (fuel t : Nat) (fi : List Int) (px : List String) (res : ColumnMap)
      (i j : Nat) (f g : StructField) (subf subg : ColumnMap) (k : String) (vf vg : ColumnData),
      newColumnMap E (fuel + 1) t fi px = .ok res →
      (E.types t).fields[i]? = some f → (E.types t).fields[j]? = some g → i < j →
      isEmbeddedStruct E f = true → isEmbeddedStruct E g = true →
      E.tag.Contains (E.tag.New "db" f.Tag) "-" = false →
      E.tag.Contains (E.tag.New "db" g.Tag) "-" = false →
      getStructColumnMap E (newColumnMap E fuel) { f with Index := [(i : Int)] } fi
        (E.tag.Values (E.tag.New "db" f.Tag)) px = .ok subf →
      getStructColumnMap E (newColumnMap E fuel) { g with Index := [(j : Int)] } fi
        (E.tag.Values (E.tag.New "db" g.Tag)) px = .ok subg →
      subf.get? k = some vf → subg.get? k = some vg →
      ∃ w, res.get? k = some w ∧ w ≠ vg ∧
        (w = vf ∨ (∃ m : Nat, w.FieldIndex = fi ++ [(m : Int)]) ∨
          ∃ (m : Nat) (rest : List Int), m < i ∧ w.FieldIndex = fi ++ (m : Int) :: rest)) := by
  refine ⟨?_, ?_, ?_, ?_⟩
  · intro cm subs k
    rw [mem_keys_iff, Merge_get?_eq, mem_keys_iff]
    constructor
    · rintro ⟨v, hv⟩
      cases hc : cm.get? k with
      | some w => exact Or.inl ⟨w, rfl⟩
      | none =>
        right
        rw [hc] at hv
        simp only [Option.orElse] at hv
        obtain ⟨s, hs, hsv⟩ := List.exists_of_findSome?_eq_some hv
        exact ⟨s, hs, (mem_keys_iff s k).mpr ⟨v, hsv⟩⟩
    · rintro (⟨v, hv⟩ | ⟨s, hs, hk⟩)
      · exact ⟨v, by rw [hv]; rfl⟩
      · obtain ⟨v, hv⟩ := (mem_keys_iff s k).mp hk
        have h := get?_isSome_of_mem_subs subs cm s k hs (by rw [hv]; rfl)
        rw [Merge_get?_eq] at h
        exact Option.isSome_iff_exists.mp h
  · intro cm subs k v hv
    rw [Merge_get?_eq, hv]
    rfl
  · intro cm pre post s k v hc hpre hs
    rw [Merge_get?_eq, hc]
    simp only [Option.orElse]
    rw [findSome?_skip _ _ _ hpre]
    simp only [List.findSome?, hs]
  · intro E fuel t fi px res i j f g subf subg k vf vg hrun hi hj hij hef heg hcf hcg hgf hgg
      hkf hkg
    obtain ⟨st0, st1, st, more, h0, h1, hloop, hres, hst2, hkeep, hpre1, hpre2, hpost1, hpost2⟩ :=
      newColumnMap_at E fuel t fi px res i f hrun hi
    rw [fieldStep_embedded E (newColumnMap E fuel) fi px { f with Index := [(i : Int)] } st0
      hef hcf] at h1
    have h1' := h1
    simp only [] at h1'
    rw [hgf] at h1'
    cases h1'
    have hst2' : st.2 = st0.2 ++ subf :: more := by
      rw [hst2]; simp
    -- the field index of the columns of the two embedded structs
    have hfif : ∃ (m : Nat) (rest : List Int), vf.FieldIndex = fi ++ (i : Int) :: (m : Int) :: rest := by
      rw [getStructColumnMap_eq] at hgf
      obtain ⟨m, _, rest, _, hf, _, _⟩ := newColumnMap_validPath E fuel _ _ _ subf hgf k vf hkf
      exact ⟨m, rest, by rw [hf]; simp [concatFieldIndexes]⟩
    have hfig : ∃ (m : Nat) (rest : List Int), vg.FieldIndex = fi ++ (j : Int) :: (m : Int) :: rest := by
      rw [getStructColumnMap_eq] at hgg
      obtain ⟨m, _, rest, _, hf, _, _⟩ := newColumnMap_validPath E fuel _ _ _ subg hgg k vg hkg
      exact ⟨m, rest, by rw [hf]; simp [concatFieldIndexes]⟩
    obtain ⟨mg, restg, hvg⟩ := hfig
    have hsome : ((st.1.Merge st.2).get? k).isSome = true :=
      get?_isSome_of_mem_subs st.2 st.1 subf k (by rw [hst2']; simp) (by rw [hkf]; rfl)
    obtain ⟨w, hw⟩ := Option.isSome_iff_exists.mp hsome
    have hleafcase : ∀ m : Nat, w.FieldIndex = fi ++ [(m : Int)] → w ≠ vg := by
      intro m hm e
      rw [e, hvg] at hm
      have := List.append_cancel_left hm
      simp at this
    have hthrough : ∀ (m : Nat) (rest : List Int), m ≠ j →
        w.FieldIndex = fi ++ (m : Int) :: rest → w ≠ vg := by
      intro m rest hmj hm e
      rw [e, hvg] at hm
      exact hmj (fieldIndex_through fi rest _ m j hm).symm
    refine ⟨w, by rw [hres]; exact hw, ?_⟩
    rw [Merge_get?_eq] at hw
    cases hc : st.1.get? k with
    | some x =>
      rw [hc] at hw
      simp only [Option.orElse, Option.some.injEq] at hw
      subst hw
      have hleaf : ∃ m : Nat, x.FieldIndex = fi ++ [(m : Int)] := by
        rcases hpost1 k x hc with hin | ⟨m, _, hm⟩
        · obtain ⟨m, _, hm⟩ := hpre1 k x hin
          exact ⟨m, hm⟩
        · exact ⟨m, hm⟩
      obtain ⟨m, hm⟩ := hleaf
      exact ⟨hleafcase m hm, Or.inr (Or.inl ⟨m, hm⟩)⟩
    | none =>
      rw [hc, hst2'] at hw
      simp only [Option.orElse] at hw
      rcases findSome?_append_some _ _ _ _ hw with ⟨s, hs, hsw⟩ | ⟨_, hpost⟩
      · obtain ⟨m, rest, hmi, hm⟩ := hpre2 s hs k w hsw
        exact ⟨hthrough m rest (by omega) hm, Or.inr (Or.inr ⟨m, rest, hmi, hm⟩)⟩
      · simp only [List.findSome?, hkf, Option.some.injEq] at hpost
        subst hpost
        obtain ⟨m, rest, hm⟩ := hfif
        exact ⟨hthrough i _ (by omega) hm, Or.inl rfl⟩

/-- C38 at the example struct `struct { First; Second }`, both of which
promote the column `id`: the entry of `id` is the column of `First`. -/
theorem Merge_unites_keys_and_first_sub_map_wins_witness :
    ∃ res, newColumnMap twinEnv 3 0 [] [] = .ok res ∧
      res.get? "id" = some ⟨"id", [0, 0], true, true, false, 9⟩ ∧
      res.get? "id" ≠ some ⟨"id", [1, 0], true, true, false, 9⟩ := by
  obtain ⟨w, hw, hne, _⟩ := Merge_unites_keys_and_first_sub_map_wins.2.2.2 twinEnv 2 0 [] [] _
    0 1 ⟨"First", "", 1, "", [], true⟩ ⟨"Second", "", 2, "", [], true⟩ _ _ "id"
    ⟨"id", [0, 0], true, true, false, 9⟩ ⟨"id", [1, 0], true, true, false, 9⟩
    rfl rfl rfl (by decide) (by decide) (by decide) (by decide) (by decide) rfl rfl rfl rfl
  refine ⟨_, rfl, rfl, ?_⟩
  intro e
  rw [hw] at e
  exact hne (Option.some.inj e)

end util

namespace util

namespace slices

theorem getD_append_new (m : Memory) (x : List Int) : (m ++ [x]).getD m.length [] = x := by
  simp [List.getD]

theorem getD_append_old (m : Memory) (x : List Int) (p : Nat) (hp : p < m.length) :
    (m ++ [x]).getD p [] = m.getD p [] := by
  simp [List.getD, List.getElem?_append_left hp]

theorem memory_set_append_new (m : Memory) (x y : List Int) : (m ++ [x]).set m.length y = m ++ [y] := by
  induction m with
  | nil => simp
  | cons a rest ih => simp [ih]

theorem elems_append_old (m : Memory) (x : List Int) (s : Slice) (hs : s.inMemory m) :
    s.elems (m ++ [x]) = s.elems m := by
  rcases hs with h | h
  · simp [Slice.elems, h]
  · simp only [Slice.elems, getD_append_old m x s.array h]

theorem length_elems_le (m : Memory) (s : Slice) : (s.elems m).length ≤ s.len := by
  simp only [Slice.elems]
  exact List.length_take_le _ _

theorem append_in_place (m : Memory) (s : Slice) (xs : List Int)
    (h : s.len + xs.length ≤ s.cap) :
    append m s xs = ({ s with len := s.len + xs.length },
      m.set s.array (writeAt (m.getD s.array []) (s.offset + s.len) xs)) := by
  simp [append, h]

theorem elems_new (m : Memory) (xs tail : List Int) (n c : Nat) (hn : n = xs.length) :
    Slice.elems (m ++ [xs ++ tail]) { array := m.length, offset := 0, len := n, cap := c } = xs := by
  subst hn
  simp only [Slice.elems, getD_append_new, List.drop_zero]
  exact List.take_left xs tail

/-- What `concatFieldIndexes` returns: a slice over a new array, which holds
the elements of the first argument followed by those of the second. -/
theorem concatFieldIndexes_eq (m : Memory) (a b : Slice) (ha : a.inMemory m)
    (hb : b.inMemory m) :
    ∃ tail : List Int,
      concatFieldIndexes m a b =
        ({ array := m.length, offset := 0, len := (a.elems m).length + (b.elems m).length,
           cap := a.len + b.len }, m ++ [a.elems m ++ b.elems m ++ tail]) := by
  have hla := length_elems_le m a
  have hlb := length_elems_le m b
  have h1 : (0 : Nat) + (a.elems m).length ≤ a.len + b.len := by omega
  have h2 : (a.elems m).length + (b.elems m).length ≤ a.len + b.len := by omega
  refine ⟨List.drop ((a.elems m).length + (b.elems m).length)
    (writeAt (List.replicate (a.len + b.len) 0) 0 (a.elems m)), ?_⟩
  have step1 : append (m ++ [List.replicate (a.len + b.len) 0])
      { array := m.length, offset := 0, len := 0, cap := a.len + b.len } (a.elems m) =
      ({ array := m.length, offset := 0, len := (a.elems m).length, cap := a.len + b.len },
        m ++ [writeAt (List.replicate (a.len + b.len) 0) 0 (a.elems m)]) := by
    rw [append_in_place _ _ _ h1]
    simp only [getD_append_new, memory_set_append_new, Nat.zero_add, Nat.add_zero]
  have step2 : append (m ++ [writeAt (List.replicate (a.len + b.len) 0) 0 (a.elems m)])
      { array := m.length, offset := 0, len := (a.elems m).length, cap := a.len + b.len }
      (b.elems m) =
      ({ array := m.length, offset := 0, len := (a.elems m).length + (b.elems m).length,
         cap := a.len + b.len },
        m ++ [writeAt (writeAt (List.replicate (a.len + b.len) 0) 0 (a.elems m))
          (a.elems m).length (b.elems m)]) := by
    rw [append_in_place _ _ _ h2]
    simp only [getD_append_new, memory_set_append_new, Nat.zero_add]
  simp only [concatFieldIndexes, make]
  rw [elems_append_old m _ a ha, step1]
  simp only []
  rw [elems_append_old m _ b hb, step2]
  congr 3
  simp [writeAt]

end slices

end util

namespace util

/-- Every entry of a column map has a path of positions from the struct type
to a field, and its field index is built from the index paths of the fields
along that path by `concatFieldIndexes`. -/
theorem newColumnMap_fieldsAlong (E : Env) :
    ∀ (fuel t : Nat) (fi : List Int) (px : List String) (cm : ColumnMap),
      newColumnMap E fuel t fi px = .ok cm → ∀ k v, cm.get? k = some v →
      ∃ (path : List Nat) (fs : List StructField), fieldsAlong E t path = some fs ∧
        path ≠ [] ∧ fs.length = path.length ∧
        v.FieldIndex = fs.foldl (fun acc f => concatFieldIndexes acc f.Index) fi ∧
        v.FieldIndex = fi ++ path.map Int.ofNat ∧
        ∃ g, fs.getLast? = some g ∧ v.GoType = g.Typ := by
  intro fuel
  induction fuel with
  | zero => intro t fi px cm h; simp [newColumnMap] at h
  | succ fuel ih =>
    intro t fi px cm h k v hk
    simp only [newColumnMap] at h
    by_cases hkind : (E.types t).kind = Kind.Struct
    · simp only [hkind, if_true] at h
      cases hloop : fieldsLoop E (newColumnMap E fuel) fi px (E.types t).fields 0 ([], []) with
      | error e => rw [hloop] at h; cases h
      | ok st =>
        rw [hloop] at h
        cases h
        rcases Merge_get?_source st.2 st.1 k v hk with h1 | ⟨s, hs, hv⟩
        · rcases fieldsLoop_entries E (newColumnMap E fuel) fi px (E.types t).fields 0
            ([], []) st hloop k v h1 with h0 | ⟨j, g, hj, hent⟩
          · simp [ColumnMap.get?] at h0
          · obtain ⟨_, name, _, _, hval⟩ := hent
            refine ⟨[j], [{ g with Index := [(j : Int)] }], ?_, by simp, rfl, ?_, ?_, ?_⟩
            · simp [fieldsAlong, hkind, hj]
            · rw [hval]
              simp [newColumnData]
            · rw [hval]
              simp [newColumnData, concatFieldIndexes]
            · exact ⟨_, rfl, by rw [hval]; rfl⟩
        · obtain ⟨more, hmore, hall⟩ := fieldsLoop_subs E (newColumnMap E fuel) fi px
            (E.types t).fields 0 ([], []) st hloop
          have hs' : s ∈ more := by
            rw [hmore] at hs; simpa using hs
          obtain ⟨j, g, names, hj, _, hg⟩ := hall s hs'
          rw [getStructColumnMap_eq] at hg
          obtain ⟨path, fs, hfs, hne, hlen, hfold, hfi, glast, hlast, htyp⟩ :=
            ih _ _ _ s hg k v hv
          have hfsne : fs ≠ [] := by
            intro e
            rw [e] at hlen
            cases path with
            | nil => exact hne rfl
            | cons _ _ => simp at hlen
          refine ⟨j :: path, { g with Index := [(j : Int)] } :: fs, ?_, by simp, by simp [hlen],
            ?_, ?_, glast, ?_, htyp⟩
          · simp only [fieldsAlong, hkind, if_true, hj]
            have hfs' : fieldsAlong E (derefType E g.Typ) path = some fs := hfs
            rw [hfs']
          · rw [hfold]
            simp [List.foldl]
          · rw [hfi]
            simp [concatFieldIndexes]
          · cases fs with
            | nil => exact absurd rfl hfsne
            | cons x xs =>
              rw [List.getLast?_cons_cons]
              exact hlast
    · simp [hkind] at h

end util

namespace util

/-- C39. `concatFieldIndexes(a, b)` returns a slice over a newly made array
that holds the elements of `a` followed by those of `b`; no array that was in
the memory is written, so `a` and `b` and every other slice hold afterwards
what they held before.  Hence the `FieldIndex` of every column of a column map
is the concatenation, by `concatFieldIndexes`, of the index paths of the fields
along a path from the record type to the leaf field, after the index path the
record type was given; each of those index paths is one position, so the
length of the `FieldIndex` is the nesting depth of the field plus the length of
the index path given, and at least the nesting depth. -/
theorem concatFieldIndexes_is_fresh_and_FieldIndex_is_the_path :
    (∀ (m : slices.Memory) (a b : slices.Slice), a.inMemory m → b.inMemory m →
      ((slices.concatFieldIndexes m a b).1.elems (slices.concatFieldIndexes m a b).2 =
        concatFieldIndexes (a.elems m) (b.elems m)) ∧
      concatFieldIndexes (a.elems m) (b.elems m) = a.elems m ++ b.elems m ∧
      (slices.concatFieldIndexes m a b).1.array = m.length ∧
      (slices.concatFieldIndexes m a b).2.length = m.length + 1 ∧
      (∀ (p : Nat) (x : List Int), m[p]? = some x →
        (slices.concatFieldIndexes m a b).2[p]? = some x) ∧
      a.elems (slices.concatFieldIndexes m a b).2 = a.elems m ∧
      b.elems (slices.concatFieldIndexes m a b).2 = b.elems m ∧
      (∀ s : slices.Slice, s.inMemory m →
        s.elems (slices.concatFieldIndexes m a b).2 = s.elems m)) ∧
    (∀ (E : Env) (fuel t : Nat) (fi : List Int) (px : List String) (cm : ColumnMap)
      (k : String) (v : ColumnData),
      newColumnMap E fuel t fi px = .ok cm → cm.get? k = some v →
      ∃ (path : List Nat) (fs : List StructField), fieldsAlong E t path = some fs ∧
        path ≠ [] ∧ fs.length = path.length ∧
        v.FieldIndex = fs.foldl (fun acc f => concatFieldIndexes acc f.Index) fi ∧
        v.FieldIndex = fi ++ path.map Int.ofNat ∧
        v.FieldIndex.length = fi.length + path.length ∧
        path.length ≤ v.FieldIndex.length ∧
        ∃ g, fs.getLast? = some g ∧ v.GoType = g.Typ) := by
  constructor
  · intro m a b ha hb
    obtain ⟨tail, hr⟩ := slices.concatFieldIndexes_eq m a b ha hb
    rw [hr]
    refine ⟨?_, ?_, rfl, by simp, ?_, slices.elems_append_old m _ a ha,
      slices.elems_append_old m _ b hb, fun s hs => slices.elems_append_old m _ s hs⟩
    · rw [slices.elems_new m (a.elems m ++ b.elems m) tail _ _ (by simp)]
      simp [concatFieldIndexes]
    · simp [concatFieldIndexes]
    · intro p x hp
      have hlt := (List.getElem?_eq_some_iff.mp hp).1
      rw [List.getElem?_append_left hlt]
      exact hp
  · intro E fuel t fi px cm k v hrun hk
    obtain ⟨path, fs, h1, h2, h3, h4, h5, h6⟩ :=
      newColumnMap_fieldsAlong E fuel t fi px cm hrun k v hk
    refine ⟨path, fs, h1, h2, h3, h4, h5, ?_, ?_, h6⟩
    · rw [h5]; simp
    · rw [h5]; simp

/-- C39 on examples: in the example memory `concatFieldIndexes` of the slices
`[1, 2]` and `[3]` is the slice `[1, 2, 3]` over the new array at address 2,
and the column `address.street` of the example type `Order` has the field
index `[1, 0]`, through the fields `Address` and `Street`. -/
theorem concatFieldIndexes_is_fresh_and_FieldIndex_is_the_path_witness :
    slices.demoPath.inMemory slices.demoMemory ∧ slices.demoIndex.inMemory slices.demoMemory ∧
    slices.demoPath.elems slices.demoMemory = [1, 2] ∧
    slices.demoIndex.elems slices.demoMemory = [3] ∧
    ((slices.concatFieldIndexes slices.demoMemory slices.demoPath slices.demoIndex).1.elems
      (slices.concatFieldIndexes slices.demoMemory slices.demoPath slices.demoIndex).2 =
        concatFieldIndexes [1, 2] [3]) ∧
    (slices.concatFieldIndexes slices.demoMemory slices.demoPath slices.demoIndex).1.array = 2 ∧
    slices.demoPath.elems
      (slices.concatFieldIndexes slices.demoMemory slices.demoPath slices.demoIndex).2 =
        [1, 2] ∧
    (∃ (path : List Nat) (fs : List StructField), fieldsAlong orderEnv 0 path = some fs ∧
      ([1, 0] : List Int) = fs.foldl (fun acc f => concatFieldIndexes acc f.Index) [] ∧
      ([1, 0] : List Int) = [] ++ path.map Int.ofNat) :=
  ⟨by decide, by decide, rfl, rfl,
    (concatFieldIndexes_is_fresh_and_FieldIndex_is_the_path.1 slices.demoMemory slices.demoPath
      slices.demoIndex (by decide) (by decide)).1,
    (concatFieldIndexes_is_fresh_and_FieldIndex_is_the_path.1 slices.demoMemory slices.demoPath
      slices.demoIndex (by decide) (by decide)).2.2.1,
    (concatFieldIndexes_is_fresh_and_FieldIndex_is_the_path.1 slices.demoMemory slices.demoPath
      slices.demoIndex (by decide) (by decide)).2.2.2.2.2.1,
    (concatFieldIndexes_is_fresh_and_FieldIndex_is_the_path.2 orderEnv 3 0 [] [] orderColumnMap
      "address.street" ⟨"address.street", [1, 0], true, true, false, 9⟩ rfl rfl).imp
      (fun _ hx => hx.imp (fun _ hy => ⟨hy.1, hy.2.2.2.1, hy.2.2.2.2.1⟩))⟩

end util


/-! ## The flags of a column and the field they come from -/

namespace util

/-- Every entry of a column map is the data of the field that its field index
leads to: the last of the fields along a path of positions from the struct
type, with the flags that `newColumnData` takes from the `builder` options of
that field. -/
theorem newColumnMap_leaf_field (E : Env) :
    ∀ (fuel t : Nat) (fi : List Int) (px : List String) (cm : ColumnMap),
      newColumnMap E fuel t fi px = .ok cm → ∀ k v, cm.get? k = some v →
      ∃ (path : List Nat) (fs : List StructField) (g : StructField),
        fieldsAlong E t path = some fs ∧ fs.getLast? = some g ∧
        v.FieldIndex = fi ++ path.map Int.ofNat ∧ v.ColumnName = k ∧ v.GoType = g.Typ ∧
        v.ShouldInsert = !E.tag.Contains (E.tag.New "builder" g.Tag) E.skipInsertTagName ∧
        v.ShouldUpdate = !E.tag.Contains (E.tag.New "builder" g.Tag) E.skipUpdateTagName ∧
        v.DefaultIfEmpty =
          E.tag.Contains (E.tag.New "builder" g.Tag) E.defaultIfEmptyTagName := by
  intro fuel
  induction fuel with
  | zero => intro t fi px cm h; simp [newColumnMap] at h
  | succ fuel ih =>
    intro t fi px cm h k v hk
    simp only [newColumnMap] at h
    by_cases hkind : (E.types t).kind = Kind.Struct
    · simp only [hkind, if_true] at h
      cases hloop : fieldsLoop E (newColumnMap E fuel) fi px (E.types t).fields 0 ([], []) with
      | error e => rw [hloop] at h; cases h
      | ok st =>
        rw [hloop] at h
        cases h
        rcases Merge_get?_source st.2 st.1 k v hk with h1 | ⟨s, hs, hv⟩
        · rcases fieldsLoop_entries E (newColumnMap E fuel) fi px (E.types t).fields 0
            ([], []) st hloop k v h1 with h0 | ⟨j, g, hj, hent⟩
          · simp [ColumnMap.get?] at h0
          · obtain ⟨_, name, _, _, hval⟩ := hent
            refine ⟨[j], [{ g with Index := [(j : Int)] }], { g with Index := [(j : Int)] },
              ?_, rfl, ?_, ?_, ?_, ?_, ?_, ?_⟩
            · simp [fieldsAlong, hkind, hj]
            · rw [hval]
              simp [newColumnData, concatFieldIndexes]
            all_goals (rw [hval]; rfl)
        · obtain ⟨more, hmore, hall⟩ := fieldsLoop_subs E (newColumnMap E fuel) fi px
            (E.types t).fields 0 ([], []) st hloop
          have hs' : s ∈ more := by
            rw [hmore] at hs; simpa using hs
          obtain ⟨j, g, names, hj, _, hg⟩ := hall s hs'
          rw [getStructColumnMap_eq] at hg
          obtain ⟨path, fs, glast, hfs, hlast, hfi, hrest⟩ := ih _ _ _ s hg k v hv
          have hfsne : fs ≠ [] := by
            intro e
            rw [e] at hlast
            cases hlast
          refine ⟨j :: path, { g with Index := [(j : Int)] } :: fs, glast, ?_, ?_, ?_, hrest⟩
          · simp only [fieldsAlong, hkind, if_true, hj]
            have hfs' : fieldsAlong E (derefType E g.Typ) path = some fs := hfs
            rw [hfs']
          · cases fs with
            | nil => exact absurd rfl hfsne
            | cons x xs =>
              rw [List.getLast?_cons_cons]
              exact hlast
          · rw [hfi]
            simp [concatFieldIndexes]
    · simp [hkind] at h

/-- The path of positions of a column is fixed by its field index. -/
theorem path_of_fieldIndex (fi : List Int) (p q : List Nat)
    (h : fi ++ p.map Int.ofNat = fi ++ q.map Int.ofNat) : p = q := by
  have h1 := List.append_cancel_left h
  exact List.map_injective_iff.mpr (fun a b hab => Int.ofNat.inj hab) h1

/-- C14. The flags of a leaf column.  Every entry of a column map belongs to
one field: the field at the end of the path of positions that the field index
of the entry spells out from the record type, and that path is the only one
with that field index.  With the tag names `skipinsert`, `skipupdate` and
`defaultifempty`, `ShouldInsert` of the entry is true exactly when the
`builder` options of that field do not contain `skipinsert`, `ShouldUpdate`
exactly when they do not contain `skipupdate`, and `DefaultIfEmpty` exactly
when they contain `defaultifempty`.  Each flag that `newColumnData` sets is its
own test on the `builder` options, whatever the field, its `db` options, the
column name and the field index are. -/
theorem leaf_flags_follow_builder_tag (E : Env)
    (hnames : E.skipInsertTagName = "skipinsert" ∧ E.skipUpdateTagName = "skipupdate" ∧
      E.defaultIfEmptyTagName = "defaultifempty") :
    (∀ (fuel t : Nat) (fi : List Int) (px : List String) (cm : ColumnMap) (k : String)
      (v : ColumnData), newColumnMap E fuel t fi px = .ok cm → cm.get? k = some v →
      ∃ (path : List Nat) (fs : List StructField) (g : StructField),
        fieldsAlong E t path = some fs ∧ fs.getLast? = some g ∧
        v.FieldIndex = fi ++ path.map Int.ofNat ∧
        (∀ q : List Nat, v.FieldIndex = fi ++ q.map Int.ofNat → q = path) ∧
        v.ColumnName = k ∧ v.GoType = g.Typ ∧
        (v.ShouldInsert = true ↔
          E.tag.Contains (E.tag.New "builder" g.Tag) "skipinsert" = false) ∧
        (v.ShouldUpdate = true ↔
          E.tag.Contains (E.tag.New "builder" g.Tag) "skipupdate" = false) ∧
        (v.DefaultIfEmpty = true ↔
          E.tag.Contains (E.tag.New "builder" g.Tag) "defaultifempty" = true)) ∧
    (∀ (f : StructField) (cn : String) (fi : List Int) (builderTag : String),
      ((newColumnData E f cn fi builderTag).ShouldInsert = true ↔
        E.tag.Contains builderTag "skipinsert" = false) ∧
      ((newColumnData E f cn fi builderTag).ShouldUpdate = true ↔
        E.tag.Contains builderTag "skipupdate" = false) ∧
      ((newColumnData E f cn fi builderTag).DefaultIfEmpty = true ↔
        E.tag.Contains builderTag "defaultifempty" = true)) := by
  obtain ⟨h1, h2, h3⟩ := hnames
  constructor
  · intro fuel t fi px cm k v hrun hk
    obtain ⟨path, fs, g, hfs, hlast, hfi, hname, htyp, hins, hupd, hdef⟩ :=
      newColumnMap_leaf_field E fuel t fi px cm hrun k v hk
    refine ⟨path, fs, g, hfs, hlast, hfi, ?_, hname, htyp, ?_, ?_, ?_⟩
    · intro q hq
      rw [hfi] at hq
      exact (path_of_fieldIndex fi path q hq).symm
    · rw [hins, h1]; simp
    · rw [hupd, h2]; simp
    · rw [hdef, h3]
  · intro f cn fi builderTag
    refine ⟨?_, ?_, ?_⟩
    · simp [newColumnData, h1]
    · simp [newColumnData, h2]
    · simp [newColumnData, h3]

/-- C14 at the example struct whose fields carry `builder` options: the column
`id` of the field `Id`, tagged `skipinsert`, is not inserted and is updated,
and the column `name` of the field `Name`, tagged `defaultifempty,skipupdate`,
is inserted, not updated, and takes the default when empty. -/
theorem leaf_flags_follow_builder_tag_witness :
    newColumnMap flagEnv 2 0 [] [] = .ok flagColumnMap ∧
    fieldsAlong flagEnv 0 [0] = some [⟨"Id", "", 9, "id|skipinsert", [0], false⟩] ∧
    flagEnv.tag.New "builder" "id|skipinsert" = "skipinsert" ∧
    flagEnv.tag.Contains "skipinsert" "skipinsert" = true ∧
    flagEnv.tag.Contains "defaultifempty,skipupdate" "skipupdate" = true ∧
    flagColumnMap.get? "id" = some ⟨"id", [0], false, true, false, 9⟩ ∧
    flagColumnMap.get? "name" = some ⟨"name", [2], true, false, true, 9⟩ ∧
    (∃ (path : List Nat) (fs : List StructField) (g : StructField),
      fieldsAlong flagEnv 0 path = some fs ∧ fs.getLast? = some g ∧
      ([0] : List Int) = [] ++ path.map Int.ofNat ∧
      ((false = true) ↔
        flagEnv.tag.Contains (flagEnv.tag.New "builder" g.Tag) "skipinsert" = false)) :=
  ⟨rfl, rfl, rfl, rfl, rfl, rfl, rfl,
    ((leaf_flags_follow_builder_tag flagEnv ⟨rfl, rfl, rfl⟩).1 2 0 [] [] flagColumnMap "id"
      ⟨"id", [0], false, true, false, 9⟩ rfl rfl).imp
      (fun _ hx => hx.imp (fun _ hy => hy.imp
        (fun _ hz => ⟨hz.1, hz.2.1, hz.2.2.1, hz.2.2.2.2.2.2.1⟩)))⟩

end util

/-! ## Column names: ignored fields and repeated names -/

namespace util

/-- A leaf that the loop has stored under a name stays the entry of that name
when no field that follows is stored under the same name. -/
theorem fieldsLoop_leaf_survives (E : Env)
    (recur : Nat → List Int → List String → Except Fail ColumnMap)
    (fieldIndex : List Int) (prefixes : List String) (rest : List StructField)
    (i : Nat) (st st' : LoopState)
    (h : fieldsLoop E recur fieldIndex prefixes rest i st = .ok st') (name : String)
    (v : ColumnData) (hv : st.1.get? (prefixed prefixes name) = some v)
    (hlater : ∀ (j : Nat) (g : StructField), rest[j]? = some g → isDirectField E g = true →
      getColumnName E g (E.tag.New "db" g.Tag) ≠ .ok name) :
    st'.1.get? (prefixed prefixes name) = some v := by
  have hsome := fieldsLoop_keeps E recur fieldIndex prefixes rest i st st' h
    (prefixed prefixes name) (by rw [hv]; rfl)
  obtain ⟨w, hw⟩ := Option.isSome_iff_exists.mp hsome
  rcases fieldsLoop_entries E recur fieldIndex prefixes rest i st st' h _ w hw with
    h0 | ⟨j, g, hj, hdg, name', hn, hkey, _⟩
  · rw [hw, ← h0, hv]
  · exfalso
    have hkey' : prefixed prefixes name = prefixed prefixes name' := hkey
    have e := prefixed_inj prefixes name name' hkey'
    subst e
    exact hlater j g hj hdg hn

/-- C15, amended. For a field that is not embedded: an unexported field is
passed over by the loop of `newColumnMap`.  For an exported field the column
name is the rename function applied to the Go name when the `db` options are
empty and the first value of the options otherwise; the field is ignored
exactly when the options equal `-`, or are empty while untagged fields are
ignored; an ignored field is passed over, and a field that is not ignored is
stored as a leaf under its name or hands in the non-empty column map of its
struct type.  In the column map of the struct no entry comes from an
unexported or ignored field, and a field that is stored as a leaf is the
column of its name in the result when no later exported field that is not
ignored has the same column name; a later leaf of the same name replaces it. -/
theorem column_name_and_ignored_fields (E : Env) (f : StructField) (hna : f.Anonymous = false) :
    (f.PkgPath ≠ "" → ∀ recur fi px st, fieldStep E recur fi px f st = .ok st) ∧
    (E.tag.IsEmpty (E.tag.New "db" f.Tag) = true →
      getColumnName E f (E.tag.New "db" f.Tag) = .ok (E.columnRenameFunction f.Name)) ∧
    (E.tag.IsEmpty (E.tag.New "db" f.Tag) = false → ∀ v vs,
      E.tag.Values (E.tag.New "db" f.Tag) = v :: vs →
      getColumnName E f (E.tag.New "db" f.Tag) = .ok v) ∧
    (shouldIgnoreField E (E.tag.New "db" f.Tag) = true ↔
      (E.tag.Equals (E.tag.New "db" f.Tag) "-" = true ∨
        (E.tag.IsEmpty (E.tag.New "db" f.Tag) = true ∧ E.ignoreUntaggedFields = true))) ∧
    (f.PkgPath = "" → shouldIgnoreField E (E.tag.New "db" f.Tag) = true → ∀ name,
      getColumnName E f (E.tag.New "db" f.Tag) = .ok name →
      ∀ recur fi px st, fieldStep E recur fi px f st = .ok st) ∧
    (f.PkgPath = "" → shouldIgnoreField E (E.tag.New "db" f.Tag) = false →
      ∀ recur fi px st st', fieldStep E recur fi px f st = .ok st' →
      ∃ name, getColumnName E f (E.tag.New "db" f.Tag) = .ok name ∧
        (st' = storeLeaf E f fi px name st ∨
          ∃ sub, sub ≠ [] ∧ getStructColumnMap E recur f fi [name] px = .ok sub ∧
            st' = (st.1, st.2 ++ [sub]))) ∧
    (∀ fi px name st, (storeLeaf E f fi px name st).1.get? (prefixed px name) =
      some (newColumnData E f (prefixed px name) fi (E.tag.New "builder" f.Tag))) ∧
    (∀ (fuel t : Nat) (fi : List Int) (px : List String) (cm : ColumnMap) (i : Nat)
      (name : String),
      newColumnMap E (fuel + 1) t fi px = .ok cm → (E.types t).fields[i]? = some f →
      f.PkgPath = "" → shouldIgnoreField E (E.tag.New "db" f.Tag) = false →
      getColumnName E f (E.tag.New "db" f.Tag) = .ok name →
      (∀ (j : Nat) (g : StructField), i < j → (E.types t).fields[j]? = some g →
        isDirectField E g = true → getColumnName E g (E.tag.New "db" g.Tag) ≠ .ok name) →
      cm.get? (prefixed px name) =
          some (newColumnData E { f with Index := [(i : Int)] } (prefixed px name) fi
            (E.tag.New "builder" f.Tag)) ∨
        ∃ sub, sub ≠ [] ∧
          getStructColumnMap E (newColumnMap E fuel) { f with Index := [(i : Int)] } fi [name]
            px = .ok sub) ∧
    (∀ (fuel t : Nat) (fi : List Int) (px : List String) (cm : ColumnMap) (i : Nat),
      newColumnMap E (fuel + 1) t fi px = .ok cm → (E.types t).fields[i]? = some f →
      (f.PkgPath ≠ "" ∨ shouldIgnoreField E (E.tag.New "db" f.Tag) = true) →
      ∀ k v rest, cm.get? k = some v → v.FieldIndex ≠ fi ++ (i : Int) :: rest) := by
  have hemb := not_embedded_of_not_anonymous E f hna
  refine ⟨?_, ?_, ?_, ?_, ?_, ?_, ?_, ?_, ?_⟩
  · intro hp recur fi px st
    exact fieldStep_unexported E recur fi px f st hemb hp
  · intro he
    simp only [getColumnName, he, if_true]
  · intro he v vs hv
    simp only [getColumnName, he, hv, Bool.false_eq_true, if_false]
  · simp only [shouldIgnoreField]
    by_cases h1 : E.tag.Equals (E.tag.New "db" f.Tag) "-" = true
    · simp [h1]
    · by_cases h2 : (E.tag.IsEmpty (E.tag.New "db" f.Tag) && E.ignoreUntaggedFields) = true
      · have h2' := h2
        simp only [Bool.and_eq_true] at h2'
        simp [h1, h2, h2'.1, h2'.2]
      · have h2' := h2
        simp only [Bool.and_eq_true, not_and] at h2'
        simp only [h1, h2, if_false, Bool.false_eq_true, false_or, false_iff, not_and]
        exact h2'
  · intro hp hi name hn recur fi px st
    exact fieldStep_ignored E recur fi px f st name hemb hp hn hi
  · intro hp hi recur fi px st st' hstep
    cases hn : getColumnName E f (E.tag.New "db" f.Tag) with
    | error e =>
      simp only [isEmbeddedStruct] at hemb
      have hp' : (f.PkgPath == "") = true := by simpa using hp
      simp only [fieldStep, hemb, hp', hn, Bool.false_eq_true, if_false, if_true] at hstep
      cases hstep
    | ok name =>
      refine ⟨name, rfl, ?_⟩
      have hd : isDirectField E f = true := by
        have hp' : (f.PkgPath == "") = true := by simpa using hp
        rw [isDirectField_eq, hemb, hp', hi]
        rfl
      by_cases hs : implementsScanner E f.Typ = true
      · rw [fieldStep_leaf E recur fi px f st name hd hn (Or.inl hs)] at hstep
        cases hstep
        left; rfl
      · have hs' : implementsScanner E f.Typ = false := by simpa using hs
        cases hg : getStructColumnMap E recur f fi [name] px with
        | error e =>
          simp only [isEmbeddedStruct] at hemb
          have hp' : (f.PkgPath == "") = true := by simpa using hp
          simp only [fieldStep, hemb, hp', hn, hi, hs', hg, Bool.false_eq_true, if_false,
            if_true, Bool.not_false] at hstep
          cases hstep
        | ok sub =>
          by_cases hne : sub = []
          · subst hne
            rw [fieldStep_leaf E recur fi px f st name hd hn (Or.inr hg)] at hstep
            cases hstep
            left; rfl
          · rw [fieldStep_nested E recur fi px f st name sub hd hn hs' hg hne] at hstep
            cases hstep
            right
            exact ⟨sub, hne, rfl, rfl⟩
  · intro fi px name st
    rw [storeLeaf_get?]
    simp [prefixed]
  · intro fuel t fi px cm i name hrun hi hp hign hn hlater
    have hd : isDirectField E f = true := by
      have hp' : (f.PkgPath == "") = true := by simpa using hp
      rw [isDirectField_eq, hemb, hp', hign]
      rfl
    have hd' : isDirectField E { f with Index := [(i : Int)] } = true := hd
    have hn' : getColumnName E { f with Index := [(i : Int)] }
        (E.tag.New "db" ({ f with Index := [(i : Int)] } : StructField).Tag) = .ok name := hn
    simp only [newColumnMap] at hrun
    by_cases hkind : (E.types t).kind = Kind.Struct
    · simp only [hkind, if_true] at hrun
      cases hloop : fieldsLoop E (newColumnMap E fuel) fi px (E.types t).fields 0 ([], []) with
      | error e => rw [hloop] at hrun; cases hrun
      | ok st =>
        rw [hloop] at hrun
        cases hrun
        obtain ⟨st0, st1, _, h1, h2⟩ :=
          fieldsLoop_at E (newColumnMap E fuel) fi px (E.types t).fields i f st hi hloop
        have hleafcase : st1 = storeLeaf E { f with Index := [(i : Int)] } fi px name st0 →
            (st.1.Merge st.2).get? (prefixed px name) =
              some (newColumnData E { f with Index := [(i : Int)] } (prefixed px name) fi
                (E.tag.New "builder" f.Tag)) := by
          intro hst1
          have hkey : st1.1.get? (prefixed px name) =
              some (newColumnData E { f with Index := [(i : Int)] } (prefixed px name) fi
                (E.tag.New "builder" f.Tag)) := by
            rw [hst1, storeLeaf_get?]
            simp [prefixed]
          have hsurv := fieldsLoop_leaf_survives E (newColumnMap E fuel) fi px
            ((E.types t).fields.drop (i + 1)) (i + 1) st1 st h2 name _ hkey
            (fun j g hj hdg => hlater (i + 1 + j) g (by omega)
              (by rw [← hj, List.getElem?_drop]) hdg)
          rw [Merge_get?_eq, hsurv]
          rfl
        by_cases hs : implementsScanner E f.Typ = true
        · rw [fieldStep_leaf E (newColumnMap E fuel) fi px _ st0 name hd' hn' (Or.inl hs)] at h1
          cases h1
          exact Or.inl (hleafcase rfl)
        · have hs' : implementsScanner E f.Typ = false := by simpa using hs
          cases hg : getStructColumnMap E (newColumnMap E fuel) { f with Index := [(i : Int)] }
              fi [name] px with
          | error e =>
            exfalso
            simp only [isDirectField, Bool.and_eq_true] at hd'
            obtain ⟨⟨hemb1, hpkg⟩, hign1⟩ := hd'
            have hemb2 := (Bool.not_eq_true' _).mp hemb1
            have hs2 : implementsScanner E ({ f with Index := [(i : Int)] } : StructField).Typ =
                false := hs'
            simp only [fieldStep, hemb2, hpkg, hn', hign1, hs2, hg, if_true, Bool.false_eq_true,
              if_false, Bool.not_false] at h1
            cases h1
          | ok sub =>
            by_cases hne : sub = []
            · subst hne
              rw [fieldStep_leaf E (newColumnMap E fuel) fi px _ st0 name hd' hn' (Or.inr hg)] at h1
              cases h1
              exact Or.inl (hleafcase rfl)
            · exact Or.inr ⟨sub, hne, rfl⟩
    · simp [hkind] at hrun
  · intro fuel t fi px cm i hrun hi hbad k v rest hk
    have hc : contributes E f = false := by
      simp only [contributes, hemb, Bool.false_eq_true, if_false]
      rcases hbad with hp | hig
      · have hp' : (f.PkgPath == "") = false := by simpa using hp
        simp [hp']
      · simp [hig]
    exact no_entry_through E fuel t fi px cm hrun i f hi hc k v rest hk


/-- C15 at the example struct `struct { Id; secret; Skip }`: the name of `Id`
comes from its tag, the unexported field and the field tagged `-` are passed
over, no entry of the column map comes from them, and `Id`, whose name no
later field has, is the column `id`. -/
theorem column_name_and_ignored_fields_witness :
    getColumnName scanEnv ⟨"Id", "", 9, "id", [], false⟩
      (scanEnv.tag.New "db" (StructField.Tag ⟨"Id", "", 9, "id", [], false⟩)) = .ok "id" ∧
    (∀ recur fi px st,
      fieldStep scanEnv recur fi px ⟨"secret", "pkg", 9, "secret", [], false⟩ st = .ok st) ∧
    (∀ recur fi px st,
      fieldStep scanEnv recur fi px ⟨"Skip", "", 9, "-", [], false⟩ st = .ok st) ∧
    (∀ k v rest, ColumnMap.get? [("id", newColumnData scanEnv ⟨"Id", "", 9, "id", [0], false⟩
        "id" [] "")] k = some v → v.FieldIndex ≠ [] ++ ((2 : Nat) : Int) :: rest) ∧
    newColumnMap scanEnv 3 3 [] [] =
      .ok [("id", newColumnData scanEnv ⟨"Id", "", 9, "id", [0], false⟩ "id" [] "")] ∧
    ColumnMap.get? [("id", newColumnData scanEnv ⟨"Id", "", 9, "id", [0], false⟩ "id" [] "")]
      "id" = some (newColumnData scanEnv ⟨"Id", "", 9, "id", [0], false⟩ "id" [] "") :=
  ⟨(column_name_and_ignored_fields scanEnv ⟨"Id", "", 9, "id", [], false⟩ rfl).2.2.1
      (by decide) "id" [] (by decide),
   (column_name_and_ignored_fields scanEnv ⟨"secret", "pkg", 9, "secret", [], false⟩ rfl).1
      (by decide),
   (column_name_and_ignored_fields scanEnv ⟨"Skip", "", 9, "-", [], false⟩ rfl).2.2.2.2.1
      (by decide) (by decide) "-" rfl,
   (column_name_and_ignored_fields scanEnv ⟨"Skip", "", 9, "-", [], false⟩ rfl).2.2.2.2.2.2.2.2
      2 3 [] [] _ 2 rfl rfl (Or.inr (by decide)),
   rfl,
   ((column_name_and_ignored_fields scanEnv ⟨"Id", "", 9, "id", [], false⟩ rfl).2.2.2.2.2.2.2.1
      2 3 [] [] _ 0 "id" rfl rfl rfl (by decide) rfl
      (fun j g hij hj hd hn => by
        have hj' : j = 1 ∨ j = 2 := by
          have hlt := (List.getElem?_eq_some_iff.mp hj).1
          simp [scanEnv, scanTypes] at hlt
          omega
        rcases hj' with e | e <;> subst e <;>
          (simp [scanEnv, scanTypes] at hj; subst hj; revert hd; decide))).resolve_right
      (fun hsub => by
        obtain ⟨sub, _, hg⟩ := hsub
        have e : (Except.ok sub : Except Fail ColumnMap) =
            .error (Fail.panic "reflect: NumField of non-struct type") := hg.symm.trans rfl
        cases e)⟩

/-- The counterexample to C15 as stated, the struct
`struct { A int `db:"x"`; B int `db:"x"` }`: the field `A` is exported, not
embedded, and its `db` tag is neither `-` nor empty, but the only column of
the result is `x` of the field `B` (field index `[1]`); no column comes from
`A` (field index `[0]`). -/
theorem column_name_and_ignored_fields_counterexample :
    (sameNameEnv.types 0).fields[0]? = some ⟨"A", "", 9, "x", [], false⟩ ∧
    (⟨"A", "", 9, "x", [], false⟩ : StructField).PkgPath = "" ∧
    (⟨"A", "", 9, "x", [], false⟩ : StructField).Anonymous = false ∧
    sameNameEnv.tag.Equals (sameNameEnv.tag.New "db" "x") "-" = false ∧
    sameNameEnv.tag.IsEmpty (sameNameEnv.tag.New "db" "x") = false ∧
    shouldIgnoreField sameNameEnv (sameNameEnv.tag.New "db" "x") = false ∧
    getColumnName sameNameEnv ⟨"A", "", 9, "x", [], false⟩ (sameNameEnv.tag.New "db" "x") =
      .ok "x" ∧
    newColumnMap sameNameEnv 2 0 [] [] = .ok [("x", ⟨"x", [1], true, true, false, 9⟩)] ∧
    ¬ ∃ k v, ColumnMap.get? [("x", (⟨"x", [1], true, true, false, 9⟩ : ColumnData))] k = some v ∧
        v.FieldIndex = [0] := by
  refine ⟨rfl, rfl, rfl, by decide, by decide, by decide, rfl, rfl, ?_⟩
  rintro ⟨k, v, hk, hv⟩
  simp only [ColumnMap.get?] at hk
  split_ifs at hk
  cases hk
  simp at hv

end util

/-! ## The builder of case expressions -/

namespace exp

namespace slices

open builder

theorem take_drop_set_succ (arr : List Val) (o n : Nat) (x : Val) (h : o + n < arr.length) :
    ((arr.set (o + n) x).drop o).take (n + 1) = (arr.drop o).take n ++ [x] := by
  induction o generalizing arr with
  | zero =>
    simp only [Nat.zero_add, List.drop_zero]
    simp only [Nat.zero_add] at h
    induction n generalizing arr with
    | zero =>
      cases arr with
      | nil => simp at h
      | cons a rest => simp
    | succ n ih =>
      cases arr with
      | nil => simp at h
      | cons a rest =>
        simp only [List.length_cons] at h
        simp only [List.set_cons_succ, List.take_succ_cons, List.cons_append, List.cons.injEq,
          true_and]
        exact ih rest (by omega)
  | succ o ih =>
    cases arr with
    | nil => simp at h
    | cons a rest =>
      simp only [List.length_cons] at h
      have e : o + 1 + n = (o + n) + 1 := by omega
      simp only [e, List.set_cons_succ, List.drop_succ_cons]
      exact ih rest (by omega)

theorem take_drop_set_keep (arr : List Val) (o n : Nat) (x : Val) :
    ((arr.set (o + n) x).drop o).take n = (arr.drop o).take n := by
  induction o generalizing arr with
  | zero =>
    simp only [Nat.zero_add, List.drop_zero]
    induction n generalizing arr with
    | zero => simp
    | succ n ih =>
      cases arr with
      | nil => simp
      | cons a rest =>
        simp only [List.set_cons_succ, List.take_succ_cons, List.cons.injEq, true_and]
        exact ih rest
  | succ o ih =>
    cases arr with
    | nil => simp
    | cons a rest =>
      have e : o + 1 + n = (o + n) + 1 := by omega
      simp only [e, List.set_cons_succ, List.drop_succ_cons]
      exact ih rest

theorem getD_set_self (m : Memory) (p : Nat) (a : List Val) (hp : p < m.length) :
    (m.set p a).getD p [] = a := by
  simp [List.getD, List.getElem?_set, hp]

theorem getD_append_last (m : Memory) (a : List Val) : (m ++ [a]).getD m.length [] = a := by
  simp [List.getD]

theorem getD_append_before (m : Memory) (a : List Val) (p : Nat) (hp : p < m.length) :
    (m ++ [a]).getD p [] = m.getD p [] := by
  simp [List.getD, List.getElem?_append_left hp]

/-- `append` with room in the backing array. -/
theorem append_with_room (grow : Nat → Nat → Nat) (m : Memory) (s : Slice) (x : Val)
    (h : s.len < s.cap) :
    append grow m s x = ({ s with len := s.len + 1 },
      m.set s.array ((m.getD s.array []).set (s.offset + s.len) x)) := by
  have h' : s.len + 1 ≤ s.cap := h
  simp [append, h']

/-- `append` without room. -/
theorem append_grown (grow : Nat → Nat → Nat) (m : Memory) (s : Slice) (x : Val)
    (h : s.cap ≤ s.len) :
    append grow m s x =
      ({ array := m.length, offset := 0, len := s.len + 1, cap := grow s.cap (s.len + 1) },
        m ++ [s.elems m ++ [x] ++
          List.replicate (grow s.cap (s.len + 1) - (s.len + 1)) Val.nil]) := by
  have h' : ¬ s.len + 1 ≤ s.cap := by omega
  simp [append, h']

theorem take_append_length (l r : List Val) (n : Nat) (h : l.length = n) :
    (l ++ r).take n = l := by
  subst h
  exact List.take_left _ _

theorem length_elems (m : Memory) (s : Slice) (hle : s.len ≤ s.cap)
    (hin : s.cap = 0 ∨ s.inMemory m) : (s.elems m).length = s.len := by
  simp only [Slice.elems, List.length_take, List.length_drop]
  rcases hin with h0 | h
  · omega
  · have := h.2
    omega

theorem elems_append_before (m : Memory) (a : List Val) (s : Slice) (hle : s.len ≤ s.cap)
    (hin : s.cap = 0 ∨ s.inMemory m) : s.elems (m ++ [a]) = s.elems m := by
  rcases hin with h0 | h
  · have h1 : s.len = 0 := by omega
    simp [Slice.elems, h1]
  · simp only [Slice.elems, getD_append_before m a s.array h.1]

/-- What `append` returns holds the elements of its argument followed by the
new value, and the argument holds afterwards what it held before. -/
theorem append_elems (grow : Nat → Nat → Nat) (m : Memory) (s : Slice) (x : Val)
    (hle : s.len ≤ s.cap) (hin : s.cap = 0 ∨ s.inMemory m) :
    (append grow m s x).1.elems (append grow m s x).2 = s.elems m ++ [x] ∧
    s.elems (append grow m s x).2 = s.elems m := by
  by_cases h : s.len < s.cap
  · have hin' : s.inMemory m := by
      rcases hin with h0 | h1
      · omega
      · exact h1
    rw [append_with_room grow m s x h]
    have hpos : s.offset + s.len < (m.getD s.array []).length := by
      have := hin'.2
      omega
    simp only [Slice.elems, getD_set_self m s.array _ hin'.1]
    exact ⟨take_drop_set_succ _ _ _ x hpos, take_drop_set_keep _ _ _ x⟩
  · have h' : s.cap ≤ s.len := by omega
    rw [append_grown grow m s x h']
    have hlen := length_elems m s hle hin
    constructor
    · simp only [Slice.elems, getD_append_last, List.drop_zero]
      exact take_append_length _ _ _ (by simpa [Slice.elems] using hlen)
    · exact elems_append_before m _ s hle hin

/-- C23. `When` appends into the backing array it shares.  For a case
expression `c` whose slice lies in the memory: right after `c.When(a, ra)`
the result has the whens of `c` followed by the new pair, with the value and
the else of `c`, and `c` itself reads as before.  But when the backing array of
`c.whens` has room, the new pair is written into that array, and a second call
`c.When(b, rb)` writes its pair to the same place: the result of the first
call then has the whens of `c` followed by the pair of the second call.  Only
when the array has no room does `append` move to a new array, and the result
of the first call keeps its pair.  `Value` and `Else` change one field of the
copy, and `NewCaseExpression()` has no value, no whens and no else. -/
theorem When_appends_into_the_shared_array (grow : Nat → Nat → Nat) (m : Memory)
    (c : caseExpression) (a ra b rb : Val) (hle : c.whens.len ≤ c.whens.cap)
    (hin : c.whens.cap = 0 ∨ c.whens.inMemory m) :
    ((c.When grow m a ra).1.GetWhens (c.When grow m a ra).2 =
        c.GetWhens m ++ [NewCaseWhen a ra] ∧
      (c.When grow m a ra).1.GetValue = c.GetValue ∧
      (c.When grow m a ra).1.GetElse = c.GetElse ∧
      c.GetWhens (c.When grow m a ra).2 = c.GetWhens m) ∧
    (c.whens.len < c.whens.cap →
      (c.When grow (c.When grow m a ra).2 b rb).1.GetWhens
          (c.When grow (c.When grow m a ra).2 b rb).2 = c.GetWhens m ++ [NewCaseWhen b rb] ∧
      (c.When grow m a ra).1.GetWhens (c.When grow (c.When grow m a ra).2 b rb).2 =
        c.GetWhens m ++ [NewCaseWhen b rb]) ∧
    (c.whens.cap ≤ c.whens.len →
      (c.When grow m a ra).1.GetWhens (c.When grow (c.When grow m a ra).2 b rb).2 =
        c.GetWhens m ++ [NewCaseWhen a ra]) ∧
    (∀ v : Val, (c.Value v).GetValue = v ∧ (c.Value v).GetWhens m = c.GetWhens m ∧
      (c.Value v).GetElse = c.GetElse) ∧
    (∀ r : Val, (c.Else r).GetElse = NewCaseElse r ∧ (c.Else r).GetWhens m = c.GetWhens m ∧
      (c.Else r).GetValue = c.GetValue) ∧
    (NewCaseExpression.GetValue = Val.nil ∧ NewCaseExpression.GetWhens m = [] ∧
      NewCaseExpression.GetElse = Val.nil) := by
  have h1 := append_elems grow m c.whens (NewCaseWhen a ra) hle hin
  refine ⟨⟨h1.1, rfl, rfl, h1.2⟩, ?_, ?_, fun _ => ⟨rfl, rfl, rfl⟩, fun _ => ⟨rfl, rfl, rfl⟩,
    ⟨rfl, ?_, rfl⟩⟩
  · intro hroom
    have hin' : c.whens.inMemory m := by
      rcases hin with h0 | h2
      · omega
      · exact h2
    have hpos : c.whens.offset + c.whens.len < (m.getD c.whens.array []).length := by
      have := hin'.2
      omega
    simp only [caseExpression.When, caseExpression.GetWhens,
      append_with_room grow _ c.whens _ hroom, Slice.elems]
    have hlt : c.whens.array < (m.set c.whens.array
        ((m.getD c.whens.array []).set (c.whens.offset + c.whens.len) (NewCaseWhen a ra))).length := by
      rw [List.length_set]
      exact hin'.1
    rw [getD_set_self _ _ _ hlt, getD_set_self _ _ _ hin'.1, List.set_set]
    exact ⟨take_drop_set_succ _ _ _ _ hpos, take_drop_set_succ _ _ _ _ hpos⟩
  · intro hfull
    simp only [caseExpression.When, caseExpression.GetWhens, append_grown grow _ c.whens _ hfull]
    have hlen := length_elems m c.whens hle hin
    simp only [Slice.elems, List.drop_zero]
    have hget : ((m ++ [c.whens.elems m ++ [NewCaseWhen a ra] ++
        List.replicate (grow c.whens.cap (c.whens.len + 1) - (c.whens.len + 1)) Val.nil]) ++
        [Slice.elems (m ++ [c.whens.elems m ++ [NewCaseWhen a ra] ++
          List.replicate (grow c.whens.cap (c.whens.len + 1) - (c.whens.len + 1)) Val.nil])
            c.whens ++ [NewCaseWhen b rb] ++
          List.replicate (grow c.whens.cap (c.whens.len + 1) - (c.whens.len + 1)) Val.nil]).getD
        m.length [] = c.whens.elems m ++ [NewCaseWhen a ra] ++
          List.replicate (grow c.whens.cap (c.whens.len + 1) - (c.whens.len + 1)) Val.nil := by
      rw [getD_append_before _ _ _ (by simp), getD_append_last]
    simp only [Slice.elems, List.drop_zero] at hget
    rw [hget]
    exact take_append_length _ _ _ (by simpa [Slice.elems] using hlen)
  · simp [caseExpression.GetWhens, NewCaseExpression, Slice.elems]

/-- C23 at the expression `Case().When(a, 1).When(b, 2).When(c, 3)`, whose
slice has the length 3 and, by the growth of the runtime, the capacity 4:
after `x := base.When(d, 4)` and `y := base.When(e, 5)` the last when of `x`
is the pair `(e, 5)`. -/
theorem When_appends_into_the_shared_array_witness :
    demoCase.1.whens.len = 3 ∧ demoCase.1.whens.cap = 4 ∧
    demoCase.1.GetWhens demoCase.2 =
      [NewCaseWhen (Val.str "a") (Val.int 1), NewCaseWhen (Val.str "b") (Val.int 2),
        NewCaseWhen (Val.str "c") (Val.int 3)] ∧
    (demoCase.1.When growCap demoCase.2 (Val.str "d") (Val.int 4)).1.GetWhens
        (demoCase.1.When growCap demoCase.2 (Val.str "d") (Val.int 4)).2 =
      [NewCaseWhen (Val.str "a") (Val.int 1), NewCaseWhen (Val.str "b") (Val.int 2),
        NewCaseWhen (Val.str "c") (Val.int 3), NewCaseWhen (Val.str "d") (Val.int 4)] ∧
    (demoCase.1.When growCap demoCase.2 (Val.str "d") (Val.int 4)).1.GetWhens
        (demoCase.1.When growCap
          (demoCase.1.When growCap demoCase.2 (Val.str "d") (Val.int 4)).2
          (Val.str "e") (Val.int 5)).2 =
      [NewCaseWhen (Val.str "a") (Val.int 1), NewCaseWhen (Val.str "b") (Val.int 2),
        NewCaseWhen (Val.str "c") (Val.int 3), NewCaseWhen (Val.str "e") (Val.int 5)] :=
  ⟨rfl, rfl, rfl,
    (When_appends_into_the_shared_array growCap demoCase.2 demoCase.1 (Val.str "d") (Val.int 4)
      (Val.str "e") (Val.int 5) (by decide) (Or.inr (by decide))).1.1.trans rfl,
    ((When_appends_into_the_shared_array growCap demoCase.2 demoCase.1 (Val.str "d") (Val.int 4)
      (Val.str "e") (Val.int 5) (by decide) (Or.inr (by decide))).2.1 (by decide)).2.trans rfl⟩

end slices

end exp

/-! ## Rendering twice -/

namespace builder

namespace writers

open exp

end writers

end builder
